import Mathlib

/-!
# Ingester search fan-out (modules/ingester/instance_search.go)

A shallow embedding of the segment fan-out of the ingester: the time-range
filter `includeBlock`, the trace search `Search`, and the tag operations
`SearchTagsV2`, `SearchTagValues` and `SearchTagValuesV2`.

Conventions.
* Go `uint32`/`uint64` values are `Nat`; additions that can overflow carry an
  explicit `% 2^32` or `% 2^64`.  `int64` Unix seconds are `Int`.
* A Go `(value, error)` pair is a pair of `Option`s, because the code tests
  `err` and `resp == nil` separately.
* Goroutines are small-step machines over a shared state; an interleaving is
  a schedule, a list of task indices.  The shared locks are observed through
  a trace of events.
-/

namespace Tempo

/-! ## Data model -/

/-- The fields of `backend.BlockMeta` that the search path reads.  `StartTime`
and `EndTime` hold the value of `.Unix()`, seconds as an `int64`. -/
structure BlockMeta where
  BlockID : Nat
  StartTime : Int
  EndTime : Int
deriving DecidableEq, Repr

/-- The fields of `tempopb.SearchRequest` that the search path reads
(`Start`, `End`, `Limit` are `uint32`). -/
structure SearchRequest where
  Query : String
  Start : Nat
  End : Nat
  Limit : Nat
deriving DecidableEq, Repr

/-! ## includeBlock -/

/-- The function `includeBlock`: uses the provided time range to determine if
the block should be included in the search. -/
def includeBlock (b : BlockMeta) (req : SearchRequest) : Bool :=
  let start : Int := (req.Start : Int)
  let end_ : Int := (req.End : Int)
  if start == 0 || end_ == 0 then
    true
  else
    decide (b.StartTime ≤ end_) && decide (b.EndTime ≥ start)

/-- The request of a `TestIncludeBlock` case. -/
def testReq (reqStart reqEnd : Nat) : SearchRequest :=
  { Query := "", Start := reqStart, End := reqEnd, Limit := 0 }

/-- The block of a `TestIncludeBlock` case. -/
def testMeta (blockStart blockEnd : Int) : BlockMeta :=
  { BlockID := 0, StartTime := blockStart, EndTime := blockEnd }

/-! ## Errors, responses, segments -/

/-- Go error values.  `ErrUnsupported` is `common.ErrUnsupported`, `Canceled`
is `context.Canceled`, `other` is any other leaf error, `errorf msg` is
`fmt.Errorf(msg)` without a wrapped error, and `wrap msg e` is
`fmt.Errorf(msg + ": %w", e)`. -/
inductive Err where
  | ErrUnsupported
  | Canceled
  | other (code : Nat)
  | errorf (msg : String)
  | wrap (msg : String) (inner : Err)
deriving DecidableEq, Repr

/-- The chain walk of `errors.Is(err, target)`: the error itself or any error
it wraps equals the target. -/
def Err.chainHas : Err → Err → Bool
  | .wrap msg inner, target => (Err.wrap msg inner == target) || inner.chainHas target
  | .ErrUnsupported, target => Err.ErrUnsupported == target
  | .Canceled, target => Err.Canceled == target
  | .other code, target => Err.other code == target
  | .errorf msg, target => Err.errorf msg == target

/-- The call `errors.Is(err, target)` on a possibly-nil error. -/
def errorsIs : Option Err → Err → Bool
  | none, _ => false
  | some e, target => e.chainHas target

/-- A segment fault: a non-nil error that is neither unsupported nor canceled,
the errors that reach `anyErr.Store` in `Search`. -/
def isFault (e : Err) : Bool :=
  !(e.chainHas Err.ErrUnsupported) && !(e.chainHas Err.Canceled)

/-- One entry of a search result (`tempopb.TraceSearchMetadata`). -/
structure TraceSearchMetadata where
  TraceID : Nat
  StartTimeUnixNano : Nat
deriving DecidableEq, Repr

/-- The record `tempopb.SearchMetrics`: `InspectedTraces` is a `uint32`,
`InspectedBytes` a `uint64`. -/
structure SearchMetrics where
  InspectedTraces : Nat
  InspectedBytes : Nat
deriving DecidableEq, Repr

/-- The record `tempopb.SearchResponse`; `Metrics` is a pointer and may be nil. -/
structure SearchResponse where
  Traces : List TraceSearchMetadata
  Metrics : Option SearchMetrics
deriving DecidableEq, Repr

/-- What `traceql.Parse` returns on success, as far as this file reads it:
the result `(value, ok)` of `Hints.GetBool(HintMostRecent, false)` and the
canonical text `String()`. -/
structure RootExpr where
  HintMostRecent : Bool × Bool
  text : String
deriving DecidableEq, Repr

/-- Which segment of the instance: the head block, the n-th completing block
or the n-th complete block. -/
inductive Seg where
  | head
  | completing (n : Nat)
  | complete (n : Nat)
deriving DecidableEq, Repr

/-- A byte string. -/
abbrev Bytes := List Nat

/-- Observable events of one call: the read-lock operations on `headBlockMtx`
and `blocksMtx`, the invocations of a segment's search (`SearchBlock`) and
their returns (`SearchReturned` in `Search`, `TagSearchReturned` in the tag
operations), `anyErr.Store`, `cancel()`, and the calls of `GetDiskCache` and
`SetDiskCache` with their keys and data. -/
inductive Event where
  | RLockHead
  | RUnlockHead
  | RLockBlocks
  | RUnlockBlocks
  | SearchBlock (seg : Seg)
  | SearchReturned (seg : Seg) (resp : Option SearchResponse) (err : Option Err)
  | TagSearchReturned (seg : Seg) (err : Option Err)
  | StoreErr (e : Err)
  | Cancel
  | GetDiskCache (seg : Seg) (key : String)
  | SetDiskCache (seg : Seg) (key : String) (data : Bytes)
deriving DecidableEq, Repr

/-- Modelled from the spec: `traceql.AttributeScope`, which is not under
src/: the scope buckets span, resource, event, link and instrumentation, the
unscoped `None`, and `Unknown` for an unrecognized scope. -/
inductive AttributeScope where
  | None
  | Resource
  | Span
  | Event
  | Link
  | Instrumentation
  | Unknown
deriving DecidableEq, Repr

/-- Modelled from the spec: `traceql.Attribute`, which is not under src/, as
far as `SearchTagValuesV2` reads it: the five ID intrinsics, or any other
attribute. -/
inductive Attribute where
  | IntrinsicTraceID
  | IntrinsicSpanID
  | IntrinsicParentID
  | IntrinsicLinkTraceID
  | IntrinsicLinkSpanID
  | named (scope : AttributeScope) (name : String)
deriving DecidableEq, Repr

/-- The record `tempopb.TagValue`; `Typ` is the Go field `Type`. -/
structure TagValue where
  Typ : String
  Value : String
deriving DecidableEq, Repr

/-- What a segment does with a callback that answers "stop" or "go on": it
either returns, having reported `bytes` to `mc.Add` in total, with an error
or nil, or it offers one more value and continues according to the answer. -/
inductive Feed (α : Type) where
  | done (bytes : Nat) (err : Option Err)
  | offer (v : α) (next : Bool → Feed α)

/-- Run a segment's search against the callback `collect` over the collector
state `σ`: the final collector, the bytes reported and the error. -/
def Feed.run {α σ : Type} (collect : σ → α → σ × Bool) : Feed α → σ → σ × Nat × Option Err
  | .done bytes err, c => (c, bytes, err)
  | .offer v next, c => Feed.run collect (next (collect c v).2) (collect c v).1

/-- The content of a block's disk cache: the stored files by name. -/
abbrev CacheFiles := List (String × Bytes)

/-- The searcher capability of a segment (`common.Searcher`).  The two trace
searches get the context (here: whether it is already canceled) and the
request: `ExecuteSearch` is `traceql.NewEngine().ExecuteSearch` over
`block.Fetch`, `Search` is `block.Search`.  The tag searches are driven by a
callback: `SearchTags`, `SearchTagValues` and `SearchTagValuesV2` are the
methods of that name, `ExecuteTagNames` is `engine.ExecuteTagNames` over
`s.FetchTagNames` and `ExecuteTagValues` is `engine.ExecuteTagValues` over
`s.FetchTagValues`, both with the extracted matchers as second argument. -/
structure Block where
  Meta : BlockMeta
  ExecuteSearch : Bool → SearchRequest → Option SearchResponse × Option Err
  Search : Bool → SearchRequest → Option SearchResponse × Option Err
  SearchTags : AttributeScope → Feed (String × AttributeScope)
  ExecuteTagNames : AttributeScope → String → Feed (String × AttributeScope)
  SearchTagValues : String → Feed String
  SearchTagValuesV2 : Attribute → Feed TagValue
  ExecuteTagValues : Attribute → String → Feed TagValue

/-- A complete block (`*LocalBlock`): a searcher with a disk cache.
`GetDiskCache` reads a key and `SetDiskCache` writes one; either may fail.
`Files` is the content of the cache when the call starts. -/
structure LocalBlock extends Block where
  Files : CacheFiles
  GetDiskCache : CacheFiles → String → Bytes × Option Err
  SetDiskCache : CacheFiles → String → Bytes → CacheFiles × Option Err

/-- The instance: `headBlock` may be nil; `completingBlocks` and
`completeBlocks` are slices. -/
structure Instance where
  headBlock : Option Block
  completingBlocks : List Block
  completeBlocks : List LocalBlock

/-- The collaborators of `Search` that live outside this file: the TraceQL
parser, `api.IsTraceQLQuery`, the metadata combiner of `traceql` (state type
`C`) and the constant `traceql.TimestampNever`. -/
structure SearchDeps (C : Type) where
  Parse : String → Except Err RootExpr
  IsTraceQLQuery : SearchRequest → Bool
  NewMetadataCombiner : Nat → Bool → C
  AddMetadata : C → TraceSearchMetadata → C
  IsCompleteFor : C → Nat → Bool
  Metadata : C → List TraceSearchMetadata
  TimestampNever : Nat

/-- What a call returns and what it did: the Go result pair, whether the call
ended in a panic, the trace of events up to the return, and the events of
goroutines that are still running when the call returns. -/
structure Outcome (R : Type) where
  resp : Option R
  err : Option Err
  panicked : Bool
  trace : List Event
  after : List Event := []

/-! ## Scheduling of goroutines -/

/-- Advance the task at position `n` by one atomic step; other tasks and a
position past the end leave everything unchanged. -/
def stepAt {S T : Type} (step : S → T → S × T) : Nat → S → List T → S × List T
  | _, s, [] => (s, [])
  | 0, s, t :: ts => ((step s t).1, (step s t).2 :: ts)
  | n + 1, s, t :: ts => ((stepAt step n s ts).1, t :: (stepAt step n s ts).2)

/-- Run the interleaving `sched`: each entry advances the named task by one
step. -/
def runSchedule {S T : Type} (step : S → T → S × T) : List Nat → S → List T → S × List T
  | [], s, ts => (s, ts)
  | n :: sched, s, ts => runSchedule step sched (stepAt step n s ts).1 (stepAt step n s ts).2

/-- Apply `step` to one task `k` times. -/
def iterStep {S T : Type} (step : S → T → S × T) : Nat → S → T → S × T
  | 0, s, t => (s, t)
  | k + 1, s, t => iterStep step k (step s t).1 (step s t).2

/-- Apply `step` to one task up to `k` times, stopping as soon as `stop`
holds of the task. -/
def iterUntil {S T : Type} (stop : T → Bool) (step : S → T → S × T) : Nat → S → T → S × T
  | 0, s, t => (s, t)
  | k + 1, s, t =>
    if stop t then (s, t) else iterUntil stop step k (step s t).1 (step s t).2

/-- The wait `wg.Wait()`: every task that has not finished is run to its end
by `finish`, in task order. -/
def waitAll {S T : Type} (finish : S → T → S × T) : S → List T → S × List T
  | s, [] => (s, [])
  | s, t :: ts =>
    ((waitAll finish (finish s t).1 ts).1,
      (finish s t).2 :: (waitAll finish (finish s t).1 ts).2)

/-! ## Search -/

/-- The conversion `uint32(x)` of an `int64`. -/
def toUint32 (x : Int) : Nat := (x % 4294967296).toNat

/-- The variables shared by the `search` closures of one `Search` call:
`combiner`, `metrics`, `anyErr`, whether `cancel()` has run, and the trace. -/
structure SearchShared (C : Type) where
  combiner : C
  metrics : SearchMetrics
  anyErr : Option Err
  canceled : Bool
  trace : List Event

/-- Where a `search` closure stands: not started, waiting for the segment's
answer `(resp, err)`, or returned. -/
inductive SearchPhase where
  | pending
  | running (resp : Option SearchResponse) (err : Option Err)
  | done
deriving DecidableEq, Repr

/-- One `search(blockMeta, block, spanName)` call. -/
structure SearchTask where
  seg : Seg
  block : Block
  phase : SearchPhase

/-- The loop `for _, tr := range resp.Traces` of the `search` closure: add the
entries one at a time and stop after the first one that makes the combiner
complete for `TimestampNever`; the flag says whether `cancel()` was called. -/
def mergeTraces {C : Type} (d : SearchDeps C) : List TraceSearchMetadata → C → C × Bool
  | [], c => (c, false)
  | tr :: rest, c =>
    if d.IsCompleteFor (d.AddMetadata c tr) d.TimestampNever then
      (d.AddMetadata c tr, true)
    else
      mergeTraces d rest (d.AddMetadata c tr)

/-- The statements `metrics.InspectedTraces += ...; metrics.InspectedBytes += ...`
under `resp.Metrics != nil`, with `uint32` and `uint64` wrap-around. -/
def addMetrics (m : SearchMetrics) : Option SearchMetrics → SearchMetrics
  | none => m
  | some r =>
    { InspectedTraces := (m.InspectedTraces + r.InspectedTraces) % 4294967296,
      InspectedBytes := (m.InspectedBytes + r.InspectedBytes) % 18446744073709551616 }

/-- The call of the segment in the `search` closure: through the engine for a
TraceQL query, `block.Search` otherwise.  `ctxCanceled` says whether the
context handed over is already canceled. -/
def callSearcher {C : Type} (d : SearchDeps C) (req : SearchRequest) (block : Block)
    (ctxCanceled : Bool) : Option SearchResponse × Option Err :=
  if d.IsTraceQLQuery req then block.ExecuteSearch ctxCanceled req
  else block.Search ctxCanceled req

/-- First half of the `search` closure: skip the block when the combiner is
complete for the block's end time, otherwise call the segment. -/
def searchStart {C : Type} (d : SearchDeps C) (req : SearchRequest)
    (s : SearchShared C) (t : SearchTask) : SearchShared C × SearchTask :=
  if d.IsCompleteFor s.combiner (toUint32 t.block.Meta.EndTime) then
    (s, { t with phase := .done })
  else
    ({ s with trace := s.trace ++ [Event.SearchBlock t.seg] },
      { t with phase := (SearchPhase.running (callSearcher d req t.block s.canceled).1
          (callSearcher d req t.block s.canceled).2) })

/-- Second half of the `search` closure, from the `errors.Is` tests on: the
segment has answered `(resp, err)`.  The part under `resultsMtx` is one
atomic step. -/
def searchFinish {C : Type} (d : SearchDeps C) (s : SearchShared C) (t : SearchTask)
    (resp : Option SearchResponse) (err : Option Err) : SearchShared C × SearchTask :=
  let s0 := { s with trace := s.trace ++ [Event.SearchReturned t.seg resp err] }
  if errorsIs err Err.ErrUnsupported then
    (s0, { t with phase := .done })
  else if errorsIs err Err.Canceled then
    (s0, { t with phase := .done })
  else
    match err with
    | some e =>
      ({ s0 with anyErr := some e, trace := s0.trace ++ [Event.StoreErr e] },
        { t with phase := .done })
    | none =>
      match resp with
      | none => (s0, { t with phase := .done })
      | some r =>
        let merged := mergeTraces d r.Traces s0.combiner
        ({ s0 with
            metrics := addMetrics s0.metrics r.Metrics,
            combiner := merged.1,
            canceled := s0.canceled || merged.2,
            trace := if merged.2 then s0.trace ++ [Event.Cancel] else s0.trace },
          { t with phase := .done })

/-- One atomic step of a `search` closure. -/
def searchStep {C : Type} (d : SearchDeps C) (req : SearchRequest)
    (s : SearchShared C) (t : SearchTask) : SearchShared C × SearchTask :=
  match t.phase with
  | .pending => searchStart d req s t
  | .running resp err => searchFinish d s t resp err
  | .done => (s, t)

/-- The value of `maxResults`: the request limit, or 20 when it is 0. -/
def maxResults (req : SearchRequest) : Nat :=
  if req.Limit = 0 then 20 else req.Limit

/-- The value of `mostRecent` after the parse block: the query is parsed only
when it is non-empty; a parse error ends the call. -/
def mostRecentHint {C : Type} (d : SearchDeps C) (req : SearchRequest) : Except Err Bool :=
  if req.Query = "" then
    .ok false
  else
    match d.Parse req.Query with
    | .error e => .error (Err.wrap "error parsing query" e)
    | .ok rootExpr =>
      if rootExpr.HintMostRecent.2 then .ok rootExpr.HintMostRecent.1 else .ok false

/-- The goroutines launched by the two loops of `Search`: one per completing
block and one per complete block that `includeBlock` keeps, in that order. -/
def searchTasks (i : Instance) (req : SearchRequest) : List SearchTask :=
  ((i.completingBlocks.enum.filter fun p => includeBlock p.2.Meta req).map fun p =>
      { seg := Seg.completing p.1, block := p.2, phase := SearchPhase.pending }) ++
  ((i.completeBlocks.enum.filter fun p => includeBlock p.2.Meta req).map fun p =>
      { seg := Seg.complete p.1, block := p.2.toBlock, phase := SearchPhase.pending })

/-- The shared variables as `Search` declares them, at the moment
`headBlockMtx.RLock()` has returned. -/
def searchInit {C : Type} (d : SearchDeps C) (req : SearchRequest) (mostRecent : Bool) :
    SearchShared C :=
  { combiner := d.NewMetadataCombiner (maxResults req) mostRecent,
    metrics := { InspectedTraces := 0, InspectedBytes := 0 },
    anyErr := none,
    canceled := false,
    trace := [Event.RLockHead] }

/-- The head section of `Search`, from after `headBlockMtx.RLock()` to
`headBlockMtx.RUnlock()`: the head block is searched synchronously when
`includeBlock` keeps it. -/
def searchHead {C : Type} (d : SearchDeps C) (req : SearchRequest) (head : Block)
    (s : SearchShared C) : SearchShared C :=
  let s1 :=
    if includeBlock head.Meta req then
      (iterStep (searchStep d req) 2 s { seg := Seg.head, block := head, phase := .pending }).1
    else s
  { s1 with trace := s1.trace ++ [Event.RUnlockHead] }

/-- The fan-out section of `Search`, from `blocksMtx.RLock()` to the return of
`wg.Wait()`: the goroutines run in the interleaving `sched` and the
unfinished ones are then run to their end. -/
def searchOthers {C : Type} (d : SearchDeps C) (i : Instance) (req : SearchRequest)
    (sched : List Nat) (s : SearchShared C) : SearchShared C :=
  let s3 := { s with trace := s.trace ++ [Event.RLockBlocks] }
  let ran := runSchedule (searchStep d req) sched s3 (searchTasks i req)
  (waitAll (iterStep (searchStep d req) 2) ran.1 ran.2).1

/-- The method `instance.Search`.  `sched` is the interleaving of the
goroutines.  The deferred `blocksMtx.RUnlock()` runs at both returns that
follow `blocksMtx.RLock()`. -/
def Search {C : Type} (d : SearchDeps C) (i : Instance) (req : SearchRequest)
    (sched : List Nat) : Outcome SearchResponse :=
  match mostRecentHint d req with
  | .error e => { resp := none, err := some e, panicked := false, trace := [] }
  | .ok mostRecent =>
    match i.headBlock with
    | none =>
      -- i.headBlock.BlockMeta() on a nil head block: the call panics with
      -- headBlockMtx still read-locked
      { resp := none, err := none, panicked := true, trace := [Event.RLockHead] }
    | some head =>
      match (searchHead d req head (searchInit d req mostRecent)).anyErr with
      | some e =>
        { resp := none, err := some e, panicked := false,
          trace := (searchHead d req head (searchInit d req mostRecent)).trace }
      | none =>
        match (searchOthers d i req sched
            (searchHead d req head (searchInit d req mostRecent))).anyErr with
        | some e =>
          { resp := none, err := some e, panicked := false,
            trace := (searchOthers d i req sched
              (searchHead d req head (searchInit d req mostRecent))).trace ++
                [Event.RUnlockBlocks] }
        | none =>
          { resp := some
              { Traces := d.Metadata (searchOthers d i req sched
                  (searchHead d req head (searchInit d req mostRecent))).combiner,
                Metrics := some (searchOthers d i req sched
                  (searchHead d req head (searchInit d req mostRecent))).metrics },
            err := none, panicked := false,
            trace := (searchOthers d i req sched
              (searchHead d req head (searchInit d req mostRecent))).trace ++
                [Event.RUnlockBlocks] }

/-! ## Tag operations: shared pieces -/

/-- The request context as far as `user.ExtractOrgID` reads it. -/
structure Ctx where
  OrgID : Option String
deriving DecidableEq, Repr

/-- The record `tempopb.MetadataMetrics`. -/
structure MetadataMetrics where
  InspectedBytes : Nat
deriving DecidableEq, Repr

/-- The call `mc.Add(n)` on the metrics collector: a `uint64` running total. -/
def mcAdd (total n : Nat) : Nat := (total + n) % 18446744073709551616

/-- Decimal rendering of a block id in an error message. -/
def blockIDString (b : Block) : String := toString b.Meta.BlockID

/-! ## SearchTagValues -/

/-- The record `tempopb.SearchTagValuesResponse`. -/
structure SearchTagValuesResponse where
  TagValues : List String
  Metrics : Option MetadataMetrics
deriving DecidableEq, Repr

/-- The collaborators of `SearchTagValues` outside this file: tenant
extraction, the tenant limits and the string collector of `collector`
(state type `DS`). -/
structure TagValuesDeps (DS : Type) where
  ExtractOrgID : Ctx → Except Err String
  MaxBytesPerTagValuesQuery : String → Int
  MaxBlocksPerTagValuesQuery : String → Int
  NewDistinctString : Int → Nat → Nat → DS
  Collect : DS → String → DS × Bool
  Exceeded : DS → Bool
  Strings : DS → List String

/-- The local variables of `SearchTagValues` that its `search` closure
changes: the collector, the metrics total, `inspectedBlocks`, and the trace. -/
structure TagValuesState (DS : Type) where
  distinctValues : DS
  mc : Nat
  inspectedBlocks : Int
  trace : List Event

/-- The closure `search` of `SearchTagValues` on one segment. -/
def tagValuesSearch {DS : Type} (d : TagValuesDeps DS) (tagName : String) (maxBlocks : Int)
    (seg : Seg) (s : Option Block) (st : TagValuesState DS) : TagValuesState DS × Option Err :=
  if 0 < maxBlocks ∧ maxBlocks ≤ st.inspectedBlocks then
    (st, none)
  else
    match s with
    | none => (st, none)
    | some b =>
      if d.Exceeded st.distinctValues then
        (st, none)
      else
        let r := Feed.run d.Collect (b.SearchTagValues tagName) st.distinctValues
        let st1 : TagValuesState DS :=
          { distinctValues := r.1,
            mc := mcAdd st.mc r.2.1,
            inspectedBlocks := st.inspectedBlocks + 1,
            trace := st.trace ++ [Event.SearchBlock seg, Event.TagSearchReturned seg r.2.2] }
        match r.2.2 with
        | some err =>
          if errorsIs (some err) Err.ErrUnsupported then (st1, none)
          else
            (st1, some (Err.wrap ("unexpected error searching tag values (" ++ tagName ++ ")")
              err))
        | none => (st1, none)

/-- A `for _, b := range blocks` loop of `SearchTagValues`: search each block
in turn and return at the first error, wrapped with the block's kind. -/
def tagValuesLoop {DS : Type} (d : TagValuesDeps DS) (tagName : String) (maxBlocks : Int)
    (kind : Nat → Seg) (what : String) :
    List (Nat × Block) → TagValuesState DS → TagValuesState DS × Option Err
  | [], st => (st, none)
  | (n, b) :: rest, st =>
    match (tagValuesSearch d tagName maxBlocks (kind n) (some b) st).2 with
    | some err =>
      ((tagValuesSearch d tagName maxBlocks (kind n) (some b) st).1,
        some (Err.wrap ("unexpected error searching " ++ what ++ " block (" ++
          blockIDString b ++ ")") err))
    | none =>
      tagValuesLoop d tagName maxBlocks kind what rest
        (tagValuesSearch d tagName maxBlocks (kind n) (some b) st).1

/-- The method `instance.SearchTagValues`. -/
def SearchTagValues {DS : Type} (d : TagValuesDeps DS) (i : Instance) (ctx : Ctx)
    (tagName : String) (limit staleValueThreshold : Nat) : Outcome SearchTagValuesResponse :=
  match d.ExtractOrgID ctx with
  | .error e => { resp := none, err := some e, panicked := false, trace := [] }
  | .ok userID =>
    let maxBlocks : Int :=
      if 0 < d.MaxBlocksPerTagValuesQuery userID then d.MaxBlocksPerTagValuesQuery userID else 0
    let st0 : TagValuesState DS :=
      { distinctValues :=
          d.NewDistinctString (d.MaxBytesPerTagValuesQuery userID) limit staleValueThreshold,
        mc := 0,
        inspectedBlocks := 0,
        trace := [Event.RLockHead] }
    let h := tagValuesSearch d tagName maxBlocks Seg.head i.headBlock st0
    match h.2, i.headBlock with
    | some err, some head =>
      { resp := none,
        err := some (Err.wrap ("unexpected error searching head block (" ++
          blockIDString head ++ ")") err),
        panicked := false,
        trace := h.1.trace ++ [Event.RUnlockHead] }
    | some _, none =>
      -- i.headBlock.BlockMeta() on a nil head block panics; not reached, since
      -- the closure returns nil for a nil head block
      { resp := none, err := none, panicked := true,
        trace := h.1.trace ++ [Event.RUnlockHead] }
    | none, _ =>
      let st2 := { h.1 with trace := h.1.trace ++ [Event.RUnlockHead, Event.RLockBlocks] }
      let c := tagValuesLoop d tagName maxBlocks Seg.completing "completing"
        i.completingBlocks.enum st2
      match c.2 with
      | some err =>
        { resp := none, err := some err, panicked := false,
          trace := c.1.trace ++ [Event.RUnlockBlocks] }
      | none =>
        let k := tagValuesLoop d tagName maxBlocks Seg.complete "complete"
          (i.completeBlocks.enum.map fun p => (p.1, p.2.toBlock)) c.1
        match k.2 with
        | some err =>
          { resp := none, err := some err, panicked := false,
            trace := k.1.trace ++ [Event.RUnlockBlocks] }
        | none =>
          { resp := some
              { TagValues := d.Strings k.1.distinctValues,
                Metrics := some { InspectedBytes := k.1.mc } },
            err := none, panicked := false,
            trace := k.1.trace ++ [Event.RUnlockBlocks] }

/-! ## SearchTagsV2 and SearchTags -/

/-- The record `tempopb.SearchTagsRequest`. -/
structure SearchTagsRequest where
  Scope : String
  Query : String
  MaxTagsPerScope : Nat
  StaleValuesThreshold : Nat
deriving DecidableEq, Repr

/-- The record `tempopb.SearchTagsV2Scope`. -/
structure SearchTagsV2Scope where
  Name : String
  Tags : List String
deriving DecidableEq, Repr

/-- The record `tempopb.SearchTagsV2Response`. -/
structure SearchTagsV2Response where
  Scopes : List SearchTagsV2Scope
  Metrics : Option MetadataMetrics
deriving DecidableEq, Repr

/-- The record `tempopb.SearchTagsResponse`. -/
structure SearchTagsResponse where
  TagNames : List String
  Metrics : Option MetadataMetrics
deriving DecidableEq, Repr

/-- Modelled from the spec: the constant `api.ParamScopeIntrinsic`, which is
not under src/: the scope named "intrinsic". -/
def ParamScopeIntrinsic : String := "intrinsic"

/-- The collaborators of `SearchTagsV2` and `SearchTags` outside this file:
tenant extraction, the byte limit, the scope functions and matcher functions
of `traceql`, the scoped string collector (state type `SDS`; `StringsScoped`
lists the scopes in the order the map iteration of this run visits them) and
the string collector (state type `DS`). -/
structure TagsDeps (SDS DS : Type) where
  ExtractOrgID : Ctx → Except Err String
  MaxBytesPerTagValuesQuery : String → Int
  AttributeScopeFromString : String → AttributeScope
  ScopeString : AttributeScope → String
  ExtractMatchers : String → String
  IsEmptyQuery : String → Bool
  NewScopedDistinctString : Int → Nat → Nat → SDS
  CollectScoped : SDS → String → String → SDS × Bool
  ExceededScoped : SDS → Bool
  StringsScoped : SDS → List (String × List String)
  NewDistinctString : Int → Nat → Nat → DS
  Collect : DS → String → DS × Bool
  Strings : DS → List String

/-- The local variables of `SearchTagsV2` that its `searchBlock` closure
changes. -/
structure TagsState (SDS : Type) where
  distinctValues : SDS
  mc : Nat
  trace : List Event

/-- The closure `searchBlock` of `SearchTagsV2` on one segment.  With an empty
query the callback of `SearchTags` returns nothing, so the segment is always
told to go on; with a query the callback returns what `Collect` returns and
the error of `ExecuteTagNames` is returned as it is. -/
def tagsSearchBlock {SDS DS : Type} (d : TagsDeps SDS DS) (attributeScope : AttributeScope)
    (query : String) (seg : Seg) (s : Option Block) (st : TagsState SDS) :
    TagsState SDS × Option Err :=
  match s with
  | none => (st, none)
  | some b =>
    if d.ExceededScoped st.distinctValues then
      (st, none)
    else if d.IsEmptyQuery query then
      let r := Feed.run
        (fun c (v : String × AttributeScope) =>
          ((d.CollectScoped c (d.ScopeString v.2) v.1).1, false))
        (b.SearchTags attributeScope) st.distinctValues
      let st1 : TagsState SDS :=
        { distinctValues := r.1,
          mc := mcAdd st.mc r.2.1,
          trace := st.trace ++ [Event.SearchBlock seg, Event.TagSearchReturned seg r.2.2] }
      match r.2.2 with
      | some err =>
        if errorsIs (some err) Err.ErrUnsupported then (st1, none)
        else (st1, some (Err.wrap "unexpected error searching tags" err))
      | none => (st1, none)
    else
      let r := Feed.run
        (fun c (v : String × AttributeScope) => d.CollectScoped c (d.ScopeString v.2) v.1)
        (b.ExecuteTagNames attributeScope query) st.distinctValues
      ({ distinctValues := r.1,
          mc := mcAdd st.mc r.2.1,
          trace := st.trace ++ [Event.SearchBlock seg, Event.TagSearchReturned seg r.2.2] },
        r.2.2)

/-- A `for _, b := range blocks` loop of `SearchTagsV2`. -/
def tagsLoop {SDS DS : Type} (d : TagsDeps SDS DS) (attributeScope : AttributeScope)
    (query : String) (kind : Nat → Seg) (what : String) :
    List (Nat × Block) → TagsState SDS → TagsState SDS × Option Err
  | [], st => (st, none)
  | (n, b) :: rest, st =>
    match (tagsSearchBlock d attributeScope query (kind n) (some b) st).2 with
    | some err =>
      ((tagsSearchBlock d attributeScope query (kind n) (some b) st).1,
        some (Err.wrap ("unexpected error searching " ++ what ++ " block (" ++
          blockIDString b ++ ")") err))
    | none =>
      tagsLoop d attributeScope query kind what rest
        (tagsSearchBlock d attributeScope query (kind n) (some b) st).1

/-- The method `instance.SearchTagsV2`. -/
def SearchTagsV2 {SDS DS : Type} (d : TagsDeps SDS DS) (i : Instance) (ctx : Ctx)
    (req : SearchTagsRequest) : Outcome SearchTagsV2Response :=
  match d.ExtractOrgID ctx with
  | .error e => { resp := none, err := some e, panicked := false, trace := [] }
  | .ok userID =>
    if req.Scope = ParamScopeIntrinsic then
      { resp := some { Scopes := [], Metrics := none }, err := none, panicked := false,
        trace := [] }
    else if d.AttributeScopeFromString req.Scope = AttributeScope.Unknown then
      { resp := none, err := some (Err.errorf ("unknown scope: " ++ req.Scope)),
        panicked := false, trace := [] }
    else
      let attributeScope := d.AttributeScopeFromString req.Scope
      let query := d.ExtractMatchers req.Query
      let st0 : TagsState SDS :=
        { distinctValues :=
            d.NewScopedDistinctString (d.MaxBytesPerTagValuesQuery userID) req.MaxTagsPerScope
              req.StaleValuesThreshold,
          mc := 0,
          trace := [Event.RLockHead] }
      let h := tagsSearchBlock d attributeScope query Seg.head i.headBlock st0
      match h.2, i.headBlock with
      | some err, some head =>
        { resp := none,
          err := some (Err.wrap ("unexpected error searching head block (" ++
            blockIDString head ++ ")") err),
          panicked := false,
          trace := h.1.trace ++ [Event.RUnlockHead] }
      | some _, none =>
        -- i.headBlock.BlockMeta() on a nil head block panics; not reached, since
        -- the closure returns nil for a nil head block
        { resp := none, err := none, panicked := true,
          trace := h.1.trace ++ [Event.RUnlockHead] }
      | none, _ =>
        let st2 := { h.1 with trace := h.1.trace ++ [Event.RUnlockHead, Event.RLockBlocks] }
        let c := tagsLoop d attributeScope query Seg.completing "completing"
          i.completingBlocks.enum st2
        match c.2 with
        | some err =>
          { resp := none, err := some err, panicked := false,
            trace := c.1.trace ++ [Event.RUnlockBlocks] }
        | none =>
          let k := tagsLoop d attributeScope query Seg.complete "complete"
            (i.completeBlocks.enum.map fun p => (p.1, p.2.toBlock)) c.1
          match k.2 with
          | some err =>
            { resp := none, err := some err, panicked := false,
              trace := k.1.trace ++ [Event.RUnlockBlocks] }
          | none =>
            { resp := some
                { Scopes := (d.StringsScoped k.1.distinctValues).map fun p =>
                    { Name := p.1, Tags := p.2 },
                  Metrics := some { InspectedBytes := k.1.mc } },
              err := none, panicked := false,
              trace := k.1.trace ++ [Event.RUnlockBlocks] }

/-- The loop of `SearchTags` that flattens the scopes of a v2 response into
one collector. -/
def flattenTags {SDS DS : Type} (d : TagsDeps SDS DS) : List String → DS → DS
  | [], c => c
  | t :: rest, c => flattenTags d rest (d.Collect c t).1

/-- The method `instance.SearchTags`. -/
def SearchTags {SDS DS : Type} (d : TagsDeps SDS DS) (i : Instance) (ctx : Ctx)
    (scope : String) : Outcome SearchTagsResponse :=
  let v2 := SearchTagsV2 d i ctx
    { Scope := scope, Query := "", MaxTagsPerScope := 0, StaleValuesThreshold := 0 }
  match v2.err, v2.resp with
  | some err, _ =>
    { resp := none, err := some err, panicked := v2.panicked, trace := v2.trace }
  | none, none =>
    { resp := none, err := none, panicked := true, trace := v2.trace }
  | none, some v2Response =>
    { resp := some
        { TagNames := d.Strings
            (flattenTags d (v2Response.Scopes.map fun sc => sc.Tags).flatten
              (d.NewDistinctString 0 0 0)),
          Metrics := v2Response.Metrics },
      err := none, panicked := v2.panicked, trace := v2.trace }

/-! ## SearchTagValuesV2 -/

/-- The record `tempopb.SearchTagValuesRequest`. -/
structure SearchTagValuesRequest where
  TagName : String
  Query : String
  MaxTagValues : Nat
  StaleValueThreshold : Nat
  Start : Nat
  End : Nat
deriving DecidableEq, Repr

/-- The record `tempopb.SearchTagValuesV2Response`. -/
structure SearchTagValuesV2Response where
  TagValues : List TagValue
  Metrics : Option MetadataMetrics
deriving DecidableEq, Repr

/-- The offset basis of 64-bit FNV-1a (`fnv1a.Init64`). -/
def fnvOffset64 : Nat := 14695981039346656037

/-- The prime of 64-bit FNV-1a. -/
def fnvPrime64 : Nat := 1099511628211

/-- One FNV-1a step on a byte: `(h ^ b) * prime64`, in `uint64`. -/
def fnvStep (h b : Nat) : Nat := ((h ^^^ b) * fnvPrime64) % 18446744073709551616

/-- The bytes of a Go string (UTF-8). -/
def utf8Bytes (str : String) : List Nat :=
  (str.data.map fun c => (String.utf8EncodeChar c).map UInt8.toNat).flatten

/-- The library call `fnv1a.AddString64`: extend a hash with the bytes of a
string. -/
def AddString64 (h : Nat) (str : String) : Nat := (utf8Bytes str).foldl fnvStep h

/-- The library call `fnv1a.HashString64`. -/
def HashString64 (str : String) : Nat := AddString64 fnvOffset64 str

/-- The library call `fnv1a.AddUint64`: extend a hash with the eight bytes of
`u`, most significant first. -/
def AddUint64 (h u : Nat) : Nat :=
  ([56, 48, 40, 32, 24, 16, 8, 0].map fun sh => (u >>> sh) % 256).foldl fnvStep h

/-- The conversion `uint64(x)` of an `int`. -/
def toUint64 (x : Int) : Nat := (x % 18446744073709551616).toNat

/-- The conversion `int32(x)` of an `int`. -/
def toInt32 (x : Int) : Int := (x + 2147483648) % 4294967296 - 2147483648

/-- The function `searchTagValuesV2CacheKey`; `parse` is `traceql.Parse` and
`pfx` is the argument named prefix. -/
def searchTagValuesV2CacheKey (parse : String → Except Err RootExpr)
    (req : SearchTagValuesRequest) (limit : Int) (pfx : String) : String :=
  let query :=
    if req.Query = "" then req.Query
    else
      match parse req.Query with
      | .ok ast => ast.text
      | .error _ => ""
  let h := AddUint64 (AddString64 (HashString64 req.TagName) query) (toUint64 limit)
  pfx ++ "_" ++ toString h ++ ".buf"

/-- The collaborators of `SearchTagValuesV2` outside this file: tenant
extraction, the tenant limits, the identifier parser, matcher functions and
query parser of `traceql`, the tag-value collector (state type `DV`), and the
protobuf encoding of a response that holds a list of tag values. -/
structure TagValuesV2Deps (DV : Type) where
  ExtractOrgID : Ctx → Except Err String
  MaxBytesPerTagValuesQuery : String → Int
  MaxBlocksPerTagValuesQuery : String → Int
  ParseIdentifier : String → Except Err Attribute
  ExtractMatchers : String → String
  IsEmptyQuery : String → Bool
  Parse : String → Except Err RootExpr
  NewDistinctValue : Int → Nat → Nat → DV
  Collect : DV → TagValue → DV × Bool
  Exceeded : DV → Bool
  Values : DV → List TagValue
  Marshal : List TagValue → Except Err Bytes
  Unmarshal : Bytes → Except Err (List TagValue)

/-- The values the closures of `SearchTagValuesV2` capture and do not change. -/
structure V2Env where
  req : SearchTagValuesRequest
  limit : Int
  maxBlocks : Int
  tag : Attribute
  query : String
  cacheKey : String

/-- The variables shared by the goroutines of `SearchTagValuesV2`:
`valueCollector`, the metrics total, `anyErr`, `inspectedBlocks`, and the
trace. -/
structure V2Shared (DV : Type) where
  valueCollector : DV
  mc : Nat
  anyErr : Option Err
  inspectedBlocks : Int
  trace : List Event

/-- Where a goroutine of `SearchTagValuesV2` stands.
* `pending`: launched, before `anyErr.Load()` in `exitEarly`;
* `counting`: the load was nil, before the `maxBlocks` test;
* `ready`: `exitEarly` returned false;
* `live feed`: `performSearch` runs against the shared collector, `feed` is
  what the segment does next;
* `missed`: the cache missed, before the live search into `localCol`;
* `found values`: that search succeeded, before the cache write;
* `feeding rest`: in the loop that collects values into the shared collector;
* `returned err`: the closure has returned `err`;
* `done`: `wg.Done()` has run;
* `exited`: the head goroutine has run `headBlockMtx.RUnlock()`. -/
inductive V2Phase where
  | pending
  | counting
  | ready
  | live (feed : Feed TagValue)
  | missed
  | found (values : List TagValue)
  | feeding (rest : List TagValue)
  | returned (err : Option Err)
  | done
  | exited

/-- One goroutine of `SearchTagValuesV2`.  `cache` is the complete block whose
disk cache `searchBlockWithCache` uses, and is absent for the head block and
the completing blocks, which run `searchBlock`; `files` is the content of
that cache. -/
structure V2Task where
  seg : Seg
  what : String
  block : Block
  cache : Option LocalBlock
  files : CacheFiles
  phase : V2Phase

/-- What the closure `performSearch` makes the segment do: the unfiltered
search for an empty query, the filtered search through the engine otherwise. -/
def performFeed {DV : Type} (d : TagValuesV2Deps DV) (env : V2Env) (b : Block) :
    Feed TagValue :=
  if d.IsEmptyQuery env.query then b.SearchTagValuesV2 env.tag
  else b.ExecuteTagValues env.tag env.query

/-- One atomic step of a goroutine of `SearchTagValuesV2`. -/
def v2Step {DV : Type} (d : TagValuesV2Deps DV) (env : V2Env)
    (s : V2Shared DV) (t : V2Task) : V2Shared DV × V2Task :=
  match t.phase with
  | .pending =>
    -- exitEarly: if anyErr.Load() != nil { return true }
    if s.anyErr.isSome then (s, { t with phase := .returned none })
    else (s, { t with phase := .counting })
  | .counting =>
    -- exitEarly: if maxBlocks > 0 && inspectedBlocks.Inc() > maxBlocks { return true }
    -- inspectedBlocks is an atomic.Int32: Inc wraps around
    if 0 < env.maxBlocks then
      ({ s with inspectedBlocks := toInt32 (s.inspectedBlocks + 1) },
        { t with phase :=
            (if env.maxBlocks < toInt32 (s.inspectedBlocks + 1) then V2Phase.returned none
              else V2Phase.ready) })
    else (s, { t with phase := .ready })
  | .ready =>
    match t.cache with
    | none =>
      -- searchBlock: performSearch(ctx, s, valueCollector)
      ({ s with trace := s.trace ++ [Event.SearchBlock t.seg] },
        { t with phase := .live (performFeed d env t.block) })
    | some lb =>
      -- searchBlockWithCache: b.GetDiskCache(ctx, cacheKey)
      let got := lb.GetDiskCache t.files env.cacheKey
      let s1 := { s with trace := s.trace ++ [Event.GetDiskCache t.seg env.cacheKey] }
      if 0 < got.1.length ∧ got.2 = none then
        match d.Unmarshal got.1 with
        | .error e => (s1, { t with phase := .returned (some e) })
        | .ok vs => ({ s1 with mc := mcAdd s1.mc got.1.length }, { t with phase := .feeding vs })
      else (s1, { t with phase := .missed })
  | .live (.offer v next) =>
    ({ s with valueCollector := (d.Collect s.valueCollector v).1 },
      { t with phase := .live (next (d.Collect s.valueCollector v).2) })
  | .live (.done bytes err) =>
    ({ s with mc := mcAdd s.mc bytes,
              trace := s.trace ++ [Event.TagSearchReturned t.seg err] },
      { t with phase := .returned err })
  | .missed =>
    -- localCol := collector.NewDistinctValue(...); localErr := performSearch(ctx, b, localCol)
    let r := Feed.run d.Collect (performFeed d env t.block)
      (d.NewDistinctValue env.limit env.req.MaxTagValues env.req.StaleValueThreshold)
    let s1 := { s with mc := mcAdd s.mc r.2.1,
                       trace := s.trace ++
                         [Event.SearchBlock t.seg, Event.TagSearchReturned t.seg r.2.2] }
    match r.2.2 with
    | some e => (s1, { t with phase := .returned (some e) })
    | none => (s1, { t with phase := .found (d.Values r.1) })
  | .found values =>
    -- valuesToTagValuesV2RespProto(values), then b.SetDiskCache(ctx, cacheKey, v2RespProto)
    match d.Marshal values, t.cache with
    | .ok data, some lb =>
      if 0 < data.length then
        ({ s with trace := s.trace ++ [Event.SetDiskCache t.seg env.cacheKey data] },
          { t with files := (lb.SetDiskCache t.files env.cacheKey data).1,
                   phase := .feeding values })
      else (s, { t with phase := .feeding values })
    | _, _ => (s, { t with phase := .feeding values })
  | .feeding [] => (s, { t with phase := .returned none })
  | .feeding (v :: rest) =>
    ({ s with valueCollector := (d.Collect s.valueCollector v).1 },
      { t with phase :=
          (if (d.Collect s.valueCollector v).2 then V2Phase.returned none
            else V2Phase.feeding rest) })
  | .returned none => (s, { t with phase := .done })
  | .returned (some err) =>
    -- anyErr.Store(fmt.Errorf("unexpected error searching ... block (%s): %w", id, err))
    ({ s with
        anyErr := some (Err.wrap ("unexpected error searching " ++ t.what ++ " block (" ++
          blockIDString t.block ++ ")") err),
        trace := s.trace ++ [Event.StoreErr
          (Err.wrap ("unexpected error searching " ++ t.what ++ " block (" ++
            blockIDString t.block ++ ")") err)] },
      { t with phase := .done })
  | .done =>
    -- only the head goroutine has a second deferred call: headBlockMtx.RUnlock()
    if t.seg = Seg.head then
      ({ s with trace := s.trace ++ [Event.RUnlockHead] }, { t with phase := .exited })
    else (s, t)
  | .exited => (s, t)

/-- The goroutine has called `wg.Done()`. -/
def V2Task.isDone (t : V2Task) : Bool :=
  match t.phase with
  | .done => true
  | .exited => true
  | _ => false

/-- The number of callbacks a segment can still make, plus one. -/
def Feed.depth {α : Type} : Feed α → Nat
  | .done _ _ => 1
  | .offer _ next => 1 + max (next true).depth (next false).depth

/-- A bound on the steps a goroutine needs to reach `wg.Done()` from a phase
past the cache lookup. -/
def V2Task.stepsLeft (t : V2Task) : Nat :=
  match t.phase with
  | .live feed => feed.depth + 1
  | .feeding rest => rest.length + 2
  | .returned _ => 1
  | _ => 0

/-- Let one goroutine run until it has called `wg.Done()`: five steps take it
past the cache lookup and the local search, the rest is bounded by
`stepsLeft`. -/
def v2Finish {DV : Type} (d : TagValuesV2Deps DV) (env : V2Env)
    (s : V2Shared DV) (t : V2Task) : V2Shared DV × V2Task :=
  iterUntil V2Task.isDone (v2Step d env)
    (iterUntil V2Task.isDone (v2Step d env) 5 s t).2.stepsLeft
    (iterUntil V2Task.isDone (v2Step d env) 5 s t).1
    (iterUntil V2Task.isDone (v2Step d env) 5 s t).2

/-- The goroutines of `SearchTagValuesV2` launched after `blocksMtx.RLock()`:
one per complete block, then one per completing block. -/
def v2Tasks (i : Instance) : List V2Task :=
  (i.completeBlocks.enum.map fun p =>
      { seg := Seg.complete p.1, what := "complete", block := p.2.toBlock,
        cache := some p.2, files := p.2.Files, phase := V2Phase.pending }) ++
  (i.completingBlocks.enum.map fun p =>
      { seg := Seg.completing p.1, what := "completing", block := p.2,
        cache := none, files := [], phase := V2Phase.pending })

/-- The goroutine for the head block, launched only when the head block is
not nil. -/
def v2HeadTasks (i : Instance) : List V2Task :=
  match i.headBlock with
  | none => []
  | some head =>
    [{ seg := Seg.head, what := "head", block := head, cache := none, files := [],
       phase := V2Phase.pending }]

/-- The tag is one of the ID intrinsics, for which no values are returned. -/
def isIDAttribute (tag : Attribute) : Bool :=
  tag == Attribute.IntrinsicLinkTraceID ||
  tag == Attribute.IntrinsicLinkSpanID ||
  tag == Attribute.IntrinsicSpanID ||
  tag == Attribute.IntrinsicTraceID ||
  tag == Attribute.IntrinsicParentID

/-- The shared variables as `SearchTagValuesV2` declares them, at the moment
`headBlockMtx.RLock()` has returned. -/
def v2Init {DV : Type} (d : TagValuesV2Deps DV) (env : V2Env) : V2Shared DV :=
  { valueCollector :=
      d.NewDistinctValue env.limit env.req.MaxTagValues env.req.StaleValueThreshold,
    mc := 0,
    anyErr := none,
    inspectedBlocks := 0,
    trace := [Event.RLockHead] }

/-- The shared state of `SearchTagValuesV2` and its goroutines when
`wg.Wait()` has returned.  The head goroutine takes `pre` steps before the
caller acquires `blocksMtx`; then all goroutines run in the interleaving
`sched` (position 0 is the head goroutine when there is one) and the
unfinished ones are run until they have called `wg.Done()`.  Every
interleaving is allowed, also those that the bound of 20 running goroutines
of the wait group excludes. -/
def v2Run {DV : Type} (d : TagValuesV2Deps DV) (env : V2Env) (i : Instance)
    (pre : Nat) (sched : List Nat) : V2Shared DV × List V2Task :=
  let r0 := runSchedule (v2Step d env) (List.replicate pre 0) (v2Init d env) (v2HeadTasks i)
  let s1 := { r0.1 with trace := r0.1.trace ++ [Event.RLockBlocks] }
  let ran := runSchedule (v2Step d env) sched s1 (r0.2 ++ v2Tasks i)
  waitAll (v2Finish d env) ran.1 ran.2

/-- What the goroutines still do after the call has returned: each one that
has called `wg.Done()` runs its remaining deferred call. -/
def v2After {DV : Type} (d : TagValuesV2Deps DV) (env : V2Env)
    (s : V2Shared DV) (ts : List V2Task) : List Event :=
  (waitAll (v2Step d env) { s with trace := [] } ts).1.trace

/-- The method `instance.SearchTagValuesV2`. -/
def SearchTagValuesV2 {DV : Type} (d : TagValuesV2Deps DV) (i : Instance) (ctx : Ctx)
    (req : SearchTagValuesRequest) (pre : Nat) (sched : List Nat) :
    Outcome SearchTagValuesV2Response :=
  match d.ExtractOrgID ctx with
  | .error e => { resp := none, err := some e, panicked := false, trace := [] }
  | .ok userID =>
    match d.ParseIdentifier req.TagName with
    | .error e => { resp := none, err := some e, panicked := false, trace := [] }
    | .ok tag =>
      if isIDAttribute tag then
        { resp := some { TagValues := [], Metrics := none }, err := none, panicked := false,
          trace := [] }
      else
        let env : V2Env :=
          { req := req,
            limit := d.MaxBytesPerTagValuesQuery userID,
            maxBlocks :=
              if 0 < d.MaxBlocksPerTagValuesQuery userID then
                toInt32 (d.MaxBlocksPerTagValuesQuery userID)
              else 0,
            tag := tag,
            query := d.ExtractMatchers req.Query,
            cacheKey := searchTagValuesV2CacheKey d.Parse req
              (d.MaxBytesPerTagValuesQuery userID) "cache_search_tagvaluesv2" }
        let w := v2Run d env i pre sched
        match w.1.anyErr with
        | some err =>
          { resp := none, err := some err, panicked := false,
            trace := w.1.trace ++ [Event.RUnlockBlocks],
            after := v2After d env w.1 w.2 }
        | none =>
          { resp := some
              { TagValues := d.Values w.1.valueCollector,
                Metrics := some { InspectedBytes := w.1.mc } },
            err := none, panicked := false,
            trace := w.1.trace ++ [Event.RUnlockBlocks],
            after := v2After d env w.1 w.2 }

/-! ## Sample collaborators and instances -/

/-- Modelled from the spec: the Result Merge Accumulator (`AddEntry`,
`IsCompleteFor`, `FinalResult`), as a list with a limit that is complete once
the limit is reached, together with a parser that accepts only the query
`"{}"` and `api.IsTraceQLQuery` as "the query is non-empty". -/
def sampleDeps : SearchDeps (Nat × List TraceSearchMetadata) where
  Parse := fun q =>
    if q = "{}" then .ok { HintMostRecent := (false, false), text := "{ }" }
    else .error (Err.other 400)
  IsTraceQLQuery := fun r => decide (r.Query ≠ "")
  NewMetadataCombiner := fun limit _ => (limit, [])
  AddMetadata := fun c tr => (c.1, c.2 ++ [tr])
  IsCompleteFor := fun c _ => decide (0 < c.1) && decide (c.1 ≤ c.2.length)
  Metadata := fun c => c.2
  TimestampNever := 4294967295

/-- A block over the times 100..200 whose searcher always gives the same
answer. -/
def constBlock (id : Nat) (resp : Option SearchResponse) (err : Option Err) : Block :=
  { Meta := { BlockID := id, StartTime := 100, EndTime := 200 },
    ExecuteSearch := fun _ _ => (resp, err),
    Search := fun _ _ => (resp, err),
    SearchTags := fun _ => Feed.done 0 none,
    ExecuteTagNames := fun _ _ => Feed.done 0 none,
    SearchTagValues := fun _ => Feed.done 0 none,
    SearchTagValuesV2 := fun _ => Feed.done 0 none,
    ExecuteTagValues := fun _ _ => Feed.done 0 none }

/-- A complete block over `b` with an empty disk cache that stores what it is
given and never fails. -/
def localBlock (b : Block) : LocalBlock :=
  { toBlock := b,
    Files := [],
    GetDiskCache := fun files key => (((files.lookup key).getD []), none),
    SetDiskCache := fun files key data => ((key, data) :: files, none) }

/-- A response with `n` inspected traces, `10 * n` inspected bytes and one entry. -/
def sampleResp (n : Nat) : SearchResponse :=
  { Traces := [{ TraceID := n, StartTimeUnixNano := n }],
    Metrics := some { InspectedTraces := n, InspectedBytes := 10 * n } }

/-- An instance whose head block answers with one entry and whose two
completing blocks both fail, with different errors. -/
def twoFaults : Instance :=
  { headBlock := some (constBlock 0 (some (sampleResp 1)) none),
    completingBlocks :=
      [constBlock 1 none (some (Err.other 1)), constBlock 2 none (some (Err.other 2))],
    completeBlocks := [] }

/-- An instance whose head block fails. -/
def headFault : Instance :=
  { headBlock := some (constBlock 0 none (some (Err.other 9))),
    completingBlocks := [constBlock 1 (some (sampleResp 1)) none],
    completeBlocks := [localBlock (constBlock 2 (some (sampleResp 2)) none)] }

/-- An instance with three healthy segments, one unsupported and one canceled. -/
def healthy : Instance :=
  { headBlock := some (constBlock 0 (some (sampleResp 1)) none),
    completingBlocks :=
      [constBlock 1 (some (sampleResp 2)) none, constBlock 2 none (some Err.ErrUnsupported)],
    completeBlocks :=
      [localBlock (constBlock 3 (some (sampleResp 4)) none),
        localBlock (constBlock 4 (some (sampleResp 8)) (some (Err.wrap "ctx" Err.Canceled)))] }

/-- A request whose query the sample parser rejects. -/
def oopsReq : SearchRequest := { Query := "oops", Start := 0, End := 0, Limit := 0 }

/-! ## Reading a trace -/

/-- The error of the last `anyErr.Store` in a trace, if any. -/
def lastStored : List Event → Option Err
  | [] => none
  | Event.StoreErr e :: rest =>
    match lastStored rest with
    | some e2 => some e2
    | none => some e
  | _ :: rest => lastStored rest

/-- The error of the first `anyErr.Store` in a trace, if any. -/
def firstStored : List Event → Option Err
  | [] => none
  | Event.StoreErr e :: _ => some e
  | _ :: rest => firstStored rest

/-- What the return of a segment's search adds to `InspectedTraces`: the
segment's own count when it returned no error and a response with metrics. -/
def contribTraces : Event → Nat
  | Event.SearchReturned _ (some r) none =>
    match r.Metrics with
    | some m => m.InspectedTraces
    | none => 0
  | _ => 0

/-- What the return of a segment's search adds to `InspectedBytes`. -/
def contribBytes : Event → Nat
  | Event.SearchReturned _ (some r) none =>
    match r.Metrics with
    | some m => m.InspectedBytes
    | none => 0
  | _ => 0

/-- A trace holds the return of a segment's search with a fault. -/
def hasFaultReturn (tr : List Event) : Prop :=
  ∃ seg resp e, Event.SearchReturned seg resp (some e) ∈ tr ∧ isFault e = true

/-- The four read-lock operations. -/
def Event.isLock : Event → Bool
  | .RLockHead => true
  | .RUnlockHead => true
  | .RLockBlocks => true
  | .RUnlockBlocks => true
  | _ => false

/-- The lock operations of a trace, in order. -/
def lockEvents (tr : List Event) : List Event := tr.filter Event.isLock

/-- What holds of the shared variables of a `Search` call at every moment:
`anyErr` is the last stored error, it is set exactly when the search of some
segment returned a fault, and the metrics are the wrapped sums of what the
returned searches contributed. -/
def SearchInv {C : Type} (s : SearchShared C) : Prop :=
  s.anyErr = lastStored s.trace ∧
  (s.anyErr.isSome = true ↔ hasFaultReturn s.trace) ∧
  s.metrics.InspectedTraces = (s.trace.map contribTraces).sum % 4294967296 ∧
  s.metrics.InspectedBytes = (s.trace.map contribBytes).sum % 18446744073709551616

/-- A read-acquire of one of the two locks. -/
def Event.isAcquire : Event → Bool
  | .RLockHead => true
  | .RLockBlocks => true
  | _ => false

/-- The read-acquires of a trace, in order. -/
def acquires (tr : List Event) : List Event := tr.filter Event.isAcquire

/-- The lock order: wherever a trace read-acquires `blocksMtx`, it has
read-acquired `headBlockMtx` before and does not read-acquire it afterwards. -/
def lockOrderOK (tr : List Event) : Prop :=
  ∀ pre post, tr = pre ++ Event.RLockBlocks :: post →
    Event.RLockHead ∈ pre ∧ Event.RLockHead ∉ post

/-- The read-holds on `headBlockMtx` that a trace leaves behind. -/
def headHolds (tr : List Event) : Int :=
  (tr.count Event.RLockHead : Int) - (tr.count Event.RUnlockHead : Int)

/-- The read-holds on `blocksMtx` that a trace leaves behind. -/
def blocksHolds (tr : List Event) : Int :=
  (tr.count Event.RLockBlocks : Int) - (tr.count Event.RUnlockBlocks : Int)

/-- Modelled from the spec: the Budgeted Collector (`Collect`, `Exceeded`,
`Values`) for tag values, as a list of distinct values that never exceeds its
budget, together with an identifier parser that knows `trace:id` and takes
every other name as a span attribute, a query parser that accepts only `{}`,
and an encoding that writes each value as the lengths of its two fields. -/
def sampleV2Deps : TagValuesV2Deps (List TagValue) where
  ExtractOrgID := fun ctx =>
    match ctx.OrgID with
    | some id => .ok id
    | none => .error (Err.errorf "no org id")
  MaxBytesPerTagValuesQuery := fun _ => 0
  MaxBlocksPerTagValuesQuery := fun _ => 0
  ParseIdentifier := fun name =>
    if name = "trace:id" then .ok Attribute.IntrinsicTraceID
    else .ok (Attribute.named AttributeScope.Span name)
  ExtractMatchers := fun q => q
  IsEmptyQuery := fun q => decide (q = "" ∨ q = "{}")
  Parse := fun q =>
    if q = "{}" then .ok { HintMostRecent := (false, false), text := "{ true }" }
    else .error (Err.other 400)
  NewDistinctValue := fun _ _ _ => []
  Collect := fun c v => (if v ∈ c then c else c ++ [v], false)
  Exceeded := fun _ => false
  Values := fun c => c
  Marshal := fun vs => .ok (vs.map fun v => v.Typ.length + v.Value.length)
  Unmarshal := fun _ => .error (Err.other 500)

/-- A context that carries the tenant `fake`. -/
def fakeCtx : Ctx := { OrgID := some "fake" }

/-- A tag-values request for the tag `span.foo`. -/
def fooReq : SearchTagValuesRequest :=
  { TagName := "span.foo", Query := "", MaxTagValues := 0, StaleValueThreshold := 0,
    Start := 0, End := 0 }

/-- An instance without a head block, with one completing and one complete
block. -/
def nilHead : Instance :=
  { headBlock := none,
    completingBlocks := [constBlock 1 (some (sampleResp 1)) none],
    completeBlocks := [localBlock (constBlock 2 (some (sampleResp 2)) none)] }

/-- The block behind a segment name. -/
def segBlock (i : Instance) : Seg → Option Block
  | .head => i.headBlock
  | .completing n => i.completingBlocks[n]?
  | .complete n => (i.completeBlocks[n]?).map fun lb => lb.toBlock

/-- The segments whose search has returned, in the order of the returns. -/
def returnedSegs : List Event → List Seg
  | [] => []
  | Event.SearchReturned seg _ _ :: tr => seg :: returnedSegs tr
  | _ :: tr => returnedSegs tr

/-- The answer `(resp, err)` recorded for `seg` is the answer of the searcher
of that segment of the instance, and `includeBlock` keeps the segment. -/
def ValidReturn {C : Type} (d : SearchDeps C) (i : Instance) (req : SearchRequest)
    (seg : Seg) (resp : Option SearchResponse) (err : Option Err) : Prop :=
  ∃ b c, segBlock i seg = some b ∧ includeBlock b.Meta req = true ∧
    callSearcher d req b c = (resp, err)

/-- A `search` closure runs on a segment of the instance that `includeBlock`
keeps, and an answer it is waiting to handle is that segment's answer. -/
def TaskOK {C : Type} (d : SearchDeps C) (i : Instance) (req : SearchRequest)
    (t : SearchTask) : Prop :=
  segBlock i t.seg = some t.block ∧ includeBlock t.block.Meta req = true ∧
  ∀ resp err, t.phase = SearchPhase.running resp err →
    ∃ c, callSearcher d req t.block c = (resp, err)

/-- What holds of the shared variables of `Search` together with its `search`
closures: no segment's search has returned twice, a closure that has not
finished has not returned, the closures are on different segments, every
recorded return is valid and comes from the head block or one of the
closures, and every closure is on a segment of the instance. -/
def SearchRel {C : Type} (d : SearchDeps C) (i : Instance) (req : SearchRequest)
    (s : SearchShared C) (ts : List SearchTask) : Prop :=
  (returnedSegs s.trace).Nodup ∧
  (∀ t ∈ ts, t.phase ≠ SearchPhase.done → t.seg ∉ returnedSegs s.trace) ∧
  (ts.map fun t => t.seg).Nodup ∧
  (∀ seg resp err, Event.SearchReturned seg resp err ∈ s.trace →
    ValidReturn d i req seg resp err) ∧
  (∀ seg ∈ returnedSegs s.trace, seg = Seg.head ∨ seg ∈ ts.map fun t => t.seg) ∧
  (∀ t ∈ ts, TaskOK d i req t)

/-- How many steps a goroutine of `SearchTagValuesV2` is at most away from the
phases that `stepsLeft` measures. -/
def V2Phase.rank : V2Phase → Nat
  | .pending => 5
  | .counting => 4
  | .ready => 3
  | .missed => 2
  | .found _ => 1
  | _ => 0

/-- The lock operations so far are `L` and no goroutine in the list is the
one for the head block. -/
def NoHeadRel {DV : Type} (L : List Event) (s : V2Shared DV) (ts : List V2Task) : Prop :=
  lockEvents s.trace = L ∧ ∀ u ∈ ts, u.seg ≠ Seg.head

/-! ## Sample collaborators of the tag operations -/

/-- Add a tag name to the names of its scope, keeping the names of a scope
distinct and the scopes in the order of their first name. -/
def addScoped : List (String × List String) → String → String → List (String × List String)
  | [], scope, tag => [(scope, [tag])]
  | (sc, tags) :: rest, scope, tag =>
    if sc = scope then (sc, if tag ∈ tags then tags else tags ++ [tag]) :: rest
    else (sc, tags) :: addScoped rest scope tag

/-- Modelled from the spec: the Budgeted Collector (`Collect`, `Exceeded`,
`Values`) for scoped tag names and for strings, as lists of distinct entries
that never exceed their budget, together with a scope parser that knows
`span` and `resource` and takes the empty name as the unscoped `None`. -/
def sampleTagsDeps : TagsDeps (List (String × List String)) (List String) where
  ExtractOrgID := fun ctx =>
    match ctx.OrgID with
    | some id => .ok id
    | none => .error (Err.errorf "no org id")
  MaxBytesPerTagValuesQuery := fun _ => 0
  AttributeScopeFromString := fun name =>
    if name = "span" then AttributeScope.Span
    else if name = "resource" then AttributeScope.Resource
    else if name = "" then AttributeScope.None
    else AttributeScope.Unknown
  ScopeString := fun sc =>
    match sc with
    | .Span => "span"
    | .Resource => "resource"
    | .None => "none"
    | _ => "other"
  ExtractMatchers := fun q => q
  IsEmptyQuery := fun q => decide (q = "" ∨ q = "{}")
  NewScopedDistinctString := fun _ _ _ => []
  CollectScoped := fun c scope tag => (addScoped c scope tag, false)
  ExceededScoped := fun _ => false
  StringsScoped := fun c => c
  NewDistinctString := fun _ _ _ => []
  Collect := fun c v => (if v ∈ c then c else c ++ [v], false)
  Strings := fun c => c

/-- Modelled from the spec: the Budgeted Collector for strings as a list of
distinct strings that never exceeds its budget, with a tenant limit of `k`
blocks per tag-values query. -/
def sampleTagValuesDeps (k : Int) : TagValuesDeps (List String) where
  ExtractOrgID := fun ctx =>
    match ctx.OrgID with
    | some id => .ok id
    | none => .error (Err.errorf "no org id")
  MaxBytesPerTagValuesQuery := fun _ => 0
  MaxBlocksPerTagValuesQuery := fun _ => k
  NewDistinctString := fun _ _ _ => []
  Collect := fun c v => (if v ∈ c then c else c ++ [v], false)
  Exceeded := fun _ => false
  Strings := fun c => c

/-- A tag-names request for a scope, with a query. -/
def tagsReq (scope query : String) : SearchTagsRequest :=
  { Scope := scope, Query := query, MaxTagsPerScope := 0, StaleValuesThreshold := 0 }

/-! ## Reading a trace: which segments were searched -/

/-- The segments whose searcher has been called, in the order of the calls. -/
def searchedSegs : List Event → List Seg
  | [] => []
  | Event.SearchBlock seg :: tr => seg :: searchedSegs tr
  | _ :: tr => searchedSegs tr

/-- The segment is one of the instance and `includeBlock` keeps it. -/
def Kept (i : Instance) (req : SearchRequest) (seg : Seg) : Prop :=
  ∃ b, segBlock i seg = some b ∧ includeBlock b.Meta req = true

/-- The searchers called so far are those of segments that `includeBlock`
keeps, and every closure is on such a segment. -/
def KeptRel {C : Type} (d : SearchDeps C) (i : Instance) (req : SearchRequest)
    (s : SearchShared C) (ts : List SearchTask) : Prop :=
  (∀ seg ∈ searchedSegs s.trace, Kept i req seg) ∧ ∀ u ∈ ts, TaskOK d i req u

/-- A request for the time range 1000 to 2000, outside the range 100 to 200 of
the sample blocks. -/
def lateReq : SearchRequest := { Query := "", Start := 1000, End := 2000, Limit := 0 }

/-! ## The cache of a complete block -/

/-- The values that the closures of one `SearchTagValuesV2` call capture, for
the tenant `userID` and the parsed tag `tag`. -/
def v2Env {DV : Type} (d : TagValuesV2Deps DV) (req : SearchTagValuesRequest)
    (userID : String) (tag : Attribute) : V2Env :=
  { req := req,
    limit := d.MaxBytesPerTagValuesQuery userID,
    maxBlocks :=
      if 0 < d.MaxBlocksPerTagValuesQuery userID then
        toInt32 (d.MaxBlocksPerTagValuesQuery userID)
      else 0,
    tag := tag,
    query := d.ExtractMatchers req.Query,
    cacheKey := searchTagValuesV2CacheKey d.Parse req
      (d.MaxBytesPerTagValuesQuery userID) "cache_search_tagvaluesv2" }


/-- The closure of the goroutine has returned. -/
def V2Task.hasReturned (t : V2Task) : Bool :=
  match t.phase with
  | .returned _ => true
  | _ => false

/-- Following the spec's words for a cache hit: the values are given to the
collector in stored order, up to and including the first one for which
`Collect` signals stop, and none after it. -/
def feedUntilStop {σ α : Type} (collect : σ → α → σ × Bool) : List α → σ → σ
  | [], c => c
  | v :: rest, c =>
    if (collect c v).2 then (collect c v).1 else feedUntilStop collect rest (collect c v).1

/-- The goroutine, when it is the one of the complete block `n`, has a disk
cache that answers the cache key with non-empty bytes and no error, and is
not in a phase of the live search. -/
def HitTask (env : V2Env) (n : Nat) (t : V2Task) : Prop :=
  t.seg = Seg.complete n →
    (∃ lb, t.cache = some lb ∧ 0 < (lb.GetDiskCache t.files env.cacheKey).1.length ∧
      (lb.GetDiskCache t.files env.cacheKey).2 = none) ∧
    t.phase ≠ V2Phase.missed ∧ (∀ vs, t.phase ≠ V2Phase.found vs) ∧
    (∀ f, t.phase ≠ V2Phase.live f)

/-- The searcher of the complete block `n` has not been called and every
goroutine is a `HitTask`. -/
def HitRel {DV : Type} (env : V2Env) (n : Nat) (s : V2Shared DV) (ts : List V2Task) : Prop :=
  Seg.complete n ∉ searchedSegs s.trace ∧ ∀ u ∈ ts, HitTask env n u

/-! ## Sample segments and encoding for the tag operations -/

/-- A segment's tag search that offers the values in order, stops as soon as
the callback answers "stop", and otherwise returns `err` at the end, having
reported `bytes`. -/
def feedOf {α : Type} : List α → Nat → Option Err → Feed α
  | [], bytes, err => Feed.done bytes err
  | v :: rest, bytes, err =>
    Feed.offer v fun stop => if stop then Feed.done bytes none else feedOf rest bytes err

/-- A block over the times 100..200 whose tag searches offer the strings `vs`
(as tag names of the scope asked for, as tag values, and as tag values of type
`string`) and then return `err`; each search reports ten bytes per string. -/
def tagBlock (id : Nat) (vs : List String) (err : Option Err) : Block :=
  { Meta := { BlockID := id, StartTime := 100, EndTime := 200 },
    ExecuteSearch := fun _ _ => (none, none),
    Search := fun _ _ => (none, none),
    SearchTags := fun sc => feedOf (vs.map fun v => (v, sc)) (10 * vs.length) err,
    ExecuteTagNames := fun sc _ => feedOf (vs.map fun v => (v, sc)) (10 * vs.length) err,
    SearchTagValues := fun _ => feedOf vs (10 * vs.length) err,
    SearchTagValuesV2 := fun _ =>
      feedOf (vs.map fun v => { Typ := "string", Value := v }) (10 * vs.length) err,
    ExecuteTagValues := fun _ _ =>
      feedOf (vs.map fun v => { Typ := "string", Value := v }) (10 * vs.length) err }

/-- A string as its length followed by its characters. -/
def encodeString (str : String) : Bytes := str.length :: str.toList.map Char.toNat

/-- Read back a list of values written as `encodeString` of the type followed
by `encodeString` of the value; bytes that are not of that form give an
error. -/
def decodeValues : Nat → Bytes → Except Err (List TagValue)
  | _, [] => .ok []
  | 0, _ :: _ => .error (Err.other 500)
  | fuel + 1, n :: rest =>
    match rest.drop n with
    | [] => .error (Err.other 500)
    | m :: rest2 =>
      if rest2.length < m then .error (Err.other 500)
      else
        match decodeValues fuel (rest2.drop m) with
        | .error e => .error e
        | .ok vs =>
          .ok ({ Typ := String.mk ((rest.take n).map Char.ofNat),
                 Value := String.mk ((rest2.take m).map Char.ofNat) } :: vs)

/-- Modelled from the spec: the sample collaborators of `SearchTagValuesV2`
with a tenant limit of `k` blocks per tag-values query and an encoding of the
cached value list that can be read back. -/
def codecV2Deps (k : Int) : TagValuesV2Deps (List TagValue) where
  ExtractOrgID := sampleV2Deps.ExtractOrgID
  MaxBytesPerTagValuesQuery := fun _ => 0
  MaxBlocksPerTagValuesQuery := fun _ => k
  ParseIdentifier := sampleV2Deps.ParseIdentifier
  ExtractMatchers := fun q => q
  IsEmptyQuery := sampleV2Deps.IsEmptyQuery
  Parse := sampleV2Deps.Parse
  NewDistinctValue := fun _ _ _ => []
  Collect := fun c v => (if v ∈ c then c else c ++ [v], false)
  Exceeded := fun _ => false
  Values := fun c => c
  Marshal := fun vs => .ok (vs.flatMap fun v => encodeString v.Typ ++ encodeString v.Value)
  Unmarshal := fun data => decodeValues data.length data

/-- A complete block over `b` whose disk cache holds `data` under the cache
key of the request `fooReq`. -/
def cachedBlock (b : Block) (data : Bytes) : LocalBlock :=
  { toBlock := b,
    Files := [(searchTagValuesV2CacheKey sampleV2Deps.Parse fooReq 0 "cache_search_tagvaluesv2",
      data)],
    GetDiskCache := fun files key => (((files.lookup key).getD []), none),
    SetDiskCache := fun files key data => ((key, data) :: files, none) }

/-- The bytes of the value list with the one value `cached` of type `string`. -/
def cachedBytes : Bytes := encodeString "string" ++ encodeString "cached"

/-- An instance whose complete block has a filled disk cache and a searcher
that would offer the value `live`. -/
def cachedInstance : Instance :=
  { headBlock := some (tagBlock 0 ["a"] none),
    completingBlocks := [tagBlock 1 ["b"] none],
    completeBlocks := [cachedBlock (tagBlock 2 ["live"] none) cachedBytes] }

/-! ## Reading a trace: the errors that tag searches returned -/

/-- The errors that the segment searches of a tag operation have returned, in
the order of the returns. -/
def tagErrors : List Event → List Err
  | [] => []
  | Event.TagSearchReturned _ (some e) :: tr => e :: tagErrors tr
  | _ :: tr => tagErrors tr

/-- The error is `common.ErrUnsupported` for `errors.Is`. -/
def isUnsupported (e : Err) : Bool := e.chainHas Err.ErrUnsupported

/-- The errors that the closure `searchBlock` of `SearchTagsV2` absorbs: the
unsupported ones, and only when the query is empty. -/
def tagsAbsorbs (emptyQuery : Bool) (e : Err) : Bool :=
  emptyQuery && e.chainHas Err.ErrUnsupported

/-- Every error that a segment search of a tag operation has returned is one
that `p` accepts. -/
def absorbedOnly (p : Err → Bool) (tr : List Event) : Bool :=
  (tagErrors tr).all p

/-- A sequential tag operation that absorbs the errors `p` accepts stands at
`(trace, err)`: either no error is being returned and every segment error so
far was absorbed, or an error is being returned and some segment error so far
was not. -/
def SeqOutcome (p : Err → Bool) (tr : List Event) (err : Option Err) : Prop :=
  (err = none ∧ absorbedOnly p tr = true) ∨ (err.isSome = true ∧ absorbedOnly p tr = false)

/-! ## Errors of the goroutines of `SearchTagValuesV2` -/

/-- The closure of the goroutine has returned an error that is not yet
stored in `anyErr`. -/
def V2Task.failing (t : V2Task) : Bool :=
  match t.phase with
  | .returned (some _) => true
  | _ => false

/-- The goroutine is about to read bytes from the disk cache that
`proto.Unmarshal` rejects. -/
def DecodeFails {DV : Type} (d : TagValuesV2Deps DV) (env : V2Env) (t : V2Task) : Prop :=
  t.phase = V2Phase.ready ∧
  ∃ lb e, t.cache = some lb ∧ 0 < (lb.GetDiskCache t.files env.cacheKey).1.length ∧
    (lb.GetDiskCache t.files env.cacheKey).2 = none ∧
    d.Unmarshal (lb.GetDiskCache t.files env.cacheKey).1 = .error e

/-- As long as the goroutine has not read the disk cache, what it will read
is a miss or bytes that `proto.Unmarshal` accepts. -/
def Decodes {DV : Type} (d : TagValuesV2Deps DV) (env : V2Env) (t : V2Task) : Prop :=
  (t.phase = V2Phase.pending ∨ t.phase = V2Phase.counting ∨ t.phase = V2Phase.ready) →
  ∀ lb, t.cache = some lb → 0 < (lb.GetDiskCache t.files env.cacheKey).1.length →
    (lb.GetDiskCache t.files env.cacheKey).2 = none →
    ∃ vs, d.Unmarshal (lb.GetDiskCache t.files env.cacheKey).1 = .ok vs

/-- Once a segment search has returned an error, `anyErr` is set or a
goroutine is about to set it. -/
def ErrSeen {DV : Type} (s : V2Shared DV) (ts : List V2Task) : Prop :=
  tagErrors s.trace ≠ [] → s.anyErr.isSome = true ∨ ∃ u ∈ ts, u.failing = true

/-- When the cache reads decode, `anyErr` is set, or about to be set by a
goroutine, only after a segment search has returned an error. -/
def ErrCause {DV : Type} (d : TagValuesV2Deps DV) (env : V2Env) (s : V2Shared DV)
    (ts : List V2Task) : Prop :=
  (s.anyErr.isSome = true → tagErrors s.trace ≠ []) ∧
  ∀ u ∈ ts, (u.failing = true → tagErrors s.trace ≠ []) ∧ Decodes d env u

/-- Every complete block of the instance answers the cache key with a miss,
an error, or bytes that `proto.Unmarshal` accepts. -/
def CacheDecodes {DV : Type} (d : TagValuesV2Deps DV) (key : String) (i : Instance) : Prop :=
  ∀ lb ∈ i.completeBlocks, 0 < (lb.GetDiskCache lb.Files key).1.length →
    (lb.GetDiskCache lb.Files key).2 = none →
    ∃ vs, d.Unmarshal (lb.GetDiskCache lb.Files key).1 = .ok vs

/-- An instance whose completing block cannot do tag searches: its searches
return `common.ErrUnsupported`; the other segments succeed. -/
def unsupportedInstance : Instance :=
  { headBlock := some (tagBlock 0 ["a"] none),
    completingBlocks := [tagBlock 1 [] (some Err.ErrUnsupported)],
    completeBlocks := [localBlock (tagBlock 2 ["c"] none)] }

/-- An instance whose head block returns `context.Canceled` from its tag
searches; the completing block succeeds. -/
def canceledInstance : Instance :=
  { headBlock := some (tagBlock 0 ["a"] (some Err.Canceled)),
    completingBlocks := [tagBlock 1 ["b"] none],
    completeBlocks := [] }

/-- An instance whose completing block returns `context.Canceled` from its
tag searches; the head block and the complete block succeed. -/
def canceledCompleting : Instance :=
  { headBlock := some (tagBlock 0 ["a"] none),
    completingBlocks := [tagBlock 1 ["b"] (some Err.Canceled)],
    completeBlocks := [localBlock (tagBlock 2 ["c"] none)] }

/-- An instance whose complete block holds, under the cache key, one byte
that is not the encoding of a value list; every segment search succeeds. -/
def corruptInstance : Instance :=
  { headBlock := some (tagBlock 0 ["a"] none),
    completingBlocks := [],
    completeBlocks := [cachedBlock (tagBlock 2 ["live"] none) [5]] }

/-- An instance whose complete block has a disk cache that fails at every
read and every write; every segment search succeeds. -/
def failingCacheInstance : Instance :=
  { headBlock := some (tagBlock 0 ["a"] none),
    completingBlocks := [],
    completeBlocks :=
      [{ toBlock := tagBlock 2 ["live"] none,
         Files := [],
         GetDiskCache := fun _ _ => ([], some (Err.other 5)),
         SetDiskCache := fun files _ _ => (files, some (Err.other 6)) }] }

/-- An instance with a head block and one completing block that each offer
one value, as in `TestInstanceSearchMaxBlocksPerTagValuesQueryReturnsPartial`. -/
def twoSegments : Instance :=
  { headBlock := some (tagBlock 0 ["a"] none),
    completingBlocks := [tagBlock 1 ["b"] none],
    completeBlocks := [] }

/-- Modelled from the spec: the Budgeted Collector for strings with a budget
on the number of distinct values: a collector made for `maxValues > 0` values
refuses further values and reports `Exceeded` once it holds that many. -/
def budgetTagValuesDeps (k : Int) : TagValuesDeps (Nat × List String) where
  ExtractOrgID := fun ctx =>
    match ctx.OrgID with
    | some id => .ok id
    | none => .error (Err.errorf "no org id")
  MaxBytesPerTagValuesQuery := fun _ => 0
  MaxBlocksPerTagValuesQuery := fun _ => k
  NewDistinctString := fun _ maxValues _ => (maxValues, [])
  Collect := fun c v =>
    if 0 < c.1 ∧ c.1 ≤ c.2.length then (c, true)
    else if v ∈ c.2 then (c, false)
    else ((c.1, c.2 ++ [v]), decide (0 < c.1 ∧ c.1 ≤ c.2.length + 1))
  Exceeded := fun c => decide (0 < c.1 ∧ c.1 ≤ c.2.length)
  Strings := fun c => c.2

/-! ## The block budget of `SearchTagValues` -/

/-- The non-nil segments of the instance in the order in which
`SearchTagValues` takes them: the head block, the completing blocks, the
complete blocks. -/
def allSegs (i : Instance) : List Seg :=
  (match i.headBlock with
    | none => []
    | some _ => [Seg.head]) ++
  (i.completingBlocks.enum.map fun p => Seg.completing p.1) ++
  (i.completeBlocks.enum.map fun p => Seg.complete p.1)

/-- Following the spec's words: with a limit `K > 0` the first `min(N, K)` of
the `N` segments, with `K <= 0` all of them. -/
def budgetPrefix (K : Int) (segs : List Seg) : List Seg :=
  if 0 < K then segs.take K.toNat else segs

/-- After the segments `done`, the closure `search` has searched the budget
prefix of `done` and `inspectedBlocks` counts the searched segments. -/
def BudgetInv {DS : Type} (K : Int) (st : TagValuesState DS) (done : List Seg) : Prop :=
  searchedSegs st.trace = budgetPrefix K done ∧
  st.inspectedBlocks = ((searchedSegs st.trace).length : Int)

/-! ## The block budget of `SearchTagValuesV2` -/

/-- The segment is a complete block. -/
def Seg.isComplete : Seg → Bool
  | .complete _ => true
  | _ => false

/-- The number of goroutines of `SearchTagValuesV2` that went on to their
work after the early-exit check: the cache lookups of complete blocks and the
live searches of the head block and the completing blocks (the live search of
a complete block follows its cache lookup and is not counted again). -/
def proceeded : List Event → Nat
  | [] => 0
  | Event.GetDiskCache _ _ :: tr => proceeded tr + 1
  | Event.SearchBlock seg :: tr => (if seg.isComplete then 0 else 1) + proceeded tr
  | _ :: tr => proceeded tr

/-- One for a goroutine that has passed the load of `anyErr` and the counter
test of `exitEarly`, zero before. -/
def V2Task.cnt (t : V2Task) : Nat :=
  match t.phase with
  | .pending => 0
  | .counting => 0
  | _ => 1

/-- One for a goroutine for which `exitEarly` has returned false and that has
not started its work, zero otherwise. -/
def V2Task.rdy (t : V2Task) : Nat :=
  match t.phase with
  | .ready => 1
  | _ => 0

/-- The goroutine uses the disk cache exactly when its segment is a complete
block, and it is past a cache miss only with a disk cache. -/
def V2Task.WF (t : V2Task) : Prop :=
  t.seg.isComplete = t.cache.isSome ∧ (t.phase = V2Phase.missed → t.cache.isSome = true)

/-- With a positive limit `K` and `L` goroutines: as long as no error is
recorded, `inspectedBlocks` counts the goroutines past the counter test, and
the goroutines that proceeded or are about to are `min(counter, K)`. -/
def CountRel {DV : Type} (K : Int) (L : Nat) (s : V2Shared DV) (ts : List V2Task) : Prop :=
  ts.length = L ∧ (∀ u ∈ ts, u.WF) ∧
  (s.anyErr = none →
    s.inspectedBlocks = (((ts.map V2Task.cnt).sum : Nat) : Int) ∧
    (((proceeded s.trace + (ts.map V2Task.rdy).sum : Nat)) : Int) =
      min ((((ts.map V2Task.cnt).sum : Nat)) : Int) K)

/-! ## The cache key, following the spec's words -/

/-- Following the spec's words: the canonicalized query string: the empty
string for an empty query, the canonical text of a query that parses, and the
empty string for a query on which the parser fails. -/
def canonicalQuery (parse : String → Except Err RootExpr) (q : String) : String :=
  if q = "" then ""
  else
    match parse q with
    | .ok ast => ast.text
    | .error _ => ""

/-- The eight bytes of a `uint64`, most significant first. -/
def uint64Bytes (u : Nat) : List Nat :=
  [56, 48, 40, 32, 24, 16, 8, 0].map fun sh => (u >>> sh) % 256

/-- Following the spec's words: the 64-bit FNV-1a hash of the tag name,
extended with the canonicalized query string and then with the limit as a
`uint64`: one FNV-1a pass over the bytes of the three, from the offset basis. -/
def cacheKeyHash (parse : String → Except Err RootExpr) (tagName query : String)
    (limit : Int) : Nat :=
  (utf8Bytes tagName ++ utf8Bytes (canonicalQuery parse query) ++
    uint64Bytes (toUint64 limit)).foldl fnvStep fnvOffset64

/-- The value of a decimal digit character. -/
def digitValue (c : Char) : Nat := c.toNat - 48

/-- Read a list of decimal digit characters as a number, continuing from
`acc`. -/
def readDigits (acc : Nat) (cs : List Char) : Nat :=
  cs.foldl (fun a c => a * 10 + digitValue c) acc

/-- A request for the tag `span.foo` with a query, as in
`Test_searchTagValuesV2CacheKey`. -/
def keyReq (query : String) : SearchTagValuesRequest :=
  { TagName := "span.foo", Query := query, MaxTagValues := 0, StaleValueThreshold := 0,
    Start := 0, End := 0 }

/-! ## Merging a segment's entries, following the spec's words -/

/-- Following the spec's words: the accumulator after the entries `es` have
been added to it one at a time, in order. -/
def addAll {C : Type} (d : SearchDeps C) (c : C) (es : List TraceSearchMetadata) : C :=
  es.foldl d.AddMetadata c

/-- A response with three entries and the metrics of three inspected traces. -/
def threeEntries : SearchResponse :=
  { Traces := [{ TraceID := 1, StartTimeUnixNano := 1 },
               { TraceID := 2, StartTimeUnixNano := 2 },
               { TraceID := 3, StartTimeUnixNano := 3 }],
    Metrics := some { InspectedTraces := 3, InspectedBytes := 30 } }

/-- A request without query and time range that asks for at most two results. -/
def limitTwoReq : SearchRequest := { Query := "", Start := 0, End := 0, Limit := 2 }

/-- An instance whose head block alone answers, with three entries. -/
def threeEntryHead : Instance :=
  { headBlock := some (constBlock 0 (some threeEntries) none),
    completingBlocks := [],
    completeBlocks := [] }

/-! ## Reading a trace: on which segments the disk cache was used -/

/-- The segments whose disk cache has been read or written, in the order of
the calls of `GetDiskCache` and `SetDiskCache`. -/
def cacheSegs : List Event → List Seg
  | [] => []
  | Event.GetDiskCache seg _ :: tr => seg :: cacheSegs tr
  | Event.SetDiskCache seg _ _ :: tr => seg :: cacheSegs tr
  | _ :: tr => cacheSegs tr

/-- The segment is a member of `completeBlocks`. -/
def IsCompleteSeg (i : Instance) (seg : Seg) : Prop :=
  ∃ n lb, seg = Seg.complete n ∧ i.completeBlocks[n]? = some lb

/-- A goroutine that has a disk cache is the goroutine of a member of
`completeBlocks`. -/
def CacheTask (i : Instance) (t : V2Task) : Prop :=
  t.cache.isSome = true → IsCompleteSeg i t.seg

/-- The disk cache has been used on members of `completeBlocks` only, and
every goroutine is a `CacheTask`. -/
def CacheRel {DV : Type} (i : Instance) (s : V2Shared DV) (ts : List V2Task) : Prop :=
  (∀ seg ∈ cacheSegs s.trace, IsCompleteSeg i seg) ∧ ∀ u ∈ ts, CacheTask i u

/-! ## Reading a trace: cache writes -/

/-- The segments whose disk cache has been written, in the order of the
calls of `SetDiskCache`. -/
def cacheWrites : List Event → List Seg
  | [] => []
  | Event.SetDiskCache seg _ _ :: tr => seg :: cacheWrites tr
  | _ :: tr => cacheWrites tr

/-- The keys under which the disk caches have been written. -/
def writeKeys : List Event → List String
  | [] => []
  | Event.SetDiskCache _ key _ :: tr => key :: writeKeys tr
  | _ :: tr => writeKeys tr

/-- The goroutine has not yet passed the point where it writes the disk
cache. -/
def V2Task.beforeWrite (t : V2Task) : Bool :=
  match t.phase with
  | .pending => true
  | .counting => true
  | .ready => true
  | .missed => true
  | .found _ => true
  | _ => false

/-- The goroutines are those of the segments `L`, which are distinct; no
disk cache has been written twice, and none by a goroutine that has not
passed its write. -/
def WriteRel {DV : Type} (L : List Seg) (s : V2Shared DV) (ts : List V2Task) : Prop :=
  ts.map V2Task.seg = L ∧ L.Nodup ∧ (cacheWrites s.trace).Nodup ∧
  ∀ u ∈ ts, u.beforeWrite = true → u.seg ∉ cacheWrites s.trace

/-- The result of the live search of a block into a fresh segment-local
collector, as `searchBlockWithCache` runs it on a cache miss. -/
def localSearch {DV : Type} (d : TagValuesV2Deps DV) (env : V2Env) (b : Block) :
    DV × Nat × Option Err :=
  Feed.run d.Collect (performFeed d env b)
    (d.NewDistinctValue env.limit env.req.MaxTagValues env.req.StaleValueThreshold)

/-! ## A second call: the disk caches after a call -/

/-- The content of the disk cache of the `n`-th complete block when the
goroutines `ts` are through: what the goroutine of that block has left, or
`files` when none of the goroutines is that block's. -/
def filesOf (ts : List V2Task) (n : Nat) (files : CacheFiles) : CacheFiles :=
  match ts.find? (fun t => decide (t.seg = Seg.complete n)) with
  | some t => t.files
  | none => files

/-- The instance with the disk caches of its complete blocks as the
goroutines `ts` have left them. -/
def instanceAfter (i : Instance) (ts : List V2Task) : Instance :=
  { i with
    completeBlocks := i.completeBlocks.enum.map fun p =>
      { p.2 with Files := filesOf ts p.1 p.2.Files } }

/-- The instance after the call `SearchTagValuesV2`: the blocks are the same
and the disk caches hold what the goroutines of the call have written. -/
def afterSearchTagValuesV2 {DV : Type} (d : TagValuesV2Deps DV) (i : Instance) (ctx : Ctx)
    (req : SearchTagValuesRequest) (pre : Nat) (sched : List Nat) : Instance :=
  match d.ExtractOrgID ctx with
  | .error _ => i
  | .ok userID =>
    match d.ParseIdentifier req.TagName with
    | .error _ => i
    | .ok tag =>
      if isIDAttribute tag then i
      else instanceAfter i (v2Run d (v2Env d req userID tag) i pre sched).2

/-- Modelled from the spec: the Budgeted Collector for tag values with a
budget on the number of distinct values: a collector made for `maxValues > 0`
values refuses further values and reports `Exceeded` once it holds that many;
the encoding of the cached value list is the one of `codecV2Deps`. -/
def budgetV2Deps (k : Int) : TagValuesV2Deps (Nat × List TagValue) where
  ExtractOrgID := sampleV2Deps.ExtractOrgID
  MaxBytesPerTagValuesQuery := fun _ => 0
  MaxBlocksPerTagValuesQuery := fun _ => k
  ParseIdentifier := sampleV2Deps.ParseIdentifier
  ExtractMatchers := fun q => q
  IsEmptyQuery := sampleV2Deps.IsEmptyQuery
  Parse := sampleV2Deps.Parse
  NewDistinctValue := fun _ maxValues _ => (maxValues, [])
  Collect := fun c v =>
    if 0 < c.1 ∧ c.1 ≤ c.2.length then (c, true)
    else if v ∈ c.2 then (c, false)
    else ((c.1, c.2 ++ [v]), decide (0 < c.1 ∧ c.1 ≤ c.2.length + 1))
  Exceeded := fun c => decide (0 < c.1 ∧ c.1 ≤ c.2.length)
  Values := fun c => c.2
  Marshal := (codecV2Deps 0).Marshal
  Unmarshal := (codecV2Deps 0).Unmarshal

/-- An instance with one complete block that offers the two values `c` and
`d` and has an empty, working disk cache. -/
def twoValued : Instance :=
  { headBlock := none,
    completingBlocks := [],
    completeBlocks := [localBlock (tagBlock 2 ["c", "d"] none)] }

/-- The request `fooReq` with a cap of one value. -/
def capReq : SearchTagValuesRequest := { fooReq with MaxTagValues := 1 }

/-! ## What a goroutine contributes when nothing stops it -/

/-- The values a segment offers to a callback that never answers "stop". -/
def Feed.offers {α : Type} : Feed α → List α
  | .done _ _ => []
  | .offer v next => v :: (next false).offers

/-- The error with which a segment returns to a callback that never answers
"stop". -/
def Feed.result {α : Type} : Feed α → Option Err
  | .done _ err => err
  | .offer _ next => (next false).result

/-- The local search of `searchBlockWithCache` on a miss: the value list it
hands on, or the error it returns. -/
def localPlan {DV : Type} (d : TagValuesV2Deps DV) (env : V2Env) (b : Block) :
    List TagValue × Option Err :=
  match (localSearch d env b).2.2 with
  | some e => ([], some e)
  | none => (d.Values (localSearch d env b).1, none)

/-- The values that `searchBlockWithCache` feeds to the shared collector, or
the error it returns, for a block whose disk cache holds `files`: the decoded
entry on a hit, the result of the local search on a miss. -/
def cachePlan {DV : Type} (d : TagValuesV2Deps DV) (env : V2Env) (lb : LocalBlock)
    (b : Block) (files : CacheFiles) : List TagValue × Option Err :=
  if 0 < (lb.GetDiskCache files env.cacheKey).1.length ∧
      (lb.GetDiskCache files env.cacheKey).2 = none then
    match d.Unmarshal (lb.GetDiskCache files env.cacheKey).1 with
    | .error e => ([], some e)
    | .ok vs => (vs, none)
  else localPlan d env b

/-- The values that a goroutine still gives to the shared collector, and the
error it returns, when it does not exit early and the shared collector never
signals stop. -/
def taskPlan {DV : Type} (d : TagValuesV2Deps DV) (env : V2Env) (t : V2Task) :
    List TagValue × Option Err :=
  match t.phase with
  | .pending | .counting | .ready =>
    match t.cache with
    | none => ((performFeed d env t.block).offers, (performFeed d env t.block).result)
    | some lb => cachePlan d env lb t.block t.files
  | .live feed => (feed.offers, feed.result)
  | .missed => localPlan d env t.block
  | .found values => (values, none)
  | .feeding rest => (rest, none)
  | .returned err => ([], err)
  | .done => ([], none)
  | .exited => ([], none)

/-- The plans of the goroutines that `SearchTagValuesV2` launches. -/
def plans {DV : Type} (d : TagValuesV2Deps DV) (env : V2Env) (i : Instance) :
    List (List TagValue × Option Err) :=
  (v2HeadTasks i ++ v2Tasks i).map (taskPlan d env)

/-- The collector has no budget: `Collect` never signals stop, a fresh
collector holds no value, and `Values` lists what has been collected. -/
def Unbudgeted {DV : Type} (d : TagValuesV2Deps DV) : Prop :=
  (∀ c v, (d.Collect c v).2 = false) ∧
  (∀ c v x, x ∈ d.Values (d.Collect c v).1 ↔ x = v ∨ x ∈ d.Values c) ∧
  (∀ l m k, d.Values (d.NewDistinctValue l m k) = [])

/-- The disk cache of the block works: a read after a write under the same
key returns the written bytes and no error. -/
def WorkingCache (lb : LocalBlock) : Prop :=
  ∀ files key data, lb.GetDiskCache (lb.SetDiskCache files key data).1 key = (data, none)

/-- What has been serialized deserializes to the same list. -/
def RoundTrip {DV : Type} (d : TagValuesV2Deps DV) : Prop :=
  ∀ vs data, d.Marshal vs = .ok data → d.Unmarshal data = .ok vs

/-- The goroutine of the `n`-th complete block has that block and its disk
cache, and a goroutine with a disk cache has the one of a complete block. -/
def OwnTask (i : Instance) (t : V2Task) : Prop :=
  (∀ n, t.seg = Seg.complete n →
    ∃ lb, i.completeBlocks[n]? = some lb ∧ t.cache = some lb ∧ t.block = lb.toBlock) ∧
  (∀ lb, t.cache = some lb → lb ∈ i.completeBlocks)

/-- What the goroutine of a complete block has done to the files of the disk
cache: nothing before its write, and after it nothing or the one write of the
serialized result of the local search, made after a miss. -/
def FilesTask {DV : Type} (d : TagValuesV2Deps DV) (env : V2Env) (t : V2Task) : Prop :=
  ∀ lb, t.cache = some lb →
    (t.files = lb.Files ∨
      (¬ (0 < (lb.GetDiskCache lb.Files env.cacheKey).1.length ∧
          (lb.GetDiskCache lb.Files env.cacheKey).2 = none) ∧
        (localSearch d env t.block).2.2 = none ∧
        ∃ data, d.Marshal (d.Values (localSearch d env t.block).1) = .ok data ∧
          0 < data.length ∧ t.files = (lb.SetDiskCache lb.Files env.cacheKey data).1)) ∧
    (t.beforeWrite = true → t.files = lb.Files) ∧
    (t.phase = V2Phase.missed →
      ¬ (0 < (lb.GetDiskCache lb.Files env.cacheKey).1.length ∧
          (lb.GetDiskCache lb.Files env.cacheKey).2 = none)) ∧
    (∀ values, t.phase = V2Phase.found values →
      ¬ (0 < (lb.GetDiskCache lb.Files env.cacheKey).1.length ∧
          (lb.GetDiskCache lb.Files env.cacheKey).2 = none) ∧
      (localSearch d env t.block).2.2 = none ∧
      values = d.Values (localSearch d env t.block).1)

/-- The shared collector and the plans of the goroutines together hold the
values `T`, as long as no error is stored; and an error is stored or
planned exactly when `E`. -/
def PlanRel {DV : Type} (d : TagValuesV2Deps DV) (env : V2Env) (T : TagValue → Prop)
    (E : Prop) (s : V2Shared DV) (ts : List V2Task) : Prop :=
  (E ↔ (s.anyErr ≠ none ∨ ∃ t ∈ ts, (taskPlan d env t).2 ≠ none)) ∧
  (s.anyErr = none →
    ∀ x, T x ↔ (x ∈ d.Values s.valueCollector ∨ ∃ t ∈ ts, x ∈ (taskPlan d env t).1))

/-- Every disk cache that has been written belongs to a goroutine that has
passed its write and now holds a non-empty entry under the cache key. -/
def WroteRel {DV : Type} (env : V2Env) (s : V2Shared DV) (ts : List V2Task) : Prop :=
  ∀ seg ∈ cacheWrites s.trace, ∃ u ∈ ts, u.seg = seg ∧ u.beforeWrite = false ∧
    ∃ lb, u.cache = some lb ∧ 0 < (lb.GetDiskCache u.files env.cacheKey).1.length ∧
      (lb.GetDiskCache u.files env.cacheKey).2 = none

/-- An instance with a head block, a completing block and a complete block
with an empty, working disk cache; each offers one value. -/
def threeSegments : Instance :=
  { headBlock := some (tagBlock 0 ["a"] none),
    completingBlocks := [tagBlock 1 ["b"] none],
    completeBlocks := [localBlock (tagBlock 2 ["c"] none)] }

/-- An instance whose complete block offers no value. -/
def emptyComplete : Instance :=
  { headBlock := some (tagBlock 0 ["a"] none),
    completingBlocks := [],
    completeBlocks := [localBlock (tagBlock 2 [] none)] }

/-- An instance with a head block and a complete block with an empty, working
disk cache; each offers one value. -/
def headAndComplete : Instance :=
  { headBlock := some (tagBlock 0 ["a"] none),
    completingBlocks := [],
    completeBlocks := [localBlock (tagBlock 2 ["c"] none)] }

/-! ## The collector of a sequential tag operation after some segments -/

/-- The collector and the byte total of `SearchTagValues` after the search
of one more block: the block's values have gone through `Collect` and its
bytes are added. -/
def tagValuesFeed {DS : Type} (d : TagValuesDeps DS) (tagName : String) (p : DS × Nat)
    (b : Block) : DS × Nat :=
  ((Feed.run d.Collect (b.SearchTagValues tagName) p.1).1,
    mcAdd p.2 (Feed.run d.Collect (b.SearchTagValues tagName) p.1).2.1)

/-- The collector and the byte total of `SearchTagValues` after the searches
of the segments `segs` of the instance, in that order, starting from `p0`. -/
def tagValuesAfter {DS : Type} (d : TagValuesDeps DS) (i : Instance) (tagName : String)
    (p0 : DS × Nat) (segs : List Seg) : DS × Nat :=
  (segs.filterMap (segBlock i)).foldl (tagValuesFeed d tagName) p0

/-- Following the spec's words for "the collector never reports Exceeded":
asked before each segment within the block budget `K`, the collector that
holds what the segments before it have given answers false.  Nothing is
required of other collector states. -/
def neverExceeded {DS : Type} (d : TagValuesDeps DS) (i : Instance) (tagName : String)
    (K : Int) (c0 : DS) : Bool :=
  (List.range (budgetPrefix K (allSegs i)).length).all fun k =>
    !d.Exceeded (tagValuesAfter d i tagName (c0, 0) ((allSegs i).take k)).1

/-- What `searchBlock` of `SearchTagsV2` makes a block do against the
collector `c`: with an empty query `SearchTags` with a callback that never
answers "stop", with a query `ExecuteTagNames` with the answers of
`CollectScoped`. -/
def tagsRun {SDS DS : Type} (d : TagsDeps SDS DS) (attributeScope : AttributeScope)
    (query : String) (b : Block) (c : SDS) : SDS × Nat × Option Err :=
  if d.IsEmptyQuery query then
    Feed.run
      (fun c (v : String × AttributeScope) =>
        ((d.CollectScoped c (d.ScopeString v.2) v.1).1, false))
      (b.SearchTags attributeScope) c
  else
    Feed.run
      (fun c (v : String × AttributeScope) => d.CollectScoped c (d.ScopeString v.2) v.1)
      (b.ExecuteTagNames attributeScope query) c

/-- The collector and the byte total of `SearchTagsV2` after the search of
one more block. -/
def tagsFeed {SDS DS : Type} (d : TagsDeps SDS DS) (attributeScope : AttributeScope)
    (query : String) (p : SDS × Nat) (b : Block) : SDS × Nat :=
  ((tagsRun d attributeScope query b p.1).1, mcAdd p.2 (tagsRun d attributeScope query b p.1).2.1)

/-- The collector and the byte total of `SearchTagsV2` after the searches of
the segments `segs` of the instance, in that order, starting from `p0`. -/
def tagsAfter {SDS DS : Type} (d : TagsDeps SDS DS) (i : Instance)
    (attributeScope : AttributeScope) (query : String) (p0 : SDS × Nat) (segs : List Seg) :
    SDS × Nat :=
  (segs.filterMap (segBlock i)).foldl (tagsFeed d attributeScope query) p0

/-! ## Theorems -/

/-! ### Invariants of a schedule -/

theorem stepAt_inv {S T : Type} (step : S → T → S × T) (P : S → Prop)
    (h : ∀ s t, P s → P (step s t).1) :
    ∀ (n : Nat) (s : S) (ts : List T), P s → P (stepAt step n s ts).1 := by
  intro n s ts
  induction ts generalizing n with
  | nil => intro hs; cases n <;> simpa [stepAt] using hs
  | cons t ts ih =>
    intro hs
    cases n with
    | zero => exact h s t hs
    | succ n => exact ih n hs

theorem runSchedule_inv {S T : Type} (step : S → T → S × T) (P : S → Prop)
    (h : ∀ s t, P s → P (step s t).1) :
    ∀ (sched : List Nat) (s : S) (ts : List T), P s → P (runSchedule step sched s ts).1 := by
  intro sched
  induction sched with
  | nil => intro s ts hs; exact hs
  | cons n sched ih =>
    intro s ts hs
    exact ih _ _ (stepAt_inv step P h n s ts hs)

theorem iterStep_inv {S T : Type} (step : S → T → S × T) (P : S → Prop)
    (h : ∀ s t, P s → P (step s t).1) :
    ∀ (k : Nat) (s : S) (t : T), P s → P (iterStep step k s t).1 := by
  intro k
  induction k with
  | zero => intro s t hs; exact hs
  | succ k ih => intro s t hs; exact ih _ _ (h s t hs)

theorem iterUntil_inv {S T : Type} (stop : T → Bool) (step : S → T → S × T) (P : S → Prop)
    (h : ∀ s t, P s → P (step s t).1) :
    ∀ (k : Nat) (s : S) (t : T), P s → P (iterUntil stop step k s t).1 := by
  intro k
  induction k with
  | zero => intro s t hs; exact hs
  | succ k ih =>
    intro s t hs
    unfold iterUntil
    split
    · exact hs
    · exact ih _ _ (h s t hs)

theorem waitAll_inv {S T : Type} (finish : S → T → S × T) (P : S → Prop)
    (h : ∀ s t, P s → P (finish s t).1) :
    ∀ (ts : List T) (s : S), P s → P (waitAll finish s ts).1 := by
  intro ts
  induction ts with
  | nil => intro s hs; exact hs
  | cons t ts ih =>
    intro s hs
    exact ih _ (h s t hs)

/-! ### Reading a trace -/

theorem lastStored_append (a b : List Event) :
    lastStored (a ++ b) = (lastStored b).orElse fun _ => lastStored a := by
  induction a with
  | nil => cases h : lastStored b <;> simp [lastStored, h]
  | cons ev a ih =>
    have ih2 : lastStored (a.append b) = (lastStored b).orElse fun _ => lastStored a := ih
    cases ev
    all_goals simp only [List.cons_append, lastStored]
    all_goals rw [ih2]
    all_goals (cases lastStored b <;> cases lastStored a <;> simp [Option.orElse])

theorem hasFaultReturn_append (a b : List Event) :
    hasFaultReturn (a ++ b) ↔ hasFaultReturn a ∨ hasFaultReturn b := by
  unfold hasFaultReturn
  constructor
  · rintro ⟨seg, resp, e, hm, hf⟩
    rcases List.mem_append.1 hm with h | h
    · exact Or.inl ⟨seg, resp, e, h, hf⟩
    · exact Or.inr ⟨seg, resp, e, h, hf⟩
  · rintro (⟨seg, resp, e, hm, hf⟩ | ⟨seg, resp, e, hm, hf⟩)
    · exact ⟨seg, resp, e, List.mem_append.2 (Or.inl hm), hf⟩
    · exact ⟨seg, resp, e, List.mem_append.2 (Or.inr hm), hf⟩

/-- A non-nil error passes both `errors.Is` tests exactly when it is a fault. -/
theorem isFault_iff (e : Err) :
    isFault e = true ↔
      errorsIs (some e) Err.ErrUnsupported = false ∧ errorsIs (some e) Err.Canceled = false := by
  simp [isFault, errorsIs]

/-! ### Invariants of `Search` -/

theorem hasFaultReturn_nil : ¬ hasFaultReturn [] := by
  rintro ⟨seg, resp, e, hm, _⟩
  cases hm

theorem hasFaultReturn_cons (ev : Event) (tr : List Event) :
    hasFaultReturn (ev :: tr) ↔
      (∃ seg resp e, ev = Event.SearchReturned seg resp (some e) ∧ isFault e = true) ∨
        hasFaultReturn tr := by
  unfold hasFaultReturn
  constructor
  · rintro ⟨seg, resp, e, hm, hf⟩
    rcases List.mem_cons.1 hm with h | h
    · exact Or.inl ⟨seg, resp, e, h.symm, hf⟩
    · exact Or.inr ⟨seg, resp, e, h, hf⟩
  · rintro (⟨seg, resp, e, rfl, hf⟩ | ⟨seg, resp, e, hm, hf⟩)
    · exact ⟨seg, resp, e, List.mem_cons_self _ _, hf⟩
    · exact ⟨seg, resp, e, List.mem_cons_of_mem _ hm, hf⟩

theorem searchStart_inv {C : Type} (d : SearchDeps C) (req : SearchRequest)
    (s : SearchShared C) (t : SearchTask) (h : SearchInv s) :
    SearchInv (searchStart d req s t).1 := by
  unfold searchStart
  split
  · exact h
  · obtain ⟨h1, h2, h3, h4⟩ := h
    refine ⟨?_, ?_, ?_, ?_⟩
    · simp [lastStored_append, lastStored, h1]
    · simp [hasFaultReturn_append, hasFaultReturn_cons, hasFaultReturn_nil, h2]
    · simp [contribTraces, h3]
    · simp [contribBytes, h4]

theorem searchFinish_inv {C : Type} (d : SearchDeps C) (s : SearchShared C) (t : SearchTask)
    (resp : Option SearchResponse) (err : Option Err) (h : SearchInv s) :
    SearchInv (searchFinish d s t resp err).1 := by
  obtain ⟨h1, h2, h3, h4⟩ := h
  cases err with
  | some e =>
    by_cases hu : e.chainHas Err.ErrUnsupported = true
    · have hf : isFault e = false := by simp [isFault, hu]
      refine ⟨?_, ?_, ?_, ?_⟩
      · simp [searchFinish, errorsIs, hu, lastStored_append, lastStored, h1]
      · simp [searchFinish, errorsIs, hu, hasFaultReturn_append, hasFaultReturn_cons, hasFaultReturn_nil,
          h2, hf]
      · simp [searchFinish, errorsIs, hu, contribTraces, h3]
      · simp [searchFinish, errorsIs, hu, contribBytes, h4]
    · by_cases hc : e.chainHas Err.Canceled = true
      · have hf : isFault e = false := by simp [isFault, hc]
        refine ⟨?_, ?_, ?_, ?_⟩
        · simp [searchFinish, errorsIs, hu, hc, lastStored_append, lastStored, h1]
        · simp [searchFinish, errorsIs, hu, hc, hasFaultReturn_append,
            hasFaultReturn_cons, hasFaultReturn_nil, h2, hf]
        · simp [searchFinish, errorsIs, hu, hc, contribTraces, h3]
        · simp [searchFinish, errorsIs, hu, hc, contribBytes, h4]
      · have hf : isFault e = true := by simp [isFault, hu, hc]
        refine ⟨?_, ?_, ?_, ?_⟩
        · simp [searchFinish, errorsIs, hu, hc, lastStored_append, lastStored]
        · simp only [searchFinish, errorsIs, hu, hc]
          simp only [Bool.false_eq_true, if_false, Option.isSome_some, true_iff]
          exact (hasFaultReturn_append _ _).2 (Or.inl ((hasFaultReturn_append _ _).2
            (Or.inr ((hasFaultReturn_cons _ _).2 (Or.inl ⟨t.seg, resp, e, rfl, hf⟩)))))
        · simp [searchFinish, errorsIs, hu, hc, contribTraces, h3]
        · simp [searchFinish, errorsIs, hu, hc, contribBytes, h4]
  | none =>
    cases resp with
    | none =>
      refine ⟨?_, ?_, ?_, ?_⟩
      · simp [searchFinish, errorsIs, lastStored_append, lastStored, h1]
      · simp [searchFinish, errorsIs, hasFaultReturn_append, hasFaultReturn_cons, hasFaultReturn_nil, h2]
      · simp [searchFinish, errorsIs, contribTraces, h3]
      · simp [searchFinish, errorsIs, contribBytes, h4]
    | some r =>
      cases hmt : (mergeTraces d r.Traces s.combiner).2 <;>
        refine ⟨?_, ?_, ?_, ?_⟩
      · simp [searchFinish, errorsIs, hmt, lastStored_append, lastStored, h1]
      · simp [searchFinish, errorsIs, hmt, hasFaultReturn_append, hasFaultReturn_cons,
          hasFaultReturn_nil, h2]
      · cases hm : r.Metrics <;>
          simp [searchFinish, errorsIs, hmt, addMetrics, contribTraces, hm, h3, Nat.add_mod]
      · cases hm : r.Metrics <;>
          simp [searchFinish, errorsIs, hmt, addMetrics, contribBytes, hm, h4, Nat.add_mod]
      · simp [searchFinish, errorsIs, hmt, lastStored_append, lastStored, h1]
      · simp [searchFinish, errorsIs, hmt, hasFaultReturn_append, hasFaultReturn_cons,
          hasFaultReturn_nil, h2]
      · cases hm : r.Metrics <;>
          simp [searchFinish, errorsIs, hmt, addMetrics, contribTraces, hm, h3, Nat.add_mod]
      · cases hm : r.Metrics <;>
          simp [searchFinish, errorsIs, hmt, addMetrics, contribBytes, hm, h4, Nat.add_mod]

theorem searchStep_inv {C : Type} (d : SearchDeps C) (req : SearchRequest)
    (s : SearchShared C) (t : SearchTask) (h : SearchInv s) :
    SearchInv (searchStep d req s t).1 := by
  unfold searchStep
  split
  · exact searchStart_inv d req s t h
  · exact searchFinish_inv d s t _ _ h
  · exact h

theorem SearchInv_lock {C : Type} (s : SearchShared C) (ev : Event) (hl : ev.isLock = true)
    (h : SearchInv s) : SearchInv { s with trace := s.trace ++ [ev] } := by
  obtain ⟨h1, h2, h3, h4⟩ := h
  cases ev <;> simp [Event.isLock] at hl <;>
    exact ⟨by simp [lastStored_append, lastStored, h1],
      by simp [hasFaultReturn_append, hasFaultReturn_cons, hasFaultReturn_nil, h2],
      by simp [contribTraces, h3], by simp [contribBytes, h4]⟩

theorem searchInit_inv {C : Type} (d : SearchDeps C) (req : SearchRequest) (mr : Bool) :
    SearchInv (searchInit d req mr) :=
  ⟨by simp [searchInit, lastStored],
    by simp [searchInit, hasFaultReturn_cons, hasFaultReturn_nil],
    by simp [searchInit, contribTraces], by simp [searchInit, contribBytes]⟩

theorem searchHead_inv {C : Type} (d : SearchDeps C) (req : SearchRequest) (head : Block)
    (s : SearchShared C) (h : SearchInv s) : SearchInv (searchHead d req head s) := by
  have h1 : SearchInv (if includeBlock head.Meta req then
      (iterStep (searchStep d req) 2 s { seg := Seg.head, block := head, phase := .pending }).1
      else s) := by
    split
    · exact iterStep_inv _ SearchInv (fun s t => searchStep_inv d req s t) 2 _ _ h
    · exact h
  exact SearchInv_lock _ Event.RUnlockHead rfl h1

theorem searchOthers_inv {C : Type} (d : SearchDeps C) (i : Instance) (req : SearchRequest)
    (sched : List Nat) (s : SearchShared C) (h : SearchInv s) :
    SearchInv (searchOthers d i req sched s) := by
  unfold searchOthers
  apply waitAll_inv _ SearchInv
    (fun s t => iterStep_inv _ SearchInv (fun s t => searchStep_inv d req s t) 2 s t)
  apply runSchedule_inv _ SearchInv (fun s t => searchStep_inv d req s t)
  exact SearchInv_lock s Event.RLockBlocks rfl h

/-- The three ways `Search` ends: a parse error before anything is touched, a
panic on a nil head block, or a return of `anyErr` or of the merged response
from a shared state that satisfies the invariant. -/
theorem Search_shape {C : Type} (d : SearchDeps C) (i : Instance) (req : SearchRequest)
    (sched : List Nat) :
    (∃ e, mostRecentHint d req = .error e ∧
        Search d i req sched = { resp := none, err := some e, panicked := false, trace := [] }) ∨
    (∃ mr, mostRecentHint d req = .ok mr ∧ i.headBlock = none ∧
        Search d i req sched =
          { resp := none, err := none, panicked := true, trace := [Event.RLockHead] }) ∨
    (∃ mr, mostRecentHint d req = .ok mr ∧ ∃ s : SearchShared C, SearchInv s ∧
        ((∃ e, s.anyErr = some e ∧
            Search d i req sched =
              { resp := none, err := some e, panicked := false, trace := s.trace }) ∨
          (s.anyErr = none ∧
            Search d i req sched =
              { resp := some { Traces := d.Metadata s.combiner, Metrics := some s.metrics },
                err := none, panicked := false, trace := s.trace }))) := by
  unfold Search
  cases hq : mostRecentHint d req with
  | error e => exact Or.inl ⟨e, rfl, rfl⟩
  | ok mr =>
    right
    cases hh : i.headBlock with
    | none => exact Or.inl ⟨mr, rfl, rfl, rfl⟩
    | some head =>
      right
      refine ⟨mr, rfl, ?_⟩
      have h2 := searchHead_inv d req head _ (searchInit_inv d req mr)
      cases ha : (searchHead d req head (searchInit d req mr)).anyErr with
      | some e =>
        refine ⟨_, h2, Or.inl ⟨e, ha, ?_⟩⟩
        simp only [ha]
      | none =>
        have h4 := searchOthers_inv d i req sched _ h2
        have h5 := SearchInv_lock _ Event.RUnlockBlocks rfl h4
        cases hb : (searchOthers d i req sched
            (searchHead d req head (searchInit d req mr))).anyErr with
        | some e =>
          refine ⟨_, h5, Or.inl ⟨e, hb, ?_⟩⟩
          simp only [ha, hb]
        | none =>
          refine ⟨_, h5, Or.inr ⟨hb, ?_⟩⟩
          simp only [ha, hb]

theorem mostRecentHint_ok {C : Type} (d : SearchDeps C) (req : SearchRequest)
    (hq : req.Query = "" ∨ ∃ r, d.Parse req.Query = .ok r) :
    ∃ mr, mostRecentHint d req = .ok mr := by
  unfold mostRecentHint
  by_cases he : req.Query = ""
  · exact ⟨false, by simp [he]⟩
  · rcases hq with hq | ⟨r, hr⟩
    · exact absurd hq he
    · by_cases hv : r.HintMostRecent.2 = true
      · exact ⟨r.HintMostRecent.1, by simp [he, hr, hv]⟩
      · exact ⟨false, by simp [he, hr, hv]⟩

/-- For a request that parses, `Search` returns the last stored error, fails
exactly when a searched segment returned a fault, and then returns no
response. -/
theorem Search_parsed {C : Type} (d : SearchDeps C) (i : Instance) (req : SearchRequest)
    (sched : List Nat) (hq : req.Query = "" ∨ ∃ r, d.Parse req.Query = .ok r) :
    (Search d i req sched).err = lastStored (Search d i req sched).trace ∧
    ((Search d i req sched).err.isSome = true ↔ hasFaultReturn (Search d i req sched).trace) ∧
    ((Search d i req sched).err.isSome = true → (Search d i req sched).resp = none) := by
  obtain ⟨mr, hmr⟩ := mostRecentHint_ok d req hq
  rcases Search_shape d i req sched with ⟨e, he, _⟩ | ⟨_, _, _, hs⟩ | ⟨_, _, s, hinv, hs⟩
  · rw [hmr] at he; cases he
  · rw [hs]
    exact ⟨by simp [lastStored], by simp [hasFaultReturn_cons, hasFaultReturn_nil],
      by simp⟩
  · obtain ⟨h1, h2, _, _⟩ := hinv
    rcases hs with ⟨e, hse, hs⟩ | ⟨hse, hs⟩
    · rw [hs]
      exact ⟨by simp [← h1, hse], by simp [← h2, hse], by simp⟩
    · rw [hs]
      exact ⟨by simp [← h1, hse], by simp [← h2, hse], by simp⟩

/-! ### The parser is used by the parse block only -/

theorem Err.chainHas_self (e : Err) : e.chainHas e = true := by
  cases e <;> simp [Err.chainHas]

theorem mergeTraces_parse {C : Type} (d : SearchDeps C) (p : String → Except Err RootExpr)
    (trs : List TraceSearchMetadata) (c : C) :
    mergeTraces { d with Parse := p } trs c = mergeTraces d trs c := by
  induction trs generalizing c with
  | nil => rfl
  | cons tr rest ih => simp only [mergeTraces, ih]

theorem searchStep_parse {C : Type} (d : SearchDeps C) (p : String → Except Err RootExpr)
    (req : SearchRequest) :
    searchStep { d with Parse := p } req = searchStep d req := by
  funext s t
  simp only [searchStep, searchStart, searchFinish, callSearcher, mergeTraces_parse]

theorem searchHead_parse {C : Type} (d : SearchDeps C) (p : String → Except Err RootExpr)
    (req : SearchRequest) (head : Block) (s : SearchShared C) :
    searchHead { d with Parse := p } req head s = searchHead d req head s := by
  simp only [searchHead, searchStep_parse]

theorem searchOthers_parse {C : Type} (d : SearchDeps C) (p : String → Except Err RootExpr)
    (i : Instance) (req : SearchRequest) (sched : List Nat) (s : SearchShared C) :
    searchOthers { d with Parse := p } i req sched s = searchOthers d i req sched s := by
  simp only [searchOthers, searchStep_parse]

/-! ### Lock order -/

theorem acquires_append (a b : List Event) : acquires (a ++ b) = acquires a ++ acquires b := by
  simp [acquires]

/-- A trace whose read-acquires are none, the head lock alone, or the head
lock followed by the blocks lock, respects the lock order. -/
theorem lockOrderOK_of_acquires (tr : List Event)
    (h : acquires tr = [] ∨ acquires tr = [Event.RLockHead] ∨
      acquires tr = [Event.RLockHead, Event.RLockBlocks]) : lockOrderOK tr := by
  intro pre post htr
  have hsplit : acquires tr = acquires pre ++ Event.RLockBlocks :: acquires post := by
    rw [htr]
    simp [acquires, Event.isAcquire]
  have hmem : ∀ l : List Event, Event.RLockHead ∈ l ↔ Event.RLockHead ∈ acquires l := by
    intro l
    simp [acquires, Event.isAcquire]
  rw [hsplit] at h
  rcases h with h | h | h
  · simp at h
  · cases hp : acquires pre with
    | nil => rw [hp] at h; simp at h
    | cons x xs => rw [hp] at h; simp at h
  · cases hp : acquires pre with
    | nil => rw [hp] at h; simp at h
    | cons x xs =>
      rw [hp] at h
      cases xs with
      | nil =>
        simp at h
        refine ⟨?_, ?_⟩
        · rw [hmem, hp, h.1]; simp
        · rw [hmem, h.2]; simp
      | cons y ys => simp at h

theorem searchStep_acquires {C : Type} (d : SearchDeps C) (req : SearchRequest)
    (s : SearchShared C) (t : SearchTask) :
    acquires (searchStep d req s t).1.trace = acquires s.trace := by
  unfold searchStep
  split
  · unfold searchStart
    split
    · rfl
    · simp [acquires, Event.isAcquire]
  · rename_i resp err
    unfold searchFinish
    split
    · simp [acquires, Event.isAcquire]
    · split
      · simp [acquires, Event.isAcquire]
      · split
        · simp [acquires, Event.isAcquire]
        · split
          · simp [acquires, Event.isAcquire]
          · simp only []
            split <;> simp [acquires, Event.isAcquire]
  · rfl

theorem searchHead_acquires {C : Type} (d : SearchDeps C) (req : SearchRequest) (head : Block)
    (s : SearchShared C) : acquires (searchHead d req head s).trace = acquires s.trace := by
  have h1 : acquires (if includeBlock head.Meta req then
      (iterStep (searchStep d req) 2 s { seg := Seg.head, block := head, phase := .pending }).1
      else s).trace = acquires s.trace := by
    split
    · exact iterStep_inv (searchStep d req) (fun x => acquires x.trace = acquires s.trace)
        (fun x t hx => (searchStep_acquires d req x t).trans hx) 2 s _ rfl
    · rfl
  simp only [searchHead, acquires_append, h1]
  simp [acquires, Event.isAcquire]

theorem searchOthers_acquires {C : Type} (d : SearchDeps C) (i : Instance)
    (req : SearchRequest) (sched : List Nat) (s : SearchShared C) :
    acquires (searchOthers d i req sched s).trace = acquires s.trace ++ [Event.RLockBlocks] := by
  unfold searchOthers
  have hstep : ∀ (x : SearchShared C) (t : SearchTask),
      acquires x.trace = acquires s.trace ++ [Event.RLockBlocks] →
      acquires (searchStep d req x t).1.trace = acquires s.trace ++ [Event.RLockBlocks] := by
    intro x t hx
    rw [searchStep_acquires]; exact hx
  have h0 : acquires ({ s with trace := s.trace ++ [Event.RLockBlocks] } :
      SearchShared C).trace = acquires s.trace ++ [Event.RLockBlocks] := by
    simp [acquires, Event.isAcquire]
  have h1 := runSchedule_inv (searchStep d req)
    (fun x => acquires x.trace = acquires s.trace ++ [Event.RLockBlocks]) hstep sched
    { s with trace := s.trace ++ [Event.RLockBlocks] } (searchTasks i req) h0
  exact waitAll_inv (iterStep (searchStep d req) 2)
    (fun x => acquires x.trace = acquires s.trace ++ [Event.RLockBlocks])
    (fun x t hx => iterStep_inv (searchStep d req)
      (fun x => acquires x.trace = acquires s.trace ++ [Event.RLockBlocks]) hstep 2 x t hx)
    _ _ h1

theorem Search_acquires {C : Type} (d : SearchDeps C) (i : Instance) (req : SearchRequest)
    (sched : List Nat) :
    acquires (Search d i req sched).trace = [] ∨
    acquires (Search d i req sched).trace = [Event.RLockHead] ∨
    acquires (Search d i req sched).trace = [Event.RLockHead, Event.RLockBlocks] := by
  unfold Search
  cases hq : mostRecentHint d req with
  | error e => left; rfl
  | ok mr =>
    cases hh : i.headBlock with
    | none => right; left; rfl
    | some head =>
      have h2 : acquires (searchHead d req head (searchInit d req mr)).trace =
          [Event.RLockHead] := by
        rw [searchHead_acquires]; rfl
      cases ha : (searchHead d req head (searchInit d req mr)).anyErr with
      | some e =>
        right; left
        simp only [ha]
        exact h2
      | none =>
        right; right
        have h4 := searchOthers_acquires d i req sched
          (searchHead d req head (searchInit d req mr))
        rw [h2] at h4
        cases hb : (searchOthers d i req sched
            (searchHead d req head (searchInit d req mr))).anyErr with
        | some e =>
          simp only [ha, hb, acquires_append, h4]
          rfl
        | none =>
          simp only [ha, hb, acquires_append, h4]
          rfl

theorem tagValuesSearch_acquires {DS : Type} (d : TagValuesDeps DS) (tagName : String)
    (maxBlocks : Int) (seg : Seg) (b : Option Block) (st : TagValuesState DS) :
    acquires (tagValuesSearch d tagName maxBlocks seg b st).1.trace = acquires st.trace := by
  unfold tagValuesSearch
  split
  · rfl
  · split
    · rfl
    · split
      · rfl
      · simp only []
        split
        · split <;> simp [acquires, Event.isAcquire]
        · simp [acquires, Event.isAcquire]

theorem tagValuesLoop_acquires {DS : Type} (d : TagValuesDeps DS) (tagName : String)
    (maxBlocks : Int) (kind : Nat → Seg) (what : String) (bs : List (Nat × Block))
    (st : TagValuesState DS) :
    acquires (tagValuesLoop d tagName maxBlocks kind what bs st).1.trace =
      acquires st.trace := by
  induction bs generalizing st with
  | nil => rfl
  | cons p rest ih =>
    obtain ⟨n, b⟩ := p
    unfold tagValuesLoop
    split
    · exact tagValuesSearch_acquires d tagName maxBlocks (kind n) (some b) st
    · rw [ih]
      exact tagValuesSearch_acquires d tagName maxBlocks (kind n) (some b) st

theorem SearchTagValues_acquires {DS : Type} (d : TagValuesDeps DS) (i : Instance) (ctx : Ctx)
    (tagName : String) (limit staleValueThreshold : Nat) :
    acquires (SearchTagValues d i ctx tagName limit staleValueThreshold).trace = [] ∨
    acquires (SearchTagValues d i ctx tagName limit staleValueThreshold).trace =
      [Event.RLockHead] ∨
    acquires (SearchTagValues d i ctx tagName limit staleValueThreshold).trace =
      [Event.RLockHead, Event.RLockBlocks] := by
  unfold SearchTagValues
  split
  · left; rfl
  · simp only []
    split
    · right; left
      simp only [acquires_append, tagValuesSearch_acquires]
      rfl
    · right; left
      simp only [acquires_append, tagValuesSearch_acquires]
      rfl
    · right; right
      split
      · simp only [acquires_append, tagValuesLoop_acquires, tagValuesSearch_acquires]
        rfl
      · split
        · simp only [acquires_append, tagValuesLoop_acquires, tagValuesSearch_acquires]
          rfl
        · simp only [acquires_append, tagValuesLoop_acquires, tagValuesSearch_acquires]
          rfl

theorem tagsSearchBlock_acquires {SDS DS : Type} (d : TagsDeps SDS DS)
    (attributeScope : AttributeScope) (query : String) (seg : Seg) (b : Option Block)
    (st : TagsState SDS) :
    acquires (tagsSearchBlock d attributeScope query seg b st).1.trace = acquires st.trace := by
  unfold tagsSearchBlock
  split
  · rfl
  · split
    · rfl
    · split
      · simp only []
        split
        · split <;> simp [acquires, Event.isAcquire]
        · simp [acquires, Event.isAcquire]
      · simp [acquires, Event.isAcquire]

theorem tagsLoop_acquires {SDS DS : Type} (d : TagsDeps SDS DS)
    (attributeScope : AttributeScope) (query : String) (kind : Nat → Seg) (what : String)
    (bs : List (Nat × Block)) (st : TagsState SDS) :
    acquires (tagsLoop d attributeScope query kind what bs st).1.trace = acquires st.trace := by
  induction bs generalizing st with
  | nil => rfl
  | cons p rest ih =>
    obtain ⟨n, b⟩ := p
    unfold tagsLoop
    split
    · exact tagsSearchBlock_acquires d attributeScope query (kind n) (some b) st
    · rw [ih]
      exact tagsSearchBlock_acquires d attributeScope query (kind n) (some b) st

theorem SearchTagsV2_acquires {SDS DS : Type} (d : TagsDeps SDS DS) (i : Instance) (ctx : Ctx)
    (req : SearchTagsRequest) :
    acquires (SearchTagsV2 d i ctx req).trace = [] ∨
    acquires (SearchTagsV2 d i ctx req).trace = [Event.RLockHead] ∨
    acquires (SearchTagsV2 d i ctx req).trace = [Event.RLockHead, Event.RLockBlocks] := by
  unfold SearchTagsV2
  split
  · left; rfl
  · split
    · left; rfl
    · split
      · left; rfl
      · simp only []
        split
        · right; left
          simp only [acquires_append, tagsSearchBlock_acquires]
          rfl
        · right; left
          simp only [acquires_append, tagsSearchBlock_acquires]
          rfl
        · right; right
          split
          · simp only [acquires_append, tagsLoop_acquires, tagsSearchBlock_acquires]
            rfl
          · split
            · simp only [acquires_append, tagsLoop_acquires, tagsSearchBlock_acquires]
              rfl
            · simp only [acquires_append, tagsLoop_acquires, tagsSearchBlock_acquires]
              rfl

theorem v2Step_acquires {DV : Type} (d : TagValuesV2Deps DV) (env : V2Env)
    (s : V2Shared DV) (t : V2Task) :
    acquires (v2Step d env s t).1.trace = acquires s.trace := by
  unfold v2Step
  split
  · split <;> rfl
  · split <;> rfl
  · split
    · simp [acquires, Event.isAcquire]
    · simp only []
      split
      · split <;> simp [acquires, Event.isAcquire]
      · simp [acquires, Event.isAcquire]
  · rfl
  · simp [acquires, Event.isAcquire]
  · simp only []
    split <;> simp [acquires, Event.isAcquire]
  · split
    · split
      · simp [acquires, Event.isAcquire]
      · rfl
    · rfl
  · rfl
  · rfl
  · rfl
  · simp [acquires, Event.isAcquire]
  · split
    · simp [acquires, Event.isAcquire]
    · rfl
  · rfl

theorem v2Finish_acquires {DV : Type} (d : TagValuesV2Deps DV) (env : V2Env)
    (L : List Event) (s : V2Shared DV) (t : V2Task) (h : acquires s.trace = L) :
    acquires (v2Finish d env s t).1.trace = L := by
  have hstep : ∀ (x : V2Shared DV) (u : V2Task), acquires x.trace = L →
      acquires (v2Step d env x u).1.trace = L :=
    fun x u hx => (v2Step_acquires d env x u).trans hx
  unfold v2Finish
  exact iterUntil_inv V2Task.isDone (v2Step d env) (fun x => acquires x.trace = L) hstep _ _ _
    (iterUntil_inv V2Task.isDone (v2Step d env) (fun x => acquires x.trace = L) hstep 5 s t h)

theorem v2Run_acquires {DV : Type} (d : TagValuesV2Deps DV) (env : V2Env) (i : Instance)
    (pre : Nat) (sched : List Nat) :
    acquires (v2Run d env i pre sched).1.trace = [Event.RLockHead, Event.RLockBlocks] := by
  have hstep : ∀ (L : List Event) (x : V2Shared DV) (u : V2Task), acquires x.trace = L →
      acquires (v2Step d env x u).1.trace = L :=
    fun L x u hx => (v2Step_acquires d env x u).trans hx
  unfold v2Run
  simp only []
  have h0 := runSchedule_inv (v2Step d env) (fun x => acquires x.trace = [Event.RLockHead])
    (hstep [Event.RLockHead]) (List.replicate pre 0) (v2Init d env) (v2HeadTasks i) rfl
  refine waitAll_inv (v2Finish d env)
    (fun x => acquires x.trace = [Event.RLockHead, Event.RLockBlocks])
    (fun x u hx => v2Finish_acquires d env _ x u hx) _ _ ?_
  refine runSchedule_inv (v2Step d env)
    (fun x => acquires x.trace = [Event.RLockHead, Event.RLockBlocks])
    (hstep [Event.RLockHead, Event.RLockBlocks]) sched _ _ ?_
  simp only [acquires_append, h0]
  rfl

theorem v2After_acquires {DV : Type} (d : TagValuesV2Deps DV) (env : V2Env)
    (s : V2Shared DV) (ts : List V2Task) : acquires (v2After d env s ts) = [] := by
  unfold v2After
  exact waitAll_inv (v2Step d env) (fun x => acquires x.trace = [])
    (fun x u hx => (v2Step_acquires d env x u).trans hx) ts _ rfl

theorem SearchTagValuesV2_acquires {DV : Type} (d : TagValuesV2Deps DV) (i : Instance)
    (ctx : Ctx) (req : SearchTagValuesRequest) (pre : Nat) (sched : List Nat) :
    acquires ((SearchTagValuesV2 d i ctx req pre sched).trace ++
        (SearchTagValuesV2 d i ctx req pre sched).after) = [] ∨
    acquires ((SearchTagValuesV2 d i ctx req pre sched).trace ++
        (SearchTagValuesV2 d i ctx req pre sched).after) =
      [Event.RLockHead, Event.RLockBlocks] := by
  unfold SearchTagValuesV2
  split
  · left; rfl
  · split
    · left; rfl
    · split
      · left; rfl
      · right
        simp only []
        split
        · simp only [acquires_append, v2Run_acquires, v2After_acquires]
          rfl
        · simp only [acquires_append, v2Run_acquires, v2After_acquires]
          rfl

/-! ### Lock release -/

theorem lockEvents_append (a b : List Event) :
    lockEvents (a ++ b) = lockEvents a ++ lockEvents b := by
  simp [lockEvents]

theorem headHolds_lockEvents (tr : List Event) : headHolds tr = headHolds (lockEvents tr) := by
  simp [headHolds, lockEvents, List.count_filter, Event.isLock]

theorem blocksHolds_lockEvents (tr : List Event) :
    blocksHolds tr = blocksHolds (lockEvents tr) := by
  simp [blocksHolds, lockEvents, List.count_filter, Event.isLock]

theorem searchStep_lockEvents {C : Type} (d : SearchDeps C) (req : SearchRequest)
    (s : SearchShared C) (t : SearchTask) :
    lockEvents (searchStep d req s t).1.trace = lockEvents s.trace := by
  unfold searchStep
  split
  · unfold searchStart
    split
    · rfl
    · simp [lockEvents, Event.isLock]
  · rename_i resp err
    unfold searchFinish
    split
    · simp [lockEvents, Event.isLock]
    · split
      · simp [lockEvents, Event.isLock]
      · split
        · simp [lockEvents, Event.isLock]
        · split
          · simp [lockEvents, Event.isLock]
          · simp only []
            split <;> simp [lockEvents, Event.isLock]
  · rfl

theorem searchHead_lockEvents {C : Type} (d : SearchDeps C) (req : SearchRequest) (head : Block)
    (s : SearchShared C) :
    lockEvents (searchHead d req head s).trace = lockEvents s.trace ++ [Event.RUnlockHead] := by
  have h1 : lockEvents (if includeBlock head.Meta req then
      (iterStep (searchStep d req) 2 s { seg := Seg.head, block := head, phase := .pending }).1
      else s).trace = lockEvents s.trace := by
    split
    · exact iterStep_inv (searchStep d req) (fun x => lockEvents x.trace = lockEvents s.trace)
        (fun x t hx => (searchStep_lockEvents d req x t).trans hx) 2 s _ rfl
    · rfl
  simp only [searchHead, lockEvents_append, h1]
  rfl

theorem searchOthers_lockEvents {C : Type} (d : SearchDeps C) (i : Instance)
    (req : SearchRequest) (sched : List Nat) (s : SearchShared C) :
    lockEvents (searchOthers d i req sched s).trace =
      lockEvents s.trace ++ [Event.RLockBlocks] := by
  unfold searchOthers
  have hstep : ∀ (x : SearchShared C) (t : SearchTask),
      lockEvents x.trace = lockEvents s.trace ++ [Event.RLockBlocks] →
      lockEvents (searchStep d req x t).1.trace = lockEvents s.trace ++ [Event.RLockBlocks] :=
    fun x t hx => (searchStep_lockEvents d req x t).trans hx
  have h0 : lockEvents ({ s with trace := s.trace ++ [Event.RLockBlocks] } :
      SearchShared C).trace = lockEvents s.trace ++ [Event.RLockBlocks] := by
    simp only [lockEvents_append]
    rfl
  have h1 := runSchedule_inv (searchStep d req)
    (fun x => lockEvents x.trace = lockEvents s.trace ++ [Event.RLockBlocks]) hstep sched
    { s with trace := s.trace ++ [Event.RLockBlocks] } (searchTasks i req) h0
  exact waitAll_inv (iterStep (searchStep d req) 2)
    (fun x => lockEvents x.trace = lockEvents s.trace ++ [Event.RLockBlocks])
    (fun x t hx => iterStep_inv (searchStep d req)
      (fun x => lockEvents x.trace = lockEvents s.trace ++ [Event.RLockBlocks]) hstep 2 x t hx)
    _ _ h1

/-- Every return of `Search` leaves no read-hold on either lock; only the
panic on a nil head block leaves one on `headBlockMtx`. -/
theorem Search_releases {C : Type} (d : SearchDeps C) (i : Instance) (req : SearchRequest)
    (sched : List Nat) :
    ((Search d i req sched).panicked = false →
      headHolds (Search d i req sched).trace = 0 ∧
      blocksHolds (Search d i req sched).trace = 0) ∧
    ((Search d i req sched).panicked = true →
      i.headBlock = none ∧ headHolds (Search d i req sched).trace = 1) := by
  unfold Search
  cases hq : mostRecentHint d req with
  | error e =>
    refine ⟨fun _ => ⟨rfl, rfl⟩, ?_⟩
    intro h
    cases h
  | ok mr =>
    cases hh : i.headBlock with
    | none =>
      refine ⟨?_, fun _ => ⟨rfl, rfl⟩⟩
      intro h
      cases h
    | some head =>
      have h2 : lockEvents (searchHead d req head (searchInit d req mr)).trace =
          [Event.RLockHead, Event.RUnlockHead] := by
        rw [searchHead_lockEvents]; rfl
      cases ha : (searchHead d req head (searchInit d req mr)).anyErr with
      | some e =>
        simp only [ha]
        refine ⟨fun _ => ⟨?_, ?_⟩, ?_⟩
        · rw [headHolds_lockEvents, h2]; rfl
        · rw [blocksHolds_lockEvents, h2]; rfl
        · intro h; cases h
      | none =>
        have h4 := searchOthers_lockEvents d i req sched
          (searchHead d req head (searchInit d req mr))
        rw [h2] at h4
        cases hb : (searchOthers d i req sched
            (searchHead d req head (searchInit d req mr))).anyErr with
        | some e =>
          simp only [ha, hb]
          refine ⟨fun _ => ⟨?_, ?_⟩, ?_⟩
          · rw [headHolds_lockEvents, lockEvents_append, h4]; rfl
          · rw [blocksHolds_lockEvents, lockEvents_append, h4]; rfl
          · intro h; cases h
        | none =>
          simp only [ha, hb]
          refine ⟨fun _ => ⟨?_, ?_⟩, ?_⟩
          · rw [headHolds_lockEvents, lockEvents_append, h4]; rfl
          · rw [blocksHolds_lockEvents, lockEvents_append, h4]; rfl
          · intro h; cases h

theorem tagValuesSearch_lockEvents {DS : Type} (d : TagValuesDeps DS) (tagName : String)
    (maxBlocks : Int) (seg : Seg) (b : Option Block) (st : TagValuesState DS) :
    lockEvents (tagValuesSearch d tagName maxBlocks seg b st).1.trace = lockEvents st.trace := by
  unfold tagValuesSearch
  split
  · rfl
  · split
    · rfl
    · split
      · rfl
      · simp only []
        split
        · split <;> simp [lockEvents, Event.isLock]
        · simp [lockEvents, Event.isLock]

theorem tagValuesLoop_lockEvents {DS : Type} (d : TagValuesDeps DS) (tagName : String)
    (maxBlocks : Int) (kind : Nat → Seg) (what : String) (bs : List (Nat × Block))
    (st : TagValuesState DS) :
    lockEvents (tagValuesLoop d tagName maxBlocks kind what bs st).1.trace =
      lockEvents st.trace := by
  induction bs generalizing st with
  | nil => rfl
  | cons p rest ih =>
    obtain ⟨n, b⟩ := p
    unfold tagValuesLoop
    split
    · exact tagValuesSearch_lockEvents d tagName maxBlocks (kind n) (some b) st
    · rw [ih]
      exact tagValuesSearch_lockEvents d tagName maxBlocks (kind n) (some b) st

/-- Every execution of `SearchTagValues` leaves no read-hold on either lock,
also on an instance whose head block is nil. -/
theorem SearchTagValues_releases {DS : Type} (d : TagValuesDeps DS) (i : Instance) (ctx : Ctx)
    (tagName : String) (limit staleValueThreshold : Nat) :
    headHolds (SearchTagValues d i ctx tagName limit staleValueThreshold).trace = 0 ∧
    blocksHolds (SearchTagValues d i ctx tagName limit staleValueThreshold).trace = 0 := by
  rw [headHolds_lockEvents, blocksHolds_lockEvents]
  unfold SearchTagValues
  split
  · exact ⟨rfl, rfl⟩
  · simp only []
    split
    · simp only [lockEvents_append, tagValuesSearch_lockEvents]
      exact ⟨rfl, rfl⟩
    · simp only [lockEvents_append, tagValuesSearch_lockEvents]
      exact ⟨rfl, rfl⟩
    · split
      · simp only [lockEvents_append, tagValuesLoop_lockEvents, tagValuesSearch_lockEvents]
        exact ⟨rfl, rfl⟩
      · split
        · simp only [lockEvents_append, tagValuesLoop_lockEvents, tagValuesSearch_lockEvents]
          exact ⟨rfl, rfl⟩
        · simp only [lockEvents_append, tagValuesLoop_lockEvents, tagValuesSearch_lockEvents]
          exact ⟨rfl, rfl⟩

theorem tagsSearchBlock_lockEvents {SDS DS : Type} (d : TagsDeps SDS DS)
    (attributeScope : AttributeScope) (query : String) (seg : Seg) (b : Option Block)
    (st : TagsState SDS) :
    lockEvents (tagsSearchBlock d attributeScope query seg b st).1.trace =
      lockEvents st.trace := by
  unfold tagsSearchBlock
  split
  · rfl
  · split
    · rfl
    · split
      · simp only []
        split
        · split <;> simp [lockEvents, Event.isLock]
        · simp [lockEvents, Event.isLock]
      · simp [lockEvents, Event.isLock]

theorem tagsLoop_lockEvents {SDS DS : Type} (d : TagsDeps SDS DS)
    (attributeScope : AttributeScope) (query : String) (kind : Nat → Seg) (what : String)
    (bs : List (Nat × Block)) (st : TagsState SDS) :
    lockEvents (tagsLoop d attributeScope query kind what bs st).1.trace =
      lockEvents st.trace := by
  induction bs generalizing st with
  | nil => rfl
  | cons p rest ih =>
    obtain ⟨n, b⟩ := p
    unfold tagsLoop
    split
    · exact tagsSearchBlock_lockEvents d attributeScope query (kind n) (some b) st
    · rw [ih]
      exact tagsSearchBlock_lockEvents d attributeScope query (kind n) (some b) st

/-- Every execution of `SearchTagsV2` leaves no read-hold on either lock, also
on an instance whose head block is nil. -/
theorem SearchTagsV2_releases {SDS DS : Type} (d : TagsDeps SDS DS) (i : Instance) (ctx : Ctx)
    (req : SearchTagsRequest) :
    headHolds (SearchTagsV2 d i ctx req).trace = 0 ∧
    blocksHolds (SearchTagsV2 d i ctx req).trace = 0 := by
  rw [headHolds_lockEvents, blocksHolds_lockEvents]
  unfold SearchTagsV2
  split
  · exact ⟨rfl, rfl⟩
  · split
    · exact ⟨rfl, rfl⟩
    · split
      · exact ⟨rfl, rfl⟩
      · simp only []
        split
        · simp only [lockEvents_append, tagsSearchBlock_lockEvents]
          exact ⟨rfl, rfl⟩
        · simp only [lockEvents_append, tagsSearchBlock_lockEvents]
          exact ⟨rfl, rfl⟩
        · split
          · simp only [lockEvents_append, tagsLoop_lockEvents, tagsSearchBlock_lockEvents]
            exact ⟨rfl, rfl⟩
          · split
            · simp only [lockEvents_append, tagsLoop_lockEvents, tagsSearchBlock_lockEvents]
              exact ⟨rfl, rfl⟩
            · simp only [lockEvents_append, tagsLoop_lockEvents, tagsSearchBlock_lockEvents]
              exact ⟨rfl, rfl⟩

/-! ### Invariants that relate the shared state and the tasks -/

/-- A step at a position either changes nothing or steps one task of the
list in place. -/
theorem stepAt_split {S T : Type} (step : S → T → S × T) :
    ∀ (n : Nat) (s : S) (ts : List T),
      stepAt step n s ts = (s, ts) ∨
      ∃ a t b, ts = a ++ t :: b ∧
        stepAt step n s ts = ((step s t).1, a ++ (step s t).2 :: b) := by
  intro n s ts
  induction ts generalizing n with
  | nil => left; cases n <;> rfl
  | cons t ts ih =>
    cases n with
    | zero => right; exact ⟨[], t, ts, rfl, rfl⟩
    | succ n =>
      rcases ih n with h | ⟨a, u, b, hts, h⟩
      · left
        simp [stepAt, h]
      · right
        refine ⟨t :: a, u, b, by simp [hts], ?_⟩
        simp [stepAt, h]

theorem stepAt_rel {S T : Type} (step : S → T → S × T) (J : S → List T → Prop)
    (h : ∀ s a t b, J s (a ++ t :: b) → J (step s t).1 (a ++ (step s t).2 :: b))
    (n : Nat) (s : S) (ts : List T) (hJ : J s ts) :
    J (stepAt step n s ts).1 (stepAt step n s ts).2 := by
  rcases stepAt_split step n s ts with h1 | ⟨a, t, b, hts, h1⟩
  · rw [h1]; exact hJ
  · rw [h1]
    exact h s a t b (hts ▸ hJ)

theorem runSchedule_rel {S T : Type} (step : S → T → S × T) (J : S → List T → Prop)
    (h : ∀ s a t b, J s (a ++ t :: b) → J (step s t).1 (a ++ (step s t).2 :: b)) :
    ∀ (sched : List Nat) (s : S) (ts : List T), J s ts →
      J (runSchedule step sched s ts).1 (runSchedule step sched s ts).2 := by
  intro sched
  induction sched with
  | nil => intro s ts hJ; exact hJ
  | cons n sched ih =>
    intro s ts hJ
    exact ih _ _ (stepAt_rel step J h n s ts hJ)

theorem iterStep_rel {S T : Type} (step : S → T → S × T) (J : S → List T → Prop)
    (h : ∀ s a t b, J s (a ++ t :: b) → J (step s t).1 (a ++ (step s t).2 :: b))
    (a b : List T) :
    ∀ (k : Nat) (s : S) (t : T), J s (a ++ t :: b) →
      J (iterStep step k s t).1 (a ++ (iterStep step k s t).2 :: b) := by
  intro k
  induction k with
  | zero => intro s t hJ; exact hJ
  | succ k ih =>
    intro s t hJ
    exact ih _ _ (h s a t b hJ)

theorem waitAll_rel {S T : Type} (finish : S → T → S × T) (J : S → List T → Prop)
    (h : ∀ s a t b, J s (a ++ t :: b) → J (finish s t).1 (a ++ (finish s t).2 :: b)) :
    ∀ (ts a : List T) (s : S), J s (a ++ ts) →
      J (waitAll finish s ts).1 (a ++ (waitAll finish s ts).2) := by
  intro ts
  induction ts with
  | nil => intro a s hJ; exact hJ
  | cons t ts ih =>
    intro a s hJ
    have h1 := h s a t ts hJ
    have h2 := ih (a ++ [(finish s t).2]) (finish s t).1 (by simpa using h1)
    simpa [waitAll] using h2

theorem returnedSegs_append (a b : List Event) :
    returnedSegs (a ++ b) = returnedSegs a ++ returnedSegs b := by
  induction a with
  | nil => rfl
  | cons ev a ih =>
    have ih2 : returnedSegs (a.append b) = returnedSegs a ++ returnedSegs b := ih
    cases ev
    all_goals simp only [List.cons_append, returnedSegs]
    all_goals rw [ih2]

/-- What one step of a `search` closure does: nothing to the trace (the
closure has finished, or skips its block), or it calls the segment, or it
handles the segment's answer. -/
theorem searchStep_spec {C : Type} (d : SearchDeps C) (req : SearchRequest)
    (s : SearchShared C) (t : SearchTask) :
    ((searchStep d req s t).1.trace = s.trace ∧
      ((searchStep d req s t).2 = t ∨
        (searchStep d req s t).2 = { t with phase := SearchPhase.done })) ∨
    (t.phase = SearchPhase.pending ∧
      (searchStep d req s t).1.trace = s.trace ++ [Event.SearchBlock t.seg] ∧
      (searchStep d req s t).2 =
        { t with phase := (SearchPhase.running (callSearcher d req t.block s.canceled).1
            (callSearcher d req t.block s.canceled).2) }) ∨
    (∃ resp err extra, t.phase = SearchPhase.running resp err ∧
      (searchStep d req s t).2 = { t with phase := SearchPhase.done } ∧
      (searchStep d req s t).1.trace =
        s.trace ++ Event.SearchReturned t.seg resp err :: extra ∧
      returnedSegs extra = [] ∧
      ∀ seg r e, Event.SearchReturned seg r e ∉ extra) := by
  unfold searchStep
  split
  · rename_i hp
    unfold searchStart
    split
    · exact Or.inl ⟨rfl, Or.inr rfl⟩
    · exact Or.inr (Or.inl ⟨hp, rfl, rfl⟩)
  · rename_i resp err hp
    right; right
    unfold searchFinish
    split
    · exact ⟨resp, err, [], hp, rfl, rfl, rfl, by simp⟩
    · split
      · exact ⟨resp, err, [], hp, rfl, rfl, rfl, by simp⟩
      · split
        · rename_i e _ _
          exact ⟨resp, some e, [Event.StoreErr e], hp, rfl, by simp, rfl, by simp⟩
        · split
          · exact ⟨none, none, [], hp, rfl, rfl, rfl, by simp⟩
          · rename_i r
            by_cases hm : (mergeTraces d r.Traces s.combiner).2 = true
            · refine ⟨some r, none, [Event.Cancel], hp, rfl, ?_, rfl, ?_⟩
              · simp [hm]
              · simp
            · refine ⟨some r, none, [], hp, rfl, ?_, rfl, ?_⟩
              · simp [hm]
              · simp
  · exact Or.inl ⟨rfl, Or.inl rfl⟩

theorem seg_ne_of_nodup (a b : List SearchTask) (t u : SearchTask)
    (hn : ((a ++ t :: b).map fun x => x.seg).Nodup) (hu : u ∈ a ∨ u ∈ b) : u.seg ≠ t.seg := by
  simp only [List.map_append, List.map_cons] at hn
  rw [List.nodup_append] at hn
  obtain ⟨_, hb, hdis⟩ := hn
  rcases hu with hu | hu
  · intro heq
    exact hdis (List.mem_map_of_mem (fun x => x.seg) hu) (by simp [heq])
  · intro heq
    have := (List.nodup_cons.1 hb).1
    exact this (heq ▸ List.mem_map_of_mem (fun x => x.seg) hu)

theorem searchStep_rel {C : Type} (d : SearchDeps C) (i : Instance) (req : SearchRequest)
    (s : SearchShared C) (a : List SearchTask) (t : SearchTask) (b : List SearchTask)
    (hJ : SearchRel d i req s (a ++ t :: b)) :
    SearchRel d i req (searchStep d req s t).1 (a ++ (searchStep d req s t).2 :: b) := by
  obtain ⟨h1, h2, h3, h4, h5, h6⟩ := hJ
  have ht : t ∈ a ++ t :: b := by simp
  have hmem : ∀ (t2 u : SearchTask), u ∈ a ++ t2 :: b → u = t2 ∨ u ∈ a ∨ u ∈ b := by
    intro t2 u hu
    simp only [List.mem_append, List.mem_cons] at hu
    tauto
  have hold : ∀ u, u ∈ a ∨ u ∈ b → u ∈ a ++ t :: b := by
    intro u hu
    simp only [List.mem_append, List.mem_cons]
    tauto
  rcases searchStep_spec d req s t with ⟨htr, ht2⟩ | ⟨hp, htr, ht2⟩ |
    ⟨resp, err, extra, hp, ht2, htr, hex, hnot⟩
  · -- nothing is added to the trace
    have hseg : (searchStep d req s t).2.seg = t.seg := by
      rcases ht2 with h | h <;> rw [h]
    have hmap : ((a ++ (searchStep d req s t).2 :: b).map fun x => x.seg) =
        ((a ++ t :: b).map fun x => x.seg) := by
      simp [hseg]
    refine ⟨by rw [htr]; exact h1, ?_, by rw [hmap]; exact h3, by rw [htr]; exact h4,
      by rw [htr, hmap]; exact h5, ?_⟩
    · intro u hu hne
      rw [htr]
      rcases hmem _ u hu with rfl | hu
      · rcases ht2 with h | h
        · rw [h] at hne ⊢
          exact h2 t ht hne
        · rw [h] at hne
          exact absurd rfl hne
      · exact h2 u (hold u hu) hne
    · intro u hu
      rcases hmem _ u hu with rfl | hu
      · rcases ht2 with h | h
        · rw [h]; exact h6 t ht
        · rw [h]
          obtain ⟨k1, k2, _⟩ := h6 t ht
          exact ⟨k1, k2, fun _ _ hc => by cases hc⟩
      · exact h6 u (hold u hu)
  · -- the segment is called
    have hret : returnedSegs (searchStep d req s t).1.trace = returnedSegs s.trace := by
      rw [htr, returnedSegs_append]
      simp [returnedSegs]
    have hmap : ((a ++ (searchStep d req s t).2 :: b).map fun x => x.seg) =
        ((a ++ t :: b).map fun x => x.seg) := by
      simp [ht2]
    refine ⟨by rw [hret]; exact h1, ?_, by rw [hmap]; exact h3, ?_,
      by rw [hret, hmap]; exact h5, ?_⟩
    · intro u hu hne
      rw [hret]
      rcases hmem _ u hu with rfl | hu
      · rw [ht2]
        exact h2 t ht (by rw [hp]; intro hc; cases hc)
      · exact h2 u (hold u hu) hne
    · intro seg r e hm
      rw [htr] at hm
      rcases List.mem_append.1 hm with hm | hm
      · exact h4 seg r e hm
      · simp at hm
    · intro u hu
      rcases hmem _ u hu with rfl | hu
      · rw [ht2]
        obtain ⟨k1, k2, _⟩ := h6 t ht
        refine ⟨k1, k2, ?_⟩
        intro r e hc
        simp only [SearchPhase.running.injEq] at hc
        exact ⟨s.canceled, by rw [← hc.1, ← hc.2]⟩
      · exact h6 u (hold u hu)
  · -- the answer of the segment is handled
    have hret : returnedSegs (searchStep d req s t).1.trace =
        returnedSegs s.trace ++ [t.seg] := by
      rw [htr, returnedSegs_append]
      simp [returnedSegs, hex]
    have hmap : ((a ++ (searchStep d req s t).2 :: b).map fun x => x.seg) =
        ((a ++ t :: b).map fun x => x.seg) := by
      simp [ht2]
    have htn : t.seg ∉ returnedSegs s.trace :=
      h2 t ht (by rw [hp]; intro hc; cases hc)
    refine ⟨?_, ?_, by rw [hmap]; exact h3, ?_, ?_, ?_⟩
    · rw [hret]
      exact List.Nodup.append h1 (List.nodup_singleton _)
        (by intro x hx hx2; simp at hx2; exact htn (hx2 ▸ hx))
    · intro u hu hne
      rw [hret]
      rcases hmem _ u hu with rfl | hu
      · rw [ht2] at hne
        exact absurd rfl hne
      · intro hc
        rcases List.mem_append.1 hc with hc | hc
        · exact h2 u (hold u hu) hne hc
        · simp at hc
          exact seg_ne_of_nodup a b t u h3 hu hc
    · intro seg r e hm
      rw [htr] at hm
      rcases List.mem_append.1 hm with hm | hm
      · exact h4 seg r e hm
      · rcases List.mem_cons.1 hm with hm | hm
        · obtain ⟨k1, k2, k3⟩ := h6 t ht
          obtain ⟨c, hc⟩ := k3 resp err hp
          simp only [Event.SearchReturned.injEq] at hm
          obtain ⟨rfl, rfl, rfl⟩ := hm
          exact ⟨t.block, c, k1, k2, hc⟩
        · exact absurd hm (hnot seg r e)
    · intro seg hm
      rw [hret] at hm
      rw [hmap]
      rcases List.mem_append.1 hm with hm | hm
      · exact h5 seg hm
      · simp at hm
        right
        rw [hm]
        exact List.mem_map_of_mem (fun x => x.seg) ht
    · intro u hu
      rcases hmem _ u hu with rfl | hu
      · rw [ht2]
        obtain ⟨k1, k2, _⟩ := h6 t ht
        exact ⟨k1, k2, fun _ _ hc => by cases hc⟩
      · exact h6 u (hold u hu)

theorem SearchRel_lock {C : Type} (d : SearchDeps C) (i : Instance) (req : SearchRequest)
    (s : SearchShared C) (ts : List SearchTask) (ev : Event) (hl : ev.isLock = true)
    (hJ : SearchRel d i req s ts) :
    SearchRel d i req { s with trace := s.trace ++ [ev] } ts := by
  obtain ⟨h1, h2, h3, h4, h5, h6⟩ := hJ
  have hret : returnedSegs (s.trace ++ [ev]) = returnedSegs s.trace := by
    rw [returnedSegs_append]
    cases ev <;> simp [Event.isLock] at hl <;> simp [returnedSegs]
  refine ⟨by simpa [hret] using h1, ?_, h3, ?_, ?_, h6⟩
  · intro t ht hne
    simpa [hret] using h2 t ht hne
  · intro seg r e hm
    rcases List.mem_append.1 hm with hm | hm
    · exact h4 seg r e hm
    · simp at hm
      rw [← hm] at hl
      simp [Event.isLock] at hl
  · intro seg hm
    exact h5 seg (by simpa [hret] using hm)

/-- Moving from the head section to the fan-out: the invariant carries over to
the new closures, which are on other segments than the head block. -/
theorem SearchRel_switch {C : Type} (d : SearchDeps C) (i : Instance) (req : SearchRequest)
    (s : SearchShared C) (ts0 ts : List SearchTask) (hJ : SearchRel d i req s ts0)
    (h0 : ∀ t ∈ ts0, t.seg = Seg.head)
    (hn : (ts.map fun t => t.seg).Nodup)
    (hts : ∀ t ∈ ts, TaskOK d i req t ∧ t.seg ≠ Seg.head) :
    SearchRel d i req s ts := by
  obtain ⟨h1, _, _, h4, h5, _⟩ := hJ
  have hhead : ∀ seg ∈ returnedSegs s.trace, seg = Seg.head := by
    intro seg hm
    rcases h5 seg hm with h | h
    · exact h
    · obtain ⟨t, ht, rfl⟩ := List.mem_map.1 h
      exact h0 t ht
  refine ⟨h1, ?_, hn, h4, fun seg hm => Or.inl (hhead seg hm), fun t ht => (hts t ht).1⟩
  intro t ht _ hm
  exact (hts t ht).2 (hhead _ hm)

theorem searchTasks_ok {C : Type} (d : SearchDeps C) (i : Instance) (req : SearchRequest) :
    ((searchTasks i req).map fun t => t.seg).Nodup ∧
    ∀ t ∈ searchTasks i req, TaskOK d i req t ∧ t.seg ≠ Seg.head := by
  constructor
  · unfold searchTasks
    simp only [List.map_append, List.map_map]
    rw [List.nodup_append]
    refine ⟨?_, ?_, ?_⟩
    · have h : ((i.completingBlocks.enum.filter fun p => includeBlock p.2.Meta req).map
          Prod.fst).Nodup :=
        List.Nodup.sublist ((List.filter_sublist _).map Prod.fst)
          (List.nodup_enum_map_fst _)
      have h2 := List.Nodup.map (f := Seg.completing) (fun x y hxy => by cases hxy; rfl) h
      simpa [List.map_map, Function.comp_def] using h2
    · have h : ((i.completeBlocks.enum.filter fun p => includeBlock p.2.Meta req).map
          Prod.fst).Nodup :=
        List.Nodup.sublist ((List.filter_sublist _).map Prod.fst)
          (List.nodup_enum_map_fst _)
      have h2 := List.Nodup.map (f := Seg.complete) (fun x y hxy => by cases hxy; rfl) h
      simpa [List.map_map, Function.comp_def] using h2
    · intro seg h1 h2
      simp only [List.mem_map, Function.comp_apply] at h1 h2
      obtain ⟨p, _, rfl⟩ := h1
      obtain ⟨q, _, hq⟩ := h2
      cases hq
  · intro t ht
    unfold searchTasks at ht
    rcases List.mem_append.1 ht with ht | ht
    · obtain ⟨p, hp, rfl⟩ := List.mem_map.1 ht
      obtain ⟨hp1, hp2⟩ := List.mem_filter.1 hp
      refine ⟨⟨?_, hp2, fun _ _ hc => by cases hc⟩, by intro hc; cases hc⟩
      exact List.mem_enum_iff_getElem?.1 hp1
    · obtain ⟨p, hp, rfl⟩ := List.mem_map.1 ht
      obtain ⟨hp1, hp2⟩ := List.mem_filter.1 hp
      refine ⟨⟨?_, hp2, fun _ _ hc => by cases hc⟩, by intro hc; cases hc⟩
      simp only [segBlock]
      rw [List.mem_enum_iff_getElem?.1 hp1]
      rfl

theorem searchStep_seg {C : Type} (d : SearchDeps C) (req : SearchRequest)
    (s : SearchShared C) (t : SearchTask) : (searchStep d req s t).2.seg = t.seg := by
  rcases searchStep_spec d req s t with ⟨_, h | h⟩ | ⟨_, _, h⟩ | ⟨_, _, _, _, h, _⟩ <;> rw [h]

theorem iterStep_seg {C : Type} (d : SearchDeps C) (req : SearchRequest) :
    ∀ (k : Nat) (s : SearchShared C) (t : SearchTask),
      (iterStep (searchStep d req) k s t).2.seg = t.seg := by
  intro k
  induction k with
  | zero => intro s t; rfl
  | succ k ih =>
    intro s t
    exact (ih _ _).trans (searchStep_seg d req s t)

/-- Two steps take a `search` closure to its end. -/
theorem searchStep_twice_done {C : Type} (d : SearchDeps C) (req : SearchRequest)
    (s : SearchShared C) (t : SearchTask) :
    (iterStep (searchStep d req) 2 s t).2.phase = SearchPhase.done := by
  have hdone : ∀ (x : SearchShared C) (u : SearchTask), u.phase ≠ SearchPhase.pending →
      (searchStep d req x u).2.phase = SearchPhase.done := by
    intro x u hu
    cases hp : u.phase with
    | pending => exact absurd hp hu
    | running resp err =>
      simp only [searchStep, hp, searchFinish]
      split_ifs
      · rfl
      · rfl
      · cases err <;> cases resp <;> rfl
    | done => simp [searchStep, hp]
  simp only [iterStep]
  apply hdone
  cases hp : t.phase with
  | pending =>
    simp only [searchStep, hp, searchStart]
    split_ifs <;> simp
  | running resp err =>
    rw [hdone s t (by rw [hp]; simp)]
    simp
  | done =>
    rw [hdone s t (by rw [hp]; simp)]
    simp

theorem searchHead_rel {C : Type} (d : SearchDeps C) (i : Instance) (req : SearchRequest)
    (head : Block) (mr : Bool) (hh : i.headBlock = some head) :
    SearchRel d i req (searchHead d req head (searchInit d req mr)) (searchTasks i req) := by
  have hinit : ∀ ts : List SearchTask, (ts.map fun t => t.seg).Nodup →
      (∀ t ∈ ts, TaskOK d i req t) → SearchRel d i req (searchInit d req mr) ts := by
    intro ts hn hok
    refine ⟨by simp [searchInit, returnedSegs], ?_, hn, ?_, ?_, hok⟩
    · intro t _ _
      simp [searchInit, returnedSegs]
    · intro seg r e hm
      simp [searchInit] at hm
    · intro seg hm
      simp [searchInit, returnedSegs] at hm
  have hok := searchTasks_ok d i req
  unfold searchHead
  apply SearchRel_lock d i req _ _ Event.RUnlockHead rfl
  by_cases hi : includeBlock head.Meta req = true
  · simp only [hi, if_true]
    have h0 : SearchRel d i req (searchInit d req mr)
        ([] ++ ({ seg := Seg.head, block := head, phase := SearchPhase.pending } : SearchTask)
          :: []) := by
      apply hinit
      · simp
      · intro t ht
        simp at ht
        rw [ht]
        exact ⟨hh, hi, fun _ _ hc => by cases hc⟩
    have h1 := iterStep_rel (searchStep d req) (SearchRel d i req)
      (fun s a t b hJ => searchStep_rel d i req s a t b hJ) [] [] 2 _ _ h0
    refine SearchRel_switch d i req _ _ _ h1 ?_ hok.1 hok.2
    intro t ht
    simp at ht
    rw [ht]
    exact iterStep_seg d req 2 _ _
  · simp only [hi]
    exact hinit _ hok.1 (fun t ht => (hok.2 t ht).1)

theorem searchOthers_rel {C : Type} (d : SearchDeps C) (i : Instance) (req : SearchRequest)
    (sched : List Nat) (s : SearchShared C) (hJ : SearchRel d i req s (searchTasks i req)) :
    ∃ ts, SearchRel d i req (searchOthers d i req sched s) ts := by
  unfold searchOthers
  have h0 := SearchRel_lock d i req s _ Event.RLockBlocks rfl hJ
  have h1 := runSchedule_rel (searchStep d req) (SearchRel d i req)
    (fun s a t b hJ => searchStep_rel d i req s a t b hJ) sched _ _ h0
  have h2 := waitAll_rel (iterStep (searchStep d req) 2) (SearchRel d i req)
    (fun s a t b hJ => iterStep_rel (searchStep d req) (SearchRel d i req)
      (fun s a t b hJ => searchStep_rel d i req s a t b hJ) a b 2 s t hJ)
    _ [] _ (by simpa using h1)
  exact ⟨_, h2⟩

/-- In every execution of `Search`, no segment's search returns twice, and
every recorded return is the answer of the searcher of a segment of the
instance that `includeBlock` keeps. -/
theorem Search_returns {C : Type} (d : SearchDeps C) (i : Instance) (req : SearchRequest)
    (sched : List Nat) :
    (returnedSegs (Search d i req sched).trace).Nodup ∧
    ∀ seg resp err, Event.SearchReturned seg resp err ∈ (Search d i req sched).trace →
      ValidReturn d i req seg resp err := by
  unfold Search
  cases hq : mostRecentHint d req with
  | error e => exact ⟨by simp [returnedSegs], by simp⟩
  | ok mr =>
    cases hh : i.headBlock with
    | none => exact ⟨by simp [returnedSegs], by simp⟩
    | some head =>
      have h2 := searchHead_rel d i req head mr hh
      cases ha : (searchHead d req head (searchInit d req mr)).anyErr with
      | some e =>
        simp only [ha]
        exact ⟨h2.1, h2.2.2.2.1⟩
      | none =>
        obtain ⟨ts, h4⟩ := searchOthers_rel d i req sched _ h2
        have h5 := SearchRel_lock d i req _ _ Event.RUnlockBlocks rfl h4
        cases hb : (searchOthers d i req sched
            (searchHead d req head (searchInit d req mr))).anyErr with
        | some e =>
          simp only [ha, hb]
          exact ⟨h5.1, h5.2.2.2.1⟩
        | none =>
          simp only [ha, hb]
          exact ⟨h5.1, h5.2.2.2.1⟩

/-! ### Every goroutine of `SearchTagValuesV2` reaches `wg.Done()` -/

theorem v2Step_rank {DV : Type} (d : TagValuesV2Deps DV) (env : V2Env)
    (s : V2Shared DV) (t : V2Task) :
    (v2Step d env s t).2.phase.rank ≤ t.phase.rank - 1 := by
  cases hp : t.phase with
  | pending =>
    simp only [v2Step, hp]
    split_ifs <;> simp [V2Phase.rank]
  | counting =>
    simp only [v2Step, hp]
    split_ifs <;> simp [V2Phase.rank]
  | ready =>
    simp only [v2Step, hp]
    cases t.cache with
    | none => simp [V2Phase.rank]
    | some lb =>
      simp only []
      split_ifs
      · cases d.Unmarshal (lb.GetDiskCache t.files env.cacheKey).1 <;> simp [V2Phase.rank]
      · simp [V2Phase.rank]
  | live feed =>
    cases feed <;> simp [v2Step, hp, V2Phase.rank]
  | missed =>
    simp only [v2Step, hp]
    cases (Feed.run d.Collect (performFeed d env t.block)
      (d.NewDistinctValue env.limit env.req.MaxTagValues env.req.StaleValueThreshold)).2.2 <;>
      simp [V2Phase.rank]
  | found values =>
    simp only [v2Step, hp]
    cases d.Marshal values <;> cases t.cache <;> (simp only []; try split_ifs) <;>
      simp [V2Phase.rank]
  | feeding rest =>
    cases rest with
    | nil => simp [v2Step, hp, V2Phase.rank]
    | cons v rest =>
      simp only [v2Step, hp]
      split_ifs <;> simp [V2Phase.rank]
  | returned err =>
    cases err <;> simp [v2Step, hp, V2Phase.rank]
  | done =>
    simp only [v2Step, hp]
    split_ifs <;> simp [V2Phase.rank, hp]
  | exited =>
    simp [v2Step, hp, V2Phase.rank]

theorem v2Step_stepsLeft {DV : Type} (d : TagValuesV2Deps DV) (env : V2Env)
    (s : V2Shared DV) (t : V2Task) (hr : t.phase.rank = 0) (hd : t.isDone = false) :
    (v2Step d env s t).2.stepsLeft < t.stepsLeft := by
  cases hp : t.phase with
  | pending => rw [hp] at hr; simp [V2Phase.rank] at hr
  | counting => rw [hp] at hr; simp [V2Phase.rank] at hr
  | ready => rw [hp] at hr; simp [V2Phase.rank] at hr
  | missed => rw [hp] at hr; simp [V2Phase.rank] at hr
  | found values => rw [hp] at hr; simp [V2Phase.rank] at hr
  | live feed =>
    cases feed with
    | done bytes err => simp [v2Step, hp, V2Task.stepsLeft, Feed.depth]
    | offer v next =>
      simp only [v2Step, hp, V2Task.stepsLeft, Feed.depth]
      cases (d.Collect s.valueCollector v).2 <;> omega
  | feeding rest =>
    cases rest with
    | nil => simp [v2Step, hp, V2Task.stepsLeft]
    | cons v rest =>
      simp only [v2Step, hp, V2Task.stepsLeft]
      split_ifs <;> simp
  | returned err =>
    cases err <;> simp [v2Step, hp, V2Task.stepsLeft]
  | done => simp [V2Task.isDone, hp] at hd
  | exited => simp [V2Task.isDone, hp] at hd

theorem iterUntil_rank {DV : Type} (d : TagValuesV2Deps DV) (env : V2Env) :
    ∀ (k : Nat) (s : V2Shared DV) (t : V2Task),
      (iterUntil V2Task.isDone (v2Step d env) k s t).2.phase.rank ≤ t.phase.rank - k := by
  intro k
  induction k with
  | zero => intro s t; simp [iterUntil]
  | succ k ih =>
    intro s t
    unfold iterUntil
    split
    · rename_i hdone
      have : t.phase.rank = 0 := by
        cases hp : t.phase <;> simp [V2Task.isDone, hp] at hdone <;> rfl
      simp [this]
    · have h1 := ih (v2Step d env s t).1 (v2Step d env s t).2
      have h2 := v2Step_rank d env s t
      omega

theorem iterUntil_done {DV : Type} (d : TagValuesV2Deps DV) (env : V2Env) :
    ∀ (k : Nat) (s : V2Shared DV) (t : V2Task), t.phase.rank = 0 → t.stepsLeft ≤ k →
      (iterUntil V2Task.isDone (v2Step d env) k s t).2.isDone = true := by
  intro k
  induction k with
  | zero =>
    intro s t hr hk
    cases hp : t.phase <;>
      simp [iterUntil, V2Task.isDone, V2Task.stepsLeft, V2Phase.rank, hp] at hr hk ⊢
  | succ k ih =>
    intro s t hr hk
    unfold iterUntil
    split
    · assumption
    · rename_i hnd
      have hnd2 : t.isDone = false := by simpa using hnd
      have h1 := v2Step_stepsLeft d env s t hr hnd2
      have h2 := v2Step_rank d env s t
      exact ih _ _ (by omega) (by omega)

/-- Run by `v2Finish`, a goroutine has called `wg.Done()`. -/
theorem v2Finish_done {DV : Type} (d : TagValuesV2Deps DV) (env : V2Env)
    (s : V2Shared DV) (t : V2Task) : (v2Finish d env s t).2.isDone = true := by
  unfold v2Finish
  apply iterUntil_done d env
  · have h := iterUntil_rank d env 5 s t
    have h5 : t.phase.rank ≤ 5 := by cases t.phase <;> simp [V2Phase.rank]
    omega
  · exact Nat.le_refl _

theorem waitAll_all {S T : Type} (finish : S → T → S × T) (Q : T → Prop)
    (h : ∀ s t, Q (finish s t).2) :
    ∀ (ts : List T) (s : S), ∀ t ∈ (waitAll finish s ts).2, Q t := by
  intro ts
  induction ts with
  | nil => intro s t ht; simp [waitAll] at ht
  | cons u ts ih =>
    intro s t ht
    simp only [waitAll, List.mem_cons] at ht
    rcases ht with rfl | ht
    · exact h s u
    · exact ih _ t ht

/-- When `wg.Wait()` returns in `SearchTagValuesV2`, every goroutine has
called `wg.Done()`. -/
theorem v2Run_done {DV : Type} (d : TagValuesV2Deps DV) (env : V2Env) (i : Instance)
    (pre : Nat) (sched : List Nat) :
    ∀ t ∈ (v2Run d env i pre sched).2, t.isDone = true := by
  unfold v2Run
  exact waitAll_all (v2Finish d env) (fun t => t.isDone = true)
    (fun s t => v2Finish_done d env s t) _ _

/-! ### A nil head block in `SearchTagValuesV2` -/

theorem iterUntil_rel {S T : Type} (stop : T → Bool) (step : S → T → S × T)
    (J : S → List T → Prop)
    (h : ∀ s a t b, J s (a ++ t :: b) → J (step s t).1 (a ++ (step s t).2 :: b))
    (a b : List T) :
    ∀ (k : Nat) (s : S) (t : T), J s (a ++ t :: b) →
      J (iterUntil stop step k s t).1 (a ++ (iterUntil stop step k s t).2 :: b) := by
  intro k
  induction k with
  | zero => intro s t hJ; exact hJ
  | succ k ih =>
    intro s t hJ
    unfold iterUntil
    split
    · exact hJ
    · exact ih _ _ (h s a t b hJ)

/-- An invariant of the shared state that every step of a task with property
`Q` keeps, when steps keep `Q`, holds along a list of tasks that all have
`Q`. -/
theorem rel_of_task_inv {S T : Type} (step : S → T → S × T) (P : S → Prop) (Q : T → Prop)
    (h : ∀ s t, P s → Q t → P (step s t).1 ∧ Q (step s t).2)
    (s : S) (a : List T) (t : T) (b : List T)
    (hJ : P s ∧ ∀ u ∈ a ++ t :: b, Q u) :
    P (step s t).1 ∧ ∀ u ∈ a ++ (step s t).2 :: b, Q u := by
  obtain ⟨hP, hQ⟩ := hJ
  have ht := h s t hP (hQ t (by simp))
  refine ⟨ht.1, ?_⟩
  intro u hu
  simp only [List.mem_append, List.mem_cons] at hu
  rcases hu with hu | rfl | hu
  · exact hQ u (by simp [hu])
  · exact ht.2
  · exact hQ u (by simp [hu])

theorem v2Step_seg {DV : Type} (d : TagValuesV2Deps DV) (env : V2Env)
    (s : V2Shared DV) (t : V2Task) : (v2Step d env s t).2.seg = t.seg := by
  cases hp : t.phase with
  | pending => simp only [v2Step, hp]; split_ifs <;> rfl
  | counting => simp only [v2Step, hp]; split_ifs <;> rfl
  | ready =>
    simp only [v2Step, hp]
    cases t.cache with
    | none => rfl
    | some lb =>
      simp only []
      split_ifs
      · cases d.Unmarshal (lb.GetDiskCache t.files env.cacheKey).1 <;> rfl
      · rfl
  | live feed => cases feed <;> simp [v2Step, hp]
  | missed =>
    simp only [v2Step, hp]
    cases (Feed.run d.Collect (performFeed d env t.block)
      (d.NewDistinctValue env.limit env.req.MaxTagValues env.req.StaleValueThreshold)).2.2 <;>
      rfl
  | found values =>
    simp only [v2Step, hp]
    cases d.Marshal values <;> cases t.cache <;> (simp only []; try split_ifs) <;> rfl
  | feeding rest => cases rest <;> simp [v2Step, hp]
  | returned err => cases err <;> simp [v2Step, hp]
  | done => simp only [v2Step, hp]; split_ifs <;> rfl
  | exited => simp [v2Step, hp]

theorem v2Step_not_head {DV : Type} (d : TagValuesV2Deps DV) (env : V2Env)
    (s : V2Shared DV) (t : V2Task) (hseg : t.seg ≠ Seg.head) :
    lockEvents (v2Step d env s t).1.trace = lockEvents s.trace ∧
    (v2Step d env s t).2.seg ≠ Seg.head := by
  refine ⟨?_, by rw [v2Step_seg]; exact hseg⟩
  cases hp : t.phase with
  | pending => simp only [v2Step, hp]; split_ifs <;> rfl
  | counting => simp only [v2Step, hp]; split_ifs <;> rfl
  | ready =>
    simp only [v2Step, hp]
    cases t.cache with
    | none => simp [lockEvents, Event.isLock]
    | some lb =>
      simp only []
      split_ifs
      · cases d.Unmarshal (lb.GetDiskCache t.files env.cacheKey).1 <;>
          simp [lockEvents, Event.isLock]
      · simp [lockEvents, Event.isLock]
  | live feed => cases feed <;> simp [v2Step, hp, lockEvents, Event.isLock]
  | missed =>
    simp only [v2Step, hp]
    cases (Feed.run d.Collect (performFeed d env t.block)
      (d.NewDistinctValue env.limit env.req.MaxTagValues env.req.StaleValueThreshold)).2.2 <;>
      simp [lockEvents, Event.isLock]
  | found values =>
    simp only [v2Step, hp]
    cases d.Marshal values <;> cases t.cache <;> (simp only []; try split_ifs) <;>
      simp [lockEvents, Event.isLock]
  | feeding rest => cases rest <;> simp [v2Step, hp]
  | returned err => cases err <;> simp [v2Step, hp, lockEvents, Event.isLock]
  | done => simp [v2Step, hp, hseg]
  | exited => simp [v2Step, hp]

theorem runSchedule_nil {S T : Type} (step : S → T → S × T) :
    ∀ (sched : List Nat) (s : S), runSchedule step sched s [] = (s, []) := by
  intro sched
  induction sched with
  | nil => intro s; rfl
  | cons n sched ih =>
    intro s
    simp only [runSchedule, stepAt]
    exact ih s

theorem v2Tasks_not_head (i : Instance) : ∀ t ∈ v2Tasks i, t.seg ≠ Seg.head := by
  intro t ht
  unfold v2Tasks at ht
  rcases List.mem_append.1 ht with ht | ht
  · obtain ⟨p, _, rfl⟩ := List.mem_map.1 ht
    intro hc; cases hc
  · obtain ⟨p, _, rfl⟩ := List.mem_map.1 ht
    intro hc; cases hc

theorem v2Step_noHead {DV : Type} (d : TagValuesV2Deps DV) (env : V2Env) (L : List Event)
    (s : V2Shared DV) (a : List V2Task) (t : V2Task) (b : List V2Task)
    (hJ : NoHeadRel L s (a ++ t :: b)) :
    NoHeadRel L (v2Step d env s t).1 (a ++ (v2Step d env s t).2 :: b) :=
  rel_of_task_inv (v2Step d env) (fun x => lockEvents x.trace = L)
    (fun u => u.seg ≠ Seg.head)
    (fun x u hx hu => ⟨(v2Step_not_head d env x u hu).1.trans hx,
      (v2Step_not_head d env x u hu).2⟩) s a t b hJ

theorem v2Finish_noHead {DV : Type} (d : TagValuesV2Deps DV) (env : V2Env) (L : List Event)
    (s : V2Shared DV) (a : List V2Task) (t : V2Task) (b : List V2Task)
    (hJ : NoHeadRel L s (a ++ t :: b)) :
    NoHeadRel L (v2Finish d env s t).1 (a ++ (v2Finish d env s t).2 :: b) := by
  unfold v2Finish
  exact iterUntil_rel V2Task.isDone (v2Step d env) (NoHeadRel L)
    (fun s a t b hJ => v2Step_noHead d env L s a t b hJ) a b _ _ _
    (iterUntil_rel V2Task.isDone (v2Step d env) (NoHeadRel L)
      (fun s a t b hJ => v2Step_noHead d env L s a t b hJ) a b 5 s t hJ)

theorem v2Run_noHead {DV : Type} (d : TagValuesV2Deps DV) (env : V2Env) (i : Instance)
    (pre : Nat) (sched : List Nat) (hh : i.headBlock = none) :
    NoHeadRel [Event.RLockHead, Event.RLockBlocks] (v2Run d env i pre sched).1
      (v2Run d env i pre sched).2 := by
  unfold v2Run
  simp only [v2HeadTasks, hh, runSchedule_nil, List.nil_append]
  have h1 := runSchedule_rel (v2Step d env) (NoHeadRel [Event.RLockHead, Event.RLockBlocks])
    (fun s a t b hJ => v2Step_noHead d env _ s a t b hJ) sched
    { v2Init d env with trace := (v2Init d env).trace ++ [Event.RLockBlocks] }
    (v2Tasks i) ⟨rfl, v2Tasks_not_head i⟩
  have h2 := waitAll_rel (v2Finish d env) (NoHeadRel [Event.RLockHead, Event.RLockBlocks])
    (fun s a t b hJ => v2Finish_noHead d env _ s a t b hJ) _ [] _ (by simpa using h1)
  simpa using h2

theorem v2After_noHead {DV : Type} (d : TagValuesV2Deps DV) (env : V2Env)
    (s : V2Shared DV) (ts : List V2Task) (hts : ∀ u ∈ ts, u.seg ≠ Seg.head) :
    lockEvents (v2After d env s ts) = [] := by
  unfold v2After
  have h := waitAll_rel (v2Step d env) (NoHeadRel [])
    (fun s a t b hJ => v2Step_noHead d env _ s a t b hJ) ts [] { s with trace := [] }
    ⟨rfl, by simpa using hts⟩
  exact h.1

/-- With a nil head block, whatever the interleaving, `SearchTagValuesV2`
either returns before the locks or leaves exactly these lock operations
behind: `headBlockMtx` is acquired and never released. -/
theorem SearchTagValuesV2_nil_head {DV : Type} (d : TagValuesV2Deps DV) (i : Instance)
    (ctx : Ctx) (req : SearchTagValuesRequest) (pre : Nat) (sched : List Nat)
    (hh : i.headBlock = none) :
    (SearchTagValuesV2 d i ctx req pre sched).trace = [] ∨
    lockEvents ((SearchTagValuesV2 d i ctx req pre sched).trace ++
        (SearchTagValuesV2 d i ctx req pre sched).after) =
      [Event.RLockHead, Event.RLockBlocks, Event.RUnlockBlocks] := by
  unfold SearchTagValuesV2
  split
  · left; rfl
  · split
    · left; rfl
    · split
      · left; rfl
      · right
        simp only []
        split
        · rw [lockEvents_append, lockEvents_append, (v2Run_noHead d _ i pre sched hh).1,
            v2After_noHead d _ _ _ (v2Run_noHead d _ i pre sched hh).2]
          rfl
        · rw [lockEvents_append, lockEvents_append, (v2Run_noHead d _ i pre sched hh).1,
            v2After_noHead d _ _ _ (v2Run_noHead d _ i pre sched hh).2]
          rfl

/-! ### Segments that `Search` skips -/

theorem searchedSegs_append (a b : List Event) :
    searchedSegs (a ++ b) = searchedSegs a ++ searchedSegs b := by
  induction a with
  | nil => rfl
  | cons ev a ih =>
    have ih2 : searchedSegs (a.append b) = searchedSegs a ++ searchedSegs b := ih
    cases ev
    all_goals simp only [List.cons_append, searchedSegs]
    all_goals rw [ih2]

/-- One step of a `search` closure calls no searcher but that of its own
segment. -/
theorem searchStep_searched {C : Type} (d : SearchDeps C) (req : SearchRequest)
    (s : SearchShared C) (t : SearchTask) :
    searchedSegs (searchStep d req s t).1.trace = searchedSegs s.trace ∨
    searchedSegs (searchStep d req s t).1.trace = searchedSegs s.trace ++ [t.seg] := by
  cases hp : t.phase with
  | pending =>
    simp only [searchStep, hp, searchStart]
    split_ifs
    · left; rfl
    · right; simp [searchedSegs_append, searchedSegs]
  | running resp err =>
    left
    simp only [searchStep, hp, searchFinish]
    split_ifs
    · simp [searchedSegs_append, searchedSegs]
    · simp [searchedSegs_append, searchedSegs]
    · cases err with
      | some e => simp [searchedSegs_append, searchedSegs]
      | none =>
        cases resp with
        | none => simp [searchedSegs_append, searchedSegs]
        | some r =>
          simp only []
          split_ifs <;> simp [searchedSegs_append, searchedSegs]
  | done => left; simp [searchStep, hp]

theorem searchStep_taskOK {C : Type} (d : SearchDeps C) (i : Instance) (req : SearchRequest)
    (s : SearchShared C) (t : SearchTask) (ht : TaskOK d i req t) :
    TaskOK d i req (searchStep d req s t).2 := by
  obtain ⟨h1, h2, h3⟩ := ht
  rcases searchStep_spec d req s t with ⟨_, h | h⟩ | ⟨_, _, h⟩ | ⟨_, _, _, _, h, _⟩
  · rw [h]; exact ⟨h1, h2, h3⟩
  · rw [h]; exact ⟨h1, h2, fun _ _ hc => by cases hc⟩
  · rw [h]
    refine ⟨h1, h2, ?_⟩
    intro resp err hc
    simp only [SearchPhase.running.injEq] at hc
    exact ⟨s.canceled, Prod.ext hc.1 hc.2⟩
  · rw [h]; exact ⟨h1, h2, fun _ _ hc => by cases hc⟩

theorem searchStep_kept {C : Type} (d : SearchDeps C) (i : Instance) (req : SearchRequest)
    (s : SearchShared C) (a : List SearchTask) (t : SearchTask) (b : List SearchTask)
    (hJ : KeptRel d i req s (a ++ t :: b)) :
    KeptRel d i req (searchStep d req s t).1 (a ++ (searchStep d req s t).2 :: b) :=
  rel_of_task_inv (searchStep d req) (fun x => ∀ seg ∈ searchedSegs x.trace, Kept i req seg)
    (TaskOK d i req)
    (fun x u hx hu => by
      refine ⟨?_, searchStep_taskOK d i req x u hu⟩
      intro seg hseg
      rcases searchStep_searched d req x u with h | h
      · rw [h] at hseg; exact hx seg hseg
      · rw [h] at hseg
        rcases List.mem_append.1 hseg with hm | hm
        · exact hx seg hm
        · simp only [List.mem_singleton] at hm
          rw [hm]
          exact ⟨u.block, hu.1, hu.2.1⟩) s a t b hJ

theorem KeptRel_lock {C : Type} (d : SearchDeps C) (i : Instance) (req : SearchRequest)
    (s : SearchShared C) (ts us : List SearchTask) (ev : Event) (hl : ev.isLock = true)
    (hJ : KeptRel d i req s ts) (hus : ∀ u ∈ us, TaskOK d i req u) :
    KeptRel d i req { s with trace := s.trace ++ [ev] } us := by
  refine ⟨?_, hus⟩
  intro seg hseg
  apply hJ.1 seg
  cases ev <;> simp [Event.isLock] at hl <;>
    simpa [searchedSegs_append, searchedSegs] using hseg

theorem searchHead_kept {C : Type} (d : SearchDeps C) (i : Instance) (req : SearchRequest)
    (head : Block) (mr : Bool) (hh : i.headBlock = some head) :
    KeptRel d i req (searchHead d req head (searchInit d req mr)) (searchTasks i req) := by
  have hok := fun t ht => ((searchTasks_ok d i req).2 t ht).1
  have hinit : ∀ ts : List SearchTask, (∀ t ∈ ts, TaskOK d i req t) →
      KeptRel d i req (searchInit d req mr) ts := by
    intro ts hts
    exact ⟨by simp [searchInit, searchedSegs], hts⟩
  unfold searchHead
  by_cases hi : includeBlock head.Meta req = true
  · simp only [hi, if_true]
    have h0 : KeptRel d i req (searchInit d req mr)
        ([] ++ ({ seg := Seg.head, block := head, phase := SearchPhase.pending } : SearchTask)
          :: []) := by
      apply hinit
      intro t ht
      simp at ht
      rw [ht]
      exact ⟨hh, hi, fun _ _ hc => by cases hc⟩
    have h1 := iterStep_rel (searchStep d req) (KeptRel d i req)
      (fun s a t b hJ => searchStep_kept d i req s a t b hJ) [] [] 2 _ _ h0
    exact KeptRel_lock d i req _ _ _ Event.RUnlockHead rfl h1 hok
  · simp only [hi]
    exact KeptRel_lock d i req _ _ _ Event.RUnlockHead rfl (hinit _ hok) hok

theorem searchOthers_kept {C : Type} (d : SearchDeps C) (i : Instance) (req : SearchRequest)
    (sched : List Nat) (s : SearchShared C) (hJ : KeptRel d i req s (searchTasks i req)) :
    ∀ seg ∈ searchedSegs (searchOthers d i req sched s).trace, Kept i req seg := by
  unfold searchOthers
  have h0 := KeptRel_lock d i req s _ _ Event.RLockBlocks rfl hJ hJ.2
  have h1 := runSchedule_rel (searchStep d req) (KeptRel d i req)
    (fun s a t b hJ => searchStep_kept d i req s a t b hJ) sched _ _ h0
  have h2 := waitAll_rel (iterStep (searchStep d req) 2) (KeptRel d i req)
    (fun s a t b hJ => iterStep_rel (searchStep d req) (KeptRel d i req)
      (fun s a t b hJ => searchStep_kept d i req s a t b hJ) a b 2 s t hJ)
    _ [] _ (by simpa using h1)
  exact h2.1

/-- In every execution of `Search`, every searcher that is called is that of
a segment of the instance that `includeBlock` keeps. -/
theorem Search_searched {C : Type} (d : SearchDeps C) (i : Instance) (req : SearchRequest)
    (sched : List Nat) :
    ∀ seg ∈ searchedSegs (Search d i req sched).trace, Kept i req seg := by
  unfold Search
  cases hq : mostRecentHint d req with
  | error e => simp [searchedSegs]
  | ok mr =>
    cases hh : i.headBlock with
    | none => simp [searchedSegs]
    | some head =>
      have h2 := searchHead_kept d i req head mr hh
      cases ha : (searchHead d req head (searchInit d req mr)).anyErr with
      | some e =>
        simp only [ha]
        exact h2.1
      | none =>
        have h4 := searchOthers_kept d i req sched _ h2
        cases hb : (searchOthers d i req sched
            (searchHead d req head (searchInit d req mr))).anyErr with
        | some e =>
          simp only [ha, hb]
          intro seg hseg
          apply h4 seg
          simpa [searchedSegs_append, searchedSegs] using hseg
        | none =>
          simp only [ha, hb]
          intro seg hseg
          apply h4 seg
          simpa [searchedSegs_append, searchedSegs] using hseg

theorem mem_returnedSegs (tr : List Event) (seg : Seg) (h : seg ∈ returnedSegs tr) :
    ∃ resp err, Event.SearchReturned seg resp err ∈ tr := by
  induction tr with
  | nil => simp [returnedSegs] at h
  | cons ev tr ih =>
    cases ev
    case SearchReturned sg resp err =>
      simp only [returnedSegs, List.mem_cons] at h
      rcases h with h | h
      · exact ⟨resp, err, by rw [h]; simp⟩
      · obtain ⟨r, e, hm⟩ := ih h
        exact ⟨r, e, List.mem_cons_of_mem _ hm⟩
    all_goals
      simp only [returnedSegs] at h
      obtain ⟨r, e, hm⟩ := ih h
      exact ⟨r, e, List.mem_cons_of_mem _ hm⟩

/-- When `includeBlock` keeps no completing and no complete block, `Search`
launches no goroutine. -/
theorem searchTasks_nil (i : Instance) (req : SearchRequest)
    (h : ∀ seg b, segBlock i seg = some b → includeBlock b.Meta req = false) :
    searchTasks i req = [] := by
  unfold searchTasks
  have h1 : (i.completingBlocks.enum.filter fun p => includeBlock p.2.Meta req) = [] := by
    rw [List.filter_eq_nil_iff]
    intro p hp
    have := h (Seg.completing p.1) p.2 (List.mem_enum_iff_getElem?.1 hp)
    simp [this]
  have h2 : (i.completeBlocks.enum.filter fun p => includeBlock p.2.Meta req) = [] := by
    rw [List.filter_eq_nil_iff]
    intro p hp
    have := h (Seg.complete p.1) p.2.toBlock
      (by simp only [segBlock]; rw [List.mem_enum_iff_getElem?.1 hp]; rfl)
    simp [this]
  rw [h1, h2]
  rfl

/-! ### A cache hit in `SearchTagValuesV2` -/

theorem v2Step_hit {DV : Type} (d : TagValuesV2Deps DV) (env : V2Env) (n : Nat)
    (s : V2Shared DV) (t : V2Task)
    (hP : Seg.complete n ∉ searchedSegs s.trace) (hQ : HitTask env n t) :
    Seg.complete n ∉ searchedSegs (v2Step d env s t).1.trace ∧
    HitTask env n (v2Step d env s t).2 := by
  have keep : ∀ u : V2Task, u.seg = t.seg → u.cache = t.cache → u.files = t.files →
      u.phase ≠ V2Phase.missed → (∀ vs, u.phase ≠ V2Phase.found vs) →
      (∀ f, u.phase ≠ V2Phase.live f) → HitTask env n u := by
    intro u e1 e2 e3 h1 h2 h3 hseg
    rw [e1] at hseg
    rw [e2, e3]
    exact ⟨(hQ hseg).1, h1, h2, h3⟩
  have away : t.seg ≠ Seg.complete n → ∀ u : V2Task, u.seg = t.seg → HitTask env n u := by
    intro hne u hu hseg
    rw [hu] at hseg
    exact absurd hseg hne
  cases hp : t.phase with
  | pending =>
    simp only [v2Step, hp]
    split_ifs
    · exact ⟨hP, keep _ rfl rfl rfl (by simp) (by simp) (by simp)⟩
    · exact ⟨hP, keep _ rfl rfl rfl (by simp) (by simp) (by simp)⟩
  | counting =>
    simp only [v2Step, hp]
    split_ifs
    · exact ⟨hP, keep _ rfl rfl rfl (by simp) (by simp) (by simp)⟩
    · exact ⟨hP, keep _ rfl rfl rfl (by simp) (by simp) (by simp)⟩
    · exact ⟨hP, keep _ rfl rfl rfl (by simp) (by simp) (by simp)⟩
  | ready =>
    simp only [v2Step, hp]
    cases hc : t.cache with
    | none =>
      have hne : t.seg ≠ Seg.complete n := by
        intro hseg
        obtain ⟨⟨lb, h1, _⟩, _⟩ := hQ hseg
        rw [hc] at h1
        cases h1
      refine ⟨?_, away hne _ rfl⟩
      simp only [searchedSegs_append, searchedSegs, List.mem_append, List.mem_singleton]
      rintro (h | h)
      · exact hP h
      · exact hne h.symm
    | some lb =>
      simp only []
      split_ifs with hit
      · cases d.Unmarshal (lb.GetDiskCache t.files env.cacheKey).1 with
        | error e =>
          simp only []
          refine ⟨?_, keep _ rfl hc.symm rfl (by simp) (by simp) (by simp)⟩
          simpa [searchedSegs_append, searchedSegs] using hP
        | ok vs =>
          simp only []
          refine ⟨?_, keep _ rfl hc.symm rfl (by simp) (by simp) (by simp)⟩
          simpa [searchedSegs_append, searchedSegs] using hP
      · have hne : t.seg ≠ Seg.complete n := by
          intro hseg
          obtain ⟨⟨lb2, h1, h2, h3⟩, _⟩ := hQ hseg
          rw [hc] at h1
          cases h1
          exact hit ⟨h2, h3⟩
        refine ⟨?_, away hne _ rfl⟩
        simpa [searchedSegs_append, searchedSegs] using hP
  | live feed =>
    have hne : t.seg ≠ Seg.complete n := fun hseg => (hQ hseg).2.2.2 feed hp
    cases feed with
    | done bytes err =>
      simp only [v2Step, hp]
      refine ⟨?_, away hne _ rfl⟩
      simpa [searchedSegs_append, searchedSegs] using hP
    | offer v next =>
      simp only [v2Step, hp]
      exact ⟨hP, away hne _ rfl⟩
  | missed =>
    have hne : t.seg ≠ Seg.complete n := fun hseg => (hQ hseg).2.1 hp
    simp only [v2Step, hp]
    cases (Feed.run d.Collect (performFeed d env t.block)
      (d.NewDistinctValue env.limit env.req.MaxTagValues env.req.StaleValueThreshold)).2.2 with
    | none =>
      refine ⟨?_, away hne _ rfl⟩
      simp only [searchedSegs_append, searchedSegs, List.mem_append, List.mem_singleton]
      rintro (h | h)
      · exact hP h
      · exact hne h.symm
    | some e =>
      refine ⟨?_, away hne _ rfl⟩
      simp only [searchedSegs_append, searchedSegs, List.mem_append, List.mem_singleton]
      rintro (h | h)
      · exact hP h
      · exact hne h.symm
  | found values =>
    have hne : t.seg ≠ Seg.complete n := fun hseg => (hQ hseg).2.2.1 values hp
    simp only [v2Step, hp]
    cases d.Marshal values <;> cases t.cache <;> (simp only []; try split_ifs) <;>
      refine ⟨?_, away hne _ rfl⟩ <;>
      simpa [searchedSegs_append, searchedSegs] using hP
  | feeding rest =>
    cases rest with
    | nil =>
      simp only [v2Step, hp]
      exact ⟨hP, keep _ rfl rfl rfl (by simp) (by simp) (by simp)⟩
    | cons v rest =>
      simp only [v2Step, hp]
      refine ⟨hP, ?_⟩
      split_ifs
      · exact keep _ rfl rfl rfl (by simp) (by simp) (by simp)
      · exact keep _ rfl rfl rfl (by simp) (by simp) (by simp)
  | returned err =>
    cases err with
    | none =>
      simp only [v2Step, hp]
      exact ⟨hP, keep _ rfl rfl rfl (by simp) (by simp) (by simp)⟩
    | some e =>
      simp only [v2Step, hp]
      refine ⟨?_, keep _ rfl rfl rfl (by simp) (by simp) (by simp)⟩
      simpa [searchedSegs_append, searchedSegs] using hP
  | done =>
    simp only [v2Step, hp]
    split_ifs
    · refine ⟨?_, keep _ rfl rfl rfl (by simp) (by simp) (by simp)⟩
      simpa [searchedSegs_append, searchedSegs] using hP
    · exact ⟨hP, hQ⟩
  | exited =>
    simp only [v2Step, hp]
    exact ⟨hP, hQ⟩

theorem v2Step_hitRel {DV : Type} (d : TagValuesV2Deps DV) (env : V2Env) (n : Nat)
    (s : V2Shared DV) (a : List V2Task) (t : V2Task) (b : List V2Task)
    (hJ : HitRel env n s (a ++ t :: b)) :
    HitRel env n (v2Step d env s t).1 (a ++ (v2Step d env s t).2 :: b) :=
  rel_of_task_inv (v2Step d env) (fun x => Seg.complete n ∉ searchedSegs x.trace)
    (HitTask env n) (fun x u hx hu => v2Step_hit d env n x u hx hu) s a t b hJ

theorem v2Finish_hitRel {DV : Type} (d : TagValuesV2Deps DV) (env : V2Env) (n : Nat)
    (s : V2Shared DV) (a : List V2Task) (t : V2Task) (b : List V2Task)
    (hJ : HitRel env n s (a ++ t :: b)) :
    HitRel env n (v2Finish d env s t).1 (a ++ (v2Finish d env s t).2 :: b) := by
  unfold v2Finish
  exact iterUntil_rel V2Task.isDone (v2Step d env) (HitRel env n)
    (fun s a t b hJ => v2Step_hitRel d env n s a t b hJ) a b _ _ _
    (iterUntil_rel V2Task.isDone (v2Step d env) (HitRel env n)
      (fun s a t b hJ => v2Step_hitRel d env n s a t b hJ) a b 5 s t hJ)

theorem v2HeadTasks_head (i : Instance) : ∀ t ∈ v2HeadTasks i, t.seg = Seg.head := by
  intro t ht
  unfold v2HeadTasks at ht
  cases hh : i.headBlock with
  | none => rw [hh] at ht; simp at ht
  | some head =>
    rw [hh] at ht
    simp only [List.mem_singleton] at ht
    rw [ht]

/-- In every interleaving, the searcher of a complete block whose disk cache
answers the cache key with non-empty bytes and no error is not called. -/
theorem v2Run_hit {DV : Type} (d : TagValuesV2Deps DV) (env : V2Env) (i : Instance)
    (pre : Nat) (sched : List Nat) (n : Nat) (lb : LocalBlock)
    (hlb : i.completeBlocks[n]? = some lb)
    (hlen : 0 < (lb.GetDiskCache lb.Files env.cacheKey).1.length)
    (herr : (lb.GetDiskCache lb.Files env.cacheKey).2 = none) :
    HitRel env n (v2Run d env i pre sched).1 (v2Run d env i pre sched).2 := by
  unfold v2Run
  have h0 : HitRel env n (v2Init d env) (v2HeadTasks i) := by
    refine ⟨by simp [v2Init, searchedSegs], ?_⟩
    intro u hu hseg
    rw [v2HeadTasks_head i u hu] at hseg
    cases hseg
  have h1 := runSchedule_rel (v2Step d env) (HitRel env n)
    (fun s a t b hJ => v2Step_hitRel d env n s a t b hJ) (List.replicate pre 0) _ _ h0
  have hts : ∀ u ∈ v2Tasks i, HitTask env n u := by
    intro u hu
    unfold v2Tasks at hu
    rcases List.mem_append.1 hu with hu | hu
    · obtain ⟨p, hp, rfl⟩ := List.mem_map.1 hu
      intro hseg
      simp only [Seg.complete.injEq] at hseg
      have hp2 := List.mem_enum_iff_getElem?.1 hp
      rw [hseg, hlb] at hp2
      cases hp2
      exact ⟨⟨p.2, rfl, hlen, herr⟩, by simp, by simp, by simp⟩
    · obtain ⟨p, hp, rfl⟩ := List.mem_map.1 hu
      intro hseg
      cases hseg
  have h2 : HitRel env n
      { (runSchedule (v2Step d env) (List.replicate pre 0) (v2Init d env)
          (v2HeadTasks i)).1 with
        trace := (runSchedule (v2Step d env) (List.replicate pre 0) (v2Init d env)
          (v2HeadTasks i)).1.trace ++ [Event.RLockBlocks] }
      ((runSchedule (v2Step d env) (List.replicate pre 0) (v2Init d env)
          (v2HeadTasks i)).2 ++ v2Tasks i) := by
    refine ⟨?_, ?_⟩
    · simpa [searchedSegs_append, searchedSegs] using h1.1
    · intro u hu
      rcases List.mem_append.1 hu with hu | hu
      · exact h1.2 u hu
      · exact hts u hu
  have h3 := runSchedule_rel (v2Step d env) (HitRel env n)
    (fun s a t b hJ => v2Step_hitRel d env n s a t b hJ) sched _ _ h2
  have h4 := waitAll_rel (v2Finish d env) (HitRel env n)
    (fun s a t b hJ => v2Finish_hitRel d env n s a t b hJ) _ [] _ (by simpa using h3)
  simpa using h4

theorem v2After_hit {DV : Type} (d : TagValuesV2Deps DV) (env : V2Env) (n : Nat)
    (s : V2Shared DV) (ts : List V2Task) (hts : ∀ u ∈ ts, HitTask env n u) :
    Seg.complete n ∉ searchedSegs (v2After d env s ts) := by
  unfold v2After
  have h := waitAll_rel (v2Step d env) (HitRel env n)
    (fun s a t b hJ => v2Step_hitRel d env n s a t b hJ) ts [] { s with trace := [] }
    ⟨by simp [searchedSegs], by simpa using hts⟩
  exact h.1

/-- Run alone, a goroutine that feeds the values `vs` gives them to the
shared collector up to and including the first one for which `Collect`
signals stop, and returns without an error. -/
theorem feeding_run {DV : Type} (d : TagValuesV2Deps DV) (env : V2Env) :
    ∀ (vs : List TagValue) (s : V2Shared DV) (t : V2Task), t.phase = V2Phase.feeding vs →
      iterUntil V2Task.hasReturned (v2Step d env) (vs.length + 1) s t =
        ({ s with valueCollector := feedUntilStop d.Collect vs s.valueCollector },
          { t with phase := V2Phase.returned none }) := by
  intro vs
  induction vs with
  | nil =>
    intro s t hp
    simp [iterUntil, V2Task.hasReturned, v2Step, hp, feedUntilStop]
  | cons v rest ih =>
    intro s t hp
    have hstop : V2Task.hasReturned t = false := by simp [V2Task.hasReturned, hp]
    rw [List.length_cons, iterUntil]
    simp only [hstop, Bool.false_eq_true, if_false]
    by_cases hc : (d.Collect s.valueCollector v).2 = true
    · have h1 : v2Step d env s t =
          ({ s with valueCollector := (d.Collect s.valueCollector v).1 },
            { t with phase := V2Phase.returned none }) := by
        simp [v2Step, hp, hc]
      rw [h1]
      cases hk : rest.length + 1 with
      | zero => simp [iterUntil, feedUntilStop, hc]
      | succ k => simp [iterUntil, V2Task.hasReturned, feedUntilStop, hc]
    · have h1 : v2Step d env s t =
          ({ s with valueCollector := (d.Collect s.valueCollector v).1 },
            { t with phase := V2Phase.feeding rest }) := by
        simp [v2Step, hp, hc]
      rw [h1, ih _ _ rfl]
      simp [feedUntilStop, hc]

/-- Past its early returns, `SearchTagValuesV2` returns what the goroutines
leave behind when `wg.Wait()` has returned. -/
theorem SearchTagValuesV2_eq {DV : Type} (d : TagValuesV2Deps DV) (i : Instance) (ctx : Ctx)
    (req : SearchTagValuesRequest) (pre : Nat) (sched : List Nat) (userID : String)
    (tag : Attribute) (ht : d.ExtractOrgID ctx = .ok userID)
    (hid : d.ParseIdentifier req.TagName = .ok tag) (hnid : isIDAttribute tag = false) :
    (SearchTagValuesV2 d i ctx req pre sched).err =
      (v2Run d (v2Env d req userID tag) i pre sched).1.anyErr ∧
    (SearchTagValuesV2 d i ctx req pre sched).trace =
      (v2Run d (v2Env d req userID tag) i pre sched).1.trace ++ [Event.RUnlockBlocks] ∧
    (SearchTagValuesV2 d i ctx req pre sched).after =
      v2After d (v2Env d req userID tag) (v2Run d (v2Env d req userID tag) i pre sched).1
        (v2Run d (v2Env d req userID tag) i pre sched).2 ∧
    (SearchTagValuesV2 d i ctx req pre sched).resp =
      (match (v2Run d (v2Env d req userID tag) i pre sched).1.anyErr with
        | some _ => none
        | none =>
          some { TagValues := d.Values
                   (v2Run d (v2Env d req userID tag) i pre sched).1.valueCollector,
                 Metrics := some
                   { InspectedBytes := (v2Run d (v2Env d req userID tag) i pre sched).1.mc } }) := by
  unfold SearchTagValuesV2 v2Env
  simp only [ht, hid, hnid, Bool.false_eq_true, if_false]
  generalize v2Run d _ i pre sched = w
  cases w.1.anyErr with
  | some e => exact ⟨rfl, rfl, rfl, rfl⟩
  | none => exact ⟨rfl, rfl, rfl, rfl⟩

/-! ### Which segment errors fail a sequential tag operation -/

theorem tagErrors_append (a b : List Event) :
    tagErrors (a ++ b) = tagErrors a ++ tagErrors b := by
  induction a with
  | nil => rfl
  | cons ev a ih =>
    have ih2 : tagErrors (a.append b) = tagErrors a ++ tagErrors b := ih
    cases ev
    case TagSearchReturned seg err =>
      cases err
      all_goals simp only [List.cons_append, tagErrors]
      all_goals rw [ih2]
    all_goals simp only [List.cons_append, tagErrors]
    all_goals rw [ih2]

theorem absorbedOnly_append (p : Err → Bool) (a b : List Event) :
    absorbedOnly p (a ++ b) = (absorbedOnly p a && absorbedOnly p b) := by
  simp [absorbedOnly, tagErrors_append, List.all_append]

theorem mem_tagErrors (tr : List Event) (seg : Seg) (e : Err)
    (h : Event.TagSearchReturned seg (some e) ∈ tr) : e ∈ tagErrors tr := by
  obtain ⟨a, b, rfl⟩ := List.append_of_mem h
  rw [tagErrors_append]
  simp [tagErrors]

theorem absorbedOnly_mem (p : Err → Bool) (tr : List Event) (seg : Seg) (e : Err)
    (h : Event.TagSearchReturned seg (some e) ∈ tr) (hu : absorbedOnly p tr = true) :
    p e = true := by
  unfold absorbedOnly at hu
  rw [List.all_eq_true] at hu
  exact hu e (mem_tagErrors tr seg e h)

theorem absorbedOnly_return (p : Err → Bool) (tr : List Event) (seg : Seg)
    (err : Option Err) :
    absorbedOnly p (tr ++ [Event.SearchBlock seg, Event.TagSearchReturned seg err]) =
      (absorbedOnly p tr &&
        (match err with
          | none => true
          | some e => p e)) := by
  rw [absorbedOnly_append]
  cases err <;> simp [absorbedOnly, tagErrors]

/-- The closure `search` of `SearchTagValues` does nothing when the block
budget is used up, the segment is nil or the collector reports `Exceeded`. -/
theorem tagValuesSearch_skip {DS : Type} (d : TagValuesDeps DS) (tagName : String)
    (maxBlocks : Int) (seg : Seg) (s : Option Block) (st : TagValuesState DS)
    (h : (0 < maxBlocks ∧ maxBlocks ≤ st.inspectedBlocks) ∨ s = none ∨
      d.Exceeded st.distinctValues = true) :
    tagValuesSearch d tagName maxBlocks seg s st = (st, none) := by
  unfold tagValuesSearch
  by_cases h1 : 0 < maxBlocks ∧ maxBlocks ≤ st.inspectedBlocks
  · rw [if_pos h1]
  · rw [if_neg h1]
    cases s with
    | none => rfl
    | some b =>
      rcases h with h | h | h
      · exact absurd h h1
      · cases h
      · simp only [h, if_true]

/-- Otherwise the closure counts the segment, searches it and returns its
error unless that error is unsupported. -/
theorem tagValuesSearch_run {DS : Type} (d : TagValuesDeps DS) (tagName : String)
    (maxBlocks : Int) (seg : Seg) (b : Block) (st : TagValuesState DS)
    (h1 : ¬ (0 < maxBlocks ∧ maxBlocks ≤ st.inspectedBlocks))
    (h2 : d.Exceeded st.distinctValues = false) :
    (tagValuesSearch d tagName maxBlocks seg (some b) st).1 =
      { distinctValues :=
          (Feed.run d.Collect (b.SearchTagValues tagName) st.distinctValues).1,
        mc := mcAdd st.mc (Feed.run d.Collect (b.SearchTagValues tagName) st.distinctValues).2.1,
        inspectedBlocks := st.inspectedBlocks + 1,
        trace := st.trace ++ [Event.SearchBlock seg, Event.TagSearchReturned seg
          (Feed.run d.Collect (b.SearchTagValues tagName) st.distinctValues).2.2] } ∧
    (tagValuesSearch d tagName maxBlocks seg (some b) st).2 =
      (match (Feed.run d.Collect (b.SearchTagValues tagName) st.distinctValues).2.2 with
        | none => none
        | some e =>
          if e.chainHas Err.ErrUnsupported then none
          else some (Err.wrap ("unexpected error searching tag values (" ++ tagName ++ ")") e)) := by
  unfold tagValuesSearch
  rw [if_neg h1]
  simp only [h2, Bool.false_eq_true, if_false]
  cases (Feed.run d.Collect (b.SearchTagValues tagName) st.distinctValues).2.2 with
  | none => exact ⟨rfl, rfl⟩
  | some e =>
    simp only [errorsIs]
    split_ifs <;> exact ⟨rfl, rfl⟩

/-- The closure `search` of `SearchTagValues` returns an error exactly when
the segment returned an error that is not unsupported. -/
theorem tagValuesSearch_outcome {DS : Type} (d : TagValuesDeps DS) (tagName : String)
    (maxBlocks : Int) (seg : Seg) (s : Option Block) (st : TagValuesState DS)
    (h : absorbedOnly isUnsupported st.trace = true) :
    SeqOutcome isUnsupported (tagValuesSearch d tagName maxBlocks seg s st).1.trace
      (tagValuesSearch d tagName maxBlocks seg s st).2 := by
  by_cases hs : (0 < maxBlocks ∧ maxBlocks ≤ st.inspectedBlocks) ∨ s = none ∨
      d.Exceeded st.distinctValues = true
  · rw [tagValuesSearch_skip d tagName maxBlocks seg s st hs]
    exact Or.inl ⟨rfl, h⟩
  · simp only [not_or] at hs
    obtain ⟨h1, h2, h3⟩ := hs
    cases s with
    | none => exact absurd rfl h2
    | some b =>
      obtain ⟨e1, e2⟩ := tagValuesSearch_run d tagName maxBlocks seg b st h1 (by simpa using h3)
      rw [e1, e2]
      simp only [SeqOutcome, absorbedOnly_return, h, Bool.true_and]
      cases (Feed.run d.Collect (b.SearchTagValues tagName) st.distinctValues).2.2 with
      | none => left; exact ⟨rfl, rfl⟩
      | some e =>
        cases hu : e.chainHas Err.ErrUnsupported with
        | true => left; simp [hu, isUnsupported]
        | false => right; simp [hu, isUnsupported]

theorem tagValuesLoop_outcome {DS : Type} (d : TagValuesDeps DS) (tagName : String)
    (maxBlocks : Int) (kind : Nat → Seg) (what : String) :
    ∀ (blocks : List (Nat × Block)) (st : TagValuesState DS),
      absorbedOnly isUnsupported st.trace = true →
      SeqOutcome isUnsupported (tagValuesLoop d tagName maxBlocks kind what blocks st).1.trace
        (tagValuesLoop d tagName maxBlocks kind what blocks st).2 := by
  intro blocks
  induction blocks with
  | nil => intro st h; exact Or.inl ⟨rfl, h⟩
  | cons p rest ih =>
    intro st h
    obtain ⟨n, b⟩ := p
    have h1 := tagValuesSearch_outcome d tagName maxBlocks (kind n) (some b) st h
    simp only [tagValuesLoop]
    cases he : (tagValuesSearch d tagName maxBlocks (kind n) (some b) st).2 with
    | some err =>
      simp only []
      rcases h1 with ⟨h2, _⟩ | ⟨_, h3⟩
      · rw [he] at h2; cases h2
      · exact Or.inr ⟨rfl, h3⟩
    | none =>
      simp only []
      rcases h1 with ⟨_, h3⟩ | ⟨h2, _⟩
      · exact ih _ h3
      · rw [he] at h2; cases h2

theorem SeqOutcome_append (p : Err → Bool) (tr l : List Event) (err : Option Err)
    (hl : absorbedOnly p l = true) (h : SeqOutcome p tr err) : SeqOutcome p (tr ++ l) err := by
  unfold SeqOutcome at *
  rw [absorbedOnly_append, hl, Bool.and_true]
  exact h

/-- `SearchTagValues` with a tenant id returns an error exactly when a segment
returned an error that is not unsupported; it returns a response exactly when
it returns no error, and it does not panic. -/
theorem SearchTagValues_outcome {DS : Type} (d : TagValuesDeps DS) (i : Instance) (ctx : Ctx)
    (tagName : String) (limit stale : Nat) (userID : String)
    (ht : d.ExtractOrgID ctx = .ok userID) :
    SeqOutcome isUnsupported (SearchTagValues d i ctx tagName limit stale).trace
      (SearchTagValues d i ctx tagName limit stale).err ∧
    ((SearchTagValues d i ctx tagName limit stale).err = none ↔
      (SearchTagValues d i ctx tagName limit stale).resp.isSome = true) ∧
    (SearchTagValues d i ctx tagName limit stale).panicked = false ∧
    ((SearchTagValues d i ctx tagName limit stale).err = none →
      ∃ st : TagValuesState DS,
        (SearchTagValues d i ctx tagName limit stale).resp =
          some { TagValues := d.Strings st.distinctValues,
                 Metrics := some { InspectedBytes := st.mc } } ∧
        (SearchTagValues d i ctx tagName limit stale).trace =
          st.trace ++ [Event.RUnlockBlocks]) := by
  have h0 := tagValuesSearch_outcome d tagName
    (if 0 < d.MaxBlocksPerTagValuesQuery userID then d.MaxBlocksPerTagValuesQuery userID else 0)
    Seg.head i.headBlock
    { distinctValues :=
        d.NewDistinctString (d.MaxBytesPerTagValuesQuery userID) limit stale,
      mc := 0, inspectedBlocks := 0, trace := [Event.RLockHead] } rfl
  unfold SearchTagValues
  simp only [ht]
  split
  · rename_i err head he hb
    rcases h0 with ⟨h1, _⟩ | ⟨_, h2⟩
    · rw [he] at h1; cases h1
    · exact ⟨Or.inr ⟨rfl, by rw [absorbedOnly_append, h2]; rfl⟩, by simp, rfl, fun hc => by cases hc⟩
  · rename_i err he hb
    rw [hb, tagValuesSearch_skip d tagName _ Seg.head none _ (Or.inr (Or.inl rfl))] at he
    cases he
  · rename_i he
    rcases h0 with ⟨_, h2⟩ | ⟨h1, _⟩
    · have h3 := tagValuesLoop_outcome d tagName
        (if 0 < d.MaxBlocksPerTagValuesQuery userID then d.MaxBlocksPerTagValuesQuery userID
          else 0)
        Seg.completing "completing" i.completingBlocks.enum
        { (tagValuesSearch d tagName
            (if 0 < d.MaxBlocksPerTagValuesQuery userID then
              d.MaxBlocksPerTagValuesQuery userID else 0)
            Seg.head i.headBlock
            { distinctValues :=
                d.NewDistinctString (d.MaxBytesPerTagValuesQuery userID) limit stale,
              mc := 0, inspectedBlocks := 0, trace := [Event.RLockHead] }).1 with
          trace := (tagValuesSearch d tagName
            (if 0 < d.MaxBlocksPerTagValuesQuery userID then
              d.MaxBlocksPerTagValuesQuery userID else 0)
            Seg.head i.headBlock
            { distinctValues :=
                d.NewDistinctString (d.MaxBytesPerTagValuesQuery userID) limit stale,
              mc := 0, inspectedBlocks := 0, trace := [Event.RLockHead] }).1.trace ++
            [Event.RUnlockHead, Event.RLockBlocks] }
        (by rw [absorbedOnly_append, h2]; rfl)
      split
      · rename_i err hc
        rw [hc] at h3
        rcases h3 with ⟨h4, _⟩ | ⟨_, h5⟩
        · cases h4
        · exact ⟨Or.inr ⟨rfl, by rw [absorbedOnly_append, h5]; rfl⟩, by simp, rfl, fun hc => by cases hc⟩
      · rename_i hc
        rw [hc] at h3
        rcases h3 with ⟨_, h5⟩ | ⟨h4, _⟩
        · have h6 := tagValuesLoop_outcome d tagName
            (if 0 < d.MaxBlocksPerTagValuesQuery userID then
              d.MaxBlocksPerTagValuesQuery userID else 0)
            Seg.complete "complete" (i.completeBlocks.enum.map fun p => (p.1, p.2.toBlock))
            _ h5
          split
          · rename_i err hk
            rw [hk] at h6
            rcases h6 with ⟨h7, _⟩ | ⟨_, h8⟩
            · cases h7
            · exact ⟨Or.inr ⟨rfl, by rw [absorbedOnly_append, h8]; rfl⟩, by simp, rfl, fun hc => by cases hc⟩
          · rename_i hk
            rw [hk] at h6
            rcases h6 with ⟨_, h8⟩ | ⟨h7, _⟩
            · exact ⟨Or.inl ⟨rfl, by rw [absorbedOnly_append, h8]; rfl⟩, by simp, rfl, fun _ => ⟨_, rfl, rfl⟩⟩
            · cases h7
        · cases h4
    · rw [he] at h1; cases h1

/-- The closure `searchBlock` of `SearchTagsV2` returns an error exactly when
the segment returned an error that is not absorbed: with an empty query the
unsupported errors are absorbed, with a query none is. -/
theorem tagsSearchBlock_outcome {SDS DS : Type} (d : TagsDeps SDS DS)
    (attributeScope : AttributeScope) (query : String) (seg : Seg) (s : Option Block)
    (st : TagsState SDS)
    (h : absorbedOnly (tagsAbsorbs (d.IsEmptyQuery query)) st.trace = true) :
    SeqOutcome (tagsAbsorbs (d.IsEmptyQuery query))
      (tagsSearchBlock d attributeScope query seg s st).1.trace
      (tagsSearchBlock d attributeScope query seg s st).2 := by
  cases s with
  | none => exact Or.inl ⟨rfl, h⟩
  | some b =>
    unfold tagsSearchBlock
    simp only []
    by_cases hx : d.ExceededScoped st.distinctValues = true
    · rw [if_pos hx]
      exact Or.inl ⟨rfl, h⟩
    · rw [if_neg hx]
      by_cases hq : d.IsEmptyQuery query = true
      · rw [if_pos hq]
        simp only [SeqOutcome, hq] at h ⊢
        cases (Feed.run
          (fun c (v : String × AttributeScope) =>
            ((d.CollectScoped c (d.ScopeString v.2) v.1).1, false))
          (b.SearchTags attributeScope) st.distinctValues).2.2 with
        | none =>
          left
          simp [absorbedOnly_return, h]
        | some e =>
          by_cases hu : e.chainHas Err.ErrUnsupported = true
          · left
            simp [errorsIs, hu, absorbedOnly_return, h, tagsAbsorbs]
          · right
            simp [errorsIs, hu, absorbedOnly_return, h, tagsAbsorbs]
      · rw [if_neg hq]
        simp only [Bool.not_eq_true] at hq
        simp only [SeqOutcome, hq] at h ⊢
        simp only [absorbedOnly_return, h, Bool.true_and]
        cases (Feed.run
          (fun c (v : String × AttributeScope) => d.CollectScoped c (d.ScopeString v.2) v.1)
          (b.ExecuteTagNames attributeScope query) st.distinctValues).2.2 with
        | none => left; exact ⟨rfl, rfl⟩
        | some e => right; simp [tagsAbsorbs]

theorem tagsLoop_outcome {SDS DS : Type} (d : TagsDeps SDS DS)
    (attributeScope : AttributeScope) (query : String) (kind : Nat → Seg) (what : String) :
    ∀ (blocks : List (Nat × Block)) (st : TagsState SDS),
      absorbedOnly (tagsAbsorbs (d.IsEmptyQuery query)) st.trace = true →
      SeqOutcome (tagsAbsorbs (d.IsEmptyQuery query))
        (tagsLoop d attributeScope query kind what blocks st).1.trace
        (tagsLoop d attributeScope query kind what blocks st).2 := by
  intro blocks
  induction blocks with
  | nil => intro st h; exact Or.inl ⟨rfl, h⟩
  | cons p rest ih =>
    intro st h
    obtain ⟨n, b⟩ := p
    have h1 := tagsSearchBlock_outcome d attributeScope query (kind n) (some b) st h
    simp only [tagsLoop]
    cases he : (tagsSearchBlock d attributeScope query (kind n) (some b) st).2 with
    | some err =>
      simp only []
      rcases h1 with ⟨h2, _⟩ | ⟨_, h3⟩
      · rw [he] at h2; cases h2
      · exact Or.inr ⟨rfl, h3⟩
    | none =>
      simp only []
      rcases h1 with ⟨_, h3⟩ | ⟨h2, _⟩
      · exact ih _ h3
      · rw [he] at h2; cases h2

/-- `SearchTagsV2` past its early returns fails exactly when a segment
returned an error that is not absorbed; it returns a response exactly when it
returns no error, and it does not panic. -/
theorem SearchTagsV2_outcome {SDS DS : Type} (d : TagsDeps SDS DS) (i : Instance) (ctx : Ctx)
    (req : SearchTagsRequest) (userID : String)
    (ht : d.ExtractOrgID ctx = .ok userID) (hs : req.Scope ≠ ParamScopeIntrinsic)
    (hu : d.AttributeScopeFromString req.Scope ≠ AttributeScope.Unknown) :
    SeqOutcome (tagsAbsorbs (d.IsEmptyQuery (d.ExtractMatchers req.Query)))
      (SearchTagsV2 d i ctx req).trace (SearchTagsV2 d i ctx req).err ∧
    ((SearchTagsV2 d i ctx req).err = none ↔ (SearchTagsV2 d i ctx req).resp.isSome = true) ∧
    (SearchTagsV2 d i ctx req).panicked = false ∧
    ((SearchTagsV2 d i ctx req).err = none →
      ∃ st : TagsState SDS,
        (SearchTagsV2 d i ctx req).resp =
          some { Scopes := (d.StringsScoped st.distinctValues).map fun p =>
                   { Name := p.1, Tags := p.2 },
                 Metrics := some { InspectedBytes := st.mc } } ∧
        (SearchTagsV2 d i ctx req).trace = st.trace ++ [Event.RUnlockBlocks]) := by
  have h0 := tagsSearchBlock_outcome d (d.AttributeScopeFromString req.Scope)
    (d.ExtractMatchers req.Query) Seg.head i.headBlock
    { distinctValues :=
        d.NewScopedDistinctString (d.MaxBytesPerTagValuesQuery userID) req.MaxTagsPerScope
          req.StaleValuesThreshold,
      mc := 0, trace := [Event.RLockHead] } rfl
  unfold SearchTagsV2
  simp only [ht, hs, hu, if_false]
  split
  · rename_i err head he hb
    rcases h0 with ⟨h1, _⟩ | ⟨_, h2⟩
    · rw [he] at h1; cases h1
    · exact ⟨Or.inr ⟨rfl, by rw [absorbedOnly_append, h2]; rfl⟩, by simp, rfl, fun hc => by cases hc⟩
  · rename_i err he hb
    rw [hb] at he
    cases he
  · rename_i he
    rcases h0 with ⟨_, h2⟩ | ⟨h1, _⟩
    · have h3 := tagsLoop_outcome d (d.AttributeScopeFromString req.Scope)
        (d.ExtractMatchers req.Query) Seg.completing "completing" i.completingBlocks.enum
        { (tagsSearchBlock d (d.AttributeScopeFromString req.Scope)
            (d.ExtractMatchers req.Query) Seg.head i.headBlock
            { distinctValues :=
                d.NewScopedDistinctString (d.MaxBytesPerTagValuesQuery userID)
                  req.MaxTagsPerScope req.StaleValuesThreshold,
              mc := 0, trace := [Event.RLockHead] }).1 with
          trace := (tagsSearchBlock d (d.AttributeScopeFromString req.Scope)
            (d.ExtractMatchers req.Query) Seg.head i.headBlock
            { distinctValues :=
                d.NewScopedDistinctString (d.MaxBytesPerTagValuesQuery userID)
                  req.MaxTagsPerScope req.StaleValuesThreshold,
              mc := 0, trace := [Event.RLockHead] }).1.trace ++
            [Event.RUnlockHead, Event.RLockBlocks] }
        (by rw [absorbedOnly_append, h2]; rfl)
      split
      · rename_i err hc
        rw [hc] at h3
        rcases h3 with ⟨h4, _⟩ | ⟨_, h5⟩
        · cases h4
        · exact ⟨Or.inr ⟨rfl, by rw [absorbedOnly_append, h5]; rfl⟩, by simp, rfl, fun hc => by cases hc⟩
      · rename_i hc
        rw [hc] at h3
        rcases h3 with ⟨_, h5⟩ | ⟨h4, _⟩
        · have h6 := tagsLoop_outcome d (d.AttributeScopeFromString req.Scope)
            (d.ExtractMatchers req.Query) Seg.complete "complete"
            (i.completeBlocks.enum.map fun p => (p.1, p.2.toBlock)) _ h5
          split
          · rename_i err hk
            rw [hk] at h6
            rcases h6 with ⟨h7, _⟩ | ⟨_, h8⟩
            · cases h7
            · exact ⟨Or.inr ⟨rfl, by rw [absorbedOnly_append, h8]; rfl⟩, by simp, rfl, fun hc => by cases hc⟩
          · rename_i hk
            rw [hk] at h6
            rcases h6 with ⟨_, h8⟩ | ⟨h7, _⟩
            · exact ⟨Or.inl ⟨rfl, by rw [absorbedOnly_append, h8]; rfl⟩, by simp, rfl, fun _ => ⟨_, rfl, rfl⟩⟩
            · cases h7
        · cases h4
    · rw [he] at h1; cases h1

/-! ### Which segment errors fail `SearchTagValuesV2` -/

/-- What one step of a goroutine of `SearchTagValuesV2` does to `anyErr`, to
the errors returned so far and to the goroutine's pending error. -/
theorem v2Step_errs {DV : Type} (d : TagValuesV2Deps DV) (env : V2Env)
    (s : V2Shared DV) (t : V2Task) :
    (t.failing = true →
      (v2Step d env s t).1.anyErr.isSome = true ∧ (v2Step d env s t).2.failing = false ∧
      tagErrors (v2Step d env s t).1.trace = tagErrors s.trace) ∧
    (t.failing = false →
      (v2Step d env s t).1.anyErr = s.anyErr ∧
      (((v2Step d env s t).2.failing = false ∧
          tagErrors (v2Step d env s t).1.trace = tagErrors s.trace) ∨
        ((v2Step d env s t).2.failing = true ∧
          ∃ e, tagErrors (v2Step d env s t).1.trace = tagErrors s.trace ++ [e]) ∨
        ((v2Step d env s t).2.failing = true ∧
          tagErrors (v2Step d env s t).1.trace = tagErrors s.trace ∧ DecodeFails d env t))) ∧
    (Decodes d env t → Decodes d env (v2Step d env s t).2) := by
  cases hp : t.phase with
  | pending =>
    simp only [v2Step, hp, V2Task.failing]
    refine ⟨by simp, fun _ => ?_, ?_⟩
    · split_ifs <;> simp
    · intro hd
      split_ifs
      · intro hc; simp at hc
      · intro _ lb h1 h2 h3
        exact hd (Or.inl hp) lb h1 h2 h3
  | counting =>
    simp only [v2Step, hp, V2Task.failing]
    refine ⟨by simp, fun _ => ?_, ?_⟩
    · split_ifs <;> simp
    · intro hd
      split_ifs
      · intro hc; simp at hc
      · intro _ lb h1 h2 h3
        exact hd (Or.inr (Or.inl hp)) lb h1 h2 h3
      · intro _ lb h1 h2 h3
        exact hd (Or.inr (Or.inl hp)) lb h1 h2 h3
  | ready =>
    simp only [v2Step, hp, V2Task.failing]
    refine ⟨by simp, fun _ => ?_, ?_⟩
    · cases hc : t.cache with
      | none => simp [tagErrors_append, tagErrors]
      | some lb =>
        simp only []
        split_ifs with hit
        · cases hun : d.Unmarshal (lb.GetDiskCache t.files env.cacheKey).1 with
          | error e =>
            simp only []
            refine ⟨trivial, Or.inr (Or.inr ⟨trivial, ?_, hp, lb, e, hc, hit.1, hit.2, hun⟩)⟩
            simp [tagErrors_append, tagErrors]
          | ok vs => simp [tagErrors_append, tagErrors]
        · simp [tagErrors_append, tagErrors]
    · intro _
      cases t.cache with
      | none => intro hc; simp at hc
      | some lb =>
        simp only []
        split_ifs
        · cases d.Unmarshal (lb.GetDiskCache t.files env.cacheKey).1 <;>
            (intro hc; simp at hc)
        · intro hc; simp at hc
  | live feed =>
    cases feed with
    | done bytes err =>
      simp only [v2Step, hp, V2Task.failing]
      refine ⟨by simp, fun _ => ?_, fun _ hc => by simp at hc⟩
      cases err <;> simp [tagErrors_append, tagErrors]
    | offer v next =>
      simp only [v2Step, hp, V2Task.failing]
      exact ⟨by simp, fun _ => by simp, fun _ hc => by simp at hc⟩
  | missed =>
    simp only [v2Step, hp, V2Task.failing]
    refine ⟨by simp, fun _ => ?_, ?_⟩
    · cases hr : (Feed.run d.Collect (performFeed d env t.block)
        (d.NewDistinctValue env.limit env.req.MaxTagValues env.req.StaleValueThreshold)).2.2 <;>
        simp [tagErrors_append, tagErrors]
    · intro _
      cases (Feed.run d.Collect (performFeed d env t.block)
        (d.NewDistinctValue env.limit env.req.MaxTagValues env.req.StaleValueThreshold)).2.2 <;>
        (intro hc; simp at hc)
  | found values =>
    simp only [v2Step, hp, V2Task.failing]
    refine ⟨by simp, fun _ => ?_, ?_⟩
    · cases d.Marshal values <;> cases t.cache <;> (simp only []; try split_ifs) <;>
        simp [tagErrors_append, tagErrors]
    · intro _
      cases d.Marshal values <;> cases t.cache <;> (simp only []; try split_ifs) <;>
        (intro hc; simp at hc)
  | feeding rest =>
    cases rest with
    | nil =>
      simp only [v2Step, hp, V2Task.failing]
      exact ⟨by simp, fun _ => by simp, fun _ hc => by simp at hc⟩
    | cons v rest =>
      simp only [v2Step, hp, V2Task.failing]
      refine ⟨by simp, fun _ => ?_, fun _ hc => ?_⟩
      · split_ifs <;> simp
      · split_ifs at hc <;> simp at hc
  | returned err =>
    cases err with
    | none =>
      simp only [v2Step, hp, V2Task.failing]
      exact ⟨by simp, fun _ => by simp, fun _ hc => by simp at hc⟩
    | some e =>
      simp only [v2Step, hp, V2Task.failing]
      refine ⟨fun _ => ?_, by simp, fun _ hc => by simp at hc⟩
      simp [tagErrors_append, tagErrors]
  | done =>
    simp only [v2Step, hp, V2Task.failing]
    refine ⟨by simp, fun _ => ?_, ?_⟩
    · split_ifs
      · simp [tagErrors_append, tagErrors]
      · simp [hp]
    · intro _
      split_ifs
      · intro hc; simp at hc
      · intro hc; simp [hp] at hc
  | exited =>
    simp only [v2Step, hp, V2Task.failing]
    refine ⟨by simp, fun _ => ?_, fun _ hc => ?_⟩
    · simp [hp]
    · simp [hp] at hc

theorem v2Step_errSeen {DV : Type} (d : TagValuesV2Deps DV) (env : V2Env)
    (s : V2Shared DV) (a : List V2Task) (t : V2Task) (b : List V2Task)
    (hJ : ErrSeen s (a ++ t :: b)) :
    ErrSeen (v2Step d env s t).1 (a ++ (v2Step d env s t).2 :: b) := by
  obtain ⟨h1, h2, _⟩ := v2Step_errs d env s t
  intro hne
  cases hf : t.failing with
  | true => exact Or.inl (h1 hf).1
  | false =>
    obtain ⟨ha, hcase⟩ := h2 hf
    rcases hcase with ⟨_, he⟩ | ⟨hf2, _⟩ | ⟨hf2, _⟩
    · rw [he] at hne
      rcases hJ hne with h | ⟨u, hu, huf⟩
      · left; rw [ha]; exact h
      · right
        simp only [List.mem_append, List.mem_cons] at hu
        rcases hu with hu | rfl | hu
        · exact ⟨u, by simp [hu], huf⟩
        · rw [hf] at huf; cases huf
        · exact ⟨u, by simp [hu], huf⟩
    · exact Or.inr ⟨_, by simp, hf2⟩
    · exact Or.inr ⟨_, by simp, hf2⟩

theorem v2Step_errCause {DV : Type} (d : TagValuesV2Deps DV) (env : V2Env)
    (s : V2Shared DV) (a : List V2Task) (t : V2Task) (b : List V2Task)
    (hJ : ErrCause d env s (a ++ t :: b)) :
    ErrCause d env (v2Step d env s t).1 (a ++ (v2Step d env s t).2 :: b) := by
  obtain ⟨h1, h2, h3⟩ := v2Step_errs d env s t
  obtain ⟨hA, hT⟩ := hJ
  have ht := hT t (by simp)
  have mono : tagErrors s.trace ≠ [] → tagErrors (v2Step d env s t).1.trace ≠ [] := by
    intro hne
    cases hf : t.failing with
    | true => rw [(h1 hf).2.2]; exact hne
    | false =>
      rcases (h2 hf).2 with ⟨_, he⟩ | ⟨_, e, he⟩ | ⟨_, he, _⟩
      · rw [he]; exact hne
      · rw [he]; simp
      · rw [he]; exact hne
  refine ⟨?_, ?_⟩
  · intro hs
    cases hf : t.failing with
    | true => exact mono (ht.1 hf)
    | false =>
      rw [(h2 hf).1] at hs
      exact mono (hA hs)
  · intro u hu
    simp only [List.mem_append, List.mem_cons] at hu
    rcases hu with hu | rfl | hu
    · exact ⟨fun huf => mono ((hT u (by simp [hu])).1 huf), (hT u (by simp [hu])).2⟩
    · refine ⟨?_, h3 ht.2⟩
      intro hf2
      cases hf : t.failing with
      | true => rw [(h1 hf).2.1] at hf2; cases hf2
      | false =>
        rcases (h2 hf).2 with ⟨hf3, _⟩ | ⟨_, e, he⟩ | ⟨_, _, hdf⟩
        · rw [hf3] at hf2; cases hf2
        · rw [he]; simp
        · obtain ⟨hp, lb, e, hc, hl, hn, hun⟩ := hdf
          obtain ⟨vs, hvs⟩ := ht.2 (Or.inr (Or.inr hp)) lb hc hl hn
          rw [hun] at hvs
          cases hvs
    · exact ⟨fun huf => mono ((hT u (by simp [hu])).1 huf), (hT u (by simp [hu])).2⟩

theorem v2Finish_errSeen {DV : Type} (d : TagValuesV2Deps DV) (env : V2Env)
    (s : V2Shared DV) (a : List V2Task) (t : V2Task) (b : List V2Task)
    (hJ : ErrSeen s (a ++ t :: b)) :
    ErrSeen (v2Finish d env s t).1 (a ++ (v2Finish d env s t).2 :: b) := by
  unfold v2Finish
  exact iterUntil_rel V2Task.isDone (v2Step d env) ErrSeen
    (fun s a t b hJ => v2Step_errSeen d env s a t b hJ) a b _ _ _
    (iterUntil_rel V2Task.isDone (v2Step d env) ErrSeen
      (fun s a t b hJ => v2Step_errSeen d env s a t b hJ) a b 5 s t hJ)

theorem v2Finish_errCause {DV : Type} (d : TagValuesV2Deps DV) (env : V2Env)
    (s : V2Shared DV) (a : List V2Task) (t : V2Task) (b : List V2Task)
    (hJ : ErrCause d env s (a ++ t :: b)) :
    ErrCause d env (v2Finish d env s t).1 (a ++ (v2Finish d env s t).2 :: b) := by
  unfold v2Finish
  exact iterUntil_rel V2Task.isDone (v2Step d env) (ErrCause d env)
    (fun s a t b hJ => v2Step_errCause d env s a t b hJ) a b _ _ _
    (iterUntil_rel V2Task.isDone (v2Step d env) (ErrCause d env)
      (fun s a t b hJ => v2Step_errCause d env s a t b hJ) a b 5 s t hJ)

theorem isDone_not_failing (t : V2Task) (h : t.isDone = true) : t.failing = false := by
  unfold V2Task.isDone at h
  unfold V2Task.failing
  cases hp : t.phase
  all_goals rw [hp] at h
  all_goals simp at h ⊢

/-- In every interleaving, once a segment search of `SearchTagValuesV2` has
returned an error, `anyErr` is set when `wg.Wait()` returns. -/
theorem v2Run_errSeen {DV : Type} (d : TagValuesV2Deps DV) (env : V2Env) (i : Instance)
    (pre : Nat) (sched : List Nat) :
    tagErrors (v2Run d env i pre sched).1.trace ≠ [] →
      (v2Run d env i pre sched).1.anyErr.isSome = true := by
  have hdone := v2Run_done d env i pre sched
  have hJ : ErrSeen (v2Run d env i pre sched).1 (v2Run d env i pre sched).2 := by
    unfold v2Run
    have h0 : ErrSeen (v2Init d env) (v2HeadTasks i) := by
      intro hne
      simp [v2Init, tagErrors] at hne
    have h1 := runSchedule_rel (v2Step d env) ErrSeen
      (fun s a t b hJ => v2Step_errSeen d env s a t b hJ) (List.replicate pre 0) _ _ h0
    have h2 : ErrSeen
        { (runSchedule (v2Step d env) (List.replicate pre 0) (v2Init d env)
            (v2HeadTasks i)).1 with
          trace := (runSchedule (v2Step d env) (List.replicate pre 0) (v2Init d env)
            (v2HeadTasks i)).1.trace ++ [Event.RLockBlocks] }
        ((runSchedule (v2Step d env) (List.replicate pre 0) (v2Init d env)
            (v2HeadTasks i)).2 ++ v2Tasks i) := by
      intro hne
      have hne2 : tagErrors (runSchedule (v2Step d env) (List.replicate pre 0) (v2Init d env)
          (v2HeadTasks i)).1.trace ≠ [] := by
        simpa [tagErrors_append, tagErrors] using hne
      rcases h1 hne2 with h | ⟨u, hu, huf⟩
      · exact Or.inl h
      · exact Or.inr ⟨u, List.mem_append_left _ hu, huf⟩
    have h3 := runSchedule_rel (v2Step d env) ErrSeen
      (fun s a t b hJ => v2Step_errSeen d env s a t b hJ) sched _ _ h2
    have h4 := waitAll_rel (v2Finish d env) ErrSeen
      (fun s a t b hJ => v2Finish_errSeen d env s a t b hJ) _ [] _ (by simpa using h3)
    simpa using h4
  intro hne
  rcases hJ hne with h | ⟨u, hu, huf⟩
  · exact h
  · rw [isDone_not_failing u (hdone u hu)] at huf
    cases huf

/-- In every interleaving, when the cache reads decode, `anyErr` is set when
`wg.Wait()` returns only if a segment search of `SearchTagValuesV2` has
returned an error. -/
theorem v2Run_errCause {DV : Type} (d : TagValuesV2Deps DV) (env : V2Env) (i : Instance)
    (pre : Nat) (sched : List Nat) (hdec : CacheDecodes d env.cacheKey i) :
    (v2Run d env i pre sched).1.anyErr.isSome = true →
      tagErrors (v2Run d env i pre sched).1.trace ≠ [] := by
  have hJ : ErrCause d env (v2Run d env i pre sched).1 (v2Run d env i pre sched).2 := by
    unfold v2Run
    have h0 : ErrCause d env (v2Init d env) (v2HeadTasks i) := by
      refine ⟨by simp [v2Init], ?_⟩
      intro u hu
      unfold v2HeadTasks at hu
      cases hh : i.headBlock with
      | none => rw [hh] at hu; simp at hu
      | some head =>
        rw [hh] at hu
        simp only [List.mem_singleton] at hu
        rw [hu]
        exact ⟨by simp [V2Task.failing], fun _ lb hc => by cases hc⟩
    have h1 := runSchedule_rel (v2Step d env) (ErrCause d env)
      (fun s a t b hJ => v2Step_errCause d env s a t b hJ) (List.replicate pre 0) _ _ h0
    have hts : ∀ u ∈ v2Tasks i, u.failing = false ∧ Decodes d env u := by
      intro u hu
      unfold v2Tasks at hu
      rcases List.mem_append.1 hu with hu | hu
      · obtain ⟨p, hp, rfl⟩ := List.mem_map.1 hu
        refine ⟨rfl, ?_⟩
        intro _ lb hc hl hn
        simp only [Option.some.injEq] at hc
        subst hc
        have hp2 := List.mem_enum_iff_getElem?.1 hp
        exact hdec p.2 (List.mem_iff_getElem?.2 ⟨_, hp2⟩) hl hn
      · obtain ⟨p, hp, rfl⟩ := List.mem_map.1 hu
        exact ⟨rfl, fun _ lb hc => by cases hc⟩
    have h2 : ErrCause d env
        { (runSchedule (v2Step d env) (List.replicate pre 0) (v2Init d env)
            (v2HeadTasks i)).1 with
          trace := (runSchedule (v2Step d env) (List.replicate pre 0) (v2Init d env)
            (v2HeadTasks i)).1.trace ++ [Event.RLockBlocks] }
        ((runSchedule (v2Step d env) (List.replicate pre 0) (v2Init d env)
            (v2HeadTasks i)).2 ++ v2Tasks i) := by
      have hm : ∀ tr : List Event, tagErrors tr ≠ [] →
          tagErrors (tr ++ [Event.RLockBlocks]) ≠ [] := by
        intro tr h
        simpa [tagErrors_append, tagErrors] using h
      refine ⟨fun hs => hm _ (h1.1 hs), ?_⟩
      intro u hu
      rcases List.mem_append.1 hu with hu | hu
      · exact ⟨fun huf => hm _ ((h1.2 u hu).1 huf), (h1.2 u hu).2⟩
      · exact ⟨fun huf => (by rw [(hts u hu).1] at huf; cases huf), (hts u hu).2⟩
    have h3 := runSchedule_rel (v2Step d env) (ErrCause d env)
      (fun s a t b hJ => v2Step_errCause d env s a t b hJ) sched _ _ h2
    have h4 := waitAll_rel (v2Finish d env) (ErrCause d env)
      (fun s a t b hJ => v2Finish_errCause d env s a t b hJ) _ [] _ (by simpa using h3)
    simpa using h4
  exact hJ.1

/-- In every execution of `SearchTagValuesV2`, a segment search that returns
an error makes the call return that failure: no response and an error. -/
theorem SearchTagValuesV2_error_fails {DV : Type} (d : TagValuesV2Deps DV) (i : Instance)
    (ctx : Ctx) (req : SearchTagValuesRequest) (pre : Nat) (sched : List Nat)
    (seg : Seg) (e : Err)
    (h : Event.TagSearchReturned seg (some e) ∈ (SearchTagValuesV2 d i ctx req pre sched).trace) :
    (SearchTagValuesV2 d i ctx req pre sched).err.isSome = true ∧
    (SearchTagValuesV2 d i ctx req pre sched).resp = none := by
  cases ht : d.ExtractOrgID ctx with
  | error e0 => simp [SearchTagValuesV2, ht] at h
  | ok userID =>
    cases hid : d.ParseIdentifier req.TagName with
    | error e0 => simp [SearchTagValuesV2, ht, hid] at h
    | ok tag =>
      cases hnid : isIDAttribute tag with
      | true => simp [SearchTagValuesV2, ht, hid, hnid] at h
      | false =>
        obtain ⟨herr, htr, _, hresp⟩ :=
          SearchTagValuesV2_eq d i ctx req pre sched userID tag ht hid hnid
        rw [htr] at h
        have h2 : Event.TagSearchReturned seg (some e) ∈
            (v2Run d (v2Env d req userID tag) i pre sched).1.trace := by
          simpa using h
        have h3 := v2Run_errSeen d (v2Env d req userID tag) i pre sched
          (List.ne_nil_of_mem (mem_tagErrors _ seg e h2))
        rw [herr, hresp]
        refine ⟨h3, ?_⟩
        cases hq : (v2Run d (v2Env d req userID tag) i pre sched).1.anyErr with
        | none => rw [hq] at h3; cases h3
        | some e1 => rfl

/-- In every execution of `SearchTagValuesV2` past its early returns in which
no segment search returns an error and the cache reads decode, the call
returns the values of the shared collector and no error. -/
theorem SearchTagValuesV2_succeeds {DV : Type} (d : TagValuesV2Deps DV) (i : Instance)
    (ctx : Ctx) (req : SearchTagValuesRequest) (pre : Nat) (sched : List Nat)
    (userID : String) (tag : Attribute) (ht : d.ExtractOrgID ctx = .ok userID)
    (hid : d.ParseIdentifier req.TagName = .ok tag) (hnid : isIDAttribute tag = false)
    (hdec : CacheDecodes d (v2Env d req userID tag).cacheKey i)
    (hno : tagErrors (SearchTagValuesV2 d i ctx req pre sched).trace = []) :
    (SearchTagValuesV2 d i ctx req pre sched).err = none ∧
    (SearchTagValuesV2 d i ctx req pre sched).resp =
      some { TagValues := d.Values
               (v2Run d (v2Env d req userID tag) i pre sched).1.valueCollector,
             Metrics := some
               { InspectedBytes := (v2Run d (v2Env d req userID tag) i pre sched).1.mc } } := by
  obtain ⟨herr, htr, _, hresp⟩ :=
    SearchTagValuesV2_eq d i ctx req pre sched userID tag ht hid hnid
  rw [htr, tagErrors_append] at hno
  have h1 : tagErrors (v2Run d (v2Env d req userID tag) i pre sched).1.trace = [] := by
    simpa [tagErrors] using hno
  have h2 : (v2Run d (v2Env d req userID tag) i pre sched).1.anyErr = none := by
    cases hq : (v2Run d (v2Env d req userID tag) i pre sched).1.anyErr with
    | none => rfl
    | some e1 =>
      exact absurd h1 (v2Run_errCause d (v2Env d req userID tag) i pre sched hdec
        (by rw [hq]; rfl))
  rw [herr, hresp, h2]
  exact ⟨rfl, rfl⟩

/-! ### The block budget of `SearchTagValues` -/

theorem budgetPrefix_snoc_under (K : Int) (done : List Seg) (x : Seg) (hK : 0 < K)
    (h : ((budgetPrefix K done).length : Int) < K) :
    budgetPrefix K (done ++ [x]) = budgetPrefix K done ++ [x] := by
  obtain ⟨n, rfl⟩ := Int.eq_ofNat_of_zero_le (le_of_lt hK)
  simp only [budgetPrefix, hK, if_true, Int.toNat_ofNat, List.length_take] at h ⊢
  have h2 : done.length < n := by omega
  rw [List.take_of_length_le (le_of_lt h2), List.take_of_length_le (by simp; omega)]

theorem budgetPrefix_snoc_full (K : Int) (done : List Seg) (x : Seg) (hK : 0 < K)
    (h : K ≤ ((budgetPrefix K done).length : Int)) :
    budgetPrefix K (done ++ [x]) = budgetPrefix K done := by
  obtain ⟨n, rfl⟩ := Int.eq_ofNat_of_zero_le (le_of_lt hK)
  simp only [budgetPrefix, hK, if_true, Int.toNat_ofNat, List.length_take] at h ⊢
  have h2 : n ≤ done.length := by omega
  rw [List.take_append_of_le_length h2]

theorem budgetPrefix_length (K : Int) (segs : List Seg) (hK : 0 < K) :
    ((budgetPrefix K segs).length : Int) = min (segs.length : Int) K := by
  obtain ⟨n, rfl⟩ := Int.eq_ofNat_of_zero_le (le_of_lt hK)
  simp only [budgetPrefix, hK, if_true, Int.toNat_ofNat, List.length_take]
  omega

/-! ### The block budget of `SearchTagValuesV2` -/

theorem proceeded_append (a b : List Event) :
    proceeded (a ++ b) = proceeded a + proceeded b := by
  induction a with
  | nil => simp [proceeded]
  | cons ev a ih =>
    have ih2 : proceeded (a.append b) = proceeded a + proceeded b := ih
    cases ev
    all_goals simp only [List.cons_append, proceeded]
    all_goals rw [ih2]
    all_goals omega

theorem toInt32_small (x : Int) (h0 : 0 ≤ x) (h1 : x < 2147483648) : toInt32 x = x := by
  unfold toInt32
  omega

/-- What one step of a goroutine of `SearchTagValuesV2` does to the counter
and to the number of goroutines that proceeded, when no error is recorded
after the step: `c0` and `r0` are the contributions of the other goroutines. -/
theorem v2Step_count {DV : Type} (d : TagValuesV2Deps DV) (env : V2Env)
    (s : V2Shared DV) (t : V2Task) (c0 r0 : Nat)
    (hK : 0 < env.maxBlocks) (hb : (c0 : Int) + 1 < 2147483648) (hwf : t.WF)
    (hs : (v2Step d env s t).1.anyErr = none)
    (h1 : s.inspectedBlocks = ((c0 + t.cnt : Nat) : Int))
    (h2 : ((proceeded s.trace + (r0 + t.rdy) : Nat) : Int) =
      min ((c0 + t.cnt : Nat) : Int) env.maxBlocks) :
    (v2Step d env s t).1.inspectedBlocks = ((c0 + (v2Step d env s t).2.cnt : Nat) : Int) ∧
    ((proceeded (v2Step d env s t).1.trace + (r0 + (v2Step d env s t).2.rdy) : Nat) : Int) =
      min ((c0 + (v2Step d env s t).2.cnt : Nat) : Int) env.maxBlocks := by
  obtain ⟨hw1, hw2⟩ := hwf
  cases hp : t.phase with
  | pending =>
    simp only [V2Task.cnt, V2Task.rdy, hp] at h1 h2
    simp only [v2Step, hp]
    split_ifs with ha
    · simp only [v2Step, hp, ha, if_true] at hs
      rw [hs] at ha
      cases ha
    · simp [V2Task.cnt, V2Task.rdy, h1]
      omega
  | counting =>
    simp only [V2Task.cnt, V2Task.rdy, hp] at h1 h2
    simp only [v2Step, hp, hK, if_true]
    have hinc : toInt32 (s.inspectedBlocks + 1) = s.inspectedBlocks + 1 :=
      toInt32_small _ (by omega) (by omega)
    rw [hinc]
    split_ifs <;> simp [V2Task.cnt, V2Task.rdy, h1] <;> omega
  | ready =>
    simp only [V2Task.cnt, V2Task.rdy, hp] at h1 h2
    simp only [v2Step, hp]
    cases hc : t.cache with
    | none =>
      have hseg : t.seg.isComplete = false := by rw [hw1, hc]; rfl
      simp [V2Task.cnt, V2Task.rdy, h1, proceeded_append, proceeded, hseg]
      omega
    | some lb =>
      simp only []
      split_ifs
      · cases d.Unmarshal (lb.GetDiskCache t.files env.cacheKey).1 <;>
          simp [V2Task.cnt, V2Task.rdy, h1, proceeded_append, proceeded] <;> omega
      · simp [V2Task.cnt, V2Task.rdy, h1, proceeded_append, proceeded]
        omega
  | live feed =>
    simp only [V2Task.cnt, V2Task.rdy, hp] at h1 h2
    cases feed <;> simp [v2Step, hp, V2Task.cnt, V2Task.rdy, h1, proceeded_append, proceeded] <;>
      omega
  | missed =>
    simp only [V2Task.cnt, V2Task.rdy, hp] at h1 h2
    have hseg : t.seg.isComplete = true := by rw [hw1]; exact hw2 hp
    simp only [v2Step, hp]
    cases (Feed.run d.Collect (performFeed d env t.block)
      (d.NewDistinctValue env.limit env.req.MaxTagValues env.req.StaleValueThreshold)).2.2 <;>
      simp [V2Task.cnt, V2Task.rdy, h1, proceeded_append, proceeded, hseg] <;> omega
  | found values =>
    simp only [V2Task.cnt, V2Task.rdy, hp] at h1 h2
    simp only [v2Step, hp]
    cases d.Marshal values <;> cases t.cache <;> (simp only []; try split_ifs) <;>
      simp [V2Task.cnt, V2Task.rdy, h1, proceeded_append, proceeded] <;> omega
  | feeding rest =>
    simp only [V2Task.cnt, V2Task.rdy, hp] at h1 h2
    cases rest with
    | nil =>
      simp [v2Step, hp, V2Task.cnt, V2Task.rdy, h1]
      omega
    | cons v rest =>
      simp only [v2Step, hp]
      split_ifs <;> simp [V2Task.cnt, V2Task.rdy, h1] <;> omega
  | returned err =>
    simp only [V2Task.cnt, V2Task.rdy, hp] at h1 h2
    cases err with
    | none =>
      simp [v2Step, hp, V2Task.cnt, V2Task.rdy, h1]
      omega
    | some e =>
      simp [v2Step, hp] at hs
  | done =>
    simp only [V2Task.cnt, V2Task.rdy, hp] at h1 h2
    simp only [v2Step, hp]
    split_ifs
    · simp [V2Task.cnt, V2Task.rdy, h1, proceeded_append, proceeded]
      omega
    · simp [V2Task.cnt, V2Task.rdy, h1, hp]
      omega
  | exited =>
    simp only [V2Task.cnt, V2Task.rdy, hp] at h1 h2
    simp [v2Step, hp, V2Task.cnt, V2Task.rdy, h1]
    omega

theorem v2Step_cache {DV : Type} (d : TagValuesV2Deps DV) (env : V2Env)
    (s : V2Shared DV) (t : V2Task) : (v2Step d env s t).2.cache = t.cache := by
  cases hp : t.phase with
  | pending => simp only [v2Step, hp]; split_ifs <;> rfl
  | counting => simp only [v2Step, hp]; split_ifs <;> rfl
  | ready =>
    simp only [v2Step, hp]
    cases hc : t.cache with
    | none => rfl
    | some lb =>
      simp only []
      split_ifs
      · cases d.Unmarshal (lb.GetDiskCache t.files env.cacheKey).1 <;> rfl
      · rfl
  | live feed => cases feed <;> simp [v2Step, hp]
  | missed =>
    simp only [v2Step, hp]
    cases (Feed.run d.Collect (performFeed d env t.block)
      (d.NewDistinctValue env.limit env.req.MaxTagValues env.req.StaleValueThreshold)).2.2 <;>
      rfl
  | found values =>
    simp only [v2Step, hp]
    cases d.Marshal values <;> cases hc : t.cache <;> (simp only []; try split_ifs) <;> rfl
  | feeding rest => cases rest <;> simp [v2Step, hp]
  | returned err => cases err <;> simp [v2Step, hp]
  | done => simp only [v2Step, hp]; split_ifs <;> rfl
  | exited => simp [v2Step, hp]

theorem v2Step_WF {DV : Type} (d : TagValuesV2Deps DV) (env : V2Env)
    (s : V2Shared DV) (t : V2Task) (h : t.WF) : (v2Step d env s t).2.WF := by
  refine ⟨by rw [v2Step_seg, v2Step_cache]; exact h.1, ?_⟩
  rw [v2Step_cache]
  cases hp : t.phase with
  | pending => simp only [v2Step, hp]; split_ifs <;> (intro hc; simp at hc)
  | counting => simp only [v2Step, hp]; split_ifs <;> (intro hc; simp at hc)
  | ready =>
    simp only [v2Step, hp]
    cases hc : t.cache with
    | none => intro hm; simp at hm
    | some lb => intro _; rfl
  | live feed => cases feed <;> simp [v2Step, hp]
  | missed => intro _; exact h.2 hp
  | found values =>
    simp only [v2Step, hp]
    cases d.Marshal values <;> cases hc : t.cache <;> (simp only []; try split_ifs) <;>
      (intro hm; simp at hm)
  | feeding rest =>
    cases rest with
    | nil => simp [v2Step, hp]
    | cons v rest =>
      simp only [v2Step, hp]
      split_ifs <;> (intro hm; simp at hm)
  | returned err => cases err <;> simp [v2Step, hp]
  | done =>
    simp only [v2Step, hp]
    split_ifs
    · intro hm; simp at hm
    · intro hm; rw [hp] at hm; cases hm
  | exited => simp [v2Step, hp]

theorem cnt_sum_le (l : List V2Task) : (l.map V2Task.cnt).sum ≤ l.length := by
  induction l with
  | nil => simp
  | cons t l ih =>
    have : t.cnt ≤ 1 := by
      unfold V2Task.cnt
      cases t.phase <;> simp
    simp only [List.map_cons, List.sum_cons, List.length_cons]
    omega

theorem v2Step_anyErr_none {DV : Type} (d : TagValuesV2Deps DV) (env : V2Env)
    (s : V2Shared DV) (t : V2Task) (h : (v2Step d env s t).1.anyErr = none) :
    s.anyErr = none := by
  obtain ⟨h1, h2, _⟩ := v2Step_errs d env s t
  cases hf : t.failing with
  | true =>
    have := (h1 hf).1
    rw [h] at this
    cases this
  | false =>
    rw [← (h2 hf).1]
    exact h

theorem v2Step_countRel {DV : Type} (d : TagValuesV2Deps DV) (env : V2Env) (L : Nat)
    (hK : 0 < env.maxBlocks) (hL : (L : Int) < 2147483648)
    (s : V2Shared DV) (a : List V2Task) (t : V2Task) (b : List V2Task)
    (hJ : CountRel env.maxBlocks L s (a ++ t :: b)) :
    CountRel env.maxBlocks L (v2Step d env s t).1 (a ++ (v2Step d env s t).2 :: b) := by
  obtain ⟨hlen, hwf, hcount⟩ := hJ
  refine ⟨by simpa using hlen, ?_, ?_⟩
  · intro u hu
    simp only [List.mem_append, List.mem_cons] at hu
    rcases hu with hu | rfl | hu
    · exact hwf u (by simp [hu])
    · exact v2Step_WF d env s t (hwf t (by simp))
    · exact hwf u (by simp [hu])
  · intro hs
    obtain ⟨h1, h2⟩ := hcount (v2Step_anyErr_none d env s t hs)
    have ha := cnt_sum_le a
    have hb := cnt_sum_le b
    simp only [List.length_append, List.length_cons] at hlen
    simp only [List.map_append, List.map_cons, List.sum_append, List.sum_cons] at h1 h2 ⊢
    generalize (a.map V2Task.cnt).sum = ca at h1 h2 ha ⊢
    generalize (b.map V2Task.cnt).sum = cb at h1 h2 hb ⊢
    generalize (a.map V2Task.rdy).sum = ra at h1 h2 ⊢
    generalize (b.map V2Task.rdy).sum = rb at h1 h2 ⊢
    obtain ⟨h4, h5⟩ := v2Step_count d env s t (ca + cb) (ra + rb) hK (by omega)
      (hwf t (by simp)) hs (by omega) (by omega)
    exact ⟨by omega, by omega⟩

theorem v2Finish_countRel {DV : Type} (d : TagValuesV2Deps DV) (env : V2Env) (L : Nat)
    (hK : 0 < env.maxBlocks) (hL : (L : Int) < 2147483648)
    (s : V2Shared DV) (a : List V2Task) (t : V2Task) (b : List V2Task)
    (hJ : CountRel env.maxBlocks L s (a ++ t :: b)) :
    CountRel env.maxBlocks L (v2Finish d env s t).1 (a ++ (v2Finish d env s t).2 :: b) := by
  unfold v2Finish
  exact iterUntil_rel V2Task.isDone (v2Step d env) (CountRel env.maxBlocks L)
    (fun s a t b hJ => v2Step_countRel d env L hK hL s a t b hJ) a b _ _ _
    (iterUntil_rel V2Task.isDone (v2Step d env) (CountRel env.maxBlocks L)
      (fun s a t b hJ => v2Step_countRel d env L hK hL s a t b hJ) a b 5 s t hJ)

theorem pending_sums (l : List V2Task) (h : ∀ u ∈ l, u.phase = V2Phase.pending) :
    (l.map V2Task.cnt).sum = 0 ∧ (l.map V2Task.rdy).sum = 0 := by
  induction l with
  | nil => simp
  | cons t l ih =>
    have ht := h t (by simp)
    have hl := ih (fun u hu => h u (by simp [hu]))
    simp [V2Task.cnt, V2Task.rdy, ht, hl.1, hl.2]

theorem done_sums (l : List V2Task) (h : ∀ u ∈ l, u.isDone = true) :
    (l.map V2Task.cnt).sum = l.length ∧ (l.map V2Task.rdy).sum = 0 := by
  induction l with
  | nil => simp
  | cons t l ih =>
    have ht := h t (by simp)
    have hl := ih (fun u hu => h u (by simp [hu]))
    have h1 : t.cnt = 1 ∧ t.rdy = 0 := by
      unfold V2Task.isDone at ht
      unfold V2Task.cnt V2Task.rdy
      cases hp : t.phase
      all_goals rw [hp] at ht
      all_goals simp at ht ⊢
    simp only [List.map_cons, List.sum_cons, List.length_cons, h1.1, h1.2, hl.1, hl.2]
    exact ⟨by omega, trivial⟩

theorem v2HeadTasks_pending (i : Instance) :
    ∀ u ∈ v2HeadTasks i, u.phase = V2Phase.pending ∧ u.WF := by
  intro u hu
  unfold v2HeadTasks at hu
  cases hh : i.headBlock with
  | none => rw [hh] at hu; simp at hu
  | some head =>
    rw [hh] at hu
    simp only [List.mem_singleton] at hu
    rw [hu]
    exact ⟨rfl, rfl, fun hc => by cases hc⟩

theorem v2Tasks_pending (i : Instance) :
    ∀ u ∈ v2Tasks i, u.phase = V2Phase.pending ∧ u.WF := by
  intro u hu
  unfold v2Tasks at hu
  rcases List.mem_append.1 hu with hu | hu
  · obtain ⟨p, _, rfl⟩ := List.mem_map.1 hu
    exact ⟨rfl, rfl, fun hc => by cases hc⟩
  · obtain ⟨p, _, rfl⟩ := List.mem_map.1 hu
    exact ⟨rfl, rfl, fun hc => by cases hc⟩

theorem v2_task_count (i : Instance) :
    (v2HeadTasks i).length + (v2Tasks i).length = (allSegs i).length := by
  unfold v2HeadTasks v2Tasks allSegs
  cases i.headBlock <;> simp <;> omega

/-- In every interleaving of `SearchTagValuesV2` with a positive block limit
`K`, when no error is recorded the number of goroutines that went on to a
cache lookup or a live search is `min(N, K)`, `N` the number of goroutines. -/
theorem v2Run_count {DV : Type} (d : TagValuesV2Deps DV) (env : V2Env) (i : Instance)
    (pre : Nat) (sched : List Nat) (hK : 0 < env.maxBlocks)
    (hN : ((allSegs i).length : Int) < 2147483648)
    (herr : (v2Run d env i pre sched).1.anyErr = none) :
    ((proceeded (v2Run d env i pre sched).1.trace : Nat) : Int) =
      min ((allSegs i).length : Int) env.maxBlocks := by
  have hdone := v2Run_done d env i pre sched
  have hcnt := v2_task_count i
  have hJ : CountRel env.maxBlocks (allSegs i).length (v2Run d env i pre sched).1
      (v2Run d env i pre sched).2 := by
    unfold v2Run
    have h0 : CountRel env.maxBlocks (v2HeadTasks i).length (v2Init d env) (v2HeadTasks i) := by
      refine ⟨rfl, fun u hu => (v2HeadTasks_pending i u hu).2, ?_⟩
      intro _
      obtain ⟨e1, e2⟩ := pending_sums (v2HeadTasks i) (fun u hu => (v2HeadTasks_pending i u hu).1)
      rw [e1, e2]
      simp only [v2Init, proceeded]
      omega
    have h1 := runSchedule_rel (v2Step d env) (CountRel env.maxBlocks (v2HeadTasks i).length)
      (fun s a t b hJ => v2Step_countRel d env _ hK (by omega) s a t b hJ)
      (List.replicate pre 0) _ _ h0
    have h2 : CountRel env.maxBlocks (allSegs i).length
        { (runSchedule (v2Step d env) (List.replicate pre 0) (v2Init d env)
            (v2HeadTasks i)).1 with
          trace := (runSchedule (v2Step d env) (List.replicate pre 0) (v2Init d env)
            (v2HeadTasks i)).1.trace ++ [Event.RLockBlocks] }
        ((runSchedule (v2Step d env) (List.replicate pre 0) (v2Init d env)
            (v2HeadTasks i)).2 ++ v2Tasks i) := by
      obtain ⟨hl, hw, hc⟩ := h1
      refine ⟨by rw [List.length_append, hl]; exact hcnt, ?_, ?_⟩
      · intro u hu
        rcases List.mem_append.1 hu with hu | hu
        · exact hw u hu
        · exact (v2Tasks_pending i u hu).2
      · intro hs
        obtain ⟨c1, c2⟩ := hc hs
        obtain ⟨e1, e2⟩ := pending_sums (v2Tasks i) (fun u hu => (v2Tasks_pending i u hu).1)
        simp only [List.map_append, List.sum_append, e1, e2, Nat.add_zero, proceeded_append,
          proceeded]
        exact ⟨c1, c2⟩
    have h3 := runSchedule_rel (v2Step d env) (CountRel env.maxBlocks (allSegs i).length)
      (fun s a t b hJ => v2Step_countRel d env _ hK hN s a t b hJ) sched _ _ h2
    have h4 := waitAll_rel (v2Finish d env) (CountRel env.maxBlocks (allSegs i).length)
      (fun s a t b hJ => v2Finish_countRel d env _ hK hN s a t b hJ) _ [] _ (by simpa using h3)
    simpa using h4
  obtain ⟨hl, _, hc⟩ := hJ
  obtain ⟨_, c2⟩ := hc herr
  obtain ⟨e1, e2⟩ := done_sums _ hdone
  rw [e1, e2, hl] at c2
  simpa using c2

/-! ### The cache key -/

theorem searchTagValuesV2CacheKey_eq (parse : String → Except Err RootExpr)
    (req : SearchTagValuesRequest) (limit : Int) (pfx : String) :
    searchTagValuesV2CacheKey parse req limit pfx =
      pfx ++ "_" ++ toString (cacheKeyHash parse req.TagName req.Query limit) ++ ".buf" := by
  by_cases h : req.Query = ""
  · simp [searchTagValuesV2CacheKey, cacheKeyHash, AddUint64, AddString64, HashString64,
      uint64Bytes, List.foldl_append, canonicalQuery, h]
  · cases hp : parse req.Query <;>
      simp [searchTagValuesV2CacheKey, cacheKeyHash, AddUint64, AddString64, HashString64,
        uint64Bytes, List.foldl_append, canonicalQuery, h, hp]

theorem fnvStep_lt (h b : Nat) : fnvStep h b < 18446744073709551616 :=
  Nat.mod_lt _ (by decide)

theorem cacheKeyHash_lt (parse : String → Except Err RootExpr) (tagName query : String)
    (limit : Int) : cacheKeyHash parse tagName query limit < 18446744073709551616 := by
  unfold cacheKeyHash uint64Bytes
  rw [List.foldl_append]
  simp only [List.map_cons, List.map_nil, List.foldl_cons, List.foldl_nil]
  exact fnvStep_lt _ _

theorem digitValue_digitChar (m : Nat) (h : m < 10) : digitValue (Nat.digitChar m) = m := by
  interval_cases m <;> rfl

theorem readDigits_toDigitsCore :
    ∀ (fuel n : Nat) (acc : List Char), n < fuel →
      readDigits 0 (Nat.toDigitsCore 10 fuel n acc) = readDigits n acc := by
  intro fuel
  induction fuel with
  | zero => intro n acc h; omega
  | succ fuel ih =>
    intro n acc h
    simp only [Nat.toDigitsCore]
    split_ifs with h0
    · have hn : n < 10 := by
        by_contra hc
        have : 1 ≤ n / 10 := Nat.div_pos (by omega) (by decide)
        omega
      simp only [readDigits, List.foldl_cons, Nat.zero_mul, Nat.zero_add]
      rw [digitValue_digitChar _ (Nat.mod_lt _ (by decide)), Nat.mod_eq_of_lt hn]
    · rw [ih (n / 10) _ (by omega)]
      simp only [readDigits, List.foldl_cons]
      rw [digitValue_digitChar _ (Nat.mod_lt _ (by decide)), Nat.div_add_mod' n 10]

/-- The decimal rendering of a natural number determines the number. -/
theorem natToString_injective (m n : Nat) (h : toString m = toString n) : m = n := by
  have hm := readDigits_toDigitsCore (m + 1) m [] (by omega)
  have hn := readDigits_toDigitsCore (n + 1) n [] (by omega)
  have hd : Nat.toDigits 10 m = Nat.toDigits 10 n := by
    have := congrArg String.data h
    simpa [toString, Nat.repr, List.asString] using this
  simp only [Nat.toDigits] at hd
  rw [hd, hn] at hm
  simpa [readDigits] using hm.symm

theorem key_hash_eq (pfx : String) (m n : Nat)
    (h : pfx ++ "_" ++ toString m ++ ".buf" = pfx ++ "_" ++ toString n ++ ".buf") : m = n := by
  apply natToString_injective
  have h1 := congrArg String.data h
  simp only [String.data_append] at h1
  have h2 := List.append_cancel_right h1
  have h3 := List.append_cancel_left h2
  exact String.ext h3

/-- The low byte of an FNV-1a step depends only on the low byte of the hash. -/
theorem fnvStep_low (h b : Nat) :
    fnvStep h b % 256 = fnvStep (h % 256) b % 256 := by
  have hx : ∀ x : Nat, (x ^^^ b) % 256 = ((x % 256) ^^^ b) % 256 := by
    intro x
    have e1 : (256 : Nat) = 2 ^ 8 := by norm_num
    rw [e1]
    apply Nat.eq_of_testBit_eq
    intro j
    simp only [Nat.testBit_mod_two_pow, Nat.testBit_xor]
    by_cases hj : j < 8
    · simp [hj]
    · simp [hj]
  unfold fnvStep
  have hd : (256 : Nat) ∣ 18446744073709551616 := by norm_num
  rw [Nat.mod_mod_of_dvd _ hd, Nat.mod_mod_of_dvd _ hd, Nat.mul_mod, hx h, ← Nat.mul_mod]

set_option maxRecDepth 100000 in
theorem low_byte_differs :
    ∀ r < 256, fnvStep (fnvStep r 0) 100 % 256 ≠ fnvStep (fnvStep r 1) 244 % 256 := by
  decide

/-- Extending a hash with the limit 100 and with the limit 500 gives
different hashes. -/
theorem AddUint64_100_500 (h : Nat) : AddUint64 h 100 ≠ AddUint64 h 500 := by
  have e1 : AddUint64 h 100 =
      fnvStep (fnvStep ([0, 0, 0, 0, 0, 0].foldl fnvStep h) 0) 100 := by
    simp [AddUint64, Nat.shiftRight_eq_div_pow]
  have e2 : AddUint64 h 500 =
      fnvStep (fnvStep ([0, 0, 0, 0, 0, 0].foldl fnvStep h) 1) 244 := by
    simp [AddUint64, Nat.shiftRight_eq_div_pow]
  rw [e1, e2]
  generalize [0, 0, 0, 0, 0, 0].foldl fnvStep h = g
  intro hc
  have h1 := congrArg (fun x => x % 256) hc
  simp only [] at h1
  rw [fnvStep_low _ 100, fnvStep_low (fnvStep g 1) 244,
    fnvStep_low g 0, fnvStep_low g 1] at h1
  rw [← fnvStep_low (fnvStep (g % 256) 0) 100,
    ← fnvStep_low (fnvStep (g % 256) 1) 244] at h1
  exact low_byte_differs (g % 256) (Nat.mod_lt _ (by decide)) h1

/-! ### Merging a segment's entries in `Search` -/

/-- The merge loop stops after the first entry that completes the combiner. -/
theorem mergeTraces_stop {C : Type} (d : SearchDeps C) :
    ∀ (es : List TraceSearchMetadata) (c : C) (k : Nat), k < es.length →
      d.IsCompleteFor (addAll d c (es.take (k + 1))) d.TimestampNever = true →
      (∀ j < k, d.IsCompleteFor (addAll d c (es.take (j + 1))) d.TimestampNever = false) →
      mergeTraces d es c = (addAll d c (es.take (k + 1)), true) := by
  intro es
  induction es with
  | nil => intro c k hk; simp at hk
  | cons tr rest ih =>
    intro c k hk hc hn
    cases k with
    | zero =>
      have h1 : d.IsCompleteFor (d.AddMetadata c tr) d.TimestampNever = true := by
        simpa [addAll] using hc
      simp [mergeTraces, h1, addAll]
    | succ k =>
      have h1 : d.IsCompleteFor (d.AddMetadata c tr) d.TimestampNever = false := by
        simpa [addAll] using hn 0 (by omega)
      have h2 := ih (d.AddMetadata c tr) k (by simpa using hk)
        (by simpa [addAll] using hc)
        (by
          intro j hj
          simpa [addAll] using hn (j + 1) (by omega))
      simp only [mergeTraces, h1, Bool.false_eq_true, if_false, h2]
      simp [addAll]

/-- The merge loop adds every entry when none of them completes the
combiner. -/
theorem mergeTraces_all {C : Type} (d : SearchDeps C) :
    ∀ (es : List TraceSearchMetadata) (c : C),
      (∀ j < es.length,
        d.IsCompleteFor (addAll d c (es.take (j + 1))) d.TimestampNever = false) →
      mergeTraces d es c = (addAll d c es, false) := by
  intro es
  induction es with
  | nil => intro c _; rfl
  | cons tr rest ih =>
    intro c hn
    have h1 : d.IsCompleteFor (d.AddMetadata c tr) d.TimestampNever = false := by
      simpa [addAll] using hn 0 (by simp)
    have h2 := ih (d.AddMetadata c tr)
      (by
        intro j hj
        simpa [addAll] using hn (j + 1) (by simpa using hj))
    simp only [mergeTraces, h1, Bool.false_eq_true, if_false, h2]
    simp [addAll]

/-! ### The disk cache is used on complete blocks only -/

theorem cacheSegs_append (a b : List Event) :
    cacheSegs (a ++ b) = cacheSegs a ++ cacheSegs b := by
  induction a with
  | nil => rfl
  | cons ev a ih =>
    have ih2 : cacheSegs (a.append b) = cacheSegs a ++ cacheSegs b := ih
    cases ev
    all_goals simp only [List.cons_append, cacheSegs]
    all_goals rw [ih2]

/-- One step of a goroutine uses no disk cache but its own, and only when it
has one. -/
theorem v2Step_cacheSegs {DV : Type} (d : TagValuesV2Deps DV) (env : V2Env)
    (s : V2Shared DV) (t : V2Task) :
    cacheSegs (v2Step d env s t).1.trace = cacheSegs s.trace ∨
    (cacheSegs (v2Step d env s t).1.trace = cacheSegs s.trace ++ [t.seg] ∧
      t.cache.isSome = true) := by
  cases hp : t.phase with
  | pending => simp only [v2Step, hp]; split_ifs <;> exact Or.inl rfl
  | counting => simp only [v2Step, hp]; split_ifs <;> exact Or.inl rfl
  | ready =>
    simp only [v2Step, hp]
    cases hc : t.cache with
    | none => left; simp [cacheSegs_append, cacheSegs]
    | some lb =>
      right
      simp only []
      split_ifs
      · cases d.Unmarshal (lb.GetDiskCache t.files env.cacheKey).1 <;>
          simp [cacheSegs_append, cacheSegs]
      · simp [cacheSegs_append, cacheSegs]
  | live feed => cases feed <;> simp [v2Step, hp, cacheSegs_append, cacheSegs]
  | missed =>
    simp only [v2Step, hp]
    cases (Feed.run d.Collect (performFeed d env t.block)
      (d.NewDistinctValue env.limit env.req.MaxTagValues env.req.StaleValueThreshold)).2.2 <;>
      simp [cacheSegs_append, cacheSegs]
  | found values =>
    simp only [v2Step, hp]
    cases d.Marshal values <;> cases hc : t.cache <;> (simp only []; try split_ifs) <;>
      simp [cacheSegs_append, cacheSegs]
  | feeding rest => cases rest <;> simp [v2Step, hp]
  | returned err => cases err <;> simp [v2Step, hp, cacheSegs_append, cacheSegs]
  | done =>
    simp only [v2Step, hp]
    split_ifs <;> simp [cacheSegs_append, cacheSegs]
  | exited => simp [v2Step, hp]

theorem v2Step_cacheRel {DV : Type} (d : TagValuesV2Deps DV) (env : V2Env) (i : Instance)
    (s : V2Shared DV) (a : List V2Task) (t : V2Task) (b : List V2Task)
    (hJ : CacheRel i s (a ++ t :: b)) :
    CacheRel i (v2Step d env s t).1 (a ++ (v2Step d env s t).2 :: b) :=
  rel_of_task_inv (v2Step d env) (fun x => ∀ seg ∈ cacheSegs x.trace, IsCompleteSeg i seg)
    (CacheTask i)
    (fun x u hx hu => by
      refine ⟨?_, ?_⟩
      · intro seg hseg
        rcases v2Step_cacheSegs d env x u with h | ⟨h, hc⟩
        · rw [h] at hseg; exact hx seg hseg
        · rw [h] at hseg
          rcases List.mem_append.1 hseg with hm | hm
          · exact hx seg hm
          · simp only [List.mem_singleton] at hm
            rw [hm]
            exact hu hc
      · intro hc
        rw [v2Step_cache] at hc
        rw [v2Step_seg]
        exact hu hc) s a t b hJ

theorem v2Finish_cacheRel {DV : Type} (d : TagValuesV2Deps DV) (env : V2Env) (i : Instance)
    (s : V2Shared DV) (a : List V2Task) (t : V2Task) (b : List V2Task)
    (hJ : CacheRel i s (a ++ t :: b)) :
    CacheRel i (v2Finish d env s t).1 (a ++ (v2Finish d env s t).2 :: b) := by
  unfold v2Finish
  exact iterUntil_rel V2Task.isDone (v2Step d env) (CacheRel i)
    (fun s a t b hJ => v2Step_cacheRel d env i s a t b hJ) a b _ _ _
    (iterUntil_rel V2Task.isDone (v2Step d env) (CacheRel i)
      (fun s a t b hJ => v2Step_cacheRel d env i s a t b hJ) a b 5 s t hJ)

theorem v2Tasks_cacheTask (i : Instance) : ∀ u ∈ v2Tasks i, CacheTask i u := by
  intro u hu
  unfold v2Tasks at hu
  rcases List.mem_append.1 hu with hu | hu
  · obtain ⟨p, hp, rfl⟩ := List.mem_map.1 hu
    intro _
    exact ⟨p.1, p.2, rfl, List.mem_enum_iff_getElem?.1 hp⟩
  · obtain ⟨p, _, rfl⟩ := List.mem_map.1 hu
    intro hc
    cases hc

theorem v2HeadTasks_cacheTask (i : Instance) : ∀ u ∈ v2HeadTasks i, CacheTask i u := by
  intro u hu
  unfold v2HeadTasks at hu
  cases hh : i.headBlock with
  | none => rw [hh] at hu; simp at hu
  | some head =>
    rw [hh] at hu
    simp only [List.mem_singleton] at hu
    rw [hu]
    intro hc
    cases hc

/-- In every interleaving, the goroutines of `SearchTagValuesV2` use the disk
cache of members of `completeBlocks` only. -/
theorem v2Run_cacheRel {DV : Type} (d : TagValuesV2Deps DV) (env : V2Env) (i : Instance)
    (pre : Nat) (sched : List Nat) :
    CacheRel i (v2Run d env i pre sched).1 (v2Run d env i pre sched).2 := by
  unfold v2Run
  have h0 : CacheRel i (v2Init d env) (v2HeadTasks i) :=
    ⟨by simp [v2Init, cacheSegs], v2HeadTasks_cacheTask i⟩
  have h1 := runSchedule_rel (v2Step d env) (CacheRel i)
    (fun s a t b hJ => v2Step_cacheRel d env i s a t b hJ) (List.replicate pre 0) _ _ h0
  have h2 : CacheRel i
      { (runSchedule (v2Step d env) (List.replicate pre 0) (v2Init d env)
          (v2HeadTasks i)).1 with
        trace := (runSchedule (v2Step d env) (List.replicate pre 0) (v2Init d env)
          (v2HeadTasks i)).1.trace ++ [Event.RLockBlocks] }
      ((runSchedule (v2Step d env) (List.replicate pre 0) (v2Init d env)
          (v2HeadTasks i)).2 ++ v2Tasks i) := by
    refine ⟨?_, ?_⟩
    · simpa [cacheSegs_append, cacheSegs] using h1.1
    · intro u hu
      rcases List.mem_append.1 hu with hu | hu
      · exact h1.2 u hu
      · exact v2Tasks_cacheTask i u hu
  have h3 := runSchedule_rel (v2Step d env) (CacheRel i)
    (fun s a t b hJ => v2Step_cacheRel d env i s a t b hJ) sched _ _ h2
  have h4 := waitAll_rel (v2Finish d env) (CacheRel i)
    (fun s a t b hJ => v2Finish_cacheRel d env i s a t b hJ) _ [] _ (by simpa using h3)
  simpa using h4

theorem v2After_cacheSegs {DV : Type} (d : TagValuesV2Deps DV) (env : V2Env) (i : Instance)
    (s : V2Shared DV) (ts : List V2Task) (hts : ∀ u ∈ ts, CacheTask i u) :
    ∀ seg ∈ cacheSegs (v2After d env s ts), IsCompleteSeg i seg := by
  unfold v2After
  have h := waitAll_rel (v2Step d env) (CacheRel i)
    (fun s a t b hJ => v2Step_cacheRel d env i s a t b hJ) ts [] { s with trace := [] }
    ⟨by simp [cacheSegs], by simpa using hts⟩
  exact h.1

/-! ### A cache miss in `SearchTagValuesV2` -/

theorem cacheWrites_append (a b : List Event) :
    cacheWrites (a ++ b) = cacheWrites a ++ cacheWrites b := by
  induction a with
  | nil => rfl
  | cons ev a ih =>
    have ih2 : cacheWrites (a.append b) = cacheWrites a ++ cacheWrites b := ih
    cases ev
    all_goals simp only [List.cons_append, cacheWrites]
    all_goals rw [ih2]

theorem writeKeys_append (a b : List Event) :
    writeKeys (a ++ b) = writeKeys a ++ writeKeys b := by
  induction a with
  | nil => rfl
  | cons ev a ih =>
    have ih2 : writeKeys (a.append b) = writeKeys a ++ writeKeys b := ih
    cases ev
    all_goals simp only [List.cons_append, writeKeys]
    all_goals rw [ih2]

/-- One step of a goroutine writes no disk cache, or it writes its own, under
the cache key of the call, from the phase `found` and leaves that phase. -/
theorem v2Step_writes {DV : Type} (d : TagValuesV2Deps DV) (env : V2Env)
    (s : V2Shared DV) (t : V2Task) :
    (cacheWrites (v2Step d env s t).1.trace = cacheWrites s.trace ∧
      writeKeys (v2Step d env s t).1.trace = writeKeys s.trace ∧
      ((v2Step d env s t).2.beforeWrite = true → t.beforeWrite = true)) ∨
    (cacheWrites (v2Step d env s t).1.trace = cacheWrites s.trace ++ [t.seg] ∧
      writeKeys (v2Step d env s t).1.trace = writeKeys s.trace ++ [env.cacheKey] ∧
      t.beforeWrite = true ∧ (v2Step d env s t).2.beforeWrite = false) := by
  cases hp : t.phase with
  | pending =>
    left
    simp only [v2Step, hp, V2Task.beforeWrite]
    split_ifs <;> simp
  | counting =>
    left
    simp only [v2Step, hp, V2Task.beforeWrite]
    split_ifs <;> simp
  | ready =>
    left
    simp only [v2Step, hp, V2Task.beforeWrite]
    cases hc : t.cache with
    | none => simp [cacheWrites_append, cacheWrites, writeKeys_append, writeKeys]
    | some lb =>
      simp only []
      split_ifs
      · cases d.Unmarshal (lb.GetDiskCache t.files env.cacheKey).1 <;>
          simp [cacheWrites_append, cacheWrites, writeKeys_append, writeKeys]
      · simp [cacheWrites_append, cacheWrites, writeKeys_append, writeKeys]
  | live feed =>
    left
    cases feed <;>
      simp [v2Step, hp, V2Task.beforeWrite, cacheWrites_append, cacheWrites, writeKeys_append,
        writeKeys]
  | missed =>
    left
    simp only [v2Step, hp, V2Task.beforeWrite]
    cases (Feed.run d.Collect (performFeed d env t.block)
      (d.NewDistinctValue env.limit env.req.MaxTagValues env.req.StaleValueThreshold)).2.2 <;>
      simp [cacheWrites_append, cacheWrites, writeKeys_append, writeKeys]
  | found values =>
    simp only [v2Step, hp, V2Task.beforeWrite]
    cases d.Marshal values <;> cases hc : t.cache <;> (simp only []; try split_ifs) <;>
      simp [cacheWrites_append, cacheWrites, writeKeys_append, writeKeys]
  | feeding rest =>
    left
    cases rest with
    | nil => simp [v2Step, hp, V2Task.beforeWrite]
    | cons v rest =>
      simp only [v2Step, hp, V2Task.beforeWrite]
      split_ifs <;> simp
  | returned err =>
    left
    cases err <;>
      simp [v2Step, hp, V2Task.beforeWrite, cacheWrites_append, cacheWrites, writeKeys_append,
        writeKeys]
  | done =>
    left
    simp only [v2Step, hp, V2Task.beforeWrite]
    split_ifs
    · simp [cacheWrites_append, cacheWrites, writeKeys_append, writeKeys]
    · simp [hp]
  | exited =>
    left
    simp [v2Step, hp, V2Task.beforeWrite]

theorem v2Step_writeRel {DV : Type} (d : TagValuesV2Deps DV) (env : V2Env) (L : List Seg)
    (s : V2Shared DV) (a : List V2Task) (t : V2Task) (b : List V2Task)
    (hJ : WriteRel L s (a ++ t :: b)) :
    WriteRel L (v2Step d env s t).1 (a ++ (v2Step d env s t).2 :: b) := by
  obtain ⟨hL, hnd, hw, hb⟩ := hJ
  have hseg := v2Step_seg d env s t
  have hL2 : (a ++ (v2Step d env s t).2 :: b).map V2Task.seg = L := by
    rw [← hL]
    simp [hseg]
  have hne : ∀ u, u ∈ a ∨ u ∈ b → u.seg ≠ t.seg := by
    intro u hu
    rw [← hL] at hnd
    simp only [List.map_append, List.map_cons] at hnd
    rw [List.nodup_append] at hnd
    obtain ⟨_, h2, h3⟩ := hnd
    rcases hu with hu | hu
    · intro hc
      exact h3 (List.mem_map_of_mem _ hu) (by rw [hc]; simp)
    · intro hc
      rw [List.nodup_cons] at h2
      exact h2.1 (by rw [← hc]; exact List.mem_map_of_mem _ hu)
  refine ⟨hL2, hnd, ?_, ?_⟩
  · rcases v2Step_writes d env s t with ⟨h1, _, _⟩ | ⟨h1, _, h3, _⟩
    · rw [h1]; exact hw
    · rw [h1]
      rw [List.nodup_append]
      refine ⟨hw, by simp, ?_⟩
      intro x hx hx2
      simp only [List.mem_singleton] at hx2
      rw [hx2] at hx
      exact hb t (by simp) h3 hx
  · intro u hu hbw
    simp only [List.mem_append, List.mem_cons] at hu
    rcases v2Step_writes d env s t with ⟨h1, _, h3⟩ | ⟨h1, _, h3, h4⟩
    · rw [h1]
      rcases hu with hu | rfl | hu
      · exact hb u (by simp [hu]) hbw
      · rw [hseg]
        exact hb t (by simp) (h3 hbw)
      · exact hb u (by simp [hu]) hbw
    · rw [h1]
      rcases hu with hu | rfl | hu
      · intro hc
        rcases List.mem_append.1 hc with hc | hc
        · exact hb u (by simp [hu]) hbw hc
        · simp only [List.mem_singleton] at hc
          exact hne u (Or.inl hu) hc
      · rw [h4] at hbw; cases hbw
      · intro hc
        rcases List.mem_append.1 hc with hc | hc
        · exact hb u (by simp [hu]) hbw hc
        · simp only [List.mem_singleton] at hc
          exact hne u (Or.inr hu) hc

theorem v2Finish_writeRel {DV : Type} (d : TagValuesV2Deps DV) (env : V2Env) (L : List Seg)
    (s : V2Shared DV) (a : List V2Task) (t : V2Task) (b : List V2Task)
    (hJ : WriteRel L s (a ++ t :: b)) :
    WriteRel L (v2Finish d env s t).1 (a ++ (v2Finish d env s t).2 :: b) := by
  unfold v2Finish
  exact iterUntil_rel V2Task.isDone (v2Step d env) (WriteRel L)
    (fun s a t b hJ => v2Step_writeRel d env L s a t b hJ) a b _ _ _
    (iterUntil_rel V2Task.isDone (v2Step d env) (WriteRel L)
      (fun s a t b hJ => v2Step_writeRel d env L s a t b hJ) a b 5 s t hJ)

theorem v2_segs_nodup (i : Instance) :
    ((v2HeadTasks i ++ v2Tasks i).map V2Task.seg).Nodup := by
  have hrange : ∀ (f : Nat → Seg) (n : Nat), (∀ x y, f x = f y → x = y) →
      ((List.range n).map f).Nodup := by
    intro f n hf
    exact List.Nodup.map (fun x y h => hf x y h) (List.nodup_range n)
  have e1 : (v2Tasks i).map V2Task.seg =
      (List.range i.completeBlocks.length).map Seg.complete ++
      (List.range i.completingBlocks.length).map Seg.completing := by
    unfold v2Tasks
    simp only [List.map_append, List.map_map]
    congr 1
    · rw [← List.enum_map_fst i.completeBlocks, List.map_map]
      rfl
    · rw [← List.enum_map_fst i.completingBlocks, List.map_map]
      rfl
  have h1 : ((v2Tasks i).map V2Task.seg).Nodup := by
    rw [e1, List.nodup_append]
    refine ⟨hrange _ _ (fun x y h => by cases h; rfl),
      hrange _ _ (fun x y h => by cases h; rfl), ?_⟩
    intro seg hx hy
    simp only [List.mem_map] at hx hy
    obtain ⟨x, _, rfl⟩ := hx
    obtain ⟨y, _, hy⟩ := hy
    cases hy
  rw [List.map_append, List.nodup_append]
  refine ⟨?_, h1, ?_⟩
  · unfold v2HeadTasks
    cases i.headBlock <;> simp
  · intro seg hx hy
    have hhead : seg = Seg.head := by
      simp only [List.mem_map] at hx
      obtain ⟨u, hu, rfl⟩ := hx
      exact v2HeadTasks_head i u hu
    simp only [List.mem_map] at hy
    obtain ⟨u, hu, rfl⟩ := hy
    exact v2Tasks_not_head i u hu hhead

theorem v2HeadTasks_beforeWrite (i : Instance) :
    ∀ u ∈ v2HeadTasks i, u.phase = V2Phase.pending := fun u hu =>
  (v2HeadTasks_pending i u hu).1

/-- In every interleaving of `SearchTagValuesV2`, no disk cache is written
twice. -/
theorem v2Run_writeRel {DV : Type} (d : TagValuesV2Deps DV) (env : V2Env) (i : Instance)
    (pre : Nat) (sched : List Nat) :
    WriteRel ((v2HeadTasks i ++ v2Tasks i).map V2Task.seg) (v2Run d env i pre sched).1
      (v2Run d env i pre sched).2 := by
  have hnd := v2_segs_nodup i
  unfold v2Run
  have h0 : WriteRel ((v2HeadTasks i).map V2Task.seg) (v2Init d env) (v2HeadTasks i) := by
    refine ⟨rfl, ?_, by simp [v2Init, cacheWrites], ?_⟩
    · rw [List.map_append, List.nodup_append] at hnd
      exact hnd.1
    · intro u _ _
      simp [v2Init, cacheWrites]
  have h1 := runSchedule_rel (v2Step d env) (WriteRel ((v2HeadTasks i).map V2Task.seg))
    (fun s a t b hJ => v2Step_writeRel d env _ s a t b hJ) (List.replicate pre 0) _ _ h0
  have h2 : WriteRel ((v2HeadTasks i ++ v2Tasks i).map V2Task.seg)
      { (runSchedule (v2Step d env) (List.replicate pre 0) (v2Init d env)
          (v2HeadTasks i)).1 with
        trace := (runSchedule (v2Step d env) (List.replicate pre 0) (v2Init d env)
          (v2HeadTasks i)).1.trace ++ [Event.RLockBlocks] }
      ((runSchedule (v2Step d env) (List.replicate pre 0) (v2Init d env)
          (v2HeadTasks i)).2 ++ v2Tasks i) := by
    obtain ⟨e1, _, e3, e4⟩ := h1
    have hwr : ∀ u ∈ v2Tasks i, u.seg ∉ cacheWrites
        (runSchedule (v2Step d env) (List.replicate pre 0) (v2Init d env)
          (v2HeadTasks i)).1.trace := by
      intro u hu hc
      -- every cache write so far would be by the head goroutine
      have hrelw := runSchedule_rel (v2Step d env)
        (fun (x : V2Shared DV) (us : List V2Task) =>
          (∀ seg ∈ cacheWrites x.trace, seg = Seg.head) ∧ ∀ w ∈ us, w.seg = Seg.head)
        (fun x a t b hJ => by
          refine ⟨?_, ?_⟩
          · intro seg hseg
            rcases v2Step_writes d env x t with ⟨h, _, _⟩ | ⟨h, _, _, _⟩
            · rw [h] at hseg; exact hJ.1 seg hseg
            · rw [h] at hseg
              rcases List.mem_append.1 hseg with hm | hm
              · exact hJ.1 seg hm
              · simp only [List.mem_singleton] at hm
                rw [hm]
                exact hJ.2 t (by simp)
          · intro w hw
            simp only [List.mem_append, List.mem_cons] at hw
            rcases hw with hw | rfl | hw
            · exact hJ.2 w (by simp [hw])
            · rw [v2Step_seg]; exact hJ.2 t (by simp)
            · exact hJ.2 w (by simp [hw]))
        (List.replicate pre 0) (v2Init d env) (v2HeadTasks i)
        ⟨by simp [v2Init, cacheWrites], v2HeadTasks_head i⟩
      exact v2Tasks_not_head i u hu (hrelw.1 u.seg hc)
    refine ⟨by rw [List.map_append, e1, List.map_append], hnd, ?_, ?_⟩
    · simpa [cacheWrites_append, cacheWrites] using e3
    · intro u hu hbw
      simp only [cacheWrites_append, cacheWrites, List.append_nil]
      rcases List.mem_append.1 hu with hu | hu
      · exact e4 u hu hbw
      · exact hwr u hu
  have h3 := runSchedule_rel (v2Step d env)
    (WriteRel ((v2HeadTasks i ++ v2Tasks i).map V2Task.seg))
    (fun s a t b hJ => v2Step_writeRel d env _ s a t b hJ) sched _ _ h2
  have h4 := waitAll_rel (v2Finish d env)
    (WriteRel ((v2HeadTasks i ++ v2Tasks i).map V2Task.seg))
    (fun s a t b hJ => v2Finish_writeRel d env _ s a t b hJ) _ [] _ (by simpa using h3)
  simpa using h4

/-- A property of the shared state that every goroutine step and the
acquisition of `blocksMtx` keep holds when `wg.Wait()` returns. -/
theorem v2Run_inv {DV : Type} (d : TagValuesV2Deps DV) (env : V2Env) (i : Instance)
    (pre : Nat) (sched : List Nat) (P : V2Shared DV → Prop)
    (hstep : ∀ (x : V2Shared DV) (u : V2Task), P x → P (v2Step d env x u).1)
    (hlock : ∀ x : V2Shared DV, P x → P { x with trace := x.trace ++ [Event.RLockBlocks] })
    (h0 : P (v2Init d env)) : P (v2Run d env i pre sched).1 := by
  have hfin : ∀ (x : V2Shared DV) (u : V2Task), P x → P (v2Finish d env x u).1 := by
    intro x u hx
    unfold v2Finish
    exact iterUntil_inv V2Task.isDone (v2Step d env) P hstep _ _ _
      (iterUntil_inv V2Task.isDone (v2Step d env) P hstep 5 x u hx)
  unfold v2Run
  simp only []
  have h1 := runSchedule_inv (v2Step d env) P hstep (List.replicate pre 0) (v2Init d env)
    (v2HeadTasks i) h0
  exact waitAll_inv (v2Finish d env) P hfin _ _
    (runSchedule_inv (v2Step d env) P hstep sched _ _ (hlock _ h1))

/-- In every interleaving, every cache write of `SearchTagValuesV2` is under
the cache key of the call. -/
theorem v2Run_writeKeys {DV : Type} (d : TagValuesV2Deps DV) (env : V2Env) (i : Instance)
    (pre : Nat) (sched : List Nat) :
    ∀ k ∈ writeKeys (v2Run d env i pre sched).1.trace, k = env.cacheKey := by
  refine v2Run_inv d env i pre sched (fun x => ∀ k ∈ writeKeys x.trace, k = env.cacheKey)
    ?_ ?_ ?_
  · intro x u hx k hk
    rcases v2Step_writes d env x u with ⟨_, h, _⟩ | ⟨_, h, _, _⟩
    · rw [h] at hk; exact hx k hk
    · rw [h] at hk
      rcases List.mem_append.1 hk with hm | hm
      · exact hx k hm
      · simpa using hm
  · intro x hx k hk
    apply hx k
    simpa [writeKeys_append, writeKeys] using hk
  · intro k hk
    simp [v2Init, writeKeys] at hk

/-- After the return of `SearchTagValuesV2` no disk cache is written. -/
theorem v2After_writes {DV : Type} (d : TagValuesV2Deps DV) (env : V2Env)
    (s : V2Shared DV) (ts : List V2Task) (hts : ∀ u ∈ ts, u.isDone = true) :
    cacheWrites (v2After d env s ts) = [] := by
  unfold v2After
  have hnb : ∀ u : V2Task, u.isDone = true → u.beforeWrite = false := by
    intro u hu
    unfold V2Task.isDone at hu
    unfold V2Task.beforeWrite
    cases hp : u.phase
    all_goals rw [hp] at hu
    all_goals simp at hu ⊢
  have hkeep : ∀ (x : V2Shared DV) (u : V2Task), u.isDone = true →
      (v2Step d env x u).2.isDone = true := by
    intro x u hu
    unfold V2Task.isDone at hu
    cases hp : u.phase
    all_goals rw [hp] at hu
    all_goals simp at hu
    · simp only [v2Step, hp]
      split_ifs <;> simp [V2Task.isDone, hp]
    · simp [v2Step, hp, V2Task.isDone]
  have h := waitAll_rel (v2Step d env)
    (fun (x : V2Shared DV) (us : List V2Task) =>
      cacheWrites x.trace = [] ∧ ∀ u ∈ us, u.isDone = true)
    (fun x a t b hJ => by
      refine ⟨?_, ?_⟩
      · rcases v2Step_writes d env x t with ⟨h, _, _⟩ | ⟨_, _, h, _⟩
        · rw [h]; exact hJ.1
        · rw [hnb t (hJ.2 t (by simp))] at h; cases h
      · intro u hu
        simp only [List.mem_append, List.mem_cons] at hu
        rcases hu with hu | rfl | hu
        · exact hJ.2 u (by simp [hu])
        · exact hkeep x t (hJ.2 t (by simp))
        · exact hJ.2 u (by simp [hu]))
    ts [] { s with trace := [] } ⟨rfl, by simpa using hts⟩
  exact h.1

theorem writeKeys_nil (tr : List Event) (h : cacheWrites tr = []) : writeKeys tr = [] := by
  induction tr with
  | nil => rfl
  | cons ev tr ih =>
    cases ev
    case SetDiskCache seg key data => simp [cacheWrites] at h
    all_goals
      simp only [cacheWrites] at h
      simp only [writeKeys]
      exact ih h

/-! ### Two calls of `SearchTagValuesV2` in a row -/

/-- A relation between the shared variables and the goroutines that every
step keeps holds when `wg.Wait()` returns: `J0` is the relation while only
the head goroutine runs, `J` the one after the other goroutines are
launched. -/
theorem v2Run_rel {DV : Type} (d : TagValuesV2Deps DV) (env : V2Env) (i : Instance)
    (pre : Nat) (sched : List Nat) (J0 J : V2Shared DV → List V2Task → Prop)
    (hstep0 : ∀ s a t b, J0 s (a ++ t :: b) →
      J0 (v2Step d env s t).1 (a ++ (v2Step d env s t).2 :: b))
    (hlock : ∀ s ts, J0 s ts →
      J { s with trace := s.trace ++ [Event.RLockBlocks] } (ts ++ v2Tasks i))
    (hstep : ∀ s a t b, J s (a ++ t :: b) →
      J (v2Step d env s t).1 (a ++ (v2Step d env s t).2 :: b))
    (h0 : J0 (v2Init d env) (v2HeadTasks i)) :
    J (v2Run d env i pre sched).1 (v2Run d env i pre sched).2 := by
  have hfin : ∀ s a t b, J s (a ++ t :: b) →
      J (v2Finish d env s t).1 (a ++ (v2Finish d env s t).2 :: b) := by
    intro s a t b hJ
    unfold v2Finish
    exact iterUntil_rel V2Task.isDone (v2Step d env) J hstep a b _ _ _
      (iterUntil_rel V2Task.isDone (v2Step d env) J hstep a b 5 s t hJ)
  unfold v2Run
  have h1 := runSchedule_rel (v2Step d env) J0 hstep0 (List.replicate pre 0) _ _ h0
  have h3 := runSchedule_rel (v2Step d env) J hstep sched _ _ (hlock _ _ h1)
  have h4 := waitAll_rel (v2Finish d env) J hfin _ [] _ (by simpa using h3)
  simpa using h4

/-- A property of a goroutine that every step keeps holds of every goroutine
when `wg.Wait()` returns. -/
theorem v2Run_tasks {DV : Type} (d : TagValuesV2Deps DV) (env : V2Env) (i : Instance)
    (pre : Nat) (sched : List Nat) (Q : V2Task → Prop)
    (hstep : ∀ s t, Q t → Q (v2Step d env s t).2)
    (h0 : ∀ t ∈ v2HeadTasks i ++ v2Tasks i, Q t) :
    ∀ u ∈ (v2Run d env i pre sched).2, Q u := by
  have hs : ∀ (s : V2Shared DV) (a : List V2Task) (t : V2Task) (b : List V2Task),
      (∀ u ∈ a ++ t :: b, Q u) → ∀ u ∈ a ++ (v2Step d env s t).2 :: b, Q u := by
    intro s a t b hJ u hu
    simp only [List.mem_append, List.mem_cons] at hu
    rcases hu with hu | rfl | hu
    · exact hJ u (by simp [hu])
    · exact hstep s t (hJ t (by simp))
    · exact hJ u (by simp [hu])
  exact v2Run_rel d env i pre sched (fun _ ts => ∀ u ∈ ts, Q u) (fun _ ts => ∀ u ∈ ts, Q u)
    hs
    (fun s ts hJ u hu => by
      rcases List.mem_append.1 hu with hu | hu
      · exact hJ u hu
      · exact h0 u (by simp [hu]))
    hs
    (fun u hu => h0 u (by simp [hu]))

theorem v2Step_block {DV : Type} (d : TagValuesV2Deps DV) (env : V2Env)
    (s : V2Shared DV) (t : V2Task) : (v2Step d env s t).2.block = t.block := by
  cases hp : t.phase with
  | pending => simp only [v2Step, hp]; split_ifs <;> rfl
  | counting => simp only [v2Step, hp]; split_ifs <;> rfl
  | ready =>
    simp only [v2Step, hp]
    cases hc : t.cache with
    | none => rfl
    | some lb =>
      simp only []
      split_ifs
      · cases d.Unmarshal (lb.GetDiskCache t.files env.cacheKey).1 <;> rfl
      · rfl
  | live feed => cases feed <;> simp [v2Step, hp]
  | missed =>
    simp only [v2Step, hp]
    cases (Feed.run d.Collect (performFeed d env t.block)
      (d.NewDistinctValue env.limit env.req.MaxTagValues env.req.StaleValueThreshold)).2.2 <;>
      rfl
  | found values =>
    simp only [v2Step, hp]
    cases d.Marshal values <;> cases hc : t.cache <;> (simp only []; try split_ifs) <;> rfl
  | feeding rest => cases rest <;> simp [v2Step, hp]
  | returned err => cases err <;> simp [v2Step, hp]
  | done => simp only [v2Step, hp]; split_ifs <;> rfl
  | exited => simp [v2Step, hp]

theorem v2Step_own {DV : Type} (d : TagValuesV2Deps DV) (env : V2Env) (i : Instance)
    (s : V2Shared DV) (t : V2Task) (h : OwnTask i t) : OwnTask i (v2Step d env s t).2 := by
  unfold OwnTask
  rw [v2Step_seg, v2Step_cache, v2Step_block]
  exact h

/-- A step leaves the files of the disk cache as they are, or it is the one
write of the goroutine: the serialized values, non-empty, under the cache
key. -/
theorem v2Step_files {DV : Type} (d : TagValuesV2Deps DV) (env : V2Env)
    (s : V2Shared DV) (t : V2Task) :
    ((v2Step d env s t).2.files = t.files ∧
      cacheWrites (v2Step d env s t).1.trace = cacheWrites s.trace ∧
      ((v2Step d env s t).2.beforeWrite = true → t.beforeWrite = true)) ∨
    (∃ values lb data, t.phase = V2Phase.found values ∧ t.cache = some lb ∧
      d.Marshal values = .ok data ∧ 0 < data.length ∧
      (v2Step d env s t).2.files = (lb.SetDiskCache t.files env.cacheKey data).1 ∧
      cacheWrites (v2Step d env s t).1.trace = cacheWrites s.trace ++ [t.seg] ∧
      (v2Step d env s t).2.beforeWrite = false) := by
  cases hp : t.phase with
  | pending =>
    left
    simp only [v2Step, hp, V2Task.beforeWrite]
    split_ifs <;> simp
  | counting =>
    left
    simp only [v2Step, hp, V2Task.beforeWrite]
    split_ifs <;> simp
  | ready =>
    left
    simp only [v2Step, hp, V2Task.beforeWrite]
    cases hc : t.cache with
    | none => simp [cacheWrites_append, cacheWrites]
    | some lb =>
      simp only []
      split_ifs
      · cases d.Unmarshal (lb.GetDiskCache t.files env.cacheKey).1 <;>
          simp [cacheWrites_append, cacheWrites]
      · simp [cacheWrites_append, cacheWrites]
  | live feed =>
    left
    cases feed <;>
      simp [v2Step, hp, V2Task.beforeWrite, cacheWrites_append, cacheWrites]
  | missed =>
    left
    simp only [v2Step, hp, V2Task.beforeWrite]
    cases (Feed.run d.Collect (performFeed d env t.block)
      (d.NewDistinctValue env.limit env.req.MaxTagValues env.req.StaleValueThreshold)).2.2 <;>
      simp [cacheWrites_append, cacheWrites]
  | found values =>
    cases hm : d.Marshal values with
    | error e =>
      left
      simp [v2Step, hp, hm, V2Task.beforeWrite]
    | ok data =>
      cases hc : t.cache with
      | none =>
        left
        simp [v2Step, hp, hm, hc, V2Task.beforeWrite]
      | some lb =>
        by_cases hl : 0 < data.length
        · right
          refine ⟨values, lb, data, rfl, rfl, hm, hl, ?_⟩
          simp [v2Step, hp, hm, hc, hl, V2Task.beforeWrite, cacheWrites_append, cacheWrites]
        · left
          simp [v2Step, hp, hm, hc, hl, V2Task.beforeWrite]
  | feeding rest =>
    left
    cases rest with
    | nil => simp [v2Step, hp, V2Task.beforeWrite]
    | cons v rest =>
      simp only [v2Step, hp, V2Task.beforeWrite]
      split_ifs <;> simp
  | returned err =>
    left
    cases err <;>
      simp [v2Step, hp, V2Task.beforeWrite, cacheWrites_append, cacheWrites]
  | done =>
    left
    simp only [v2Step, hp, V2Task.beforeWrite]
    split_ifs
    · simp [cacheWrites_append, cacheWrites]
    · simp [hp]
  | exited =>
    left
    simp [v2Step, hp, V2Task.beforeWrite]

/-- How a goroutine gets to the local search and past it: to `missed` from
the cache lookup that found nothing, to `found` from a local search without
an error, with the values of the local collector. -/
theorem v2Step_phase {DV : Type} (d : TagValuesV2Deps DV) (env : V2Env)
    (s : V2Shared DV) (t : V2Task) :
    ((v2Step d env s t).2.phase = V2Phase.missed →
      t.phase = V2Phase.ready ∧ ∃ lb, t.cache = some lb ∧
        ¬ (0 < (lb.GetDiskCache t.files env.cacheKey).1.length ∧
          (lb.GetDiskCache t.files env.cacheKey).2 = none)) ∧
    (∀ values, (v2Step d env s t).2.phase = V2Phase.found values →
      t.phase = V2Phase.missed ∧ (localSearch d env t.block).2.2 = none ∧
      values = d.Values (localSearch d env t.block).1) := by
  cases hp : t.phase with
  | pending => simp only [v2Step, hp]; split_ifs <;> simp
  | counting => simp only [v2Step, hp]; split_ifs <;> simp
  | ready =>
    simp only [v2Step, hp]
    cases hc : t.cache with
    | none => simp
    | some lb =>
      simp only []
      split_ifs with hh
      · cases d.Unmarshal (lb.GetDiskCache t.files env.cacheKey).1 <;> simp
      · simp only [reduceCtorEq, false_and, imp_false, not_false_eq_true, implies_true,
          and_true, true_and, forall_const]
        exact ⟨lb, rfl, hh⟩
  | live feed => cases feed <;> simp [v2Step, hp]
  | missed =>
    simp only [v2Step, hp, localSearch]
    cases hr : (Feed.run d.Collect (performFeed d env t.block)
      (d.NewDistinctValue env.limit env.req.MaxTagValues env.req.StaleValueThreshold)).2.2 with
    | none =>
      simp only [reduceCtorEq, false_and, imp_false, not_false_eq_true, true_and,
        V2Phase.found.injEq]
      intro values hv
      exact hv.symm
    | some e => simp
  | found values =>
    simp only [v2Step, hp]
    cases d.Marshal values <;> cases hc : t.cache <;> (simp only []; try split_ifs) <;> simp
  | feeding rest =>
    cases rest with
    | nil => simp [v2Step, hp]
    | cons v rest =>
      simp only [v2Step, hp]
      split_ifs <;> simp
  | returned err => cases err <;> simp [v2Step, hp]
  | done =>
    simp only [v2Step, hp]
    split_ifs
    · simp
    · simp [hp]
  | exited => simp [v2Step, hp]

theorem beforeWrite_of_phase (t : V2Task) (h : t.beforeWrite = false) :
    t.phase ≠ V2Phase.missed ∧ ∀ values, t.phase ≠ V2Phase.found values := by
  unfold V2Task.beforeWrite at h
  cases hp : t.phase
  all_goals rw [hp] at h
  all_goals simp at h ⊢

theorem v2Step_filesTask {DV : Type} (d : TagValuesV2Deps DV) (env : V2Env)
    (s : V2Shared DV) (t : V2Task) (h : FilesTask d env t) :
    FilesTask d env (v2Step d env s t).2 := by
  intro lb hc
  rw [v2Step_cache] at hc
  rw [v2Step_block]
  obtain ⟨h1, h2, h3, h4⟩ := h lb hc
  obtain ⟨hmiss, hfound⟩ := v2Step_phase d env s t
  rcases v2Step_files d env s t with ⟨hf, _, hbw⟩ | ⟨values, lb2, data, hp, hc2, hm, hl, hf, _, hbw⟩
  · rw [hf]
    refine ⟨h1, fun hb => h2 (hbw hb), ?_, ?_⟩
    · intro hp
      obtain ⟨hr, lb3, hc3, hno⟩ := hmiss hp
      rw [hc] at hc3
      cases hc3
      have hb : t.beforeWrite = true := by simp [V2Task.beforeWrite, hr]
      rw [← h2 hb]
      exact hno
    · intro values hp
      obtain ⟨hr, hok, hv⟩ := hfound values hp
      exact ⟨h3 hr, hok, hv⟩
  · rw [hc] at hc2
    cases hc2
    obtain ⟨hno, hok, hv⟩ := h4 values hp
    have hb : t.beforeWrite = true := by simp [V2Task.beforeWrite, hp]
    have hfiles := h2 hb
    obtain ⟨n1, n2⟩ := beforeWrite_of_phase _ hbw
    refine ⟨Or.inr ⟨hno, hok, data, ?_, hl, ?_⟩, ?_, fun hp2 => absurd hp2 n1,
      fun vs hp2 => absurd hp2 (n2 vs)⟩
    · rw [← hv]; exact hm
    · rw [hf, hfiles]
    · intro hb2
      rw [hbw] at hb2
      cases hb2

/-- With a working disk cache and an encoding that can be read back, what the
goroutine of a complete block has done to the cache does not change what a
goroutine plans for that block. -/
theorem cachePlan_stable {DV : Type} (d : TagValuesV2Deps DV) (env : V2Env) (t : V2Task)
    (lb : LocalBlock) (hc : t.cache = some lb) (hf : FilesTask d env t)
    (hw : WorkingCache lb) (hrt : RoundTrip d) :
    cachePlan d env lb t.block t.files = cachePlan d env lb t.block lb.Files := by
  rcases (hf lb hc).1 with h | ⟨hno, hok, data, hm, hl, hfiles⟩
  · rw [h]
  · have hget := hw lb.Files env.cacheKey data
    have hhit : 0 < (lb.GetDiskCache t.files env.cacheKey).1.length ∧
        (lb.GetDiskCache t.files env.cacheKey).2 = none := by
      rw [hfiles, hget]
      exact ⟨hl, rfl⟩
    unfold cachePlan
    rw [if_pos hhit, if_neg hno, hfiles, hget]
    simp only [hrt _ _ hm, localPlan, hok]

/-- One step of a goroutine, when no error is stored, the collector never
signals stop and there is no limit on the blocks: either the step stores no
error and keeps the planned error, and it keeps the collector and the
planned values or moves the first planned value into the collector; or it
stores the planned error. -/
theorem v2Step_plan {DV : Type} (d : TagValuesV2Deps DV) (env : V2Env)
    (hnever : ∀ c v, (d.Collect c v).2 = false) (hmax : ¬ 0 < env.maxBlocks)
    (s : V2Shared DV) (t : V2Task) (hs : s.anyErr = none) :
    ((v2Step d env s t).1.anyErr = none ∧
      (taskPlan d env (v2Step d env s t).2).2 = (taskPlan d env t).2 ∧
      (((v2Step d env s t).1.valueCollector = s.valueCollector ∧
          (taskPlan d env (v2Step d env s t).2).1 = (taskPlan d env t).1) ∨
        (∃ v, (taskPlan d env t).1 = v :: (taskPlan d env (v2Step d env s t).2).1 ∧
          (v2Step d env s t).1.valueCollector = (d.Collect s.valueCollector v).1))) ∨
    ((v2Step d env s t).1.anyErr ≠ none ∧ (taskPlan d env t).2 ≠ none) := by
  cases hp : t.phase with
  | pending =>
    left
    simp [v2Step, hp, hs, taskPlan]
  | counting =>
    left
    simp [v2Step, hp, hs, hmax, taskPlan]
  | ready =>
    left
    cases hc : t.cache with
    | none => simp [v2Step, hp, hs, hc, taskPlan]
    | some lb =>
      by_cases hh : 0 < (lb.GetDiskCache t.files env.cacheKey).1.length ∧
          (lb.GetDiskCache t.files env.cacheKey).2 = none
      · cases hu : d.Unmarshal (lb.GetDiskCache t.files env.cacheKey).1 with
        | error e => simp [v2Step, hp, hs, hc, hh, hu, taskPlan, cachePlan]
        | ok vs => simp [v2Step, hp, hs, hc, hh, hu, taskPlan, cachePlan]
      · simp only [v2Step, hp, hc, taskPlan, cachePlan]
        rw [if_neg hh, if_neg hh]
        simp [hs]
  | live feed =>
    left
    cases feed with
    | done bytes err => simp [v2Step, hp, hs, taskPlan, Feed.offers, Feed.result]
    | offer v next =>
      refine ⟨by simp [v2Step, hp, hs], ?_, Or.inr ⟨v, ?_, ?_⟩⟩
      · simp [v2Step, hp, taskPlan, Feed.result, hnever]
      · simp [v2Step, hp, taskPlan, Feed.offers, hnever]
      · simp [v2Step, hp]
  | missed =>
    left
    simp only [v2Step, hp, taskPlan, localPlan, localSearch]
    cases (Feed.run d.Collect (performFeed d env t.block)
      (d.NewDistinctValue env.limit env.req.MaxTagValues env.req.StaleValueThreshold)).2.2 <;>
      simp [hs]
  | found values =>
    left
    simp only [v2Step, hp, taskPlan]
    cases d.Marshal values <;> cases hc : t.cache <;> (simp only []; try split_ifs) <;>
      simp [hs]
  | feeding rest =>
    left
    cases rest with
    | nil => simp [v2Step, hp, hs, taskPlan]
    | cons v rest =>
      refine ⟨by simp [v2Step, hp, hs], ?_, Or.inr ⟨v, ?_, ?_⟩⟩
      · simp [v2Step, hp, taskPlan, hnever]
      · simp [v2Step, hp, taskPlan, hnever]
      · simp [v2Step, hp]
  | returned err =>
    cases err with
    | none => left; simp [v2Step, hp, hs, taskPlan]
    | some e => right; simp [v2Step, hp, taskPlan]
  | done =>
    left
    simp only [v2Step, hp]
    split_ifs
    · simp [hs, taskPlan, hp]
    · simp [hs]
  | exited =>
    left
    simp [v2Step, hp, hs]

theorem exists_mem_mid {T : Type} (P : T → Prop) (a : List T) (t : T) (b : List T) :
    (∃ u ∈ a ++ t :: b, P u) ↔ (P t ∨ ∃ u ∈ a ++ b, P u) := by
  constructor
  · rintro ⟨u, hu, hP⟩
    simp only [List.mem_append, List.mem_cons] at hu
    rcases hu with hu | rfl | hu
    · exact Or.inr ⟨u, by simp [hu], hP⟩
    · exact Or.inl hP
    · exact Or.inr ⟨u, by simp [hu], hP⟩
  · rintro (hP | ⟨u, hu, hP⟩)
    · exact ⟨t, by simp, hP⟩
    · refine ⟨u, ?_, hP⟩
      simp only [List.mem_append, List.mem_cons] at hu ⊢
      tauto

theorem exists_mem_app {T : Type} (P : T → Prop) (a b : List T) :
    (∃ u ∈ a ++ b, P u) ↔ ((∃ u ∈ a, P u) ∨ ∃ u ∈ b, P u) := by
  constructor
  · rintro ⟨u, hu, hP⟩
    rcases List.mem_append.1 hu with hu | hu
    · exact Or.inl ⟨u, hu, hP⟩
    · exact Or.inr ⟨u, hu, hP⟩
  · rintro (⟨u, hu, hP⟩ | ⟨u, hu, hP⟩)
    · exact ⟨u, by simp [hu], hP⟩
    · exact ⟨u, by simp [hu], hP⟩

theorem v2Step_planRel {DV : Type} (d : TagValuesV2Deps DV) (env : V2Env)
    (hub : Unbudgeted d) (hmax : ¬ 0 < env.maxBlocks) (T : TagValue → Prop) (E : Prop)
    (s : V2Shared DV) (a : List V2Task) (t : V2Task) (b : List V2Task)
    (hJ : PlanRel d env T E s (a ++ t :: b)) :
    PlanRel d env T E (v2Step d env s t).1 (a ++ (v2Step d env s t).2 :: b) := by
  obtain ⟨hE, hT⟩ := hJ
  unfold PlanRel
  rw [exists_mem_mid] at hE
  rw [exists_mem_mid]
  by_cases hs : s.anyErr = none
  · have hT2 := hT hs
    rcases v2Step_plan d env hub.1 hmax s t hs with ⟨h1, h2, h3⟩ | ⟨h1, h2⟩
    · refine ⟨?_, fun _ x => ?_⟩
      · rw [hE, h2]
        simp [hs, h1]
      · rw [hT2 x, exists_mem_mid, exists_mem_mid]
        rcases h3 with ⟨e1, e2⟩ | ⟨v, e1, e2⟩
        · rw [e1, e2]
        · rw [e1, e2, hub.2.1]
          simp only [List.mem_cons]
          tauto
    · refine ⟨?_, fun hc => absurd hc h1⟩
      have : E := hE.2 (Or.inr (Or.inl h2))
      simp [this, h1]
  · have h1 : (v2Step d env s t).1.anyErr ≠ none := fun hc =>
      hs (v2Step_anyErr_none d env s t hc)
    refine ⟨?_, fun hc => absurd hc h1⟩
    have : E := hE.2 (Or.inl hs)
    simp [this, h1]

theorem taskPlan_done {DV : Type} (d : TagValuesV2Deps DV) (env : V2Env) (t : V2Task)
    (h : t.isDone = true) : taskPlan d env t = ([], none) := by
  unfold V2Task.isDone at h
  unfold taskPlan
  cases hp : t.phase
  all_goals rw [hp] at h
  all_goals simp at h ⊢

/-- With a collector without a budget and no limit on the blocks, the
outcome of `SearchTagValuesV2` does not depend on the interleaving: an error
is stored exactly when a goroutine plans one, and otherwise the shared
collector holds exactly the planned values. -/
theorem v2Run_plan {DV : Type} (d : TagValuesV2Deps DV) (env : V2Env) (i : Instance)
    (pre : Nat) (sched : List Nat) (hub : Unbudgeted d) (hmax : ¬ 0 < env.maxBlocks) :
    ((v2Run d env i pre sched).1.anyErr ≠ none ↔ ∃ p ∈ plans d env i, p.2 ≠ none) ∧
    ((v2Run d env i pre sched).1.anyErr = none →
      ∀ x, x ∈ d.Values (v2Run d env i pre sched).1.valueCollector ↔
        ∃ p ∈ plans d env i, x ∈ p.1) := by
  have hrel := v2Run_rel d env i pre sched
    (PlanRel d env (fun x => ∃ t ∈ v2HeadTasks i, x ∈ (taskPlan d env t).1)
      (∃ t ∈ v2HeadTasks i, (taskPlan d env t).2 ≠ none))
    (PlanRel d env (fun x => ∃ t ∈ v2HeadTasks i ++ v2Tasks i, x ∈ (taskPlan d env t).1)
      (∃ t ∈ v2HeadTasks i ++ v2Tasks i, (taskPlan d env t).2 ≠ none))
    (fun s a t b hJ => v2Step_planRel d env hub hmax _ _ s a t b hJ)
    (fun s ts hJ => by
      obtain ⟨hE, hT⟩ := hJ
      refine ⟨?_, fun hs x => ?_⟩
      · rw [exists_mem_app, exists_mem_app, hE, or_assoc]
      · have h := hT hs x
        beta_reduce at h ⊢
        rw [exists_mem_app, exists_mem_app, ← or_assoc]
        exact or_congr_left h)
    (fun s a t b hJ => v2Step_planRel d env hub hmax _ _ s a t b hJ)
    ⟨by simp [v2Init], fun _ x => by simp [v2Init, hub.2.2]⟩
  obtain ⟨hE, hT⟩ := hrel
  have hdone := v2Run_done d env i pre sched
  have hnone : ¬ ∃ t ∈ (v2Run d env i pre sched).2, (taskPlan d env t).2 ≠ none := by
    rintro ⟨t, ht, hne⟩
    rw [taskPlan_done d env t (hdone t ht)] at hne
    exact hne rfl
  have hnov : ∀ x, ¬ ∃ t ∈ (v2Run d env i pre sched).2, x ∈ (taskPlan d env t).1 := by
    rintro x ⟨t, ht, hx⟩
    rw [taskPlan_done d env t (hdone t ht)] at hx
    simp at hx
  refine ⟨?_, fun hs x => ?_⟩
  · unfold plans
    simp only [List.mem_map, exists_exists_and_eq_and]
    rw [hE]
    simp [hnone]
  · unfold plans
    simp only [List.mem_map, exists_exists_and_eq_and]
    have h := hT hs x
    beta_reduce at h
    rw [← h.trans (or_iff_left (hnov x))]

theorem enumFrom_map_enumFrom {α β : Type} (g : Nat × α → β) :
    ∀ (l : List α) (k : Nat),
      ((l.enumFrom k).map g).enumFrom k = (l.enumFrom k).map fun p => (p.1, g p) := by
  intro l
  induction l with
  | nil => intro k; rfl
  | cons x l ih =>
    intro k
    simp only [List.enumFrom, List.map_cons, List.cons.injEq, true_and]
    exact ih (k + 1)

theorem enum_map_enum {α β : Type} (g : Nat × α → β) (l : List α) :
    (l.enum.map g).enum = l.enum.map fun p => (p.1, g p) :=
  enumFrom_map_enumFrom g l 0

theorem filesOf_cases (ts : List V2Task) (n : Nat) (files : CacheFiles) :
    filesOf ts n files = files ∨
      ∃ u ∈ ts, u.seg = Seg.complete n ∧ filesOf ts n files = u.files := by
  unfold filesOf
  cases h : ts.find? (fun t => decide (t.seg = Seg.complete n)) with
  | none => exact Or.inl rfl
  | some u =>
    right
    refine ⟨u, List.mem_of_find?_eq_some h, ?_, rfl⟩
    have := List.find?_some h
    simpa using this

theorem v2Tasks_own (i : Instance) : ∀ t ∈ v2HeadTasks i ++ v2Tasks i, OwnTask i t := by
  intro t ht
  rcases List.mem_append.1 ht with ht | ht
  · have hh := v2HeadTasks_head i t ht
    have hc : t.cache = none := by
      unfold v2HeadTasks at ht
      cases hb : i.headBlock with
      | none => rw [hb] at ht; simp at ht
      | some head =>
        rw [hb] at ht
        simp only [List.mem_singleton] at ht
        rw [ht]
    refine ⟨fun n hn => ?_, fun lb hlb => ?_⟩
    · rw [hh] at hn; cases hn
    · rw [hc] at hlb; cases hlb
  · unfold v2Tasks at ht
    rcases List.mem_append.1 ht with ht | ht
    · obtain ⟨p, hp, rfl⟩ := List.mem_map.1 ht
      have hget := List.mem_enum_iff_getElem?.1 hp
      refine ⟨fun n hn => ?_, fun lb hlb => ?_⟩
      · simp only [Seg.complete.injEq] at hn
        subst hn
        exact ⟨p.2, hget, rfl, rfl⟩
      · simp only [Option.some.injEq] at hlb
        subst hlb
        exact List.mem_iff_getElem?.2 ⟨_, hget⟩
    · obtain ⟨p, _, rfl⟩ := List.mem_map.1 ht
      refine ⟨fun n hn => ?_, fun lb hlb => ?_⟩
      · cases hn
      · cases hlb

theorem v2Tasks_files {DV : Type} (d : TagValuesV2Deps DV) (env : V2Env) (i : Instance) :
    ∀ t ∈ v2HeadTasks i ++ v2Tasks i, FilesTask d env t := by
  intro t ht
  have hpend : t.phase = V2Phase.pending := by
    rcases List.mem_append.1 ht with ht | ht
    · exact (v2HeadTasks_pending i t ht).1
    · exact (v2Tasks_pending i t ht).1
  have hfiles : ∀ lb, t.cache = some lb → t.files = lb.Files := by
    intro lb hlb
    rcases List.mem_append.1 ht with ht | ht
    · unfold v2HeadTasks at ht
      cases hb : i.headBlock with
      | none => rw [hb] at ht; simp at ht
      | some head =>
        rw [hb] at ht
        simp only [List.mem_singleton] at ht
        rw [ht] at hlb
        cases hlb
    · unfold v2Tasks at ht
      rcases List.mem_append.1 ht with ht | ht
      · obtain ⟨p, _, rfl⟩ := List.mem_map.1 ht
        simp only [Option.some.injEq] at hlb
        subst hlb
        rfl
      · obtain ⟨p, _, rfl⟩ := List.mem_map.1 ht
        cases hlb
  intro lb hlb
  refine ⟨Or.inl (hfiles lb hlb), fun _ => hfiles lb hlb, ?_, ?_⟩
  · intro hp; rw [hpend] at hp; cases hp
  · intro vs hp; rw [hpend] at hp; cases hp

/-- With working disk caches and an encoding that can be read back, the
goroutines of a second call plan what the goroutines of the first call
planned. -/
theorem plans_after {DV : Type} (d : TagValuesV2Deps DV) (env : V2Env) (i : Instance)
    (ts : List V2Task) (hown : ∀ u ∈ ts, OwnTask i u) (hfiles : ∀ u ∈ ts, FilesTask d env u)
    (hw : ∀ lb ∈ i.completeBlocks, WorkingCache lb) (hrt : RoundTrip d) :
    plans d env (instanceAfter i ts) = plans d env i := by
  unfold plans v2Tasks
  have hhead : v2HeadTasks (instanceAfter i ts) = v2HeadTasks i := rfl
  rw [hhead]
  simp only [List.map_append]
  congr 2
  show List.map (taskPlan d env) (List.map _ (List.enum (List.map _ (List.enum i.completeBlocks))))
    = _
  rw [enum_map_enum, List.map_map, List.map_map, List.map_map]
  apply List.map_congr_left
  intro p hp
  have hget := List.mem_enum_iff_getElem?.1 hp
  have hmem : p.2 ∈ i.completeBlocks := List.mem_iff_getElem?.2 ⟨_, hget⟩
  simp only [Function.comp, taskPlan]
  rcases filesOf_cases ts p.1 p.2.Files with h | ⟨u, hu, hseg, h⟩
  · rw [h]
  · rw [h]
    obtain ⟨lb, hlb, hc, hb⟩ := (hown u hu).1 p.1 hseg
    rw [hget] at hlb
    cases hlb
    have := cachePlan_stable d env u p.2 hc (hfiles u hu) (hw p.2 hmem) hrt
    rw [hb] at this
    exact this

theorem v2Run_own {DV : Type} (d : TagValuesV2Deps DV) (env : V2Env) (i : Instance)
    (pre : Nat) (sched : List Nat) : ∀ u ∈ (v2Run d env i pre sched).2, OwnTask i u :=
  v2Run_tasks d env i pre sched (OwnTask i) (fun s t h => v2Step_own d env i s t h)
    (v2Tasks_own i)

theorem v2Run_filesTask {DV : Type} (d : TagValuesV2Deps DV) (env : V2Env) (i : Instance)
    (pre : Nat) (sched : List Nat) : ∀ u ∈ (v2Run d env i pre sched).2, FilesTask d env u :=
  v2Run_tasks d env i pre sched (FilesTask d env) (fun s t h => v2Step_filesTask d env s t h)
    (v2Tasks_files d env i)

/-- With a collector without a budget, no limit on the blocks, working disk
caches and an encoding that can be read back, a second call fails exactly
when the first call has failed, and otherwise collects the same values. -/
theorem v2Run_again {DV : Type} (d : TagValuesV2Deps DV) (env : V2Env) (i : Instance)
    (pre1 : Nat) (sched1 : List Nat) (pre2 : Nat) (sched2 : List Nat)
    (hub : Unbudgeted d) (hmax : ¬ 0 < env.maxBlocks)
    (hw : ∀ lb ∈ i.completeBlocks, WorkingCache lb) (hrt : RoundTrip d) :
    ((v2Run d env (instanceAfter i (v2Run d env i pre1 sched1).2) pre2 sched2).1.anyErr = none ↔
      (v2Run d env i pre1 sched1).1.anyErr = none) ∧
    ((v2Run d env i pre1 sched1).1.anyErr = none →
      ∀ x, x ∈ d.Values
          (v2Run d env (instanceAfter i (v2Run d env i pre1 sched1).2) pre2
            sched2).1.valueCollector ↔
        x ∈ d.Values (v2Run d env i pre1 sched1).1.valueCollector) := by
  have hplans := plans_after d env i (v2Run d env i pre1 sched1).2
    (v2Run_own d env i pre1 sched1) (v2Run_filesTask d env i pre1 sched1) hw hrt
  obtain ⟨hE1, hT1⟩ := v2Run_plan d env i pre1 sched1 hub hmax
  obtain ⟨hE2, hT2⟩ := v2Run_plan d env (instanceAfter i (v2Run d env i pre1 sched1).2)
    pre2 sched2 hub hmax
  rw [hplans] at hE2 hT2
  have hiff := not_congr (hE2.trans hE1.symm)
  simp only [ne_eq, not_not] at hiff
  refine ⟨hiff, fun h1 x => ?_⟩
  rw [hT2 (hiff.2 h1) x, hT1 h1 x]

theorem v2Step_wroteRel {DV : Type} (d : TagValuesV2Deps DV) (env : V2Env) (i : Instance)
    (hw : ∀ lb ∈ i.completeBlocks, WorkingCache lb)
    (s : V2Shared DV) (a : List V2Task) (t : V2Task) (b : List V2Task)
    (hJ : (∀ u ∈ a ++ t :: b, OwnTask i u) ∧ WroteRel env s (a ++ t :: b)) :
    (∀ u ∈ a ++ (v2Step d env s t).2 :: b, OwnTask i u) ∧
      WroteRel env (v2Step d env s t).1 (a ++ (v2Step d env s t).2 :: b) := by
  obtain ⟨hown, hwr⟩ := hJ
  refine ⟨?_, ?_⟩
  · intro u hu
    simp only [List.mem_append, List.mem_cons] at hu
    rcases hu with hu | rfl | hu
    · exact hown u (by simp [hu])
    · exact v2Step_own d env i s t (hown t (by simp))
    · exact hown u (by simp [hu])
  · have keep : ∀ seg ∈ cacheWrites s.trace,
        ((v2Step d env s t).2.files = t.files ∧
            ((v2Step d env s t).2.beforeWrite = true → t.beforeWrite = true)) ∨
          t.beforeWrite = true →
        ∃ u ∈ a ++ (v2Step d env s t).2 :: b, u.seg = seg ∧ u.beforeWrite = false ∧
          ∃ lb, u.cache = some lb ∧ 0 < (lb.GetDiskCache u.files env.cacheKey).1.length ∧
            (lb.GetDiskCache u.files env.cacheKey).2 = none := by
      intro seg hseg hcase
      obtain ⟨u, hu, e1, e2, lb, e3, e4, e5⟩ := hwr seg hseg
      simp only [List.mem_append, List.mem_cons] at hu
      rcases hu with hu | rfl | hu
      · exact ⟨u, by simp [hu], e1, e2, lb, e3, e4, e5⟩
      · rcases hcase with ⟨hf, hbw⟩ | hbt
        · refine ⟨(v2Step d env s u).2, by simp, ?_, ?_, lb, ?_, ?_, ?_⟩
          · rw [v2Step_seg]; exact e1
          · cases hb : (v2Step d env s u).2.beforeWrite with
            | false => rfl
            | true => rw [hbw hb] at e2; cases e2
          · rw [v2Step_cache]; exact e3
          · rw [hf]; exact e4
          · rw [hf]; exact e5
        · rw [hbt] at e2
          cases e2
      · exact ⟨u, by simp [hu], e1, e2, lb, e3, e4, e5⟩
    intro seg hseg
    rcases v2Step_files d env s t with ⟨hf, hcw, hbw⟩ |
      ⟨values, lb, data, hp, hc, hm, hl, hf, hcw, hbw⟩
    · rw [hcw] at hseg
      exact keep seg hseg (Or.inl ⟨hf, hbw⟩)
    · rw [hcw] at hseg
      rcases List.mem_append.1 hseg with hseg | hseg
      · exact keep seg hseg (Or.inr (by simp [V2Task.beforeWrite, hp]))
      · simp only [List.mem_singleton] at hseg
        have hget := hw lb ((hown t (by simp)).2 lb hc) t.files env.cacheKey data
        refine ⟨(v2Step d env s t).2, by simp, ?_, hbw, lb, ?_, ?_, ?_⟩
        · rw [v2Step_seg, hseg]
        · rw [v2Step_cache]; exact hc
        · rw [hf, hget]; exact hl
        · rw [hf, hget]

/-- In every interleaving, a disk cache that has been written holds, when
`wg.Wait()` returns, a non-empty entry under the cache key. -/
theorem v2Run_wrote {DV : Type} (d : TagValuesV2Deps DV) (env : V2Env) (i : Instance)
    (pre : Nat) (sched : List Nat) (hw : ∀ lb ∈ i.completeBlocks, WorkingCache lb) :
    WroteRel env (v2Run d env i pre sched).1 (v2Run d env i pre sched).2 := by
  have h := v2Run_rel d env i pre sched
    (fun s ts => (∀ u ∈ ts, OwnTask i u) ∧ WroteRel env s ts)
    (fun s ts => (∀ u ∈ ts, OwnTask i u) ∧ WroteRel env s ts)
    (fun s a t b hJ => v2Step_wroteRel d env i hw s a t b hJ)
    (fun s ts hJ => by
      refine ⟨?_, ?_⟩
      · intro u hu
        rcases List.mem_append.1 hu with hu | hu
        · exact hJ.1 u hu
        · exact v2Tasks_own i u (by simp [hu])
      · intro seg hseg
        simp only [cacheWrites_append, cacheWrites, List.append_nil] at hseg
        obtain ⟨u, hu, h⟩ := hJ.2 seg hseg
        exact ⟨u, by simp [hu], h⟩)
    (fun s a t b hJ => v2Step_wroteRel d env i hw s a t b hJ)
    ⟨fun u hu => v2Tasks_own i u (by simp [hu]), by
      intro seg hseg
      simp [v2Init, cacheWrites] at hseg⟩
  exact h.2

theorem filesOf_mem (n : Nat) (files : CacheFiles) :
    ∀ (ts : List V2Task), (ts.map V2Task.seg).Nodup → ∀ u ∈ ts, u.seg = Seg.complete n →
      filesOf ts n files = u.files := by
  intro ts
  induction ts with
  | nil => intro _ u hu; simp at hu
  | cons w ts ih =>
    intro hnd u hu hseg
    rw [List.map_cons, List.nodup_cons] at hnd
    by_cases hw : w.seg = Seg.complete n
    · have huw : u = w := by
        rcases List.mem_cons.1 hu with h | h
        · exact h
        · exfalso
          apply hnd.1
          rw [hw, ← hseg]
          exact List.mem_map_of_mem _ h
      subst huw
      simp [filesOf, List.find?_cons, hw]
    · have hut : u ∈ ts := by
        rcases List.mem_cons.1 hu with h | h
        · rw [h] at hseg; exact absurd hseg hw
        · exact h
      have := ih hnd.2 u hut hseg
      simpa [filesOf, List.find?_cons, hw] using this

theorem instanceAfter_get (i : Instance) (ts : List V2Task) (n : Nat) (lb : LocalBlock)
    (h : i.completeBlocks[n]? = some lb) :
    (instanceAfter i ts).completeBlocks[n]? =
      some { lb with Files := filesOf ts n lb.Files } := by
  simp [instanceAfter, List.getElem?_map, List.getElem?_enum, h]

/-- The goroutine of the complete block `n` has left a non-empty entry under
the cache key: the next call does not call the searcher of that block. -/
theorem v2Run_second_hit {DV : Type} (d : TagValuesV2Deps DV) (env : V2Env) (i : Instance)
    (pre1 : Nat) (sched1 : List Nat) (pre2 : Nat) (sched2 : List Nat) (n : Nat)
    (u : V2Task) (lb : LocalBlock) (hu : u ∈ (v2Run d env i pre1 sched1).2)
    (hseg : u.seg = Seg.complete n) (hc : u.cache = some lb)
    (hlen : 0 < (lb.GetDiskCache u.files env.cacheKey).1.length)
    (herr : (lb.GetDiskCache u.files env.cacheKey).2 = none) :
    HitRel env n
      (v2Run d env (instanceAfter i (v2Run d env i pre1 sched1).2) pre2 sched2).1
      (v2Run d env (instanceAfter i (v2Run d env i pre1 sched1).2) pre2 sched2).2 := by
  obtain ⟨lb0, hlb0, hc0, _⟩ := (v2Run_own d env i pre1 sched1 u hu).1 n hseg
  rw [hc] at hc0
  cases hc0
  have hnd := v2Run_writeRel d env i pre1 sched1
  have hfiles := filesOf_mem n lb.Files (v2Run d env i pre1 sched1).2
    (by rw [hnd.1]; exact hnd.2.1) u hu hseg
  apply v2Run_hit d env _ pre2 sched2 n _ (instanceAfter_get i _ n lb hlb0)
  · show 0 < (lb.GetDiskCache (filesOf _ n lb.Files) env.cacheKey).1.length
    rw [hfiles]; exact hlen
  · show (lb.GetDiskCache (filesOf _ n lb.Files) env.cacheKey).2 = none
    rw [hfiles]; exact herr

theorem v2Run_has_complete {DV : Type} (d : TagValuesV2Deps DV) (env : V2Env) (i : Instance)
    (pre : Nat) (sched : List Nat) (n : Nat) (lb : LocalBlock)
    (h : i.completeBlocks[n]? = some lb) :
    ∃ u ∈ (v2Run d env i pre sched).2, u.seg = Seg.complete n := by
  have hnd := (v2Run_writeRel d env i pre sched).1
  have hmem : Seg.complete n ∈ (v2HeadTasks i ++ v2Tasks i).map V2Task.seg := by
    apply List.mem_map.2
    refine ⟨{ seg := Seg.complete n, what := "complete", block := lb.toBlock,
              cache := some lb, files := lb.Files, phase := V2Phase.pending }, ?_, rfl⟩
    apply List.mem_append_right
    unfold v2Tasks
    apply List.mem_append_left
    exact List.mem_map.2 ⟨(n, lb), List.mem_enum_iff_getElem?.2 h, rfl⟩
  rw [← hnd] at hmem
  obtain ⟨u, hu, hseg⟩ := List.mem_map.1 hmem
  exact ⟨u, hu, hseg⟩

theorem localBlock_working (b : Block) : WorkingCache (localBlock b) := by
  intro files key data
  simp [localBlock, List.lookup]

theorem encodeString_length (str : String) : (encodeString str).length = str.length + 1 := by
  simp [encodeString]

theorem decodeValues_cons (fuel : Nat) (a b : String) (tail : Bytes) (vs : List TagValue)
    (h : decodeValues fuel tail = .ok vs) :
    decodeValues (fuel + 1) (encodeString a ++ encodeString b ++ tail) =
      .ok ({ Typ := a, Value := b } :: vs) := by
  have hchars : ∀ str : String,
      String.mk ((str.toList.map Char.toNat).map Char.ofNat) = str := by
    intro str
    simp [List.map_map, Function.comp_def]
  have ha : (a.toList.map Char.toNat).length = a.length := by simp
  have hb : (b.toList.map Char.toNat).length = b.length := by simp
  have e : encodeString a ++ encodeString b ++ tail =
      a.length :: (a.toList.map Char.toNat ++
        b.length :: (b.toList.map Char.toNat ++ tail)) := by
    simp [encodeString]
  rw [e, decodeValues, List.drop_left' ha]
  simp only []
  rw [if_neg (by simp), List.drop_left' hb, h]
  simp only [List.take_left' ha, List.take_left' hb, hchars]

theorem decodeValues_encode :
    ∀ (vs : List TagValue) (fuel : Nat), vs.length ≤ fuel →
      decodeValues fuel (vs.flatMap fun v => encodeString v.Typ ++ encodeString v.Value) =
        .ok vs := by
  intro vs
  induction vs with
  | nil => intro fuel _; cases fuel <;> rfl
  | cons v vs ih =>
    intro fuel hfuel
    cases fuel with
    | zero => simp at hfuel
    | succ fuel =>
      have hlen : vs.length ≤ fuel := by simpa using hfuel
      rw [List.flatMap_cons]
      exact decodeValues_cons fuel v.Typ v.Value _ vs (ih fuel hlen)

theorem codecV2Deps_roundTrip (k : Int) : RoundTrip (codecV2Deps k) := by
  intro vs data h
  simp only [codecV2Deps, Except.ok.injEq] at h
  subst h
  show decodeValues _ _ = _
  apply decodeValues_encode
  induction vs with
  | nil => simp
  | cons v vs ih =>
    simp only [List.flatMap_cons, List.length_append, List.length_cons, encodeString_length]
    omega

theorem codecV2Deps_unbudgeted (k : Int) : Unbudgeted (codecV2Deps k) := by
  refine ⟨fun _ _ => rfl, ?_, fun _ _ _ => rfl⟩
  intro c v x
  simp only [codecV2Deps]
  split_ifs with h
  · constructor
    · exact Or.inr
    · rintro (rfl | hx)
      · exact h
      · exact hx
  · simp only [List.mem_append, List.mem_singleton]
    tauto

theorem afterSearchTagValuesV2_eq {DV : Type} (d : TagValuesV2Deps DV) (i : Instance)
    (ctx : Ctx) (req : SearchTagValuesRequest) (pre : Nat) (sched : List Nat)
    (userID : String) (tag : Attribute) (ht : d.ExtractOrgID ctx = .ok userID)
    (hid : d.ParseIdentifier req.TagName = .ok tag) (hnid : isIDAttribute tag = false) :
    afterSearchTagValuesV2 d i ctx req pre sched =
      instanceAfter i (v2Run d (v2Env d req userID tag) i pre sched).2 := by
  simp [afterSearchTagValuesV2, ht, hid, hnid]

/-- The outcome of a call that does not get to its goroutines, on any
instance: no segment is searched and nothing is written. -/
theorem SearchTagValuesV2_early {DV : Type} (d : TagValuesV2Deps DV) (i j : Instance)
    (ctx : Ctx) (req : SearchTagValuesRequest) (pre1 pre2 : Nat) (sched1 sched2 : List Nat)
    (h : (∃ e, d.ExtractOrgID ctx = .error e) ∨
      (∃ userID, d.ExtractOrgID ctx = .ok userID ∧
        ((∃ e, d.ParseIdentifier req.TagName = .error e) ∨
          ∃ tag, d.ParseIdentifier req.TagName = .ok tag ∧ isIDAttribute tag = true))) :
    (SearchTagValuesV2 d i ctx req pre1 sched1).trace = [] ∧
    (SearchTagValuesV2 d i ctx req pre1 sched1).after = [] ∧
    (SearchTagValuesV2 d j ctx req pre2 sched2).resp =
      (SearchTagValuesV2 d i ctx req pre1 sched1).resp ∧
    afterSearchTagValuesV2 d i ctx req pre1 sched1 = i := by
  rcases h with ⟨e, he⟩ | ⟨userID, hu, ⟨e, he⟩ | ⟨tag, htag, hid⟩⟩
  · simp [SearchTagValuesV2, afterSearchTagValuesV2, he]
  · simp [SearchTagValuesV2, afterSearchTagValuesV2, hu, he]
  · simp [SearchTagValuesV2, afterSearchTagValuesV2, hu, htag, hid]

theorem SearchTagValuesV2_cases {DV : Type} (d : TagValuesV2Deps DV) (ctx : Ctx)
    (req : SearchTagValuesRequest) :
    ((∃ e, d.ExtractOrgID ctx = .error e) ∨
      (∃ userID, d.ExtractOrgID ctx = .ok userID ∧
        ((∃ e, d.ParseIdentifier req.TagName = .error e) ∨
          ∃ tag, d.ParseIdentifier req.TagName = .ok tag ∧ isIDAttribute tag = true))) ∨
    ∃ userID tag, d.ExtractOrgID ctx = .ok userID ∧
      d.ParseIdentifier req.TagName = .ok tag ∧ isIDAttribute tag = false := by
  cases ht : d.ExtractOrgID ctx with
  | error e => exact Or.inl (Or.inl ⟨e, rfl⟩)
  | ok userID =>
    cases hid : d.ParseIdentifier req.TagName with
    | error e => exact Or.inl (Or.inr ⟨userID, rfl, Or.inl ⟨e, rfl⟩⟩)
    | ok tag =>
      cases hnid : isIDAttribute tag with
      | true => exact Or.inl (Or.inr ⟨userID, rfl, Or.inr ⟨tag, rfl, hnid⟩⟩)
      | false => exact Or.inr ⟨userID, tag, rfl, rfl, hnid⟩

theorem hit_outcome {DV : Type} (d : TagValuesV2Deps DV) (j : Instance) (ctx : Ctx)
    (req : SearchTagValuesRequest) (pre : Nat) (sched : List Nat) (userID : String)
    (tag : Attribute) (n : Nat) (ht : d.ExtractOrgID ctx = .ok userID)
    (hid : d.ParseIdentifier req.TagName = .ok tag) (hnid : isIDAttribute tag = false)
    (hrun : HitRel (v2Env d req userID tag) n (v2Run d (v2Env d req userID tag) j pre sched).1
      (v2Run d (v2Env d req userID tag) j pre sched).2) :
    Seg.complete n ∉ searchedSegs (SearchTagValuesV2 d j ctx req pre sched).trace ∧
    Seg.complete n ∉ searchedSegs (SearchTagValuesV2 d j ctx req pre sched).after := by
  obtain ⟨_, htr, haf, _⟩ := SearchTagValuesV2_eq d j ctx req pre sched userID tag ht hid hnid
  rw [htr, haf]
  refine ⟨?_, v2After_hit d _ n _ _ hrun.2⟩
  simpa [searchedSegs_append, searchedSegs] using hrun.1

theorem localBlocks_working (i : Instance) (b : Block) (h : i.completeBlocks = [localBlock b]) :
    ∀ lb ∈ i.completeBlocks, WorkingCache lb := by
  intro lb hlb
  rw [h, List.mem_singleton] at hlb
  rw [hlb]
  exact localBlock_working b

/-! ### The collector of a sequential tag operation is the one its searched
segments have filled -/

theorem tagValuesAfter_snoc {DS : Type} (d : TagValuesDeps DS) (i : Instance)
    (tagName : String) (p0 : DS × Nat) (segs : List Seg) (seg : Seg) (b : Block)
    (h : segBlock i seg = some b) :
    tagValuesAfter d i tagName p0 (segs ++ [seg]) =
      tagValuesFeed d tagName (tagValuesAfter d i tagName p0 segs) b := by
  simp [tagValuesAfter, List.filterMap_append, h]

theorem tagValuesSearch_values {DS : Type} (d : TagValuesDeps DS) (i : Instance)
    (tagName : String) (maxBlocks : Int) (seg : Seg) (s : Option Block)
    (st : TagValuesState DS) (p0 : DS × Nat)
    (hseg : ∀ b, s = some b → segBlock i seg = some b)
    (hv : (st.distinctValues, st.mc) = tagValuesAfter d i tagName p0 (searchedSegs st.trace)) :
    ((tagValuesSearch d tagName maxBlocks seg s st).1.distinctValues,
        (tagValuesSearch d tagName maxBlocks seg s st).1.mc) =
      tagValuesAfter d i tagName p0
        (searchedSegs (tagValuesSearch d tagName maxBlocks seg s st).1.trace) := by
  by_cases hs : (0 < maxBlocks ∧ maxBlocks ≤ st.inspectedBlocks) ∨ s = none ∨
      d.Exceeded st.distinctValues = true
  · rw [tagValuesSearch_skip d tagName maxBlocks seg s st hs]
    exact hv
  · simp only [not_or] at hs
    obtain ⟨h1, h2, h3⟩ := hs
    cases s with
    | none => exact absurd rfl h2
    | some b =>
      have hx : d.Exceeded st.distinctValues = false := by
        cases h : d.Exceeded st.distinctValues with
        | false => rfl
        | true => exact absurd h h3
      obtain ⟨e1, _⟩ := tagValuesSearch_run d tagName maxBlocks seg b st h1 hx
      rw [e1]
      have hsr : searchedSegs (st.trace ++ [Event.SearchBlock seg, Event.TagSearchReturned seg
          (Feed.run d.Collect (b.SearchTagValues tagName) st.distinctValues).2.2]) =
          searchedSegs st.trace ++ [seg] := by
        simp [searchedSegs_append, searchedSegs]
      simp only [hsr]
      rw [tagValuesAfter_snoc d i tagName p0 _ seg b (hseg b rfl), ← hv]
      rfl

theorem tagValuesLoop_values {DS : Type} (d : TagValuesDeps DS) (i : Instance)
    (tagName : String) (maxBlocks : Int) (kind : Nat → Seg) (what : String) (p0 : DS × Nat) :
    ∀ (blocks : List (Nat × Block)) (st : TagValuesState DS),
      (∀ p ∈ blocks, segBlock i (kind p.1) = some p.2) →
      (st.distinctValues, st.mc) = tagValuesAfter d i tagName p0 (searchedSegs st.trace) →
      ((tagValuesLoop d tagName maxBlocks kind what blocks st).1.distinctValues,
          (tagValuesLoop d tagName maxBlocks kind what blocks st).1.mc) =
        tagValuesAfter d i tagName p0
          (searchedSegs (tagValuesLoop d tagName maxBlocks kind what blocks st).1.trace) := by
  intro blocks
  induction blocks with
  | nil => intro st _ hv; exact hv
  | cons p rest ih =>
    intro st hseg hv
    obtain ⟨n, b⟩ := p
    have h1 := tagValuesSearch_values d i tagName maxBlocks (kind n) (some b) st p0
      (fun b2 hb => by cases hb; exact hseg (n, b) (by simp)) hv
    simp only [tagValuesLoop]
    cases he : (tagValuesSearch d tagName maxBlocks (kind n) (some b) st).2 with
    | some err => exact h1
    | none => exact ih _ (fun p hp => hseg p (by simp [hp])) h1

theorem enum_segBlock_completing (i : Instance) :
    ∀ p ∈ i.completingBlocks.enum, segBlock i (Seg.completing p.1) = some p.2 := by
  intro p hp
  exact List.mem_enum_iff_getElem?.1 hp

theorem enum_segBlock_complete (i : Instance) :
    ∀ p ∈ i.completeBlocks.enum.map (fun p => (p.1, p.2.toBlock)),
      segBlock i (Seg.complete p.1) = some p.2 := by
  intro p hp
  obtain ⟨q, hq, rfl⟩ := List.mem_map.1 hp
  have := List.mem_enum_iff_getElem?.1 hq
  simp [segBlock, this]

/-- A successful `SearchTagValues` returns the strings of the collector that
its searched segments have filled, in the order of the searches, and their
byte total. -/
theorem SearchTagValues_values {DS : Type} (d : TagValuesDeps DS) (i : Instance) (ctx : Ctx)
    (tagName : String) (limit stale : Nat) (userID : String)
    (ht : d.ExtractOrgID ctx = .ok userID) :
    (SearchTagValues d i ctx tagName limit stale).err = none →
    (SearchTagValues d i ctx tagName limit stale).resp =
      some { TagValues := d.Strings (tagValuesAfter d i tagName
               (d.NewDistinctString (d.MaxBytesPerTagValuesQuery userID) limit stale, 0)
               (searchedSegs (SearchTagValues d i ctx tagName limit stale).trace)).1,
             Metrics := some { InspectedBytes := (tagValuesAfter d i tagName
               (d.NewDistinctString (d.MaxBytesPerTagValuesQuery userID) limit stale, 0)
               (searchedSegs (SearchTagValues d i ctx tagName limit stale).trace)).2 } } := by
  have hhead := tagValuesSearch_values d i tagName
    (if 0 < d.MaxBlocksPerTagValuesQuery userID then d.MaxBlocksPerTagValuesQuery userID
      else 0)
    Seg.head i.headBlock
    { distinctValues := d.NewDistinctString (d.MaxBytesPerTagValuesQuery userID) limit stale,
      mc := 0, inspectedBlocks := 0, trace := [Event.RLockHead] }
    (d.NewDistinctString (d.MaxBytesPerTagValuesQuery userID) limit stale, 0)
    (fun b hb => hb) (by simp [searchedSegs, tagValuesAfter])
  have hlock : ∀ (st : TagValuesState DS),
      (st.distinctValues, st.mc) = tagValuesAfter d i tagName
        (d.NewDistinctString (d.MaxBytesPerTagValuesQuery userID) limit stale, 0)
        (searchedSegs st.trace) →
      (({ st with trace := st.trace ++ [Event.RUnlockHead, Event.RLockBlocks] } :
            TagValuesState DS).distinctValues,
          ({ st with trace := st.trace ++ [Event.RUnlockHead, Event.RLockBlocks] } :
            TagValuesState DS).mc) =
        tagValuesAfter d i tagName
          (d.NewDistinctString (d.MaxBytesPerTagValuesQuery userID) limit stale, 0)
          (searchedSegs ({ st with trace := st.trace ++
            [Event.RUnlockHead, Event.RLockBlocks] } : TagValuesState DS).trace) := by
    intro st h
    have : searchedSegs (st.trace ++ [Event.RUnlockHead, Event.RLockBlocks]) =
        searchedSegs st.trace := by
      simp [searchedSegs_append, searchedSegs]
    simp only [this]
    exact h
  unfold SearchTagValues
  simp only [ht]
  split
  · intro hc; cases hc
  · rename_i err he hb
    rw [hb, tagValuesSearch_skip d tagName _ Seg.head none _ (Or.inr (Or.inl rfl))] at he
    cases he
  · have h3 := tagValuesLoop_values d i tagName
      (if 0 < d.MaxBlocksPerTagValuesQuery userID then d.MaxBlocksPerTagValuesQuery userID
        else 0) Seg.completing "completing" _ i.completingBlocks.enum _
      (enum_segBlock_completing i) (hlock _ hhead)
    split
    · intro hc; cases hc
    · have h4 := tagValuesLoop_values d i tagName
        (if 0 < d.MaxBlocksPerTagValuesQuery userID then d.MaxBlocksPerTagValuesQuery userID
          else 0) Seg.complete "complete" _
        (i.completeBlocks.enum.map fun p => (p.1, p.2.toBlock)) _
        (enum_segBlock_complete i) h3
      split
      · intro hk; cases hk
      · intro _
        simp only [searchedSegs_append, searchedSegs, List.append_nil]
        rw [← h4]

/-! ### The block budget of `SearchTagValues` when the collector does not
report `Exceeded` during the call -/

theorem neverExceeded_prefix {DS : Type} (d : TagValuesDeps DS) (i : Instance)
    (tagName : String) (K : Int) (c0 : DS) (h : neverExceeded d i tagName K c0 = true)
    (done : List Seg) (seg : Seg) (rest : List Seg) (hall : allSegs i = done ++ seg :: rest)
    (hK : 0 < K → (done.length : Int) < K) :
    d.Exceeded (tagValuesAfter d i tagName (c0, 0) done).1 = false := by
  unfold neverExceeded at h
  rw [List.all_eq_true] at h
  have hlen : done.length < (budgetPrefix K (allSegs i)).length := by
    rw [hall]
    by_cases h0 : 0 < K
    · have h1 := hK h0
      obtain ⟨n, rfl⟩ := Int.eq_ofNat_of_zero_le (le_of_lt h0)
      simp only [budgetPrefix, h0, if_true, Int.toNat_ofNat, List.length_take,
        List.length_append, List.length_cons]
      omega
    · simp only [budgetPrefix, h0, if_false, List.length_append, List.length_cons]
      omega
  have := h done.length (List.mem_range.2 hlen)
  rw [hall, List.take_left' rfl] at this
  simpa using this

/-- The closure `search` of `SearchTagValues` on a non-nil segment keeps the
budget invariant when the collector of the state does not report `Exceeded`
as long as the budget is not used up. -/
theorem tagValuesSearch_budgetAt {DS : Type} (d : TagValuesDeps DS) (tagName : String)
    (K : Int) (seg : Seg) (b : Block) (st : TagValuesState DS) (done : List Seg)
    (hx : ¬ (0 < (if 0 < K then K else 0) ∧ (if 0 < K then K else 0) ≤ st.inspectedBlocks) →
      d.Exceeded st.distinctValues = false)
    (hinv : BudgetInv K st done) :
    BudgetInv K (tagValuesSearch d tagName (if 0 < K then K else 0) seg (some b) st).1
      (done ++ [seg]) := by
  obtain ⟨h1, h2⟩ := hinv
  by_cases hs : 0 < (if 0 < K then K else 0) ∧ (if 0 < K then K else 0) ≤ st.inspectedBlocks
  · rw [tagValuesSearch_skip d tagName _ seg (some b) st (Or.inl hs)]
    have hK : 0 < K := by
      by_contra hc
      rw [if_neg hc] at hs
      exact absurd hs.1 (lt_irrefl 0)
    rw [if_pos hK] at hs
    refine ⟨?_, h2⟩
    rw [budgetPrefix_snoc_full K done seg hK (by rw [← h1, ← h2]; exact hs.2)]
    exact h1
  · obtain ⟨e1, _⟩ := tagValuesSearch_run d tagName _ seg b st hs (hx hs)
    rw [e1]
    have hsr : searchedSegs (st.trace ++ [Event.SearchBlock seg, Event.TagSearchReturned seg
        (Feed.run d.Collect (b.SearchTagValues tagName) st.distinctValues).2.2]) =
        searchedSegs st.trace ++ [seg] := by
      simp [searchedSegs_append, searchedSegs]
    refine ⟨?_, ?_⟩
    · simp only [hsr]
      by_cases hK : 0 < K
      · rw [if_pos hK] at hs
        have hlt : ((budgetPrefix K done).length : Int) < K := by
          rw [← h1, ← h2]
          by_contra hc
          exact hs ⟨hK, not_lt.1 hc⟩
        rw [budgetPrefix_snoc_under K done seg hK hlt, h1]
      · simp only [budgetPrefix, hK, if_false] at h1 ⊢
        rw [h1]
    · simp only [hsr, h2, List.length_append, List.length_singleton]
      push_cast
      rfl

/-- While the budget is not used up, every segment so far has been
searched. -/
theorem budget_open {DS : Type} (K : Int) (st : TagValuesState DS) (done : List Seg)
    (hinv : BudgetInv K st done)
    (hs : ¬ (0 < (if 0 < K then K else 0) ∧ (if 0 < K then K else 0) ≤ st.inspectedBlocks)) :
    searchedSegs st.trace = done ∧ (0 < K → (done.length : Int) < K) := by
  obtain ⟨h1, h2⟩ := hinv
  by_cases hK : 0 < K
  · rw [if_pos hK] at hs
    have hlt : ((budgetPrefix K done).length : Int) < K := by
      rw [← h1, ← h2]
      by_contra hc
      exact hs ⟨hK, not_lt.1 hc⟩
    obtain ⟨n, rfl⟩ := Int.eq_ofNat_of_zero_le (le_of_lt hK)
    simp only [budgetPrefix, hK, if_true, Int.toNat_ofNat, List.length_take] at hlt h1
    have hd : done.length < n := by omega
    refine ⟨?_, fun _ => by exact_mod_cast hd⟩
    rw [h1, List.take_of_length_le (le_of_lt hd)]
  · refine ⟨?_, fun h => absurd h hK⟩
    rw [h1]
    simp [budgetPrefix, hK]

theorem tagValuesSearch_within {DS : Type} (d : TagValuesDeps DS) (i : Instance)
    (tagName : String) (K : Int) (seg : Seg) (b : Block) (st : TagValuesState DS)
    (p0 : DS × Nat) (done : List Seg)
    (hx : (0 < K → (done.length : Int) < K) →
      d.Exceeded (tagValuesAfter d i tagName p0 done).1 = false)
    (hv : (st.distinctValues, st.mc) = tagValuesAfter d i tagName p0 (searchedSegs st.trace))
    (hinv : BudgetInv K st done) :
    BudgetInv K (tagValuesSearch d tagName (if 0 < K then K else 0) seg (some b) st).1
      (done ++ [seg]) := by
  apply tagValuesSearch_budgetAt d tagName K seg b st done ?_ hinv
  intro hs
  obtain ⟨e1, e2⟩ := budget_open K st done hinv hs
  have := hx e2
  rw [← e1, ← hv] at this
  exact this

theorem tagValuesLoop_within {DS : Type} (d : TagValuesDeps DS) (i : Instance)
    (tagName : String) (K : Int) (kind : Nat → Seg) (what : String) (p0 : DS × Nat) :
    ∀ (blocks : List (Nat × Block)) (st : TagValuesState DS) (done : List Seg),
      (∀ p ∈ blocks, segBlock i (kind p.1) = some p.2) →
      (∀ pre p post, blocks = pre ++ p :: post →
        (0 < K → ((done ++ pre.map fun q => kind q.1).length : Int) < K) →
        d.Exceeded (tagValuesAfter d i tagName p0 (done ++ pre.map fun q => kind q.1)).1 =
          false) →
      (st.distinctValues, st.mc) = tagValuesAfter d i tagName p0 (searchedSegs st.trace) →
      BudgetInv K st done →
      (tagValuesLoop d tagName (if 0 < K then K else 0) kind what blocks st).2 = none →
      BudgetInv K (tagValuesLoop d tagName (if 0 < K then K else 0) kind what blocks st).1
        (done ++ blocks.map fun p => kind p.1) := by
  intro blocks
  induction blocks with
  | nil => intro st done _ _ _ h _; simpa using h
  | cons p rest ih =>
    intro st done hseg hx hv h hnone
    obtain ⟨n, b⟩ := p
    have h1 := tagValuesSearch_within d i tagName K (kind n) b st p0 done
      (fun hK => by
        have := hx [] (n, b) rest rfl (by simpa using hK)
        simpa using this) hv h
    have hv1 := tagValuesSearch_values d i tagName (if 0 < K then K else 0) (kind n) (some b)
      st p0 (fun b2 hb => by cases hb; exact hseg (n, b) (by simp)) hv
    simp only [tagValuesLoop] at hnone ⊢
    cases he : (tagValuesSearch d tagName (if 0 < K then K else 0) (kind n) (some b) st).2 with
    | some err =>
      rw [he] at hnone
      cases hnone
    | none =>
      rw [he] at hnone
      simp only [] at hnone ⊢
      have h2 := ih _ (done ++ [kind n]) (fun q hq => hseg q (by simp [hq]))
        (fun pre q post hb hK => by
          have := hx ((n, b) :: pre) q post (by rw [hb]; rfl) (by simpa using hK)
          simpa using this) hv1 h1 hnone
      simpa using h2

/-- A successful `SearchTagValues` whose collector does not report
`Exceeded` before any segment within the budget has searched exactly the
budget prefix of the segments of the instance. -/
theorem SearchTagValues_within {DS : Type} (d : TagValuesDeps DS) (i : Instance) (ctx : Ctx)
    (tagName : String) (limit stale : Nat) (userID : String)
    (ht : d.ExtractOrgID ctx = .ok userID)
    (hx : neverExceeded d i tagName (d.MaxBlocksPerTagValuesQuery userID)
      (d.NewDistinctString (d.MaxBytesPerTagValuesQuery userID) limit stale) = true) :
    (SearchTagValues d i ctx tagName limit stale).err = none →
    searchedSegs (SearchTagValues d i ctx tagName limit stale).trace =
      budgetPrefix (d.MaxBlocksPerTagValuesQuery userID) (allSegs i) := by
  have hpre := neverExceeded_prefix d i tagName _ _ hx
  have hv0 : ((⟨d.NewDistinctString (d.MaxBytesPerTagValuesQuery userID) limit stale, 0, 0,
        [Event.RLockHead]⟩ : TagValuesState DS).distinctValues,
      (⟨d.NewDistinctString (d.MaxBytesPerTagValuesQuery userID) limit stale, 0, 0,
        [Event.RLockHead]⟩ : TagValuesState DS).mc) =
      tagValuesAfter d i tagName
        (d.NewDistinctString (d.MaxBytesPerTagValuesQuery userID) limit stale, 0)
        (searchedSegs (⟨d.NewDistinctString (d.MaxBytesPerTagValuesQuery userID) limit stale,
          0, 0, [Event.RLockHead]⟩ : TagValuesState DS).trace) := by
    simp [searchedSegs, tagValuesAfter]
  have hvhead := tagValuesSearch_values d i tagName
    (if 0 < d.MaxBlocksPerTagValuesQuery userID then d.MaxBlocksPerTagValuesQuery userID
      else 0)
    Seg.head i.headBlock _
    (d.NewDistinctString (d.MaxBytesPerTagValuesQuery userID) limit stale, 0)
    (fun b hb => hb) hv0
  have hhead : BudgetInv (d.MaxBlocksPerTagValuesQuery userID)
      (tagValuesSearch d tagName
        (if 0 < d.MaxBlocksPerTagValuesQuery userID then d.MaxBlocksPerTagValuesQuery userID
          else 0)
        Seg.head i.headBlock
        { distinctValues :=
            d.NewDistinctString (d.MaxBytesPerTagValuesQuery userID) limit stale,
          mc := 0, inspectedBlocks := 0, trace := [Event.RLockHead] }).1
      (match i.headBlock with
        | none => []
        | some _ => [Seg.head]) := by
    have h0 : BudgetInv (d.MaxBlocksPerTagValuesQuery userID)
        (⟨d.NewDistinctString (d.MaxBytesPerTagValuesQuery userID) limit stale, 0, 0,
          [Event.RLockHead]⟩ : TagValuesState DS) [] := by
      refine ⟨?_, rfl⟩
      simp [searchedSegs, budgetPrefix]
    cases hb : i.headBlock with
    | none =>
      rw [tagValuesSearch_skip d tagName _ Seg.head none _ (Or.inr (Or.inl rfl))]
      exact h0
    | some head =>
      refine tagValuesSearch_within d i tagName _ Seg.head head _
        (d.NewDistinctString (d.MaxBytesPerTagValuesQuery userID) limit stale, 0) []
        (fun hK => ?_) hv0 h0
      exact hpre [] Seg.head
        ((i.completingBlocks.enum.map fun p => Seg.completing p.1) ++
          (i.completeBlocks.enum.map fun p => Seg.complete p.1))
        (by simp [allSegs, hb]) hK
  have hlock : ∀ (st : TagValuesState DS) (done : List Seg),
      BudgetInv (d.MaxBlocksPerTagValuesQuery userID) st done →
      BudgetInv (d.MaxBlocksPerTagValuesQuery userID)
        { st with trace := st.trace ++ [Event.RUnlockHead, Event.RLockBlocks] } done := by
    intro st done h
    have : searchedSegs (st.trace ++ [Event.RUnlockHead, Event.RLockBlocks]) =
        searchedSegs st.trace := by
      simp [searchedSegs_append, searchedSegs]
    exact ⟨by simp only [this]; exact h.1, by simp only [this]; exact h.2⟩
  have hvlock : ∀ (st : TagValuesState DS),
      (st.distinctValues, st.mc) = tagValuesAfter d i tagName
        (d.NewDistinctString (d.MaxBytesPerTagValuesQuery userID) limit stale, 0)
        (searchedSegs st.trace) →
      (({ st with trace := st.trace ++ [Event.RUnlockHead, Event.RLockBlocks] } :
            TagValuesState DS).distinctValues,
          ({ st with trace := st.trace ++ [Event.RUnlockHead, Event.RLockBlocks] } :
            TagValuesState DS).mc) =
        tagValuesAfter d i tagName
          (d.NewDistinctString (d.MaxBytesPerTagValuesQuery userID) limit stale, 0)
          (searchedSegs ({ st with trace := st.trace ++
            [Event.RUnlockHead, Event.RLockBlocks] } : TagValuesState DS).trace) := by
    intro st h
    have : searchedSegs (st.trace ++ [Event.RUnlockHead, Event.RLockBlocks]) =
        searchedSegs st.trace := by
      simp [searchedSegs_append, searchedSegs]
    simp only [this]
    exact h
  unfold SearchTagValues
  simp only [ht]
  split
  · intro hc; cases hc
  · rename_i err he hb
    rw [hb, tagValuesSearch_skip d tagName _ Seg.head none _ (Or.inr (Or.inl rfl))] at he
    cases he
  · have h3 := tagValuesLoop_within d i tagName (d.MaxBlocksPerTagValuesQuery userID)
      Seg.completing "completing"
      (d.NewDistinctString (d.MaxBytesPerTagValuesQuery userID) limit stale, 0)
      i.completingBlocks.enum _ _ (enum_segBlock_completing i)
      (fun pre p post hb hK => hpre _ (Seg.completing p.1)
        ((post.map fun q => Seg.completing q.1) ++
          (i.completeBlocks.enum.map fun q => Seg.complete q.1))
        (by
          simp only [allSegs, hb, List.map_append, List.map_cons, List.append_assoc,
            List.cons_append]) hK)
      (hvlock _ hvhead) (hlock _ _ hhead)
    have hv3 := tagValuesLoop_values d i tagName
      (if 0 < d.MaxBlocksPerTagValuesQuery userID then d.MaxBlocksPerTagValuesQuery userID
        else 0) Seg.completing "completing" _ i.completingBlocks.enum _
      (enum_segBlock_completing i) (hvlock _ hvhead)
    split
    · intro hc; cases hc
    · rename_i hc
      have h4 := tagValuesLoop_within d i tagName (d.MaxBlocksPerTagValuesQuery userID)
        Seg.complete "complete"
        (d.NewDistinctString (d.MaxBytesPerTagValuesQuery userID) limit stale, 0)
        (i.completeBlocks.enum.map fun p => (p.1, p.2.toBlock)) _ _
        (enum_segBlock_complete i)
        (fun pre p post hb hK => hpre _ (Seg.complete p.1)
          (post.map fun q => Seg.complete q.1)
          (by
            have hb2 := congrArg (List.map fun q : Nat × Block => Seg.complete q.1) hb
            simp only [List.map_map, List.map_append, List.map_cons] at hb2
            simp only [allSegs, List.append_assoc]
            rw [show (i.completeBlocks.enum.map fun p => Seg.complete p.1) =
              List.map ((fun q : Nat × Block => Seg.complete q.1) ∘
                fun p : Nat × LocalBlock => (p.1, p.2.toBlock)) i.completeBlocks.enum from rfl,
              hb2]) hK)
        hv3 (h3 hc)
      split
      · intro hk; cases hk
      · rename_i hk
        intro _
        have h5 := (h4 hk).1
        simp only [searchedSegs_append, searchedSegs, List.append_nil]
        rw [h5]
        congr 1
        simp only [allSegs, List.map_map, Function.comp_def, List.append_assoc]

/-! ### The collector of `SearchTagsV2` -/

theorem tagsAfter_snoc {SDS DS : Type} (d : TagsDeps SDS DS) (i : Instance)
    (attributeScope : AttributeScope) (query : String) (p0 : SDS × Nat) (segs : List Seg)
    (seg : Seg) (b : Block) (h : segBlock i seg = some b) :
    tagsAfter d i attributeScope query p0 (segs ++ [seg]) =
      tagsFeed d attributeScope query (tagsAfter d i attributeScope query p0 segs) b := by
  simp [tagsAfter, List.filterMap_append, h]

theorem tagsSearchBlock_values {SDS DS : Type} (d : TagsDeps SDS DS) (i : Instance)
    (attributeScope : AttributeScope) (query : String) (seg : Seg) (s : Option Block)
    (st : TagsState SDS) (p0 : SDS × Nat)
    (hseg : ∀ b, s = some b → segBlock i seg = some b)
    (hv : (st.distinctValues, st.mc) =
      tagsAfter d i attributeScope query p0 (searchedSegs st.trace)) :
    ((tagsSearchBlock d attributeScope query seg s st).1.distinctValues,
        (tagsSearchBlock d attributeScope query seg s st).1.mc) =
      tagsAfter d i attributeScope query p0
        (searchedSegs (tagsSearchBlock d attributeScope query seg s st).1.trace) := by
  cases s with
  | none => exact hv
  | some b =>
    have hsr : ∀ e, searchedSegs (st.trace ++ [Event.SearchBlock seg,
        Event.TagSearchReturned seg e]) = searchedSegs st.trace ++ [seg] := by
      intro e
      simp [searchedSegs_append, searchedSegs]
    have hsnoc := tagsAfter_snoc d i attributeScope query p0 (searchedSegs st.trace) seg b
      (hseg b rfl)
    rw [← hv] at hsnoc
    by_cases hx : d.ExceededScoped st.distinctValues = true
    · simp only [tagsSearchBlock, hx, if_true]
      exact hv
    · by_cases hq : d.IsEmptyQuery query = true
      · simp only [tagsSearchBlock, hx, hq, if_true, Bool.false_eq_true, if_false]
        simp only [tagsFeed, tagsRun, hq, if_true] at hsnoc
        cases hr : (Feed.run
          (fun c (v : String × AttributeScope) =>
            ((d.CollectScoped c (d.ScopeString v.2) v.1).1, false))
          (b.SearchTags attributeScope) st.distinctValues).2.2 with
        | none =>
          simp only [hsr, hsnoc]
        | some err =>
          simp only []
          split_ifs
          all_goals simp only [hsr, hsnoc]
      · simp only [tagsSearchBlock, hx, hq, Bool.false_eq_true, if_false]
        simp only [tagsFeed, tagsRun, hq, Bool.false_eq_true, if_false] at hsnoc
        simp only [hsr, hsnoc]

theorem tagsLoop_values {SDS DS : Type} (d : TagsDeps SDS DS) (i : Instance)
    (attributeScope : AttributeScope) (query : String) (kind : Nat → Seg) (what : String)
    (p0 : SDS × Nat) :
    ∀ (blocks : List (Nat × Block)) (st : TagsState SDS),
      (∀ p ∈ blocks, segBlock i (kind p.1) = some p.2) →
      (st.distinctValues, st.mc) =
        tagsAfter d i attributeScope query p0 (searchedSegs st.trace) →
      ((tagsLoop d attributeScope query kind what blocks st).1.distinctValues,
          (tagsLoop d attributeScope query kind what blocks st).1.mc) =
        tagsAfter d i attributeScope query p0
          (searchedSegs (tagsLoop d attributeScope query kind what blocks st).1.trace) := by
  intro blocks
  induction blocks with
  | nil => intro st _ hv; exact hv
  | cons p rest ih =>
    intro st hseg hv
    obtain ⟨n, b⟩ := p
    have h1 := tagsSearchBlock_values d i attributeScope query (kind n) (some b) st p0
      (fun b2 hb => by cases hb; exact hseg (n, b) (by simp)) hv
    simp only [tagsLoop]
    cases he : (tagsSearchBlock d attributeScope query (kind n) (some b) st).2 with
    | some err => exact h1
    | none => exact ih _ (fun p hp => hseg p (by simp [hp])) h1

/-- A successful `SearchTagsV2` past its scope checks returns the scopes of
the collector that its searched segments have filled, in the order of the
searches, and their byte total. -/
theorem SearchTagsV2_values {SDS DS : Type} (d : TagsDeps SDS DS) (i : Instance) (ctx : Ctx)
    (req : SearchTagsRequest) (userID : String)
    (ht : d.ExtractOrgID ctx = .ok userID) (hs : req.Scope ≠ ParamScopeIntrinsic)
    (hu : d.AttributeScopeFromString req.Scope ≠ AttributeScope.Unknown) :
    (SearchTagsV2 d i ctx req).err = none →
    (SearchTagsV2 d i ctx req).resp =
      some { Scopes := (d.StringsScoped (tagsAfter d i (d.AttributeScopeFromString req.Scope)
                 (d.ExtractMatchers req.Query)
                 (d.NewScopedDistinctString (d.MaxBytesPerTagValuesQuery userID)
                   req.MaxTagsPerScope req.StaleValuesThreshold, 0)
                 (searchedSegs (SearchTagsV2 d i ctx req).trace)).1).map fun p =>
               { Name := p.1, Tags := p.2 },
             Metrics := some { InspectedBytes :=
               (tagsAfter d i (d.AttributeScopeFromString req.Scope)
                 (d.ExtractMatchers req.Query)
                 (d.NewScopedDistinctString (d.MaxBytesPerTagValuesQuery userID)
                   req.MaxTagsPerScope req.StaleValuesThreshold, 0)
                 (searchedSegs (SearchTagsV2 d i ctx req).trace)).2 } } := by
  have hhead := tagsSearchBlock_values d i (d.AttributeScopeFromString req.Scope)
    (d.ExtractMatchers req.Query) Seg.head i.headBlock
    { distinctValues :=
        d.NewScopedDistinctString (d.MaxBytesPerTagValuesQuery userID) req.MaxTagsPerScope
          req.StaleValuesThreshold,
      mc := 0, trace := [Event.RLockHead] }
    (d.NewScopedDistinctString (d.MaxBytesPerTagValuesQuery userID) req.MaxTagsPerScope
      req.StaleValuesThreshold, 0)
    (fun b hb => hb) (by simp [searchedSegs, tagsAfter])
  have hlock : ∀ (st : TagsState SDS),
      (st.distinctValues, st.mc) = tagsAfter d i (d.AttributeScopeFromString req.Scope)
        (d.ExtractMatchers req.Query)
        (d.NewScopedDistinctString (d.MaxBytesPerTagValuesQuery userID) req.MaxTagsPerScope
          req.StaleValuesThreshold, 0)
        (searchedSegs st.trace) →
      (({ st with trace := st.trace ++ [Event.RUnlockHead, Event.RLockBlocks] } :
            TagsState SDS).distinctValues,
          ({ st with trace := st.trace ++ [Event.RUnlockHead, Event.RLockBlocks] } :
            TagsState SDS).mc) =
        tagsAfter d i (d.AttributeScopeFromString req.Scope) (d.ExtractMatchers req.Query)
          (d.NewScopedDistinctString (d.MaxBytesPerTagValuesQuery userID) req.MaxTagsPerScope
            req.StaleValuesThreshold, 0)
          (searchedSegs ({ st with trace := st.trace ++
            [Event.RUnlockHead, Event.RLockBlocks] } : TagsState SDS).trace) := by
    intro st h
    have : searchedSegs (st.trace ++ [Event.RUnlockHead, Event.RLockBlocks]) =
        searchedSegs st.trace := by
      simp [searchedSegs_append, searchedSegs]
    simp only [this]
    exact h
  unfold SearchTagsV2
  simp only [ht, hs, hu, if_false]
  split
  · intro hc; cases hc
  · rename_i err he hb
    rw [hb] at he
    cases he
  · have h3 := tagsLoop_values d i (d.AttributeScopeFromString req.Scope)
      (d.ExtractMatchers req.Query) Seg.completing "completing" _ i.completingBlocks.enum _
      (enum_segBlock_completing i) (hlock _ hhead)
    split
    · intro hc; cases hc
    · have h4 := tagsLoop_values d i (d.AttributeScopeFromString req.Scope)
        (d.ExtractMatchers req.Query) Seg.complete "complete" _
        (i.completeBlocks.enum.map fun p => (p.1, p.2.toBlock)) _
        (enum_segBlock_complete i) h3
      split
      · intro hk; cases hk
      · intro _
        simp only [searchedSegs_append, searchedSegs, List.append_nil]
        rw [← h4]

/-! ## The claims -/

/-- C1: when both request bounds are nonzero, `includeBlock` is true exactly
when the block starts no later than the request end and ends no earlier than
the request start (bounds widened to `Int`, no wrap-around); the six cases of
`TestIncludeBlock` evaluate to their expected values. -/
theorem includeBlock_nonzero_bounds :
    (∀ (b : BlockMeta) (req : SearchRequest), req.Start ≠ 0 → req.End ≠ 0 →
      (includeBlock b req = true ↔
        (b.StartTime ≤ (req.End : Int) ∧ b.EndTime ≥ (req.Start : Int)))) ∧
    includeBlock (testMeta 100 200) (testReq 0 0) = true ∧
    includeBlock (testMeta 100 200) (testReq 50 99) = false ∧
    includeBlock (testMeta 100 200) (testReq 50 150) = true ∧
    includeBlock (testMeta 100 200) (testReq 110 150) = true ∧
    includeBlock (testMeta 100 200) (testReq 150 250) = true ∧
    includeBlock (testMeta 100 200) (testReq 201 250) = false := by
  refine ⟨?_, by decide, by decide, by decide, by decide, by decide, by decide⟩
  intro b req hs he
  have hs1 : ((req.Start : Int) == 0) = false := by
    simpa using hs
  have he1 : ((req.End : Int) == 0) = false := by
    simpa using he
  simp [includeBlock, hs1, he1]

/-- Witness for C1 at the "overlap front" block 100..200 and request 50..150. -/
theorem includeBlock_nonzero_bounds_witness :
    (50 : Nat) ≠ 0 ∧ (150 : Nat) ≠ 0 ∧
    (includeBlock (testMeta 100 200) (testReq 50 150) = true ↔
      ((testMeta 100 200).StartTime ≤ ((testReq 50 150).End : Int) ∧
        (testMeta 100 200).EndTime ≥ ((testReq 50 150).Start : Int))) :=
  ⟨by decide, by decide,
    includeBlock_nonzero_bounds.1 (testMeta 100 200) (testReq 50 150) (by decide) (by decide)⟩

/-- C2: a request with `Start = 0` and `End = 0` includes every block,
whatever the block's times. -/
theorem includeBlock_unbounded (b : BlockMeta) (req : SearchRequest)
    (hs : req.Start = 0) (he : req.End = 0) : includeBlock b req = true := by
  simp [includeBlock, hs, he]

/-- Witness for C2 at a block whose start (200) is after its end (100). -/
theorem includeBlock_unbounded_witness :
    (testReq 0 0).Start = 0 ∧ (testReq 0 0).End = 0 ∧
    includeBlock (testMeta 200 100) (testReq 0 0) = true :=
  ⟨rfl, rfl, includeBlock_unbounded (testMeta 200 100) (testReq 0 0) rfl rfl⟩

/-- C3 as stated fails: with `Start = 0`, `End = 50` the block 100..200 does
not overlap the range and the request is not (0,0), yet it is included. -/
theorem includeBlock_one_zero_counterexample :
    ¬ (includeBlock (testMeta 100 200) (testReq 0 50) = true ↔
        (((testReq 0 50).Start = 0 ∧ (testReq 0 50).End = 0) ∨
          ((testMeta 100 200).StartTime ≤ ((testReq 0 50).End : Int) ∧
            (testMeta 100 200).EndTime ≥ ((testReq 0 50).Start : Int)))) := by
  decide

/-- C3 (amended): `includeBlock` is true exactly when `Start = 0` or `End = 0`
(either bound zero makes the request unbounded) or the block overlaps the
request range. -/
theorem includeBlock_iff (b : BlockMeta) (req : SearchRequest) :
    includeBlock b req = true ↔
      ((req.Start = 0 ∨ req.End = 0) ∨
        (b.StartTime ≤ (req.End : Int) ∧ b.EndTime ≥ (req.Start : Int))) := by
  by_cases hs : req.Start = 0
  · simp [includeBlock, hs]
  · by_cases he : req.End = 0
    · simp [includeBlock, he]
    · have hs1 : ((req.Start : Int) == 0) = false := by simpa using hs
      have he1 : ((req.End : Int) == 0) = false := by simpa using he
      simp [includeBlock, hs1, he1, hs, he]

/-- C4: in every execution of `Search`, `SearchTagsV2`, `SearchTagValues` and
`SearchTagValuesV2` the lock order holds of the trace of events (for
`SearchTagValuesV2` including what its goroutines do after the return):
wherever `blocksMtx` is read-acquired, `headBlockMtx` has been read-acquired
before and is not read-acquired afterwards. -/
theorem lock_order {C DS SDS DV : Type} (i : Instance) :
    (∀ (d : SearchDeps C) (req : SearchRequest) (sched : List Nat),
      lockOrderOK (Search d i req sched).trace) ∧
    (∀ (d : TagsDeps SDS DS) (ctx : Ctx) (req : SearchTagsRequest),
      lockOrderOK (SearchTagsV2 d i ctx req).trace) ∧
    (∀ (d : TagValuesDeps DS) (ctx : Ctx) (tagName : String) (limit stale : Nat),
      lockOrderOK (SearchTagValues d i ctx tagName limit stale).trace) ∧
    (∀ (d : TagValuesV2Deps DV) (ctx : Ctx) (req : SearchTagValuesRequest) (pre : Nat)
        (sched : List Nat),
      lockOrderOK ((SearchTagValuesV2 d i ctx req pre sched).trace ++
        (SearchTagValuesV2 d i ctx req pre sched).after)) := by
  refine ⟨?_, ?_, ?_, ?_⟩
  · intro d req sched
    exact lockOrderOK_of_acquires _ (Search_acquires d i req sched)
  · intro d ctx req
    exact lockOrderOK_of_acquires _ (SearchTagsV2_acquires d i ctx req)
  · intro d ctx tagName limit stale
    exact lockOrderOK_of_acquires _ (SearchTagValues_acquires d i ctx tagName limit stale)
  · intro d ctx req pre sched
    rcases SearchTagValuesV2_acquires d i ctx req pre sched with h | h
    · exact lockOrderOK_of_acquires _ (Or.inl h)
    · exact lockOrderOK_of_acquires _ (Or.inr (Or.inr h))

/-- Witness for C4: a run of `Search` that acquires both locks. -/
theorem lock_order_witness :
    Event.RLockBlocks ∈ (Search sampleDeps healthy (testReq 0 0) [1, 0]).trace ∧
    lockOrderOK (Search sampleDeps healthy (testReq 0 0) [1, 0]).trace :=
  ⟨by decide,
    (@lock_order (Nat × List TraceSearchMetadata) Unit Unit Unit healthy).1
      sampleDeps (testReq 0 0) [1, 0]⟩

/-- C5 fails on an instance whose head block is nil: `SearchTagValuesV2`
returns successfully with one read-hold on `headBlockMtx` left, which no
goroutine releases afterwards (the deferred `RUnlock` sits in the goroutine
that is launched only for a non-nil head block), while `blocksMtx` is
released; and `Search` panics on the nil head block with the read-hold on
`headBlockMtx` left. -/
theorem nil_head_keeps_head_lock :
    (SearchTagValuesV2 sampleV2Deps nilHead fakeCtx fooReq 0 []).err = none ∧
    (SearchTagValuesV2 sampleV2Deps nilHead fakeCtx fooReq 0 []).resp.isSome = true ∧
    headHolds ((SearchTagValuesV2 sampleV2Deps nilHead fakeCtx fooReq 0 []).trace ++
      (SearchTagValuesV2 sampleV2Deps nilHead fakeCtx fooReq 0 []).after) = 1 ∧
    blocksHolds ((SearchTagValuesV2 sampleV2Deps nilHead fakeCtx fooReq 0 []).trace ++
      (SearchTagValuesV2 sampleV2Deps nilHead fakeCtx fooReq 0 []).after) = 0 ∧
    (Search sampleDeps nilHead (testReq 0 0) []).panicked = true ∧
    headHolds (Search sampleDeps nilHead (testReq 0 0) []).trace = 1 := by
  decide

/-- C6: for a request whose query is empty or parses, `Search` returns an
error exactly when the search of some segment returned a fault (an error that
is neither unsupported nor canceled); every recorded return is the answer of a
segment of the instance that `includeBlock` keeps; a failing call returns no
response; and a segment answering unsupported or canceled leaves the combiner,
the metrics, `anyErr` and the cancel flag as they were. -/
theorem Search_fails_iff_segment_fault {C : Type} (d : SearchDeps C) (i : Instance)
    (req : SearchRequest) (sched : List Nat)
    (hq : req.Query = "" ∨ ∃ r, d.Parse req.Query = .ok r) :
    ((Search d i req sched).err.isSome = true ↔
      ∃ seg resp e, Event.SearchReturned seg resp (some e) ∈ (Search d i req sched).trace ∧
        isFault e = true) ∧
    (∀ seg resp err, Event.SearchReturned seg resp err ∈ (Search d i req sched).trace →
      ∃ b c, segBlock i seg = some b ∧ includeBlock b.Meta req = true ∧
        callSearcher d req b c = (resp, err)) ∧
    ((Search d i req sched).err.isSome = true → (Search d i req sched).resp = none) ∧
    (∀ (s : SearchShared C) (t : SearchTask) (resp : Option SearchResponse) (err : Option Err),
      errorsIs err Err.ErrUnsupported = true ∨ errorsIs err Err.Canceled = true →
        (searchFinish d s t resp err).1 =
          { s with trace := s.trace ++ [Event.SearchReturned t.seg resp err] }) := by
  refine ⟨(Search_parsed d i req sched hq).2.1, (Search_returns d i req sched).2,
    (Search_parsed d i req sched hq).2.2, ?_⟩
  intro s t resp err h
  by_cases hu : errorsIs err Err.ErrUnsupported = true
  · simp [searchFinish, hu]
  · rcases h with h | h
    · exact absurd h hu
    · simp [searchFinish, hu, h]

/-- Witness for C6: the instance with two failing completing blocks, the
goroutines run one after the other. -/
theorem Search_fails_iff_segment_fault_witness :
    ((testReq 0 0).Query = "" ∨ ∃ r, sampleDeps.Parse (testReq 0 0).Query = .ok r) ∧
    ((Search sampleDeps twoFaults (testReq 0 0) [0, 0, 1, 1]).err.isSome = true ↔
      ∃ seg resp e, Event.SearchReturned seg resp (some e) ∈
          (Search sampleDeps twoFaults (testReq 0 0) [0, 0, 1, 1]).trace ∧
        isFault e = true) :=
  ⟨Or.inl rfl,
    (Search_fails_iff_segment_fault sampleDeps twoFaults (testReq 0 0) [0, 0, 1, 1]
      (Or.inl rfl)).1⟩

/-- C7: when the query is non-empty and `traceql.Parse` fails with `e`,
`Search` returns no response and the error `error parsing query: e`, which
wraps `e`, and its trace is empty: no lock is acquired and no segment is
searched.  When the query is empty, the most-recent hint is false and the
result of `Search` does not depend on the parser. -/
theorem Search_parse_error {C : Type} (d : SearchDeps C) (i : Instance)
    (req : SearchRequest) (sched : List Nat) :
    (∀ e, req.Query ≠ "" → d.Parse req.Query = .error e →
      Search d i req sched =
        { resp := none, err := some (Err.wrap "error parsing query" e),
          panicked := false, trace := [] } ∧
      errorsIs (Search d i req sched).err e = true) ∧
    (req.Query = "" →
      mostRecentHint d req = .ok false ∧
      ∀ p : String → Except Err RootExpr,
        Search { d with Parse := p } i req sched = Search d i req sched) := by
  constructor
  · intro e hne hp
    have hm : mostRecentHint d req = .error (Err.wrap "error parsing query" e) := by
      simp [mostRecentHint, hne, hp]
    have hs : Search d i req sched =
        { resp := none, err := some (Err.wrap "error parsing query" e),
          panicked := false, trace := [] } := by
      simp only [Search, hm]
    refine ⟨hs, ?_⟩
    rw [hs]
    simp [errorsIs, Err.chainHas, Err.chainHas_self]
  · intro he
    have hm : ∀ p : String → Except Err RootExpr,
        mostRecentHint { d with Parse := p } req = .ok false := by
      intro p
      simp [mostRecentHint, he]
    have hm0 : mostRecentHint d req = .ok false := by simp [mostRecentHint, he]
    refine ⟨hm0, ?_⟩
    intro p
    simp only [Search, hm p, hm0, searchHead_parse, searchOthers_parse, searchInit]

/-- Witness for C7: the sample parser rejects the query `oops`. -/
theorem Search_parse_error_witness :
    (testReq 0 0).Query = "" ∧ oopsReq.Query ≠ "" ∧
    sampleDeps.Parse oopsReq.Query = .error (Err.other 400) ∧
    (Search sampleDeps healthy oopsReq []).trace = [] ∧
    (Search sampleDeps healthy oopsReq []).err =
      some (Err.wrap "error parsing query" (Err.other 400)) ∧
    mostRecentHint sampleDeps (testReq 0 0) = .ok false :=
  ⟨rfl, by decide, rfl,
    by rw [((Search_parse_error sampleDeps healthy oopsReq []).1 (Err.other 400)
      (by decide) rfl).1],
    by rw [((Search_parse_error sampleDeps healthy oopsReq []).1 (Err.other 400)
      (by decide) rfl).1],
    ((Search_parse_error sampleDeps healthy (testReq 0 0) []).2 rfl).1⟩

/-- C8: when the request parses, the head block passes `includeBlock`, the
fresh combiner does not skip it and its search returns a fault `e`, `Search`
returns `e` and no response; its trace is the head section alone, so
`blocksMtx` is not acquired and no completing or complete block is searched. -/
theorem Search_head_fault {C : Type} (d : SearchDeps C) (i : Instance)
    (req : SearchRequest) (sched : List Nat) (head : Block) (mr : Bool)
    (resp : Option SearchResponse) (e : Err)
    (hq : mostRecentHint d req = .ok mr)
    (hh : i.headBlock = some head)
    (hi : includeBlock head.Meta req = true)
    (hc : d.IsCompleteFor (d.NewMetadataCombiner (maxResults req) mr)
      (toUint32 head.Meta.EndTime) = false)
    (ha : callSearcher d req head false = (resp, some e))
    (hf : isFault e = true) :
    Search d i req sched =
      { resp := none, err := some e, panicked := false,
        trace := [Event.RLockHead, Event.SearchBlock Seg.head,
          Event.SearchReturned Seg.head resp (some e), Event.StoreErr e,
          Event.RUnlockHead] } ∧
    Event.RLockBlocks ∉ (Search d i req sched).trace ∧
    ∀ seg, Event.SearchBlock seg ∈ (Search d i req sched).trace → seg = Seg.head := by
  have hu : e.chainHas Err.ErrUnsupported = false := by
    simp [isFault] at hf; exact hf.1
  have hcn : e.chainHas Err.Canceled = false := by
    simp [isFault] at hf; exact hf.2
  have hhead : searchHead d req head (searchInit d req mr) =
      { combiner := d.NewMetadataCombiner (maxResults req) mr,
        metrics := { InspectedTraces := 0, InspectedBytes := 0 },
        anyErr := some e,
        canceled := false,
        trace := [Event.RLockHead, Event.SearchBlock Seg.head,
          Event.SearchReturned Seg.head resp (some e), Event.StoreErr e,
          Event.RUnlockHead] } := by
    simp [searchHead, searchInit, hi, iterStep, searchStep, searchStart, hc, ha,
      searchFinish, errorsIs, hu, hcn]
  have hs : Search d i req sched =
      { resp := none, err := some e, panicked := false,
        trace := [Event.RLockHead, Event.SearchBlock Seg.head,
          Event.SearchReturned Seg.head resp (some e), Event.StoreErr e,
          Event.RUnlockHead] } := by
    simp only [Search, hq, hh, hhead]
  refine ⟨hs, ?_, ?_⟩
  · rw [hs]; simp
  · intro seg hm
    rw [hs] at hm
    simpa using hm

/-- Witness for C8: the head block of `headFault` fails with `other 9`. -/
theorem Search_head_fault_witness :
    (Search sampleDeps headFault (testReq 0 0) [0, 1]).err = some (Err.other 9) ∧
    (Search sampleDeps headFault (testReq 0 0) [0, 1]).resp = none ∧
    Event.RLockBlocks ∉ (Search sampleDeps headFault (testReq 0 0) [0, 1]).trace :=
  ⟨by rw [(Search_head_fault sampleDeps headFault (testReq 0 0) [0, 1]
      (constBlock 0 none (some (Err.other 9))) false none (Err.other 9)
      rfl rfl (by decide) (by decide) rfl (by decide)).1],
    by decide,
    (Search_head_fault sampleDeps headFault (testReq 0 0) [0, 1]
      (constBlock 0 none (some (Err.other 9))) false none (Err.other 9)
      rfl rfl (by decide) (by decide) rfl (by decide)).2.1⟩

/-- C9 as stated fails: with two failing completing blocks, run one after the
other, the first recorded error is `other 1` but `Search` returns `other 2`. -/
theorem Search_first_error_counterexample :
    firstStored (Search sampleDeps twoFaults (testReq 0 0) [0, 0, 1, 1]).trace =
      some (Err.other 1) ∧
    (Search sampleDeps twoFaults (testReq 0 0) [0, 0, 1, 1]).err = some (Err.other 2) ∧
    ¬ ((Search sampleDeps twoFaults (testReq 0 0) [0, 0, 1, 1]).err =
        firstStored (Search sampleDeps twoFaults (testReq 0 0) [0, 0, 1, 1]).trace) := by
  decide

/-- C9 (amended): for a request whose query is empty or parses, the error
`Search` returns is the one recorded last by `anyErr.Store`, and no error when
none was recorded: a later store replaces an earlier one. -/
theorem Search_returns_last_stored {C : Type} (d : SearchDeps C) (i : Instance)
    (req : SearchRequest) (sched : List Nat)
    (hq : req.Query = "" ∨ ∃ r, d.Parse req.Query = .ok r) :
    (Search d i req sched).err = lastStored (Search d i req sched).trace :=
  (Search_parsed d i req sched hq).1

/-- Witness for C9 (amended): the two failing completing blocks, run in the
opposite order, so that `other 1` is stored last. -/
theorem Search_returns_last_stored_witness :
    ((testReq 0 0).Query = "" ∨ ∃ r, sampleDeps.Parse (testReq 0 0).Query = .ok r) ∧
    (Search sampleDeps twoFaults (testReq 0 0) [1, 1, 0, 0]).err =
      lastStored (Search sampleDeps twoFaults (testReq 0 0) [1, 1, 0, 0]).trace ∧
    (Search sampleDeps twoFaults (testReq 0 0) [1, 1, 0, 0]).err = some (Err.other 1) :=
  ⟨Or.inl rfl,
    Search_returns_last_stored sampleDeps twoFaults (testReq 0 0) [1, 1, 0, 0] (Or.inl rfl),
    by decide⟩

/-- C10: when `Search` succeeds, the response carries metrics, and
`InspectedTraces` (mod 2^32) and `InspectedBytes` (mod 2^64) are the sums over
the returns of segment searches of what each contributed: the segment's own
figure when it returned no error and a response with metrics, nothing
otherwise.  When no return contributes, both totals are 0.  No segment's
search returns twice, and every return is the answer of a segment of the
instance that `includeBlock` keeps, so segments outside the time range and
segments skipped by the accumulator add nothing. -/
theorem Search_metrics_sum {C : Type} (d : SearchDeps C) (i : Instance)
    (req : SearchRequest) (sched : List Nat)
    (herr : (Search d i req sched).err = none)
    (hpanic : (Search d i req sched).panicked = false) :
    ∃ traces m, (Search d i req sched).resp = some { Traces := traces, Metrics := some m } ∧
      m.InspectedTraces =
        ((Search d i req sched).trace.map contribTraces).sum % 4294967296 ∧
      m.InspectedBytes =
        ((Search d i req sched).trace.map contribBytes).sum % 18446744073709551616 ∧
      ((∀ ev ∈ (Search d i req sched).trace, contribTraces ev = 0) → m.InspectedTraces = 0) ∧
      ((∀ ev ∈ (Search d i req sched).trace, contribBytes ev = 0) → m.InspectedBytes = 0) ∧
      (returnedSegs (Search d i req sched).trace).Nodup ∧
      (∀ seg resp err, Event.SearchReturned seg resp err ∈ (Search d i req sched).trace →
        ∃ b c, segBlock i seg = some b ∧ includeBlock b.Meta req = true ∧
          callSearcher d req b c = (resp, err)) := by
  have key : ∃ traces m,
      (Search d i req sched).resp = some { Traces := traces, Metrics := some m } ∧
      m.InspectedTraces =
        ((Search d i req sched).trace.map contribTraces).sum % 4294967296 ∧
      m.InspectedBytes =
        ((Search d i req sched).trace.map contribBytes).sum % 18446744073709551616 := by
    rcases Search_shape d i req sched with ⟨e, _, hs⟩ | ⟨_, _, _, hs⟩ | ⟨_, _, s, hinv, hs⟩
    · rw [hs] at herr; cases herr
    · rw [hs] at hpanic; cases hpanic
    · obtain ⟨_, _, h3, h4⟩ := hinv
      rcases hs with ⟨e, _, hs⟩ | ⟨_, hs⟩
      · rw [hs] at herr; cases herr
      · rw [hs]
        exact ⟨_, _, rfl, h3, h4⟩
  obtain ⟨traces, m, hr, ht, hb⟩ := key
  refine ⟨traces, m, hr, ht, hb, ?_, ?_, (Search_returns d i req sched).1,
    (Search_returns d i req sched).2⟩
  · intro h0
    have : ((Search d i req sched).trace.map contribTraces).sum = 0 :=
      List.sum_eq_zero (by simpa using h0)
    rw [ht, this]
  · intro h0
    have : ((Search d i req sched).trace.map contribBytes).sum = 0 :=
      List.sum_eq_zero (by simpa using h0)
    rw [hb, this]

/-- Witness for C10: three healthy segments contribute 1 + 2 + 4 traces; the
unsupported and the canceled segment contribute nothing. -/
theorem Search_metrics_sum_witness :
    (Search sampleDeps healthy (testReq 0 0) [3, 0, 2, 1, 0, 3]).err = none ∧
    (Search sampleDeps healthy (testReq 0 0) [3, 0, 2, 1, 0, 3]).panicked = false ∧
    (Search sampleDeps healthy (testReq 0 0) [3, 0, 2, 1, 0, 3]).resp.bind (·.Metrics) =
      some { InspectedTraces := 7, InspectedBytes := 70 } ∧
    ∃ traces m, (Search sampleDeps healthy (testReq 0 0) [3, 0, 2, 1, 0, 3]).resp =
        some { Traces := traces, Metrics := some m } ∧
      m.InspectedTraces =
        ((Search sampleDeps healthy (testReq 0 0) [3, 0, 2, 1, 0, 3]).trace.map
          contribTraces).sum % 4294967296 :=
  ⟨by decide, by decide, by decide,
    match Search_metrics_sum sampleDeps healthy (testReq 0 0) [3, 0, 2, 1, 0, 3]
      (by decide) (by decide) with
    | ⟨traces, m, h1, h2, _⟩ => ⟨traces, m, h1, h2⟩⟩

/-- C16: for a request whose scope is `intrinsic` and whose context carries a
tenant id, `SearchTagsV2` returns success with a response without scopes and
with an empty trace (no lock, no segment search); `SearchTags` for that scope
returns success with the strings of a fresh collector into which nothing was
collected, which are no tag names when a fresh collector is empty. -/
theorem intrinsic_scope {SDS DS : Type} (d : TagsDeps SDS DS) (i : Instance) (ctx : Ctx)
    (req : SearchTagsRequest) (userID : String)
    (ht : d.ExtractOrgID ctx = .ok userID) (hs : req.Scope = "intrinsic") :
    SearchTagsV2 d i ctx req =
      { resp := some { Scopes := [], Metrics := none }, err := none, panicked := false,
        trace := [] } ∧
    SearchTags d i ctx "intrinsic" =
      { resp := some { TagNames := d.Strings (d.NewDistinctString 0 0 0), Metrics := none },
        err := none, panicked := false, trace := [] } ∧
    (d.Strings (d.NewDistinctString 0 0 0) = [] →
      SearchTags d i ctx "intrinsic" =
        { resp := some { TagNames := [], Metrics := none },
          err := none, panicked := false, trace := [] }) := by
  have h2 : ∀ r : SearchTagsRequest, r.Scope = "intrinsic" →
      SearchTagsV2 d i ctx r =
        { resp := some { Scopes := [], Metrics := none }, err := none, panicked := false,
          trace := [] } := by
    intro r hr
    simp [SearchTagsV2, ht, hr, ParamScopeIntrinsic]
  have h1 : SearchTags d i ctx "intrinsic" =
      { resp := some { TagNames := d.Strings (d.NewDistinctString 0 0 0), Metrics := none },
        err := none, panicked := false, trace := [] } := by
    have h3 := h2 (tagsReq "intrinsic" "") rfl
    simp only [tagsReq] at h3
    simp only [SearchTags]
    rw [h3]
    simp [flattenTags]
  refine ⟨h2 req hs, h1, ?_⟩
  intro he
  rw [h1, he]

/-- Witness for C16: the sample collaborators and the tenant `fake`. -/
theorem intrinsic_scope_witness :
    sampleTagsDeps.ExtractOrgID fakeCtx = .ok "fake" ∧
    (SearchTagsV2 sampleTagsDeps healthy fakeCtx (tagsReq "intrinsic" "")).trace = [] ∧
    (SearchTagsV2 sampleTagsDeps healthy fakeCtx (tagsReq "intrinsic" "")).resp =
      some { Scopes := [], Metrics := none } ∧
    (SearchTags sampleTagsDeps healthy fakeCtx "intrinsic").resp =
      some { TagNames := [], Metrics := none } :=
  ⟨rfl,
    by rw [(intrinsic_scope sampleTagsDeps healthy fakeCtx (tagsReq "intrinsic" "") "fake"
      rfl rfl).1],
    by rw [(intrinsic_scope sampleTagsDeps healthy fakeCtx (tagsReq "intrinsic" "") "fake"
      rfl rfl).1],
    by rw [(intrinsic_scope sampleTagsDeps healthy fakeCtx (tagsReq "intrinsic" "") "fake"
      rfl rfl).2.2 rfl]⟩

/-- C17: for a scope that is not `intrinsic` and that
`traceql.AttributeScopeFromString` maps to `AttributeScopeUnknown`,
`SearchTagsV2` and `SearchTags` return no response and an error, with an empty
trace (no lock, no segment search); when the context carries a tenant id the
error is `unknown scope: ` followed by the scope. -/
theorem unknown_scope {SDS DS : Type} (d : TagsDeps SDS DS) (i : Instance) (ctx : Ctx)
    (req : SearchTagsRequest)
    (hn : req.Scope ≠ "intrinsic")
    (hu : d.AttributeScopeFromString req.Scope = AttributeScope.Unknown) :
    ((SearchTagsV2 d i ctx req).resp = none ∧ (SearchTagsV2 d i ctx req).err.isSome = true ∧
      (SearchTagsV2 d i ctx req).trace = []) ∧
    ((SearchTags d i ctx req.Scope).resp = none ∧
      (SearchTags d i ctx req.Scope).err.isSome = true ∧
      (SearchTags d i ctx req.Scope).trace = []) ∧
    (∀ userID, d.ExtractOrgID ctx = .ok userID →
      (SearchTagsV2 d i ctx req).err = some (Err.errorf ("unknown scope: " ++ req.Scope)) ∧
      (SearchTags d i ctx req.Scope).err =
        some (Err.errorf ("unknown scope: " ++ req.Scope))) := by
  have h2 : ∀ r : SearchTagsRequest, r.Scope = req.Scope →
      (SearchTagsV2 d i ctx r).resp = none ∧ (SearchTagsV2 d i ctx r).err.isSome = true ∧
      (SearchTagsV2 d i ctx r).trace = [] ∧
      (∀ userID, d.ExtractOrgID ctx = .ok userID →
        (SearchTagsV2 d i ctx r).err = some (Err.errorf ("unknown scope: " ++ req.Scope))) := by
    intro r hr
    cases ht : d.ExtractOrgID ctx with
    | error e => simp [SearchTagsV2, ht]
    | ok userID => simp [SearchTagsV2, ht, hr, hn, hu, ParamScopeIntrinsic]
  obtain ⟨a1, a2, a3, a4⟩ := h2 req rfl
  obtain ⟨b1, b2, b3, b4⟩ := h2
    { Scope := req.Scope, Query := "", MaxTagsPerScope := 0, StaleValuesThreshold := 0 } rfl
  have hs : (SearchTags d i ctx req.Scope).resp = none ∧
      (SearchTags d i ctx req.Scope).err =
        (SearchTagsV2 d i ctx
          { Scope := req.Scope, Query := "", MaxTagsPerScope := 0,
            StaleValuesThreshold := 0 }).err ∧
      (SearchTags d i ctx req.Scope).trace = [] := by
    cases he : (SearchTagsV2 d i ctx
        { Scope := req.Scope, Query := "", MaxTagsPerScope := 0,
          StaleValuesThreshold := 0 }).err with
    | none => rw [he] at b2; cases b2
    | some e => simp [SearchTags, he, b3]
  refine ⟨⟨a1, a2, a3⟩, ⟨hs.1, by rw [hs.2.1]; exact b2, hs.2.2⟩, ?_⟩
  intro userID ht
  exact ⟨a4 userID ht, by rw [hs.2.1]; exact b4 userID ht⟩

/-- Witness for C17: the scope `foo` of `TestInstanceSearchUnknownScope`. -/
theorem unknown_scope_witness :
    (tagsReq "foo" "").Scope ≠ "intrinsic" ∧
    sampleTagsDeps.AttributeScopeFromString (tagsReq "foo" "").Scope = AttributeScope.Unknown ∧
    (SearchTags sampleTagsDeps healthy fakeCtx "foo").resp = none ∧
    (SearchTags sampleTagsDeps healthy fakeCtx "foo").err =
      some (Err.errorf "unknown scope: foo") :=
  ⟨by decide, by decide,
    (unknown_scope sampleTagsDeps healthy fakeCtx (tagsReq "foo" "") (by decide)
      (by decide)).2.1.1,
    ((unknown_scope sampleTagsDeps healthy fakeCtx (tagsReq "foo" "") (by decide)
      (by decide)).2.2 "fake" rfl).2⟩

/-- C11: in `Search`, (1) a `search` closure that finds the combiner complete
for its block's end time returns without calling the searcher and changes
nothing, and otherwise it calls the searcher; (2) in every execution a segment
that `includeBlock` does not keep is never searched and never returns; (3)
when the query parses, the head block exists and `includeBlock` keeps no
segment, the call succeeds after the four lock operations alone, with zero
metrics and the entries of a combiner nothing was added to, which is an empty
response when a fresh combiner holds no entries; (4) with both request bounds
nonzero, `includeBlock` does not keep a block that starts after the request
end or ends before the request start. -/
theorem Search_skips {C : Type} (d : SearchDeps C) (i : Instance) (req : SearchRequest)
    (sched : List Nat) :
    (∀ (s : SearchShared C) (t : SearchTask), t.phase = SearchPhase.pending →
      (d.IsCompleteFor s.combiner (toUint32 t.block.Meta.EndTime) = true →
        searchStep d req s t = (s, { t with phase := SearchPhase.done })) ∧
      (d.IsCompleteFor s.combiner (toUint32 t.block.Meta.EndTime) = false →
        (searchStep d req s t).1.trace = s.trace ++ [Event.SearchBlock t.seg])) ∧
    (∀ seg b, segBlock i seg = some b → includeBlock b.Meta req = false →
      seg ∉ searchedSegs (Search d i req sched).trace ∧
      seg ∉ returnedSegs (Search d i req sched).trace) ∧
    (∀ head mr, i.headBlock = some head → mostRecentHint d req = .ok mr →
      (∀ seg b, segBlock i seg = some b → includeBlock b.Meta req = false) →
      Search d i req sched =
        { resp := some
            { Traces := d.Metadata (d.NewMetadataCombiner (maxResults req) mr),
              Metrics := some { InspectedTraces := 0, InspectedBytes := 0 } },
          err := none, panicked := false,
          trace := [Event.RLockHead, Event.RUnlockHead, Event.RLockBlocks,
            Event.RUnlockBlocks] } ∧
      (d.Metadata (d.NewMetadataCombiner (maxResults req) mr) = [] →
        (Search d i req sched).resp =
          some { Traces := [],
                 Metrics := some { InspectedTraces := 0, InspectedBytes := 0 } })) ∧
    (∀ b : BlockMeta, req.Start ≠ 0 → req.End ≠ 0 →
      ((req.End : Int) < b.StartTime ∨ b.EndTime < (req.Start : Int)) →
      includeBlock b req = false) := by
  refine ⟨?_, ?_, ?_, ?_⟩
  rotate_left 3
  · intro b hs he hov
    have hs1 : ((req.Start : Int) == 0) = false := by simpa using hs
    have he1 : ((req.End : Int) == 0) = false := by simpa using he
    simp only [includeBlock, hs1, he1, Bool.or_self, Bool.false_eq_true, if_false]
    rcases hov with h | h
    · simp [not_le.2 h]
    · simp [h]
  · intro s t hp
    constructor
    · intro hc
      simp [searchStep, hp, searchStart, hc]
    · intro hc
      simp [searchStep, hp, searchStart, hc]
  · intro seg b hb hi
    constructor
    · intro hm
      obtain ⟨b2, h1, h2⟩ := Search_searched d i req sched seg hm
      rw [hb] at h1
      cases h1
      rw [hi] at h2
      cases h2
    · intro hm
      obtain ⟨resp, err, hev⟩ := mem_returnedSegs _ seg hm
      obtain ⟨b2, _, h1, h2, _⟩ := (Search_returns d i req sched).2 seg resp err hev
      rw [hb] at h1
      cases h1
      rw [hi] at h2
      cases h2
  · intro head mr hh hq hnone
    have hhead : includeBlock head.Meta req = false := hnone Seg.head head hh
    have h1 : searchHead d req head (searchInit d req mr) =
        { searchInit d req mr with trace := [Event.RLockHead, Event.RUnlockHead] } := by
      simp [searchHead, hhead, searchInit]
    have h2 : searchOthers d i req sched
        { searchInit d req mr with trace := [Event.RLockHead, Event.RUnlockHead] } =
        { searchInit d req mr with
          trace := [Event.RLockHead, Event.RUnlockHead, Event.RLockBlocks] } := by
      simp [searchOthers, searchTasks_nil i req hnone, runSchedule_nil, waitAll]
    have h3 : Search d i req sched =
        { resp := some
            { Traces := d.Metadata (d.NewMetadataCombiner (maxResults req) mr),
              Metrics := some { InspectedTraces := 0, InspectedBytes := 0 } },
          err := none, panicked := false,
          trace := [Event.RLockHead, Event.RUnlockHead, Event.RLockBlocks,
            Event.RUnlockBlocks] } := by
      simp only [Search, hq, hh, h1, h2]
      simp [searchInit]
    refine ⟨h3, ?_⟩
    intro he
    rw [h3, he]

/-- Witness for C11: the healthy sample instance, whose blocks cover 100 to
200, and a request for 1000 to 2000. -/
theorem Search_skips_witness :
    healthy.headBlock = some (constBlock 0 (some (sampleResp 1)) none) ∧
    mostRecentHint sampleDeps lateReq = .ok false ∧
    (Search sampleDeps healthy lateReq [0, 1, 1, 0]).resp =
      some { Traces := [],
             Metrics := some { InspectedTraces := 0, InspectedBytes := 0 } } :=
  ⟨rfl, rfl,
    ((Search_skips sampleDeps healthy lateReq [0, 1, 1, 0]).2.2.1
      (constBlock 0 (some (sampleResp 1)) none) false rfl rfl
      (by
        intro seg b hb
        cases seg with
        | head => cases hb; decide
        | completing n =>
          match n, hb with
          | 0, hb => cases hb; decide
          | 1, hb => cases hb; decide
          | n + 2, hb => simp [segBlock, healthy] at hb
        | complete n =>
          match n, hb with
          | 0, hb => cases hb; decide
          | 1, hb => cases hb; decide
          | n + 2, hb => simp [segBlock, healthy] at hb)).2 rfl⟩

/-- C20: a cache hit in `SearchTagValuesV2`.  (1) For a goroutine of a
complete block that has passed the early-exit check, when `GetDiskCache`
gives no error and non-empty bytes that `Unmarshal` reads as `vs`: the lookup
step records only the cache read, adds the length of the bytes to the
inspected-bytes total and starts feeding `vs`; run alone from there, the
goroutine returns nil having given `vs` to the shared collector in stored
order up to and including the first value for which `Collect` signals stop,
with no searcher call in the trace.  (2) Whatever other goroutines do in
between, a feeding step collects the next value and returns when `Collect`
signals stop or no value is left.  (3) In every execution of
`SearchTagValuesV2`, the searcher of a complete block whose cache answers the
cache key with non-empty bytes and no error is never called. -/
theorem cache_hit {DV : Type} (d : TagValuesV2Deps DV) :
    (∀ (env : V2Env) (s : V2Shared DV) (t : V2Task) (lb : LocalBlock) (vs : List TagValue),
      t.phase = V2Phase.ready → t.cache = some lb →
      0 < (lb.GetDiskCache t.files env.cacheKey).1.length →
      (lb.GetDiskCache t.files env.cacheKey).2 = none →
      d.Unmarshal (lb.GetDiskCache t.files env.cacheKey).1 = .ok vs →
      v2Step d env s t =
        ({ s with mc := mcAdd s.mc (lb.GetDiskCache t.files env.cacheKey).1.length,
                  trace := s.trace ++ [Event.GetDiskCache t.seg env.cacheKey] },
          { t with phase := V2Phase.feeding vs }) ∧
      iterUntil V2Task.hasReturned (v2Step d env) (vs.length + 2) s t =
        ({ s with valueCollector := feedUntilStop d.Collect vs s.valueCollector,
                  mc := mcAdd s.mc (lb.GetDiskCache t.files env.cacheKey).1.length,
                  trace := s.trace ++ [Event.GetDiskCache t.seg env.cacheKey] },
          { t with phase := V2Phase.returned none })) ∧
    (∀ (env : V2Env) (x : V2Shared DV) (u : V2Task),
      (u.phase = V2Phase.feeding [] →
        v2Step d env x u = (x, { u with phase := V2Phase.returned none })) ∧
      (∀ v rest, u.phase = V2Phase.feeding (v :: rest) →
        v2Step d env x u =
          ({ x with valueCollector := (d.Collect x.valueCollector v).1 },
            { u with phase :=
                (if (d.Collect x.valueCollector v).2 then V2Phase.returned none
                  else V2Phase.feeding rest) }))) ∧
    (∀ (i : Instance) (ctx : Ctx) (req : SearchTagValuesRequest) (pre : Nat)
      (sched : List Nat) (userID : String) (n : Nat) (lb : LocalBlock),
      d.ExtractOrgID ctx = .ok userID → i.completeBlocks[n]? = some lb →
      0 < (lb.GetDiskCache lb.Files (searchTagValuesV2CacheKey d.Parse req
        (d.MaxBytesPerTagValuesQuery userID) "cache_search_tagvaluesv2")).1.length →
      (lb.GetDiskCache lb.Files (searchTagValuesV2CacheKey d.Parse req
        (d.MaxBytesPerTagValuesQuery userID) "cache_search_tagvaluesv2")).2 = none →
      Seg.complete n ∉ searchedSegs (SearchTagValuesV2 d i ctx req pre sched).trace ∧
      Seg.complete n ∉ searchedSegs (SearchTagValuesV2 d i ctx req pre sched).after) := by
  refine ⟨?_, ?_, ?_⟩
  · intro env s t lb vs hp hc hlen herr hun
    have h1 : v2Step d env s t =
        ({ s with mc := mcAdd s.mc (lb.GetDiskCache t.files env.cacheKey).1.length,
                  trace := s.trace ++ [Event.GetDiskCache t.seg env.cacheKey] },
          { t with phase := V2Phase.feeding vs }) := by
      simp [v2Step, hp, hc, hlen, herr, hun]
    refine ⟨h1, ?_⟩
    have hstop : V2Task.hasReturned t = false := by simp [V2Task.hasReturned, hp]
    rw [iterUntil]
    simp only [hstop, Bool.false_eq_true, if_false]
    rw [h1, feeding_run d env vs _ _ rfl]
  · intro env x u
    constructor
    · intro hp
      simp [v2Step, hp]
    · intro v rest hp
      simp [v2Step, hp]
  · intro i ctx req pre sched userID n lb ht hlb hlen herr
    cases hid : d.ParseIdentifier req.TagName with
    | error e => simp [SearchTagValuesV2, ht, hid, searchedSegs]
    | ok tag =>
      cases hnid : isIDAttribute tag with
      | true => simp [SearchTagValuesV2, ht, hid, hnid, searchedSegs]
      | false =>
        obtain ⟨_, htr, haf, _⟩ := SearchTagValuesV2_eq d i ctx req pre sched userID tag ht hid hnid
        have hrun := v2Run_hit d (v2Env d req userID tag) i pre sched n lb hlb hlen herr
        rw [htr, haf]
        refine ⟨?_, v2After_hit d _ n _ _ hrun.2⟩
        simpa [searchedSegs_append, searchedSegs] using hrun.1

/-- Witness for C20: the complete block of the sample instance holds the one
value `cached` under the cache key; its searcher is not called and the
response carries `cached`, not `live`. -/
theorem cache_hit_witness :
    (codecV2Deps 0).ExtractOrgID fakeCtx = .ok "fake" ∧
    cachedInstance.completeBlocks[0]? = some (cachedBlock (tagBlock 2 ["live"] none)
      cachedBytes) ∧
    Seg.complete 0 ∉
      searchedSegs (SearchTagValuesV2 (codecV2Deps 0) cachedInstance fakeCtx fooReq 0 []).trace ∧
    (SearchTagValuesV2 (codecV2Deps 0) cachedInstance fakeCtx fooReq 0 []).resp =
      some { TagValues := [{ Typ := "string", Value := "a" },
                           { Typ := "string", Value := "cached" },
                           { Typ := "string", Value := "b" }],
             Metrics := some { InspectedBytes := 34 } } :=
  ⟨rfl, rfl,
    ((cache_hit (codecV2Deps 0)).2.2 cachedInstance fakeCtx fooReq 0 [] "fake" 0
      (cachedBlock (tagBlock 2 ["live"] none) cachedBytes) rfl rfl (by decide) (by decide)).1,
    by decide⟩

/-- C12: on an instance whose completing block returns `common.ErrUnsupported`
from its tag searches while every other segment succeeds, `SearchTagValuesV2`
(in two interleavings) and `SearchTagsV2` with a non-empty query return no
response and the unsupported error, wrapped, whereas `SearchTagValues` and
`SearchTagsV2` with an empty query skip the segment and succeed. -/
theorem unsupported_not_skipped :
    (SearchTagValuesV2 (codecV2Deps 0) unsupportedInstance fakeCtx fooReq 0 []).resp = none ∧
    (SearchTagValuesV2 (codecV2Deps 0) unsupportedInstance fakeCtx fooReq 0 []).err =
      some (Err.wrap "unexpected error searching completing block (1)" Err.ErrUnsupported) ∧
    (SearchTagValuesV2 (codecV2Deps 0) unsupportedInstance fakeCtx fooReq 2
        [2, 2, 2, 1, 0, 2]).err =
      some (Err.wrap "unexpected error searching completing block (1)" Err.ErrUnsupported) ∧
    (SearchTagsV2 sampleTagsDeps unsupportedInstance fakeCtx
        (tagsReq "span" "{ .a = 1 }")).resp = none ∧
    (SearchTagsV2 sampleTagsDeps unsupportedInstance fakeCtx
        (tagsReq "span" "{ .a = 1 }")).err =
      some (Err.wrap "unexpected error searching completing block (1)" Err.ErrUnsupported) ∧
    (SearchTagValues (sampleTagValuesDeps 0) unsupportedInstance fakeCtx "foo" 0 0).err = none ∧
    (SearchTagValues (sampleTagValuesDeps 0) unsupportedInstance fakeCtx "foo" 0 0).resp =
      some { TagValues := ["a", "c"], Metrics := some { InspectedBytes := 20 } } ∧
    (SearchTagsV2 sampleTagsDeps unsupportedInstance fakeCtx (tagsReq "span" "")).err = none ∧
    (SearchTagsV2 sampleTagsDeps unsupportedInstance fakeCtx (tagsReq "span" "")).resp =
      some { Scopes := [{ Name := "span", Tags := ["a", "c"] }],
             Metrics := some { InspectedBytes := 20 } } := by
  refine ⟨?_, ?_, ?_, ?_, ?_, ?_, ?_, ?_, ?_⟩ <;> decide

/-- C19: on an instance whose complete block holds, under the cache key, bytes
that `proto.Unmarshal` rejects, while every segment search succeeds (none has
returned an error), `SearchTagValuesV2` returns no response and the decoding
error, wrapped; on an instance whose cache fails at every read and write the
call succeeds with the values of the live searches. -/
theorem cache_decode_error_fails :
    (SearchTagValuesV2 (codecV2Deps 0) corruptInstance fakeCtx fooReq 0 []).resp = none ∧
    (SearchTagValuesV2 (codecV2Deps 0) corruptInstance fakeCtx fooReq 0 []).err =
      some (Err.wrap "unexpected error searching complete block (2)" (Err.other 500)) ∧
    tagErrors (SearchTagValuesV2 (codecV2Deps 0) corruptInstance fakeCtx fooReq 0 []).trace = [] ∧
    (SearchTagValuesV2 (codecV2Deps 0) failingCacheInstance fakeCtx fooReq 0 []).err = none ∧
    (SearchTagValuesV2 (codecV2Deps 0) failingCacheInstance fakeCtx fooReq 0 []).resp =
      some { TagValues := [{ Typ := "string", Value := "a" },
                           { Typ := "string", Value := "live" }],
             Metrics := some { InspectedBytes := 20 } } := by
  refine ⟨?_, ?_, ?_, ?_, ?_⟩ <;> decide

/-- C13, counterexample: on an instance whose head block returns
`context.Canceled` from its tag searches, `SearchTagValues`, `SearchTagsV2`
and `SearchTagValuesV2` each return no response and the canceled error,
wrapped. -/
theorem canceled_not_absorbed :
    (SearchTagValues (sampleTagValuesDeps 0) canceledInstance fakeCtx "foo" 0 0).resp = none ∧
    (SearchTagValues (sampleTagValuesDeps 0) canceledInstance fakeCtx "foo" 0 0).err =
      some (Err.wrap "unexpected error searching head block (0)"
        (Err.wrap "unexpected error searching tag values (foo)" Err.Canceled)) ∧
    (SearchTagsV2 sampleTagsDeps canceledInstance fakeCtx (tagsReq "span" "")).resp = none ∧
    (SearchTagsV2 sampleTagsDeps canceledInstance fakeCtx (tagsReq "span" "")).err =
      some (Err.wrap "unexpected error searching head block (0)"
        (Err.wrap "unexpected error searching tags" Err.Canceled)) ∧
    (SearchTagValuesV2 (codecV2Deps 0) canceledInstance fakeCtx fooReq 0 []).resp = none ∧
    (SearchTagValuesV2 (codecV2Deps 0) canceledInstance fakeCtx fooReq 0 []).err =
      some (Err.wrap "unexpected error searching head block (0)" Err.Canceled) := by
  refine ⟨?_, ?_, ?_, ?_, ?_, ?_⟩ <;> decide

/-- C13, amended: in `SearchTagValues`, `SearchTagsV2` and
`SearchTagValuesV2`, in every execution, a segment search that returns an
error which is not `common.ErrUnsupported` for `errors.Is` (so also
`context.Canceled`) makes the operation return no response and an error. -/
theorem tag_error_fails {DS SDS DS2 DV : Type} (d1 : TagValuesDeps DS)
    (d2 : TagsDeps SDS DS2) (d3 : TagValuesV2Deps DV) (i : Instance) (ctx : Ctx)
    (seg : Seg) (e : Err) (he : e.chainHas Err.ErrUnsupported = false) :
    (∀ tagName limit stale,
      Event.TagSearchReturned seg (some e) ∈
        (SearchTagValues d1 i ctx tagName limit stale).trace →
      (SearchTagValues d1 i ctx tagName limit stale).err.isSome = true ∧
      (SearchTagValues d1 i ctx tagName limit stale).resp = none) ∧
    (∀ req,
      Event.TagSearchReturned seg (some e) ∈ (SearchTagsV2 d2 i ctx req).trace →
      (SearchTagsV2 d2 i ctx req).err.isSome = true ∧
      (SearchTagsV2 d2 i ctx req).resp = none) ∧
    (∀ req pre sched,
      Event.TagSearchReturned seg (some e) ∈ (SearchTagValuesV2 d3 i ctx req pre sched).trace →
      (SearchTagValuesV2 d3 i ctx req pre sched).err.isSome = true ∧
      (SearchTagValuesV2 d3 i ctx req pre sched).resp = none) := by
  refine ⟨?_, ?_, ?_⟩
  · intro tagName limit stale hm
    cases ht : d1.ExtractOrgID ctx with
    | error e0 => simp [SearchTagValues, ht] at hm
    | ok userID =>
      obtain ⟨h1, h2, _, _⟩ := SearchTagValues_outcome d1 i ctx tagName limit stale userID ht
      rcases h1 with ⟨_, h3⟩ | ⟨h3, _⟩
      · have h4 := absorbedOnly_mem isUnsupported _ seg e hm h3
        simp only [isUnsupported] at h4
        rw [he] at h4
        cases h4
      · refine ⟨h3, ?_⟩
        cases hr : (SearchTagValues d1 i ctx tagName limit stale).resp with
        | none => rfl
        | some r =>
          have h5 := h2.2 (by rw [hr]; rfl)
          rw [h5] at h3
          cases h3
  · intro req hm
    cases ht : d2.ExtractOrgID ctx with
    | error e0 => simp [SearchTagsV2, ht] at hm
    | ok userID =>
      by_cases hs : req.Scope = ParamScopeIntrinsic
      · simp [SearchTagsV2, ht, hs] at hm
      · by_cases hu : d2.AttributeScopeFromString req.Scope = AttributeScope.Unknown
        · simp [SearchTagsV2, ht, hs, hu] at hm
        · obtain ⟨h1, h2, _, _⟩ := SearchTagsV2_outcome d2 i ctx req userID ht hs hu
          rcases h1 with ⟨_, h3⟩ | ⟨h3, _⟩
          · have h4 := absorbedOnly_mem _ _ seg e hm h3
            simp only [tagsAbsorbs, he, Bool.and_false] at h4
            cases h4
          · refine ⟨h3, ?_⟩
            cases hr : (SearchTagsV2 d2 i ctx req).resp with
            | none => rfl
            | some r =>
              have h5 := h2.2 (by rw [hr]; rfl)
              rw [h5] at h3
              cases h3
  · intro req pre sched hm
    exact SearchTagValuesV2_error_fails d3 i ctx req pre sched seg e hm

/-- Witness for C13: the head block that returns `context.Canceled`. -/
theorem tag_error_fails_witness :
    Err.Canceled.chainHas Err.ErrUnsupported = false ∧
    Event.TagSearchReturned Seg.head (some Err.Canceled) ∈
      (SearchTagValues (sampleTagValuesDeps 0) canceledInstance fakeCtx "foo" 0 0).trace ∧
    (SearchTagValues (sampleTagValuesDeps 0) canceledInstance fakeCtx "foo" 0 0).err.isSome =
      true ∧
    (SearchTagValues (sampleTagValuesDeps 0) canceledInstance fakeCtx "foo" 0 0).resp = none :=
  ⟨by decide, by decide,
    (tag_error_fails (sampleTagValuesDeps 0) sampleTagsDeps (codecV2Deps 0) canceledInstance
      fakeCtx Seg.head Err.Canceled (by decide)).1 "foo" 0 0 (by decide)⟩

/-- C18, counterexample: on an instance whose completing block returns
`context.Canceled` from `SearchTagValues`, no segment returns a fault (an
error that is neither unsupported nor canceled) and the collector never
reports `Exceeded`, yet `SearchTagValues` returns no response and an error. -/
theorem no_fault_yet_failure :
    (tagErrors (SearchTagValues (sampleTagValuesDeps 0) canceledCompleting fakeCtx
      "foo" 0 0).trace).all (fun e => !isFault e) = true ∧
    (SearchTagValues (sampleTagValuesDeps 0) canceledCompleting fakeCtx "foo" 0 0).resp = none ∧
    (SearchTagValues (sampleTagValuesDeps 0) canceledCompleting fakeCtx "foo" 0 0).err =
      some (Err.wrap "unexpected error searching completing block (1)"
        (Err.wrap "unexpected error searching tag values (foo)" Err.Canceled)) := by
  refine ⟨?_, ?_, ?_⟩ <;> decide

/-- C18, amended: budget exhaustion is a success.  No hypothesis is made on
`Exceeded`.  (1) `SearchTagValues` with a tenant id, in which every error a
segment returned was unsupported, returns no error and a response that
carries the strings of the collector as the searched segments have filled
it, in the order of the searches, and the byte total of those searches.
(2) `SearchTagsV2` past its scope checks, in which every error a segment
returned was absorbed (unsupported, with an empty query), returns no error
and the scopes of the collector as the searched segments have filled it,
with their byte total.  (3) `SearchTagValuesV2` past its early returns, in
every interleaving in which no segment returned an error and the cache reads
decode, returns no error and the values of the shared collector.  (4) A
collector that reports `Exceeded` makes the closures of `SearchTagValues` and
`SearchTagsV2` return nil without touching the segment or the state. -/
theorem budget_exhaustion_success {DS SDS DS2 DV : Type} (d1 : TagValuesDeps DS)
    (d2 : TagsDeps SDS DS2) (d3 : TagValuesV2Deps DV) (i : Instance) (ctx : Ctx)
    (userID : String) :
    (∀ tagName limit stale, d1.ExtractOrgID ctx = .ok userID →
      absorbedOnly isUnsupported (SearchTagValues d1 i ctx tagName limit stale).trace = true →
      (SearchTagValues d1 i ctx tagName limit stale).err = none ∧
      (SearchTagValues d1 i ctx tagName limit stale).resp =
        some { TagValues := d1.Strings (tagValuesAfter d1 i tagName
                 (d1.NewDistinctString (d1.MaxBytesPerTagValuesQuery userID) limit stale, 0)
                 (searchedSegs (SearchTagValues d1 i ctx tagName limit stale).trace)).1,
               Metrics := some { InspectedBytes := (tagValuesAfter d1 i tagName
                 (d1.NewDistinctString (d1.MaxBytesPerTagValuesQuery userID) limit stale, 0)
                 (searchedSegs (SearchTagValues d1 i ctx tagName limit stale).trace)).2 } }) ∧
    (∀ req, d2.ExtractOrgID ctx = .ok userID → req.Scope ≠ ParamScopeIntrinsic →
      d2.AttributeScopeFromString req.Scope ≠ AttributeScope.Unknown →
      absorbedOnly (tagsAbsorbs (d2.IsEmptyQuery (d2.ExtractMatchers req.Query)))
        (SearchTagsV2 d2 i ctx req).trace = true →
      (SearchTagsV2 d2 i ctx req).err = none ∧
      (SearchTagsV2 d2 i ctx req).resp =
        some { Scopes := (d2.StringsScoped
                 (tagsAfter d2 i (d2.AttributeScopeFromString req.Scope)
                   (d2.ExtractMatchers req.Query)
                   (d2.NewScopedDistinctString (d2.MaxBytesPerTagValuesQuery userID)
                     req.MaxTagsPerScope req.StaleValuesThreshold, 0)
                   (searchedSegs (SearchTagsV2 d2 i ctx req).trace)).1).map fun p =>
                 { Name := p.1, Tags := p.2 },
               Metrics := some { InspectedBytes :=
                 (tagsAfter d2 i (d2.AttributeScopeFromString req.Scope)
                   (d2.ExtractMatchers req.Query)
                   (d2.NewScopedDistinctString (d2.MaxBytesPerTagValuesQuery userID)
                     req.MaxTagsPerScope req.StaleValuesThreshold, 0)
                   (searchedSegs (SearchTagsV2 d2 i ctx req).trace)).2 } }) ∧
    (∀ req pre sched tag, d3.ExtractOrgID ctx = .ok userID →
      d3.ParseIdentifier req.TagName = .ok tag → isIDAttribute tag = false →
      CacheDecodes d3 (v2Env d3 req userID tag).cacheKey i →
      tagErrors (SearchTagValuesV2 d3 i ctx req pre sched).trace = [] →
      (SearchTagValuesV2 d3 i ctx req pre sched).err = none ∧
      (SearchTagValuesV2 d3 i ctx req pre sched).resp =
        some { TagValues := d3.Values
                 (v2Run d3 (v2Env d3 req userID tag) i pre sched).1.valueCollector,
               Metrics := some
                 { InspectedBytes :=
                     (v2Run d3 (v2Env d3 req userID tag) i pre sched).1.mc } }) ∧
    (∀ tagName maxBlocks seg s (st : TagValuesState DS),
      d1.Exceeded st.distinctValues = true →
      tagValuesSearch d1 tagName maxBlocks seg s st = (st, none)) ∧
    (∀ attributeScope query seg s (st : TagsState SDS),
      d2.ExceededScoped st.distinctValues = true →
      tagsSearchBlock d2 attributeScope query seg s st = (st, none)) := by
  refine ⟨?_, ?_, ?_, ?_, ?_⟩
  · intro tagName limit stale ht habs
    obtain ⟨h1, _, _, _⟩ := SearchTagValues_outcome d1 i ctx tagName limit stale userID ht
    rcases h1 with ⟨h5, _⟩ | ⟨_, h6⟩
    · exact ⟨h5, SearchTagValues_values d1 i ctx tagName limit stale userID ht h5⟩
    · rw [habs] at h6; cases h6
  · intro req ht hs hu habs
    obtain ⟨h1, _, _, _⟩ := SearchTagsV2_outcome d2 i ctx req userID ht hs hu
    rcases h1 with ⟨h5, _⟩ | ⟨_, h6⟩
    · exact ⟨h5, SearchTagsV2_values d2 i ctx req userID ht hs hu h5⟩
    · rw [habs] at h6; cases h6
  · intro req pre sched tag ht hid hnid hdec hno
    exact SearchTagValuesV2_succeeds d3 i ctx req pre sched userID tag ht hid hnid hdec hno
  · intro tagName maxBlocks seg s st hx
    exact tagValuesSearch_skip d1 tagName maxBlocks seg s st (Or.inr (Or.inr hx))
  · intro attributeScope query seg s st hx
    cases s with
    | none => rfl
    | some b => simp [tagsSearchBlock, hx]

/-- Witness for C18: a collector with a budget of one value on two segments
of one value each, as in
`TestInstanceSearchMaxBytesPerTagValuesQueryReturnsPartial`: the call
succeeds with the one value of the head block, which is what the collector
holds after the search of the head block; the completing block is skipped. -/
theorem budget_exhaustion_success_witness :
    (budgetTagValuesDeps 0).ExtractOrgID fakeCtx = .ok "fake" ∧
    absorbedOnly isUnsupported
      (SearchTagValues (budgetTagValuesDeps 0) twoSegments fakeCtx "foo" 1 0).trace = true ∧
    (SearchTagValues (budgetTagValuesDeps 0) twoSegments fakeCtx "foo" 1 0).err = none ∧
    (SearchTagValues (budgetTagValuesDeps 0) twoSegments fakeCtx "foo" 1 0).resp =
      some { TagValues := ["a"], Metrics := some { InspectedBytes := 10 } } ∧
    searchedSegs (SearchTagValues (budgetTagValuesDeps 0) twoSegments fakeCtx "foo" 1 0).trace =
      [Seg.head] ∧
    (budgetTagValuesDeps 0).Strings (tagValuesAfter (budgetTagValuesDeps 0) twoSegments "foo"
      ((budgetTagValuesDeps 0).NewDistinctString 0 1 0, 0) [Seg.head]).1 = ["a"] ∧
    (SearchTagValues (budgetTagValuesDeps 0) twoSegments fakeCtx "foo" 0 0).resp =
      some { TagValues := ["a", "b"], Metrics := some { InspectedBytes := 20 } } :=
  ⟨rfl, by decide,
    ((budget_exhaustion_success (budgetTagValuesDeps 0) sampleTagsDeps (codecV2Deps 0)
      twoSegments fakeCtx "fake").1 "foo" 1 0 rfl (by decide)).1,
    by decide, by decide, by decide, by decide⟩

/-- C14, counterexample: with a limit of two blocks, a head block that
returns `context.Canceled` and one completing block, no segment returns a
fault and the collector never reports `Exceeded`, yet only the head block is
searched, not the first two segments, and the call fails. -/
theorem budget_stops_at_canceled :
    (tagErrors (SearchTagValues (sampleTagValuesDeps 2) canceledInstance fakeCtx
      "foo" 0 0).trace).all (fun e => !isFault e) = true ∧
    budgetPrefix 2 (allSegs canceledInstance) = [Seg.head, Seg.completing 0] ∧
    searchedSegs (SearchTagValues (sampleTagValuesDeps 2) canceledInstance fakeCtx
      "foo" 0 0).trace = [Seg.head] ∧
    (SearchTagValues (sampleTagValuesDeps 2) canceledInstance fakeCtx "foo" 0 0).err.isSome =
      true := by
  refine ⟨?_, ?_, ?_, ?_⟩ <;> decide

/-- C14, amended: in `SearchTagValues` with a tenant id and the tenant limit
`K = MaxBlocksPerTagValuesQuery`, if every error that a segment returns is
unsupported and the collector does not report `Exceeded` during the call
(asked before a segment within the budget, holding what the segments before
it have given, it answers false; nothing is assumed of other collector
states), the call succeeds and the segments on which `SearchTagValues` is
invoked are exactly, in order, the budget prefix of the non-nil segments
head, completing, complete: the first `min(N, K)` of them when `K > 0`, all
of them when `K <= 0`. -/
theorem v1_block_budget {DS : Type} (d : TagValuesDeps DS) (i : Instance) (ctx : Ctx)
    (tagName : String) (limit stale : Nat) (userID : String)
    (ht : d.ExtractOrgID ctx = .ok userID)
    (hx : neverExceeded d i tagName (d.MaxBlocksPerTagValuesQuery userID)
      (d.NewDistinctString (d.MaxBytesPerTagValuesQuery userID) limit stale) = true)
    (habs : absorbedOnly isUnsupported
      (SearchTagValues d i ctx tagName limit stale).trace = true) :
    (SearchTagValues d i ctx tagName limit stale).err = none ∧
    searchedSegs (SearchTagValues d i ctx tagName limit stale).trace =
      budgetPrefix (d.MaxBlocksPerTagValuesQuery userID) (allSegs i) ∧
    (0 < d.MaxBlocksPerTagValuesQuery userID →
      searchedSegs (SearchTagValues d i ctx tagName limit stale).trace =
        (allSegs i).take (d.MaxBlocksPerTagValuesQuery userID).toNat ∧
      ((searchedSegs (SearchTagValues d i ctx tagName limit stale).trace).length : Int) =
        min ((allSegs i).length : Int) (d.MaxBlocksPerTagValuesQuery userID)) ∧
    (d.MaxBlocksPerTagValuesQuery userID ≤ 0 →
      searchedSegs (SearchTagValues d i ctx tagName limit stale).trace = allSegs i) := by
  obtain ⟨h1, _, _, _⟩ := SearchTagValues_outcome d i ctx tagName limit stale userID ht
  have herr : (SearchTagValues d i ctx tagName limit stale).err = none := by
    rcases h1 with ⟨h5, _⟩ | ⟨_, h6⟩
    · exact h5
    · rw [habs] at h6; cases h6
  have hb := SearchTagValues_within d i ctx tagName limit stale userID ht hx herr
  refine ⟨herr, hb, ?_, ?_⟩
  · intro hK
    refine ⟨?_, ?_⟩
    · rw [hb]; simp [budgetPrefix, hK]
    · rw [hb]; exact budgetPrefix_length _ _ hK
  · intro hK
    rw [hb]
    simp [budgetPrefix, not_lt.2 hK]

/-- Witness for C14: a head block and a completing block of one value each,
as in `TestInstanceSearchMaxBlocksPerTagValuesQueryReturnsPartial`, with a
collector that has a cap of five values, which the call does not reach: with
a limit of one block only the head block is searched and one value is
returned, though the collector would report `Exceeded` in other states;
without a limit both are searched and two values are returned. -/
theorem v1_block_budget_witness :
    (budgetTagValuesDeps 1).ExtractOrgID fakeCtx = .ok "fake" ∧
    neverExceeded (budgetTagValuesDeps 1) twoSegments "foo" 1
      ((budgetTagValuesDeps 1).NewDistinctString 0 5 0) = true ∧
    (budgetTagValuesDeps 1).Exceeded (5, ["a", "b", "c", "d", "e"]) = true ∧
    searchedSegs (SearchTagValues (budgetTagValuesDeps 1) twoSegments fakeCtx "foo" 5 0).trace =
      budgetPrefix 1 (allSegs twoSegments) ∧
    budgetPrefix 1 (allSegs twoSegments) = [Seg.head] ∧
    (SearchTagValues (budgetTagValuesDeps 1) twoSegments fakeCtx "foo" 5 0).resp =
      some { TagValues := ["a"], Metrics := some { InspectedBytes := 10 } } ∧
    searchedSegs (SearchTagValues (budgetTagValuesDeps 0) twoSegments fakeCtx "foo" 5 0).trace =
      [Seg.head, Seg.completing 0] ∧
    (SearchTagValues (budgetTagValuesDeps 0) twoSegments fakeCtx "foo" 5 0).resp =
      some { TagValues := ["a", "b"], Metrics := some { InspectedBytes := 20 } } :=
  ⟨rfl, by decide, by decide,
    (v1_block_budget (budgetTagValuesDeps 1) twoSegments fakeCtx "foo" 5 0 "fake" rfl
      (by decide) (by decide)).2.1,
    by decide, by decide, by decide, by decide⟩

/-- C15: the early-exit check of `SearchTagValuesV2` and its block budget,
with `K = maxBlocks`.  (1) The first step of the check returns true exactly
when an error is recorded; (2) the second step increments the counter only
when `K > 0` and returns true exactly when `K > 0` and the incremented value
is greater than `K`; (3) run without interleaving, the check returns true
exactly when an error is recorded or `K > 0` and the incremented counter is
greater than `K`, and it leaves no event; (4) in every interleaving of a call
with `K > 0` and fewer than `2^31` segments that records no error, exactly
`min(N, K)` of the `N` goroutines go on to a cache lookup or a live search. -/
theorem v2_early_exit {DV : Type} (d : TagValuesV2Deps DV) :
    (∀ (env : V2Env) (s : V2Shared DV) (t : V2Task), t.phase = V2Phase.pending →
      v2Step d env s t =
        (s, { t with phase :=
          (if s.anyErr.isSome then V2Phase.returned none else V2Phase.counting) })) ∧
    (∀ (env : V2Env) (s : V2Shared DV) (t : V2Task), t.phase = V2Phase.counting →
      (v2Step d env s t).2.phase =
        (if 0 < env.maxBlocks ∧ env.maxBlocks < toInt32 (s.inspectedBlocks + 1) then
          V2Phase.returned none else V2Phase.ready) ∧
      (v2Step d env s t).1.inspectedBlocks =
        (if 0 < env.maxBlocks then toInt32 (s.inspectedBlocks + 1) else s.inspectedBlocks)) ∧
    (∀ (env : V2Env) (s : V2Shared DV) (t : V2Task), t.phase = V2Phase.pending →
      (iterUntil V2Task.hasReturned (v2Step d env) 2 s t).2.phase =
        (if s.anyErr.isSome = true ∨
            (0 < env.maxBlocks ∧ env.maxBlocks < toInt32 (s.inspectedBlocks + 1)) then
          V2Phase.returned none else V2Phase.ready) ∧
      (iterUntil V2Task.hasReturned (v2Step d env) 2 s t).1.trace = s.trace) ∧
    (∀ (i : Instance) (ctx : Ctx) (req : SearchTagValuesRequest) (pre : Nat)
      (sched : List Nat) (userID : String) (tag : Attribute),
      d.ExtractOrgID ctx = .ok userID → d.ParseIdentifier req.TagName = .ok tag →
      isIDAttribute tag = false → 0 < (v2Env d req userID tag).maxBlocks →
      ((allSegs i).length : Int) < 2147483648 →
      (SearchTagValuesV2 d i ctx req pre sched).err = none →
      ((proceeded (SearchTagValuesV2 d i ctx req pre sched).trace : Nat) : Int) =
        min ((allSegs i).length : Int) (v2Env d req userID tag).maxBlocks) := by
  have hpend : ∀ (env : V2Env) (s : V2Shared DV) (t : V2Task), t.phase = V2Phase.pending →
      v2Step d env s t =
        (s, { t with phase :=
          (if s.anyErr.isSome then V2Phase.returned none else V2Phase.counting) }) := by
    intro env s t hp
    simp only [v2Step, hp]
    split_ifs <;> rfl
  have hcount : ∀ (env : V2Env) (s : V2Shared DV) (t : V2Task), t.phase = V2Phase.counting →
      (v2Step d env s t).2.phase =
        (if 0 < env.maxBlocks ∧ env.maxBlocks < toInt32 (s.inspectedBlocks + 1) then
          V2Phase.returned none else V2Phase.ready) ∧
      (v2Step d env s t).1.inspectedBlocks =
        (if 0 < env.maxBlocks then toInt32 (s.inspectedBlocks + 1) else s.inspectedBlocks) ∧
      (v2Step d env s t).1.trace = s.trace := by
    intro env s t hp
    simp only [v2Step, hp]
    by_cases hK : 0 < env.maxBlocks
    · by_cases hlt : env.maxBlocks < toInt32 (s.inspectedBlocks + 1)
      · simp [hK, hlt]
      · simp [hK, hlt]
    · simp [hK]
  refine ⟨hpend, fun env s t hp => ⟨(hcount env s t hp).1, (hcount env s t hp).2.1⟩, ?_, ?_⟩
  · intro env s t hp
    have hstop : V2Task.hasReturned t = false := by simp [V2Task.hasReturned, hp]
    rw [iterUntil]
    simp only [hstop, Bool.false_eq_true, if_false]
    rw [hpend env s t hp]
    by_cases ha : s.anyErr.isSome = true
    · simp [ha, iterUntil, V2Task.hasReturned]
    · simp only [ha, Bool.false_eq_true, if_false, false_or]
      rw [iterUntil]
      simp only [V2Task.hasReturned, Bool.false_eq_true, if_false]
      rw [iterUntil]
      exact ⟨(hcount env s _ rfl).1, (hcount env s _ rfl).2.2⟩
  · intro i ctx req pre sched userID tag ht hid hnid hK hN herr
    obtain ⟨e1, e2, _, _⟩ := SearchTagValuesV2_eq d i ctx req pre sched userID tag ht hid hnid
    rw [e1] at herr
    rw [e2, proceeded_append]
    simpa [proceeded] using
      v2Run_count d (v2Env d req userID tag) i pre sched hK hN herr

/-- Witness for C15: a limit of one block on an instance with a head block,
a completing block and a complete block: one goroutine proceeds, in two
interleavings. -/
theorem v2_early_exit_witness :
    (codecV2Deps 1).ExtractOrgID fakeCtx = .ok "fake" ∧
    (v2Env (codecV2Deps 1) fooReq "fake" (Attribute.named AttributeScope.Span "span.foo")).maxBlocks
      = 1 ∧
    (allSegs cachedInstance).length = 3 ∧
    ((proceeded (SearchTagValuesV2 (codecV2Deps 1) cachedInstance fakeCtx fooReq 0 []).trace
      : Nat) : Int) = min 3 1 ∧
    (SearchTagValuesV2 (codecV2Deps 1) cachedInstance fakeCtx fooReq 0 []).resp =
      some { TagValues := [{ Typ := "string", Value := "a" }],
             Metrics := some { InspectedBytes := 10 } } ∧
    (SearchTagValuesV2 (codecV2Deps 1) cachedInstance fakeCtx fooReq 0 [2, 2, 2]).resp =
      some { TagValues := [{ Typ := "string", Value := "b" }],
             Metrics := some { InspectedBytes := 10 } } :=
  ⟨rfl, by decide, by decide,
    (v2_early_exit (codecV2Deps 1)).2.2.2 cachedInstance fakeCtx fooReq 0 [] "fake"
      (Attribute.named AttributeScope.Span "span.foo") rfl rfl rfl (by decide) (by decide)
      (by decide),
    by decide, by decide⟩

/-- C27: for a context with a tenant id, a request whose tag name parses to
one of the five ID intrinsics (trace id, span id, parent id, link trace id,
link span id) makes `SearchTagValuesV2` return success with a response
without tag values and without metrics, with no event at all in the trace or
after the return (no lock, no cache read or write, no segment search); a tag
name that fails to parse makes it return no response and the parse error,
also without any event. -/
theorem id_attribute_no_values {DV : Type} (d : TagValuesV2Deps DV) (i : Instance) (ctx : Ctx)
    (req : SearchTagValuesRequest) (pre : Nat) (sched : List Nat) (userID : String)
    (ht : d.ExtractOrgID ctx = .ok userID) :
    (∀ tag, d.ParseIdentifier req.TagName = .ok tag →
      (tag = Attribute.IntrinsicTraceID ∨ tag = Attribute.IntrinsicSpanID ∨
        tag = Attribute.IntrinsicParentID ∨ tag = Attribute.IntrinsicLinkTraceID ∨
        tag = Attribute.IntrinsicLinkSpanID) →
      SearchTagValuesV2 d i ctx req pre sched =
        { resp := some { TagValues := [], Metrics := none }, err := none, panicked := false,
          trace := [], after := [] }) ∧
    (∀ e, d.ParseIdentifier req.TagName = .error e →
      SearchTagValuesV2 d i ctx req pre sched =
        { resp := none, err := some e, panicked := false, trace := [], after := [] }) := by
  constructor
  · intro tag hid htag
    have hidattr : isIDAttribute tag = true := by
      rcases htag with h | h | h | h | h <;> rw [h] <;> rfl
    simp [SearchTagValuesV2, ht, hid, hidattr]
  · intro e hid
    simp [SearchTagValuesV2, ht, hid]

/-- Witness for C27: the tag name `trace:id` with the sample collaborators on
the instance with a filled cache. -/
theorem id_attribute_no_values_witness :
    (codecV2Deps 0).ExtractOrgID fakeCtx = .ok "fake" ∧
    (codecV2Deps 0).ParseIdentifier "trace:id" = .ok Attribute.IntrinsicTraceID ∧
    SearchTagValuesV2 (codecV2Deps 0) cachedInstance fakeCtx
        { fooReq with TagName := "trace:id" } 1 [0, 1, 2] =
      { resp := some { TagValues := [], Metrics := none }, err := none, panicked := false,
        trace := [], after := [] } :=
  ⟨rfl, rfl,
    (id_attribute_no_values (codecV2Deps 0) cachedInstance fakeCtx
      { fooReq with TagName := "trace:id" } 1 [0, 1, 2] "fake" rfl).1
      Attribute.IntrinsicTraceID rfl (Or.inl rfl)⟩

/-- C23: for every parser, request, limit and prefix,
`searchTagValuesV2CacheKey` returns the prefix, `_`, the decimal rendering of
`h` and `.buf`, where `h` is the 64-bit FNV-1a hash of the tag name, the
canonicalized query and the limit as a `uint64` (a number below `2^64` in
which the prefix does not occur); two requests with the same tag name and
query get the same key whatever their `Start`, `End`, `MaxTagValues` and
`StaleValueThreshold`; and the first two cases of
`Test_searchTagValuesV2CacheKey` give the number 10963035328899851375 for the
empty prefix and for `my_amazing_prefix`. -/
theorem cache_key_shape (parse : String → Except Err RootExpr) (req : SearchTagValuesRequest)
    (limit : Int) (pfx : String) :
    searchTagValuesV2CacheKey parse req limit pfx =
      pfx ++ "_" ++ toString (cacheKeyHash parse req.TagName req.Query limit) ++ ".buf" ∧
    cacheKeyHash parse req.TagName req.Query limit < 18446744073709551616 ∧
    (∀ req2 : SearchTagValuesRequest, req2.TagName = req.TagName → req2.Query = req.Query →
      searchTagValuesV2CacheKey parse req2 limit pfx =
        searchTagValuesV2CacheKey parse req limit pfx) ∧
    cacheKeyHash sampleV2Deps.Parse "span.foo" "{}" 100 = 10963035328899851375 ∧
    searchTagValuesV2CacheKey sampleV2Deps.Parse (keyReq "{}") 100 "" =
      "_10963035328899851375.buf" ∧
    searchTagValuesV2CacheKey sampleV2Deps.Parse (keyReq "{}") 100 "my_amazing_prefix" =
      "my_amazing_prefix_10963035328899851375.buf" := by
  refine ⟨searchTagValuesV2CacheKey_eq parse req limit pfx, cacheKeyHash_lt _ _ _ _, ?_,
    by decide, by decide, by decide⟩
  intro req2 h1 h2
  rw [searchTagValuesV2CacheKey_eq, searchTagValuesV2CacheKey_eq, h1, h2]

/-- Witness for C23: two requests for `span.foo` that differ in `Start`,
`End`, `MaxTagValues` and `StaleValueThreshold` get the same key. -/
theorem cache_key_shape_witness :
    searchTagValuesV2CacheKey sampleV2Deps.Parse
        { keyReq "{}" with MaxTagValues := 7, StaleValueThreshold := 3, Start := 10, End := 20 }
        100 "p" =
      searchTagValuesV2CacheKey sampleV2Deps.Parse (keyReq "{}") 100 "p" :=
  (cache_key_shape sampleV2Deps.Parse (keyReq "{}") 100 "p").2.2.1
    { keyReq "{}" with MaxTagValues := 7, StaleValueThreshold := 3, Start := 10, End := 20 }
    rfl rfl

/-- C24: for every parser, tag name, limit and prefix, two requests with
non-empty queries on which the parser fails get the same cache key, the key
of the request with the empty query; the two invalid queries of
`Test_searchTagValuesV2CacheKey` give `my_amazing_prefix_7849238702443650194.buf`. -/
theorem invalid_queries_collapse (parse : String → Except Err RootExpr)
    (req1 req2 : SearchTagValuesRequest) (limit : Int) (pfx : String) (e1 e2 : Err)
    (htag : req1.TagName = req2.TagName)
    (hq1 : req1.Query ≠ "") (hq2 : req2.Query ≠ "")
    (hp1 : parse req1.Query = .error e1) (hp2 : parse req2.Query = .error e2) :
    searchTagValuesV2CacheKey parse req1 limit pfx =
      searchTagValuesV2CacheKey parse req2 limit pfx ∧
    searchTagValuesV2CacheKey parse req1 limit pfx =
      searchTagValuesV2CacheKey parse { req1 with Query := "" } limit pfx := by
  have h1 : canonicalQuery parse req1.Query = "" := by simp [canonicalQuery, hq1, hp1]
  have h2 : canonicalQuery parse req2.Query = "" := by simp [canonicalQuery, hq2, hp2]
  have h0 : canonicalQuery parse "" = "" := by simp [canonicalQuery]
  refine ⟨?_, ?_⟩
  · rw [searchTagValuesV2CacheKey_eq, searchTagValuesV2CacheKey_eq]
    simp only [cacheKeyHash, h1, h2, htag]
  · rw [searchTagValuesV2CacheKey_eq, searchTagValuesV2CacheKey_eq]
    simp only [cacheKeyHash, h1, h0]

/-- Witness for C24: the two invalid queries of
`Test_searchTagValuesV2CacheKey`, with limit 500 and the prefix
`my_amazing_prefix`. -/
theorem invalid_queries_collapse_witness :
    sampleV2Deps.Parse "{span.env=dev}" = .error (Err.other 400) ∧
    sampleV2Deps.Parse "\x7b <not valid traceql> && span.foo = \"bar\" \x7d" =
      .error (Err.other 400) ∧
    searchTagValuesV2CacheKey sampleV2Deps.Parse (keyReq "{span.env=dev}") 500
      "my_amazing_prefix" = "my_amazing_prefix_7849238702443650194.buf" ∧
    searchTagValuesV2CacheKey sampleV2Deps.Parse (keyReq "{span.env=dev}") 500
        "my_amazing_prefix" =
      searchTagValuesV2CacheKey sampleV2Deps.Parse
        (keyReq "\x7b <not valid traceql> && span.foo = \"bar\" \x7d") 500 "my_amazing_prefix" :=
  ⟨rfl, rfl, by decide,
    (invalid_queries_collapse sampleV2Deps.Parse (keyReq "{span.env=dev}")
      (keyReq "\x7b <not valid traceql> && span.foo = \"bar\" \x7d") 500 "my_amazing_prefix"
      (Err.other 400) (Err.other 400) rfl (by decide) (by decide) rfl rfl).1⟩

/-- C25: for every parser, request and prefix, `searchTagValuesV2CacheKey`
with limit 100 and with limit 500 returns different keys: the hashes differ
in their low byte, and the decimal rendering of a number determines it; in
`Test_searchTagValuesV2CacheKey` the two keys are
`my_amazing_prefix_10963035328899851375.buf` and
`my_amazing_prefix_10962052365504419966.buf`. -/
theorem limit_changes_key (parse : String → Except Err RootExpr)
    (req : SearchTagValuesRequest) (pfx : String) :
    searchTagValuesV2CacheKey parse req 100 pfx ≠ searchTagValuesV2CacheKey parse req 500 pfx ∧
    cacheKeyHash parse req.TagName req.Query 100 ≠ cacheKeyHash parse req.TagName req.Query 500 ∧
    searchTagValuesV2CacheKey sampleV2Deps.Parse (keyReq "{}") 100 "my_amazing_prefix" =
      "my_amazing_prefix_10963035328899851375.buf" ∧
    searchTagValuesV2CacheKey sampleV2Deps.Parse (keyReq "{}") 500 "my_amazing_prefix" =
      "my_amazing_prefix_10962052365504419966.buf" := by
  have hne : cacheKeyHash parse req.TagName req.Query 100 ≠
      cacheKeyHash parse req.TagName req.Query 500 := by
    have h100 : toUint64 100 = 100 := by decide
    have h500 : toUint64 500 = 500 := by decide
    have e : ∀ u : Nat, cacheKeyHash parse req.TagName req.Query (u : Int) =
        AddUint64 ((utf8Bytes req.TagName ++
          utf8Bytes (canonicalQuery parse req.Query)).foldl fnvStep fnvOffset64)
          (toUint64 (u : Int)) := by
      intro u
      simp only [cacheKeyHash, AddUint64, uint64Bytes, List.foldl_append]
    have e100 := e 100
    have e500 := e 500
    simp only [Nat.cast_ofNat] at e100 e500
    rw [e100, e500, h100, h500]
    exact AddUint64_100_500 _
  refine ⟨?_, hne, by decide, by decide⟩
  intro hc
  rw [searchTagValuesV2CacheKey_eq, searchTagValuesV2CacheKey_eq] at hc
  exact hne (key_hash_eq pfx _ _ hc)

/-- C29: merge with early stop in `Search`.  (1) When the search of a segment
succeeds with a response, the closure adds the response's metrics to the
totals whatever the merge loop does, leaves `anyErr` as it is, and the
combiner, the cancellation flag and the cancel event are those of the merge
loop.  (2) When the combiner first reports `IsCompleteFor(TimestampNever)`
after the entry `k + 1`, the loop has added the first `k + 1` entries in
order, the later ones are not added and the scope is canceled.  (3) When the
combiner reports it after no entry, all entries are added in order and this
segment does not cancel the scope. -/
theorem merge_early_stop {C : Type} (d : SearchDeps C) :
    (∀ (s : SearchShared C) (t : SearchTask) (r : SearchResponse),
      (searchFinish d s t (some r) none).1.metrics = addMetrics s.metrics r.Metrics ∧
      (searchFinish d s t (some r) none).1.anyErr = s.anyErr ∧
      (searchFinish d s t (some r) none).1.combiner =
        (mergeTraces d r.Traces s.combiner).1 ∧
      (searchFinish d s t (some r) none).1.canceled =
        (s.canceled || (mergeTraces d r.Traces s.combiner).2) ∧
      (searchFinish d s t (some r) none).1.trace =
        s.trace ++ [Event.SearchReturned t.seg (some r) none] ++
          (if (mergeTraces d r.Traces s.combiner).2 then [Event.Cancel] else [])) ∧
    (∀ (es : List TraceSearchMetadata) (c : C) (k : Nat), k < es.length →
      d.IsCompleteFor (addAll d c (es.take (k + 1))) d.TimestampNever = true →
      (∀ j < k, d.IsCompleteFor (addAll d c (es.take (j + 1))) d.TimestampNever = false) →
      mergeTraces d es c = (addAll d c (es.take (k + 1)), true)) ∧
    (∀ (es : List TraceSearchMetadata) (c : C),
      (∀ j < es.length,
        d.IsCompleteFor (addAll d c (es.take (j + 1))) d.TimestampNever = false) →
      mergeTraces d es c = (addAll d c es, false)) := by
  refine ⟨?_, mergeTraces_stop d, mergeTraces_all d⟩
  intro s t r
  have h : searchFinish d s t (some r) none =
      ({ s with
          metrics := addMetrics s.metrics r.Metrics,
          combiner := (mergeTraces d r.Traces s.combiner).1,
          canceled := s.canceled || (mergeTraces d r.Traces s.combiner).2,
          trace :=
            (if (mergeTraces d r.Traces s.combiner).2 then
              s.trace ++ [Event.SearchReturned t.seg (some r) none] ++ [Event.Cancel]
            else s.trace ++ [Event.SearchReturned t.seg (some r) none]) },
        { t with phase := SearchPhase.done }) := by
    simp [searchFinish, errorsIs]
  rw [h]
  refine ⟨rfl, rfl, rfl, rfl, ?_⟩
  by_cases hm : (mergeTraces d r.Traces s.combiner).2 = true
  · simp [hm]
  · simp [hm]

/-- Witness for C29: a head block with three entries and a limit of two
results: the first two entries are returned, the third is not, and the
metrics of the whole response are counted. -/
theorem merge_early_stop_witness :
    sampleDeps.IsCompleteFor
      (addAll sampleDeps (sampleDeps.NewMetadataCombiner 2 false) (threeEntries.Traces.take 2))
      sampleDeps.TimestampNever = true ∧
    mergeTraces sampleDeps threeEntries.Traces (sampleDeps.NewMetadataCombiner 2 false) =
      (addAll sampleDeps (sampleDeps.NewMetadataCombiner 2 false) (threeEntries.Traces.take 2),
        true) ∧
    (Search sampleDeps threeEntryHead limitTwoReq []).resp =
      some { Traces := [{ TraceID := 1, StartTimeUnixNano := 1 },
                        { TraceID := 2, StartTimeUnixNano := 2 }],
             Metrics := some { InspectedTraces := 3, InspectedBytes := 30 } } :=
  ⟨by decide,
    (merge_early_stop sampleDeps).2.1 threeEntries.Traces
      (sampleDeps.NewMetadataCombiner 2 false) 1 (by decide) (by decide)
      (by
        intro j hj
        interval_cases j
        decide),
    by decide⟩

/-- C22: the disk cache is used on complete blocks only.  (1) In every
execution of `SearchTagValuesV2`, every `GetDiskCache` and `SetDiskCache`
call, before or after the return, is on a member of `completeBlocks`.  (2)
The goroutines of the head block and of the completing blocks are launched
without a disk cache, and no step gives a goroutine another cache or segment.
(3) A goroutine without a disk cache that has passed the early-exit check
starts the live search of its segment at once, with no cache read, and the
live search offers its values to the shared collector and ends with the
segment's error, with no cache write. -/
theorem cache_complete_only {DV : Type} (d : TagValuesV2Deps DV) (i : Instance) :
    (∀ (ctx : Ctx) (req : SearchTagValuesRequest) (pre : Nat) (sched : List Nat),
      ∀ seg ∈ cacheSegs ((SearchTagValuesV2 d i ctx req pre sched).trace ++
          (SearchTagValuesV2 d i ctx req pre sched).after),
        IsCompleteSeg i seg) ∧
    ((∀ t ∈ v2HeadTasks i ++ v2Tasks i, t.seg.isComplete = false → t.cache = none) ∧
      ∀ (env : V2Env) (s : V2Shared DV) (t : V2Task),
        (v2Step d env s t).2.cache = t.cache ∧ (v2Step d env s t).2.seg = t.seg) ∧
    (∀ (env : V2Env) (s : V2Shared DV) (t : V2Task), t.cache = none →
      (t.phase = V2Phase.ready →
        v2Step d env s t =
          ({ s with trace := s.trace ++ [Event.SearchBlock t.seg] },
            { t with phase := V2Phase.live (performFeed d env t.block) })) ∧
      (∀ v next, t.phase = V2Phase.live (Feed.offer v next) →
        v2Step d env s t =
          ({ s with valueCollector := (d.Collect s.valueCollector v).1 },
            { t with phase := V2Phase.live (next (d.Collect s.valueCollector v).2) })) ∧
      (∀ bytes err, t.phase = V2Phase.live (Feed.done bytes err) →
        v2Step d env s t =
          ({ s with mc := mcAdd s.mc bytes,
                    trace := s.trace ++ [Event.TagSearchReturned t.seg err] },
            { t with phase := V2Phase.returned err }))) := by
  refine ⟨?_, ⟨?_, fun env s t => ⟨v2Step_cache d env s t, v2Step_seg d env s t⟩⟩, ?_⟩
  · intro ctx req pre sched
    cases ht : d.ExtractOrgID ctx with
    | error e => simp [SearchTagValuesV2, ht, cacheSegs]
    | ok userID =>
      cases hid : d.ParseIdentifier req.TagName with
      | error e => simp [SearchTagValuesV2, ht, hid, cacheSegs]
      | ok tag =>
        cases hnid : isIDAttribute tag with
        | true => simp [SearchTagValuesV2, ht, hid, hnid, cacheSegs]
        | false =>
          obtain ⟨_, htr, haf, _⟩ :=
            SearchTagValuesV2_eq d i ctx req pre sched userID tag ht hid hnid
          have hrun := v2Run_cacheRel d (v2Env d req userID tag) i pre sched
          have hafter := v2After_cacheSegs d (v2Env d req userID tag) i
            (v2Run d (v2Env d req userID tag) i pre sched).1 _ hrun.2
          rw [htr, haf]
          intro seg hseg
          simp only [cacheSegs_append, cacheSegs, List.append_nil, List.mem_append] at hseg
          rcases hseg with h | h
          · exact hrun.1 seg h
          · exact hafter seg h
  · intro t ht hseg
    rcases List.mem_append.1 ht with ht | ht
    · unfold v2HeadTasks at ht
      cases hh : i.headBlock with
      | none => rw [hh] at ht; simp at ht
      | some head =>
        rw [hh] at ht
        simp only [List.mem_singleton] at ht
        rw [ht]
    · unfold v2Tasks at ht
      rcases List.mem_append.1 ht with ht | ht
      · obtain ⟨p, _, rfl⟩ := List.mem_map.1 ht
        simp [Seg.isComplete] at hseg
      · obtain ⟨p, _, rfl⟩ := List.mem_map.1 ht
        rfl
  · intro env s t hc
    refine ⟨?_, ?_, ?_⟩
    · intro hp
      simp [v2Step, hp, hc]
    · intro v next hp
      simp [v2Step, hp]
    · intro bytes err hp
      simp [v2Step, hp]

/-- Witness for C22: on the instance with a head block, a completing block
and a complete block with a filled cache, the one cache call is the read on
the complete block, and two runs with an empty cache read and write the cache
of the complete block only. -/
theorem cache_complete_only_witness :
    cacheSegs ((SearchTagValuesV2 (codecV2Deps 0) cachedInstance fakeCtx fooReq 0 []).trace ++
      (SearchTagValuesV2 (codecV2Deps 0) cachedInstance fakeCtx fooReq 0 []).after) =
      [Seg.complete 0] ∧
    cacheSegs ((SearchTagValuesV2 (codecV2Deps 0) unsupportedInstance fakeCtx fooReq 1
        [2, 1, 0, 1, 2]).trace ++
      (SearchTagValuesV2 (codecV2Deps 0) unsupportedInstance fakeCtx fooReq 1
        [2, 1, 0, 1, 2]).after) = [Seg.complete 0, Seg.complete 0] ∧
    IsCompleteSeg cachedInstance (Seg.complete 0) :=
  ⟨by decide, by decide,
    (cache_complete_only (codecV2Deps 0) cachedInstance).1 fakeCtx fooReq 0 []
      (Seg.complete 0) (by decide)⟩

/-- C28: a cache miss in `SearchTagValuesV2`, for the goroutine of a complete
block that has passed the early-exit check.  What the goroutine does between
the lookup and the feeding loop reads no shared variable, so the steps below
are the same in every interleaving.  (1) On a miss the lookup step records
the cache read and goes on to the live search.  (2) The live search runs
against a fresh segment-local collector and leaves the shared collector as it
is; when it fails the goroutine returns the error, when it succeeds it holds
the local collector's value list.  (3) When that list serializes to non-empty
bytes, `SetDiskCache` is called with the cache key and those bytes, whatever
the write returns the values are fed next; when the serialization fails or
is empty nothing is written.  (4) The cache key is
`searchTagValuesV2CacheKey` of the request, the tenant byte limit and
`cache_search_tagvaluesv2`.  (5) Run alone after a miss with a successful
search and a non-empty serialization, the goroutine writes the cache once
and feeds the values to the shared collector until it signals stop.  (6) Run
alone after a miss with a failing search, it writes nothing and adds nothing
to the shared collector.  (7) In every execution no disk cache is written
twice and every write is under the cache key. -/
theorem cache_miss_writes {DV : Type} (d : TagValuesV2Deps DV) :
    (∀ (env : V2Env) (s : V2Shared DV) (t : V2Task) (lb : LocalBlock),
      t.phase = V2Phase.ready → t.cache = some lb →
      ¬ (0 < (lb.GetDiskCache t.files env.cacheKey).1.length ∧
        (lb.GetDiskCache t.files env.cacheKey).2 = none) →
      v2Step d env s t =
        ({ s with trace := s.trace ++ [Event.GetDiskCache t.seg env.cacheKey] },
          { t with phase := V2Phase.missed })) ∧
    (∀ (env : V2Env) (s : V2Shared DV) (t : V2Task), t.phase = V2Phase.missed →
      (v2Step d env s t).1 =
        { s with mc := mcAdd s.mc (localSearch d env t.block).2.1,
                 trace := s.trace ++ [Event.SearchBlock t.seg,
                   Event.TagSearchReturned t.seg (localSearch d env t.block).2.2] } ∧
      ((localSearch d env t.block).2.2 = none →
        (v2Step d env s t).2 =
          { t with phase := V2Phase.found (d.Values (localSearch d env t.block).1) }) ∧
      (∀ e, (localSearch d env t.block).2.2 = some e →
        (v2Step d env s t).2 = { t with phase := V2Phase.returned (some e) })) ∧
    (∀ (env : V2Env) (s : V2Shared DV) (t : V2Task) (values : List TagValue),
      t.phase = V2Phase.found values →
      (∀ lb data, t.cache = some lb → d.Marshal values = .ok data → 0 < data.length →
        v2Step d env s t =
          ({ s with trace := s.trace ++ [Event.SetDiskCache t.seg env.cacheKey data] },
            { t with files := (lb.SetDiskCache t.files env.cacheKey data).1,
                     phase := V2Phase.feeding values })) ∧
      ((∀ data, d.Marshal values = .ok data → data.length = 0) →
        v2Step d env s t = (s, { t with phase := V2Phase.feeding values }))) ∧
    (∀ (req : SearchTagValuesRequest) (userID : String) (tag : Attribute),
      (v2Env d req userID tag).cacheKey =
        searchTagValuesV2CacheKey d.Parse req (d.MaxBytesPerTagValuesQuery userID)
          "cache_search_tagvaluesv2") ∧
    (∀ (env : V2Env) (s : V2Shared DV) (t : V2Task) (lb : LocalBlock) (data : Bytes),
      t.phase = V2Phase.ready → t.cache = some lb →
      ¬ (0 < (lb.GetDiskCache t.files env.cacheKey).1.length ∧
        (lb.GetDiskCache t.files env.cacheKey).2 = none) →
      (localSearch d env t.block).2.2 = none →
      d.Marshal (d.Values (localSearch d env t.block).1) = .ok data → 0 < data.length →
      iterUntil V2Task.hasReturned (v2Step d env)
          ((d.Values (localSearch d env t.block).1).length + 4) s t =
        ({ s with
            valueCollector :=
              feedUntilStop d.Collect (d.Values (localSearch d env t.block).1) s.valueCollector,
            mc := mcAdd s.mc (localSearch d env t.block).2.1,
            trace := s.trace ++
              [Event.GetDiskCache t.seg env.cacheKey, Event.SearchBlock t.seg,
                Event.TagSearchReturned t.seg none,
                Event.SetDiskCache t.seg env.cacheKey data] },
          { t with files := (lb.SetDiskCache t.files env.cacheKey data).1,
                   phase := V2Phase.returned none })) ∧
    (∀ (env : V2Env) (s : V2Shared DV) (t : V2Task) (lb : LocalBlock) (e : Err),
      t.phase = V2Phase.ready → t.cache = some lb →
      ¬ (0 < (lb.GetDiskCache t.files env.cacheKey).1.length ∧
        (lb.GetDiskCache t.files env.cacheKey).2 = none) →
      (localSearch d env t.block).2.2 = some e →
      iterUntil V2Task.hasReturned (v2Step d env) 2 s t =
        ({ s with
            mc := mcAdd s.mc (localSearch d env t.block).2.1,
            trace := s.trace ++
              [Event.GetDiskCache t.seg env.cacheKey, Event.SearchBlock t.seg,
                Event.TagSearchReturned t.seg (some e)] },
          { t with phase := V2Phase.returned (some e) })) ∧
    (∀ (i : Instance) (ctx : Ctx) (req : SearchTagValuesRequest) (pre : Nat)
      (sched : List Nat),
      (cacheWrites ((SearchTagValuesV2 d i ctx req pre sched).trace ++
        (SearchTagValuesV2 d i ctx req pre sched).after)).Nodup ∧
      ∀ userID, d.ExtractOrgID ctx = .ok userID →
        ∀ k ∈ writeKeys ((SearchTagValuesV2 d i ctx req pre sched).trace ++
            (SearchTagValuesV2 d i ctx req pre sched).after),
          k = searchTagValuesV2CacheKey d.Parse req (d.MaxBytesPerTagValuesQuery userID)
            "cache_search_tagvaluesv2") := by
  have hmiss : ∀ (env : V2Env) (s : V2Shared DV) (t : V2Task) (lb : LocalBlock),
      t.phase = V2Phase.ready → t.cache = some lb →
      ¬ (0 < (lb.GetDiskCache t.files env.cacheKey).1.length ∧
        (lb.GetDiskCache t.files env.cacheKey).2 = none) →
      v2Step d env s t =
        ({ s with trace := s.trace ++ [Event.GetDiskCache t.seg env.cacheKey] },
          { t with phase := V2Phase.missed }) := by
    intro env s t lb hp hc hm
    simp only [v2Step, hp, hc]
    rw [if_neg hm]
  have hlive : ∀ (env : V2Env) (s : V2Shared DV) (t : V2Task), t.phase = V2Phase.missed →
      (v2Step d env s t).1 =
        { s with mc := mcAdd s.mc (localSearch d env t.block).2.1,
                 trace := s.trace ++ [Event.SearchBlock t.seg,
                   Event.TagSearchReturned t.seg (localSearch d env t.block).2.2] } ∧
      ((localSearch d env t.block).2.2 = none →
        (v2Step d env s t).2 =
          { t with phase := V2Phase.found (d.Values (localSearch d env t.block).1) }) ∧
      (∀ e, (localSearch d env t.block).2.2 = some e →
        (v2Step d env s t).2 = { t with phase := V2Phase.returned (some e) }) := by
    intro env s t hp
    simp only [v2Step, hp, localSearch]
    cases (Feed.run d.Collect (performFeed d env t.block)
      (d.NewDistinctValue env.limit env.req.MaxTagValues env.req.StaleValueThreshold)).2.2 with
    | none => simp
    | some e => simp
  have hwrite : ∀ (env : V2Env) (s : V2Shared DV) (t : V2Task) (values : List TagValue),
      t.phase = V2Phase.found values →
      (∀ lb data, t.cache = some lb → d.Marshal values = .ok data → 0 < data.length →
        v2Step d env s t =
          ({ s with trace := s.trace ++ [Event.SetDiskCache t.seg env.cacheKey data] },
            { t with files := (lb.SetDiskCache t.files env.cacheKey data).1,
                     phase := V2Phase.feeding values })) ∧
      ((∀ data, d.Marshal values = .ok data → data.length = 0) →
        v2Step d env s t = (s, { t with phase := V2Phase.feeding values })) := by
    intro env s t values hp
    constructor
    · intro lb data hc hm hl
      simp [v2Step, hp, hc, hm, hl]
    · intro hno
      simp only [v2Step, hp]
      cases hm : d.Marshal values with
      | error e => rfl
      | ok data =>
        have h0 := hno data hm
        cases t.cache with
        | none => rfl
        | some lb => simp [h0]
  have hpairOk : ∀ (env : V2Env) (s : V2Shared DV) (t : V2Task), t.phase = V2Phase.missed →
      (localSearch d env t.block).2.2 = none →
      v2Step d env s t =
        ({ s with mc := mcAdd s.mc (localSearch d env t.block).2.1,
                  trace := s.trace ++ [Event.SearchBlock t.seg,
                    Event.TagSearchReturned t.seg (localSearch d env t.block).2.2] },
          { t with phase := V2Phase.found (d.Values (localSearch d env t.block).1) }) :=
    fun env s t hp hok => Prod.ext (hlive env s t hp).1 ((hlive env s t hp).2.1 hok)
  have hpairErr : ∀ (env : V2Env) (s : V2Shared DV) (t : V2Task) (e : Err),
      t.phase = V2Phase.missed → (localSearch d env t.block).2.2 = some e →
      v2Step d env s t =
        ({ s with mc := mcAdd s.mc (localSearch d env t.block).2.1,
                  trace := s.trace ++ [Event.SearchBlock t.seg,
                    Event.TagSearchReturned t.seg (localSearch d env t.block).2.2] },
          { t with phase := V2Phase.returned (some e) }) :=
    fun env s t e hp he => Prod.ext (hlive env s t hp).1 ((hlive env s t hp).2.2 e he)
  refine ⟨hmiss, hlive, hwrite, fun _ _ _ => rfl, ?_, ?_, ?_⟩
  · intro env s t lb data hp hc hm hok hmar hlen
    have hs1 : V2Task.hasReturned t = false := by simp [V2Task.hasReturned, hp]
    have h2 := hpairOk env
      { s with trace := s.trace ++ [Event.GetDiskCache t.seg env.cacheKey] }
      { t with phase := V2Phase.missed } rfl hok
    have h3 := (hwrite env
      { s with mc := mcAdd s.mc (localSearch d env t.block).2.1,
               trace := s.trace ++ [Event.GetDiskCache t.seg env.cacheKey] ++
                 [Event.SearchBlock t.seg,
                   Event.TagSearchReturned t.seg (localSearch d env t.block).2.2] }
      { t with phase := V2Phase.found (d.Values (localSearch d env t.block).1) }
      (d.Values (localSearch d env t.block).1) rfl).1 lb data hc hmar hlen
    rw [iterUntil]
    simp only [hs1, Bool.false_eq_true, if_false]
    rw [hmiss env s t lb hp hc hm, iterUntil]
    simp only [V2Task.hasReturned, Bool.false_eq_true, if_false]
    rw [h2, iterUntil]
    simp only [V2Task.hasReturned, Bool.false_eq_true, if_false]
    rw [h3, feeding_run d env _ _ _ rfl]
    simp [hok]
  · intro env s t lb e hp hc hm herr
    have hs1 : V2Task.hasReturned t = false := by simp [V2Task.hasReturned, hp]
    have h2 := hpairErr env
      { s with trace := s.trace ++ [Event.GetDiskCache t.seg env.cacheKey] }
      { t with phase := V2Phase.missed } e rfl herr
    rw [iterUntil]
    simp only [hs1, Bool.false_eq_true, if_false]
    rw [hmiss env s t lb hp hc hm, iterUntil]
    simp only [V2Task.hasReturned, Bool.false_eq_true, if_false]
    rw [h2, iterUntil]
    simp [herr]
  · intro i ctx req pre sched
    cases ht : d.ExtractOrgID ctx with
    | error e0 => simp [SearchTagValuesV2, ht, cacheWrites, writeKeys]
    | ok userID =>
      cases hid : d.ParseIdentifier req.TagName with
      | error e0 => simp [SearchTagValuesV2, ht, hid, cacheWrites, writeKeys]
      | ok tag =>
        cases hnid : isIDAttribute tag with
        | true => simp [SearchTagValuesV2, ht, hid, hnid, cacheWrites, writeKeys]
        | false =>
          obtain ⟨_, htr, haf, _⟩ :=
            SearchTagValuesV2_eq d i ctx req pre sched userID tag ht hid hnid
          have hrun := v2Run_writeRel d (v2Env d req userID tag) i pre sched
          have hkeys := v2Run_writeKeys d (v2Env d req userID tag) i pre sched
          have hafter := v2After_writes d (v2Env d req userID tag)
            (v2Run d (v2Env d req userID tag) i pre sched).1 _
            (v2Run_done d (v2Env d req userID tag) i pre sched)
          rw [htr, haf]
          refine ⟨?_, ?_⟩
          · simp only [cacheWrites_append, hafter, cacheWrites, List.append_nil]
            exact hrun.2.2.1
          · intro u hu k hk
            simp only [Except.ok.injEq] at hu
            subst hu
            simp only [writeKeys_append, writeKeys_nil _ hafter, writeKeys,
              List.append_nil] at hk
            exact hkeys k hk

/-- Witness for C28: on the sample instance whose complete block has an empty
disk cache and offers the value `c`, the run writes the encoded value list of
that block under the cache key of the request. -/
theorem cache_miss_writes_witness :
    (codecV2Deps 0).ExtractOrgID fakeCtx = .ok "fake" ∧
    "cache_search_tagvaluesv2_7850384393560056831.buf" ∈
      writeKeys ((SearchTagValuesV2 (codecV2Deps 0) unsupportedInstance fakeCtx fooReq 1
          [2, 1, 0, 1, 2]).trace ++
        (SearchTagValuesV2 (codecV2Deps 0) unsupportedInstance fakeCtx fooReq 1
          [2, 1, 0, 1, 2]).after) ∧
    "cache_search_tagvaluesv2_7850384393560056831.buf" =
      searchTagValuesV2CacheKey (codecV2Deps 0).Parse fooReq
        ((codecV2Deps 0).MaxBytesPerTagValuesQuery "fake") "cache_search_tagvaluesv2" ∧
    Event.SetDiskCache (Seg.complete 0) "cache_search_tagvaluesv2_7850384393560056831.buf"
        (encodeString "string" ++ encodeString "c") ∈
      (SearchTagValuesV2 (codecV2Deps 0) unsupportedInstance fakeCtx fooReq 1
        [2, 1, 0, 1, 2]).trace :=
  ⟨rfl, by decide,
    ((cache_miss_writes (codecV2Deps 0)).2.2.2.2.2.2 unsupportedInstance fakeCtx fooReq 1
      [2, 1, 0, 1, 2]).2 "fake" rfl _ (by decide),
    by decide⟩

/-- C26: the value list stored on a miss is not a function of the cache key.
The requests `capReq` (`MaxTagValues = 1`) and `fooReq` (`MaxTagValues = 0`)
have the same tag name, query and byte limit and so the same cache key.  On
the complete block that offers `c` and `d`, the call with `capReq` stores the
list with `c` alone and the call with `fooReq` stores the list with `c` and
`d`: the segment-local collector is made with `req.MaxTagValues`, which the
key leaves out.  A later call with `fooReq` that hits the entry written for
`capReq` returns `c` alone, while its own live search collects `c` and `d`. -/
theorem cache_entry_depends_on_cap :
    searchTagValuesV2CacheKey (budgetV2Deps 0).Parse capReq
        ((budgetV2Deps 0).MaxBytesPerTagValuesQuery "fake") "cache_search_tagvaluesv2" =
      searchTagValuesV2CacheKey (budgetV2Deps 0).Parse fooReq
        ((budgetV2Deps 0).MaxBytesPerTagValuesQuery "fake") "cache_search_tagvaluesv2" ∧
    (SearchTagValuesV2 (budgetV2Deps 0) twoValued fakeCtx capReq 0 []).trace =
      [Event.RLockHead, Event.RLockBlocks,
        Event.GetDiskCache (Seg.complete 0) "cache_search_tagvaluesv2_7850384393560056831.buf",
        Event.SearchBlock (Seg.complete 0),
        Event.TagSearchReturned (Seg.complete 0) none,
        Event.SetDiskCache (Seg.complete 0) "cache_search_tagvaluesv2_7850384393560056831.buf"
          (encodeString "string" ++ encodeString "c"),
        Event.RUnlockBlocks] ∧
    (SearchTagValuesV2 (budgetV2Deps 0) twoValued fakeCtx fooReq 0 []).trace =
      [Event.RLockHead, Event.RLockBlocks,
        Event.GetDiskCache (Seg.complete 0) "cache_search_tagvaluesv2_7850384393560056831.buf",
        Event.SearchBlock (Seg.complete 0),
        Event.TagSearchReturned (Seg.complete 0) none,
        Event.SetDiskCache (Seg.complete 0) "cache_search_tagvaluesv2_7850384393560056831.buf"
          (encodeString "string" ++ encodeString "c" ++
            (encodeString "string" ++ encodeString "d")),
        Event.RUnlockBlocks] ∧
    (SearchTagValuesV2 (budgetV2Deps 0)
        (afterSearchTagValuesV2 (budgetV2Deps 0) twoValued fakeCtx capReq 0 [])
        fakeCtx fooReq 0 []).trace =
      [Event.RLockHead, Event.RLockBlocks,
        Event.GetDiskCache (Seg.complete 0) "cache_search_tagvaluesv2_7850384393560056831.buf",
        Event.RUnlockBlocks] ∧
    (SearchTagValuesV2 (budgetV2Deps 0)
        (afterSearchTagValuesV2 (budgetV2Deps 0) twoValued fakeCtx capReq 0 [])
        fakeCtx fooReq 0 []).resp =
      some { TagValues := [{ Typ := "string", Value := "c" }],
             Metrics := some { InspectedBytes := 9 } } ∧
    (SearchTagValuesV2 (budgetV2Deps 0) twoValued fakeCtx fooReq 0 []).resp =
      some { TagValues := [{ Typ := "string", Value := "c" },
                           { Typ := "string", Value := "d" }],
             Metrics := some { InspectedBytes := 20 } } := by
  refine ⟨?_, ?_, ?_, ?_, ?_, ?_⟩
  all_goals decide

/-- C21, as amended: two calls of `SearchTagValuesV2` with the same request
in a row, on complete blocks with a working disk cache and an encoding that
can be read back, in any two interleavings.  (1) The second call does not
call the searcher of a complete block whose disk cache the first call has
written.  (2) It does not call the searcher of a complete block whose disk
cache held a non-empty entry under the cache key before the first call.
(3) When moreover the collector has no budget and the tenant has no limit on
the blocks, the second call fails exactly when the first call has failed, and
otherwise returns the same set of values. -/
theorem second_run_from_cache {DV : Type} (d : TagValuesV2Deps DV) (i : Instance) (ctx : Ctx)
    (req : SearchTagValuesRequest) (pre1 : Nat) (sched1 : List Nat) (pre2 : Nat)
    (sched2 : List Nat) (hw : ∀ lb ∈ i.completeBlocks, WorkingCache lb) (hrt : RoundTrip d) :
    (∀ n, Seg.complete n ∈ cacheWrites (SearchTagValuesV2 d i ctx req pre1 sched1).trace →
      Seg.complete n ∉ searchedSegs (SearchTagValuesV2 d
        (afterSearchTagValuesV2 d i ctx req pre1 sched1) ctx req pre2 sched2).trace ∧
      Seg.complete n ∉ searchedSegs (SearchTagValuesV2 d
        (afterSearchTagValuesV2 d i ctx req pre1 sched1) ctx req pre2 sched2).after) ∧
    (∀ n lb userID, d.ExtractOrgID ctx = .ok userID → i.completeBlocks[n]? = some lb →
      0 < (lb.GetDiskCache lb.Files (searchTagValuesV2CacheKey d.Parse req
        (d.MaxBytesPerTagValuesQuery userID) "cache_search_tagvaluesv2")).1.length →
      (lb.GetDiskCache lb.Files (searchTagValuesV2CacheKey d.Parse req
        (d.MaxBytesPerTagValuesQuery userID) "cache_search_tagvaluesv2")).2 = none →
      Seg.complete n ∉ searchedSegs (SearchTagValuesV2 d
        (afterSearchTagValuesV2 d i ctx req pre1 sched1) ctx req pre2 sched2).trace ∧
      Seg.complete n ∉ searchedSegs (SearchTagValuesV2 d
        (afterSearchTagValuesV2 d i ctx req pre1 sched1) ctx req pre2 sched2).after) ∧
    (Unbudgeted d → (∀ userID, d.MaxBlocksPerTagValuesQuery userID ≤ 0) →
      ((SearchTagValuesV2 d (afterSearchTagValuesV2 d i ctx req pre1 sched1) ctx req pre2
          sched2).resp = none ↔
        (SearchTagValuesV2 d i ctx req pre1 sched1).resp = none) ∧
      ∀ r1 r2, (SearchTagValuesV2 d i ctx req pre1 sched1).resp = some r1 →
        (SearchTagValuesV2 d (afterSearchTagValuesV2 d i ctx req pre1 sched1) ctx req pre2
          sched2).resp = some r2 →
        ∀ x, x ∈ r2.TagValues ↔ x ∈ r1.TagValues) := by
  rcases SearchTagValuesV2_cases d ctx req with hearly | ⟨userID, tag, ht, hid, hnid⟩
  · obtain ⟨e1, _, e3, e4⟩ := SearchTagValuesV2_early d i i ctx req pre1 pre2 sched1 sched2 hearly
    obtain ⟨f1, f2, _, _⟩ := SearchTagValuesV2_early d i i ctx req pre2 pre2 sched2 sched2 hearly
    rw [e4]
    refine ⟨?_, ?_, ?_⟩
    · intro n hn
      rw [e1] at hn
      simp [cacheWrites] at hn
    · intro n lb userID _ _ _ _
      rw [f1, f2]
      simp [searchedSegs]
    · intro _ _
      rw [e3]
      refine ⟨Iff.rfl, ?_⟩
      intro r1 r2 h1 h2
      rw [h1] at h2
      cases h2
      exact fun x => Iff.rfl
  · obtain ⟨_, htr1, _, hresp1⟩ :=
      SearchTagValuesV2_eq d i ctx req pre1 sched1 userID tag ht hid hnid
    have hafter := afterSearchTagValuesV2_eq d i ctx req pre1 sched1 userID tag ht hid hnid
    rw [hafter]
    obtain ⟨_, _, _, hresp2⟩ := SearchTagValuesV2_eq d
      (instanceAfter i (v2Run d (v2Env d req userID tag) i pre1 sched1).2) ctx req pre2 sched2
      userID tag ht hid hnid
    refine ⟨?_, ?_, ?_⟩
    · intro n hn
      rw [htr1] at hn
      simp only [cacheWrites_append, cacheWrites, List.append_nil] at hn
      obtain ⟨u, hu, hseg, _, lb, hc, hlen, herr⟩ :=
        v2Run_wrote d (v2Env d req userID tag) i pre1 sched1 hw _ hn
      exact hit_outcome d _ ctx req pre2 sched2 userID tag n ht hid hnid
        (v2Run_second_hit d (v2Env d req userID tag) i pre1 sched1 pre2 sched2 n u lb hu hseg
          hc hlen herr)
    · intro n lb userID2 ht2 hlb hlen herr
      rw [ht] at ht2
      cases ht2
      obtain ⟨u, hu, hseg⟩ :=
        v2Run_has_complete d (v2Env d req userID tag) i pre1 sched1 n lb hlb
      obtain ⟨lb0, hlb0, hc, _⟩ :=
        (v2Run_own d (v2Env d req userID tag) i pre1 sched1 u hu).1 n hseg
      rw [hlb] at hlb0
      cases hlb0
      have hfiles : u.files = lb.Files := by
        rcases (v2Run_filesTask d (v2Env d req userID tag) i pre1 sched1 u hu lb hc).1 with
          h | ⟨hno, _⟩
        · exact h
        · exact absurd ⟨hlen, herr⟩ hno
      exact hit_outcome d _ ctx req pre2 sched2 userID tag n ht hid hnid
        (v2Run_second_hit d (v2Env d req userID tag) i pre1 sched1 pre2 sched2 n u lb hu hseg
          hc (by rw [hfiles]; exact hlen) (by rw [hfiles]; exact herr))
    · intro hub hmaxb
      have hmax : ¬ 0 < (v2Env d req userID tag).maxBlocks := by
        have := hmaxb userID
        simp only [v2Env]
        rw [if_neg (by omega)]
        decide
      obtain ⟨hE, hT⟩ := v2Run_again d (v2Env d req userID tag) i pre1 sched1 pre2 sched2
        hub hmax hw hrt
      rw [hresp1, hresp2]
      cases h1 : (v2Run d (v2Env d req userID tag) i pre1 sched1).1.anyErr with
      | some e1 =>
        cases h2 : (v2Run d (v2Env d req userID tag)
            (instanceAfter i (v2Run d (v2Env d req userID tag) i pre1 sched1).2) pre2
            sched2).1.anyErr with
        | some e2 => simp
        | none =>
          have := hE.1 h2
          rw [h1] at this
          cases this
      | none =>
        have h2 := hE.2 h1
        rw [h2]
        simp only [reduceCtorEq, Option.some.injEq, false_iff, not_false_eq_true, true_and]
        intro r1 r2 hr1 hr2
        subst hr1
        subst hr2
        exact hT h1

/-- Witness for C21 as amended: on the sample instance with a head block, a
completing block and a complete block with an empty working cache, the first
call writes the cache of the complete block, the second call does not search
that block, and both calls return the values `a`, `b` and `c`. -/
theorem second_run_from_cache_witness :
    (∀ lb ∈ threeSegments.completeBlocks, WorkingCache lb) ∧
    RoundTrip (codecV2Deps 0) ∧
    Seg.complete 0 ∈
      cacheWrites (SearchTagValuesV2 (codecV2Deps 0) threeSegments fakeCtx fooReq 1
        [2, 1, 0, 1, 2]).trace ∧
    (Seg.complete 0 ∉ searchedSegs (SearchTagValuesV2 (codecV2Deps 0)
        (afterSearchTagValuesV2 (codecV2Deps 0) threeSegments fakeCtx fooReq 1 [2, 1, 0, 1, 2])
        fakeCtx fooReq 0 [1, 1, 1, 1]).trace ∧
      Seg.complete 0 ∉ searchedSegs (SearchTagValuesV2 (codecV2Deps 0)
        (afterSearchTagValuesV2 (codecV2Deps 0) threeSegments fakeCtx fooReq 1 [2, 1, 0, 1, 2])
        fakeCtx fooReq 0 [1, 1, 1, 1]).after) ∧
    (SearchTagValuesV2 (codecV2Deps 0) threeSegments fakeCtx fooReq 1 [2, 1, 0, 1, 2]).resp =
      some { TagValues := [{ Typ := "string", Value := "a" },
                           { Typ := "string", Value := "c" },
                           { Typ := "string", Value := "b" }],
             Metrics := some { InspectedBytes := 30 } } ∧
    (SearchTagValuesV2 (codecV2Deps 0)
        (afterSearchTagValuesV2 (codecV2Deps 0) threeSegments fakeCtx fooReq 1 [2, 1, 0, 1, 2])
        fakeCtx fooReq 0 [1, 1, 1, 1]).resp =
      some { TagValues := [{ Typ := "string", Value := "c" },
                           { Typ := "string", Value := "a" },
                           { Typ := "string", Value := "b" }],
             Metrics := some { InspectedBytes := 29 } } :=
  ⟨localBlocks_working threeSegments _ rfl, codecV2Deps_roundTrip 0, by decide,
    (second_run_from_cache (codecV2Deps 0) threeSegments fakeCtx fooReq 1 [2, 1, 0, 1, 2] 0
      [1, 1, 1, 1] (localBlocks_working threeSegments _ rfl) (codecV2Deps_roundTrip 0)).1 0
      (by decide),
    by decide, by decide⟩

/-- Counterexample to C21 as stated.  (1) On complete blocks with a working
disk cache and without a segment error, a complete block in which the first
call found no value has no cache entry afterwards, and the second call calls
its searcher again.  (2) With a cap of one value, the two calls, run in the
same interleaving, return different values: on the miss the head block's
value gets into the collector first, on the hit the cached one.  (3) With a
limit of one block, the two calls, in two interleavings, return different
values. -/
theorem empty_segment_searched_again :
    ((∀ lb ∈ emptyComplete.completeBlocks, WorkingCache lb) ∧
      RoundTrip (codecV2Deps 0) ∧
      (SearchTagValuesV2 (codecV2Deps 0) emptyComplete fakeCtx fooReq 0 []).trace =
        [Event.RLockHead, Event.RLockBlocks, Event.SearchBlock Seg.head,
          Event.TagSearchReturned Seg.head none,
          Event.GetDiskCache (Seg.complete 0)
            "cache_search_tagvaluesv2_7850384393560056831.buf",
          Event.SearchBlock (Seg.complete 0),
          Event.TagSearchReturned (Seg.complete 0) none, Event.RUnlockBlocks] ∧
      (SearchTagValuesV2 (codecV2Deps 0)
          (afterSearchTagValuesV2 (codecV2Deps 0) emptyComplete fakeCtx fooReq 0 [])
          fakeCtx fooReq 0 []).trace =
        [Event.RLockHead, Event.RLockBlocks, Event.SearchBlock Seg.head,
          Event.TagSearchReturned Seg.head none,
          Event.GetDiskCache (Seg.complete 0)
            "cache_search_tagvaluesv2_7850384393560056831.buf",
          Event.SearchBlock (Seg.complete 0),
          Event.TagSearchReturned (Seg.complete 0) none, Event.RUnlockBlocks]) ∧
    ((SearchTagValuesV2 (budgetV2Deps 0) headAndComplete fakeCtx capReq 0
          [1, 0, 1, 0, 1, 0, 1, 0]).resp =
        some { TagValues := [{ Typ := "string", Value := "a" }],
               Metrics := some { InspectedBytes := 20 } } ∧
      (SearchTagValuesV2 (budgetV2Deps 0)
          (afterSearchTagValuesV2 (budgetV2Deps 0) headAndComplete fakeCtx capReq 0
            [1, 0, 1, 0, 1, 0, 1, 0])
          fakeCtx capReq 0 [1, 0, 1, 0, 1, 0, 1, 0]).resp =
        some { TagValues := [{ Typ := "string", Value := "c" }],
               Metrics := some { InspectedBytes := 19 } }) ∧
    ((SearchTagValuesV2 (codecV2Deps 1) headAndComplete fakeCtx fooReq 0 [0, 0]).resp =
        some { TagValues := [{ Typ := "string", Value := "a" }],
               Metrics := some { InspectedBytes := 10 } } ∧
      (SearchTagValuesV2 (codecV2Deps 1)
          (afterSearchTagValuesV2 (codecV2Deps 1) headAndComplete fakeCtx fooReq 0 [0, 0])
          fakeCtx fooReq 0 [1, 1]).resp =
        some { TagValues := [{ Typ := "string", Value := "c" }],
               Metrics := some { InspectedBytes := 10 } }) :=
  ⟨⟨localBlocks_working emptyComplete _ rfl, codecV2Deps_roundTrip 0, by decide, by decide⟩,
    ⟨by decide, by decide⟩, ⟨by decide, by decide⟩⟩

end Tempo
